import Mathlib

/-!
# TReentrantRWLock: a verification development

Shallow embedding of `core/thread/src/TReentrantRWLock.cxx` and proofs about it.

## Modelling conventions

* **Threads.** A thread is identified by the handle `GetLocal()` returns; handles are
  natural numbers. Every operation takes the calling thread as an argument.
* **Counters.** `fReaders`, the two reservation counters, the per-thread read counts and
  `fWriteRecurse` are integers in `ℤ`. The source only ever adds to them, subtracts from
  them and tests them against zero, so the machine value is the residue of the model value
  and the two agree on every test as long as no counter runs through a full machine word
  (the source leaves the check against that commented out, lines 59-61). A decrement at
  zero gives `-1`, the residue of the wrapped machine value; it is not truncated.
* **Saved read count.** The read count of a saved state is an `int` (line 228) filled from
  a `size_t` (line 249): `Reset` stores the count converted by `intOfSizeT`, that is
  modulo 2^32 in the range -2^31 ... 2^31 - 1, and `Restore` writes that signed value
  back. The saved write depth is a `size_t` (line 230) and is kept as it is.
* **Hints.** A `Hint_t *` is `none` (the null pointer) or `some u`, the address of the
  read counter of thread `u`.
* **Waiting.** A call runs without pre-emption from its entry to its first wait whose
  predicate is false, and from a wait whose predicate has become true to the next one.
  The waits are the three `fCond.wait` calls (lines 95, 175, 187) and the busy loop on
  `fReaderReservation` (line 183). A call that reaches such a wait returns
  `Outcome.waits` with the state it left behind and the place it waits at; `resume`
  continues it from there. `fCond.notify_all` has no effect on the state: a waiting call
  is continued by testing its predicate again.
* **Mutex.** `fMutex` is not a component of the state: between two waits it is taken and
  released inside one uninterrupted run.
* **Diagnostics.** `Error` and `SysError` are returned next to the state; a failed
  `assert` is the outcome `Outcome.assertFailed`.
* **Several threads.** `System` adds to the lock the calls that are suspended and the
  saved-state tokens that are outstanding; `Reach` is the set of systems reached from a
  fresh lock by calls of threads that are not suspended and by continuations of suspended
  calls, in any order.
* **Step by step.** For the exclusion of readers and writers the operations are embedded a
  second time, cut at every access to an atomic member and at every operation on `fMutex`
  (`step`); `Threads` holds the lock, the owner of `fMutex` and the position of every
  thread, and `Runs` is the set of states reached when the threads take their steps in any
  order.

## Contents

Definitions come first: the recursion accounting, the lock, the five operations and
`Restore`, then sequences of calls, the system of threads and its invariant. The
theorems follow: closed forms of the operations, the invariant of the reachable states,
the properties of the lock, and the invariant of the runs step by step with the exclusion
of readers and writers.
-/

namespace ROOT

/-- Thread identity: the value of `fRecurseCounts.GetLocal()` in the calling thread. -/
abbrev Thread := Nat

/-- A `TVirtualRWMutex::Hint_t *`: null, or the address of the read counter of a thread. -/
abbrev Hint := Option Thread

/-- The two diagnostics the file emits. -/
inductive Diagnostic
  /-- Line 208: Error, "Write lock already released". -/
  | ErrorWriteUnLock
  /-- Line 285: SysError, "LOGIC ERROR - invalid state object!". -/
  | SysErrorRestore
  deriving DecidableEq, Repr

namespace Internal

/-- Modelled from the spec: the recursion accounting object `fRecurseCounts`, whose class is
declared in `ROOT/TReentrantRWLock.hxx` (not among the sources). Spec section 3: a mapping
from thread identity to `(localReaders, isWriter)` plus a single `writeRecurse` counter. -/
structure RecurseCounts where
  /-- Write-recursion depth of the one writer. -/
  fWriteRecurse : Int
  /-- Per-thread number of outstanding read acquisitions (`localReaders`). -/
  fReadersCount : Thread → Int
  /-- Per-thread writer mark (`isWriter`). -/
  fIsWriter : Thread → Bool

/-- Modelled from the spec: `getLocalReaders(local)`, the read-recursion counter of the
thread (a zero entry is created on first use, so an absent entry reads as zero). -/
def RecurseCounts.GetLocalReadersCount (rc : RecurseCounts) (t : Thread) : Int :=
  rc.fReadersCount t

/-- Modelled from the spec: assignment through the reference `GetLocalReadersCount`
returns, or through a hint that designates the slot of thread `t`. -/
def RecurseCounts.SetLocalReadersCount (rc : RecurseCounts) (t : Thread) (v : Int) :
    RecurseCounts :=
  { rc with fReadersCount := Function.update rc.fReadersCount t v }

/-- Modelled from the spec: `incrementReadCount(local)` increments the counter of the thread
and returns its address as a hint. -/
def RecurseCounts.IncrementReadCount (rc : RecurseCounts) (t : Thread) :
    RecurseCounts × Hint :=
  (rc.SetLocalReadersCount t (rc.GetLocalReadersCount t + 1), some t)

/-- Modelled from the spec: `isNotCurrentWriter(local)`, true iff this thread is not the
current writer. -/
def RecurseCounts.IsNotCurrentWriter (rc : RecurseCounts) (t : Thread) : Bool :=
  !rc.fIsWriter t

/-- Modelled from the spec: `setIsWriter(local)` marks the thread as the current writer;
`writeRecurse` is incremented by `setIsWriter`. -/
def RecurseCounts.SetIsWriter (rc : RecurseCounts) (t : Thread) : RecurseCounts :=
  { rc with fWriteRecurse := rc.fWriteRecurse + 1,
            fIsWriter := Function.update rc.fIsWriter t true }

/-- Modelled from the spec: `resetIsWriter(local)` clears this thread's writer flag. -/
def RecurseCounts.ResetIsWriter (rc : RecurseCounts) (t : Thread) : RecurseCounts :=
  { rc with fIsWriter := Function.update rc.fIsWriter t false }

/-- Modelled from the spec: `decrementWriteCount()` decrements `writeRecurse`. -/
def RecurseCounts.DecrementWriteCount (rc : RecurseCounts) : RecurseCounts :=
  { rc with fWriteRecurse := rc.fWriteRecurse - 1 }

end Internal

/-- Modelled from the spec: the data members of the lock, declared in
`ROOT/TReentrantRWLock.hxx` (not among the sources); spec section 3 lists them. The inner
mutex and the condition variable carry no state of their own here. -/
structure TReentrantRWLock where
  /-- Total number of granted read acquisitions. -/
  fReaders : Int
  /-- Readers in the act of joining. -/
  fReaderReservation : Int
  /-- Writers queuing. -/
  fWriterReservation : Int
  /-- True iff some thread holds (or has claimed) the write lock. -/
  fWriter : Bool
  /-- Recursion accounting. -/
  fRecurseCounts : Internal.RecurseCounts

/-- A freshly constructed lock: all counters zero, no writer, no thread marked. -/
def TReentrantRWLock.fresh : TReentrantRWLock where
  fReaders := 0
  fReaderReservation := 0
  fWriterReservation := 0
  fWriter := false
  fRecurseCounts := ⟨0, fun _ => 0, fun _ => false⟩

/-- The places at which a call can be suspended. -/
inductive WaitPoint
  /-- ReadLock, line 95: `fCond.wait` until `!fWriter`. -/
  | readLockWriter
  /-- WriteLock, line 175: `fCond.wait` until `!fWriter`. -/
  | writeLockWriter
  /-- WriteLock, line 183: busy loop while `fReaderReservation` is non-zero. -/
  | writeLockReservation
  /-- WriteLock, line 187: `fCond.wait` until `fReaders == 0`. -/
  | writeLockReaders
  deriving DecidableEq, Repr

/-- What a call that may block produces. -/
inductive Outcome (α : Type) where
  /-- The call returned `ret` and left the lock in state `s`. -/
  | done (s : TReentrantRWLock) (ret : α)
  /-- The call is suspended at `w`, having left the lock in state `s`. -/
  | waits (s : TReentrantRWLock) (w : WaitPoint)
  /-- An `assert` failed. -/
  | assertFailed

/-- Sequencing: run `k` on the state and value of a completed call. -/
def Outcome.andThen {α β : Type} (o : Outcome α) (k : TReentrantRWLock → α → Outcome β) :
    Outcome β :=
  match o with
  | .done s a => k s a
  | .waits s w => .waits s w
  | .assertFailed => .assertFailed

namespace TReentrantRWLock

/-- The read count of thread `t` (`localReaders`). -/
def localReaders (s : TReentrantRWLock) (t : Thread) : Int :=
  s.fRecurseCounts.GetLocalReadersCount t

/-- Whether thread `t` is marked as the writer (`isWriter`). -/
def isWriter (s : TReentrantRWLock) (t : Thread) : Bool :=
  !s.fRecurseCounts.IsNotCurrentWriter t

/-! ### ReadLock (lines 55-117) -/

/-- Lines 108-116: increment the local count, `++fReaders`, unlock, return the hint. -/
def ReadLock_commit (s : TReentrantRWLock) (t : Thread) : Outcome Hint :=
  let r := s.fRecurseCounts.IncrementReadCount t
  let s := { s with fRecurseCounts := r.1 }
  let s := { s with fReaders := s.fReaders + 1 }
  .done s r.2

/-- Line 95: `fCond.wait(lock, [this] { return !fWriter; })`, then lines 108-116. -/
def ReadLock_wait (s : TReentrantRWLock) (t : Thread) : Outcome Hint :=
  if s.fWriter then .waits s .readLockWriter else ReadLock_commit s t

/-- Acquire the lock in read mode (lines 55-117). -/
def ReadLock (s : TReentrantRWLock) (t : Thread) : Outcome Hint :=
  let s := { s with fReaderReservation := s.fReaderReservation + 1 }
  if !s.fWriter then
    -- There is no writer, go freely to the critical section
    let s := { s with fReaders := s.fReaders + 1 }
    let s := { s with fReaderReservation := s.fReaderReservation - 1 }
    let r := s.fRecurseCounts.IncrementReadCount t
    .done { s with fRecurseCounts := r.1 } r.2
  else if !s.fRecurseCounts.IsNotCurrentWriter t then
    let s := { s with fReaderReservation := s.fReaderReservation - 1 }
    let r := s.fRecurseCounts.IncrementReadCount t
    let s := { s with fRecurseCounts := r.1 }
    .done { s with fReaders := s.fReaders + 1 } r.2
  else
    -- A writer claimed the RW lock, we will need to wait on the internal lock
    let s := { s with fReaderReservation := s.fReaderReservation - 1 }
    if s.fWriter && s.fRecurseCounts.IsNotCurrentWriter t then
      let readerCount := s.fRecurseCounts.GetLocalReadersCount t
      if readerCount = 0 then ReadLock_wait s t else ReadLock_commit s t
    else ReadLock_commit s t

/-! ### ReadUnLock (lines 122-149) -/

/-- Release the lock in read mode (lines 122-149). With a null hint the counter is the
calling thread's; otherwise it is the counter the hint designates. -/
def ReadUnLock (s : TReentrantRWLock) (t : Thread) (hint : Hint) : TReentrantRWLock :=
  let localReaderCount : Thread :=
    match hint with
    | none => t
    | some u => u
  let s := { s with fReaders := s.fReaders - 1 }
  if s.fWriterReservation ≠ 0 ∧ s.fReaders = 0 then
    -- under the mutex: decrement the local counter, then fCond.notify_all()
    let c := s.fRecurseCounts.GetLocalReadersCount localReaderCount
    { s with fRecurseCounts := s.fRecurseCounts.SetLocalReadersCount localReaderCount (c - 1) }
  else
    let c := s.fRecurseCounts.GetLocalReadersCount localReaderCount
    { s with fRecurseCounts := s.fRecurseCounts.SetLocalReadersCount localReaderCount (c - 1) }

/-! ### WriteLock (lines 154-197) -/

/-- Lines 189-196: restore this thread's reader locks, `--fWriterReservation`, unlock and
return the hint. `readerCount` is a reference, so it is read again here. -/
def WriteLock_finish (s : TReentrantRWLock) (t : Thread) : Outcome Hint :=
  let readerCount := s.fRecurseCounts.GetLocalReadersCount t
  let s := { s with fReaders := s.fReaders + readerCount }
  let s := { s with fWriterReservation := s.fWriterReservation - 1 }
  .done s (some t)

/-- Line 187: `fCond.wait(lock, [this] { return fReaders == 0; })`, then the rest. -/
def WriteLock_waitReaders (s : TReentrantRWLock) (t : Thread) : Outcome Hint :=
  if s.fReaders = 0 then WriteLock_finish s t else .waits s .writeLockReaders

/-- Lines 183-184: `while (fReaderReservation) {}`, then the rest. -/
def WriteLock_spin (s : TReentrantRWLock) (t : Thread) : Outcome Hint :=
  if s.fReaderReservation ≠ 0 then .waits s .writeLockReservation
  else WriteLock_waitReaders s t

/-- Lines 178-180: claim the lock for this writer, then the rest. -/
def WriteLock_claim (s : TReentrantRWLock) (t : Thread) : Outcome Hint :=
  let s := { s with fWriter := true }
  let s := { s with fRecurseCounts := s.fRecurseCounts.SetIsWriter t }
  WriteLock_spin s t

/-- Line 175: `fCond.wait(lock, [this] { return !fWriter; })`, then the rest. -/
def WriteLock_waitWriter (s : TReentrantRWLock) (t : Thread) : Outcome Hint :=
  if s.fWriter then .waits s .writeLockWriter else WriteLock_claim s t

/-- Acquire the lock in write mode (lines 154-197). -/
def WriteLock (s : TReentrantRWLock) (t : Thread) : Outcome Hint :=
  let s := { s with fWriterReservation := s.fWriterReservation + 1 }
  -- Release this thread's reader lock(s)
  let readerCount := s.fRecurseCounts.GetLocalReadersCount t
  let s := { s with fReaders := s.fReaders - readerCount }
  -- Wait for other writers, if any
  if s.fWriter && s.fRecurseCounts.IsNotCurrentWriter t then
    -- (line 170-174: notify_all when we drove fReaders to zero)
    WriteLock_waitWriter s t
  else
    WriteLock_claim s t

/-- Continue a call of `ReadLock` or `WriteLock` by thread `t` that is suspended at `w`. -/
def resume (w : WaitPoint) (s : TReentrantRWLock) (t : Thread) : Outcome Hint :=
  match w with
  | .readLockWriter => ReadLock_wait s t
  | .writeLockWriter => WriteLock_waitWriter s t
  | .writeLockReservation => WriteLock_spin s t
  | .writeLockReaders => WriteLock_waitReaders s t

/-! ### WriteUnLock (lines 202-223) -/

/-- Release the lock in write mode (lines 202-223). The hint is ignored. -/
def WriteUnLock (s : TReentrantRWLock) (t : Thread) : TReentrantRWLock × Option Diagnostic :=
  if !s.fWriter || s.fRecurseCounts.fWriteRecurse = 0 then
    (s, some Diagnostic.ErrorWriteUnLock)
  else
    let s := { s with fRecurseCounts := s.fRecurseCounts.DecrementWriteCount }
    if s.fRecurseCounts.fWriteRecurse = 0 then
      let s := { s with fWriter := false }
      let s := { s with fRecurseCounts := s.fRecurseCounts.ResetIsWriter t }
      -- fCond.notify_all()
      (s, none)
    else
      (s, none)

end TReentrantRWLock

/-! ### Saved state (lines 225-233) -/

/-- The conversion of a `size_t` value to `int`, as in the assignment of line 249 into the
`int` field of line 228: the value modulo 2^32, taken in the range -2^31 ... 2^31 - 1. -/
def intOfSizeT (v : Int) : Int := (v + 2147483648) % 4294967296 - 2147483648

/-- The saved-state token `TReentrantRWLockState` (lines 227-232). `fReadersCount` is an
`int` (line 228): `Reset` stores the read count converted by `intOfSizeT`, and `Restore`
writes the stored value back into the `size_t` counter (lines 304, 310), sign-extended, so
that the counter holds its residue. `fWriteRecurse` is a `size_t` (line 230) and is stored
and written back unchanged. `fReadersCountLoc` is the thread whose read counter the pointer
designates. -/
structure TReentrantRWLockState where
  fReadersCount : Int
  fReadersCountLoc : Thread
  fWriteRecurse : Int
  fIsWriter : Bool
  deriving DecidableEq, Repr

/-- A `std::unique_ptr<TVirtualMutex::State>` as `Restore` sees it through `dynamic_cast`. -/
inductive StateHandle
  /-- The null pointer. -/
  | null
  /-- A non-null pointer to a state object of another dynamic type. -/
  | foreign
  /-- A pointer to a `TReentrantRWLockState`. -/
  | rwState (p : TReentrantRWLockState)
  deriving DecidableEq, Repr

namespace TReentrantRWLock

/-- Save and release everything the calling thread holds (`Reset`, lines 236-277). -/
def Reset (s : TReentrantRWLock) (t : Thread) : TReentrantRWLock × TReentrantRWLockState :=
  let loc : Thread := t
  let readerCount := s.fRecurseCounts.GetLocalReadersCount loc
  if s.fWriter && !s.fRecurseCounts.IsNotCurrentWriter t then
    -- We are holding the write lock.
    let pState : TReentrantRWLockState :=
      { fReadersCount := intOfSizeT readerCount, fReadersCountLoc := loc,
        fWriteRecurse := s.fRecurseCounts.fWriteRecurse, fIsWriter := true }
    let s := { s with fReaders := s.fReaders - readerCount }
    let s := { s with fRecurseCounts := { s.fRecurseCounts with fWriteRecurse := 1 } }
    let s := { s with fRecurseCounts := s.fRecurseCounts.SetLocalReadersCount loc 0 }
    ((WriteUnLock s t).1, pState)
  else if readerCount ≠ 0 then
    let pState : TReentrantRWLockState :=
      { fReadersCount := intOfSizeT readerCount, fReadersCountLoc := loc,
        fWriteRecurse := 0, fIsWriter := false }
    let s := { s with fReaders := s.fReaders - (readerCount - 1) }
    let s := { s with fRecurseCounts := s.fRecurseCounts.SetLocalReadersCount loc 1 }
    (ReadUnLock s t (some loc), pState)
  else
    (s, { fReadersCount := intOfSizeT readerCount, fReadersCountLoc := loc,
          fWriteRecurse := 0, fIsWriter := false })

/-- Lines 301-305: after `WriteLock`, fix up the recursion counts. -/
def Restore_fixWriter (p : TReentrantRWLockState) (s : TReentrantRWLock) : TReentrantRWLock :=
  let readerCount := p.fReadersCount
  let s := { s with fRecurseCounts := { s.fRecurseCounts with fWriteRecurse := p.fWriteRecurse } }
  let s := { s with fRecurseCounts :=
               s.fRecurseCounts.SetLocalReadersCount p.fReadersCountLoc readerCount }
  { s with fReaders := s.fReaders + readerCount }

/-- Lines 308-311: after `ReadLock`, fix up the local recursion count. -/
def Restore_fixReader (p : TReentrantRWLockState) (s : TReentrantRWLock) : TReentrantRWLock :=
  let readerCount := p.fReadersCount
  let s := { s with fRecurseCounts :=
               s.fRecurseCounts.SetLocalReadersCount p.fReadersCountLoc readerCount }
  { s with fReaders := s.fReaders + (readerCount - 1) }

/-- Reacquire what a token recorded (`Restore`, lines 280-316). -/
def Restore (s : TReentrantRWLock) (t : Thread) (state : StateHandle) :
    Outcome (Option Diagnostic) :=
  match state with
  | .null => .done s none
  | .foreign => .done s (some Diagnostic.SysErrorRestore)
  | .rwState p =>
    if s.fRecurseCounts.GetLocalReadersCount p.fReadersCountLoc ≠ 0 then .assertFailed
    else if p.fIsWriter then
      (WriteLock s t).andThen fun s _ => .done (Restore_fixWriter p s) none
    else if p.fReadersCount ≠ 0 then
      (ReadLock s t).andThen fun s _ => .done (Restore_fixReader p s) none
    else .done s none

/-- Continue a call of `Restore` with token `p` by thread `t` whose inner `WriteLock` or
`ReadLock` is suspended at `w`. -/
def Restore_resume (p : TReentrantRWLockState) (w : WaitPoint) (s : TReentrantRWLock)
    (t : Thread) : Outcome (Option Diagnostic) :=
  match w with
  | .readLockWriter =>
    (resume w s t).andThen fun s _ => .done (Restore_fixReader p s) none
  | _ =>
    (resume w s t).andThen fun s _ => .done (Restore_fixWriter p s) none

end TReentrantRWLock

namespace TReentrantRWLock

/-! ### Sequences of calls -/

/-- The idle state of the spec: no reader, no writer, write depth zero. -/
def Idle (s : TReentrantRWLock) : Prop :=
  s.fReaders = 0 ∧ s.fWriter = false ∧ s.fRecurseCounts.fWriteRecurse = 0

/-- Thread `t` calls `ReadLock` `n` times in a row. The result is `none` as soon as one of
the calls does not complete; otherwise it is the final state and the hints the calls
returned, the most recent first. -/
def ReadLock_times : Nat → TReentrantRWLock → Thread → Option (TReentrantRWLock × List Hint)
  | 0, s, _ => some (s, [])
  | n + 1, s, t =>
    match ReadLock_times n s t with
    | some (s1, hints) =>
      match ReadLock s1 t with
      | .done s2 h => some (s2, h :: hints)
      | _ => none
    | none => none

/-- Thread `t` calls `ReadUnLock` once for every hint of the list, in list order. -/
def ReadUnLock_all : List Hint → TReentrantRWLock → Thread → TReentrantRWLock
  | [], s, _ => s
  | h :: hints, s, t => ReadUnLock_all hints (ReadUnLock s t h) t

/-- Auxiliary: the state `s` with the write lock held by thread `t` at depth `k`
(`fWriter` set, `t` marked, `fWriteRecurse = k`, everything else as in `s`). -/
def writeHeld (s : TReentrantRWLock) (t : Thread) (k : Int) : TReentrantRWLock :=
  { s with
    fWriter := true
    fRecurseCounts :=
      { s.fRecurseCounts with
        fWriteRecurse := k
        fIsWriter := Function.update s.fRecurseCounts.fIsWriter t true } }

/-! ### The effect of the segments of `ReadLock` and `WriteLock` -/

/-- Auxiliary: the effect of a completed `ReadLock` by `t` on each of its three paths:
`++fReaders` and the read count of `t` incremented. -/
def bumpLock (s : TReentrantRWLock) (t : Thread) : TReentrantRWLock :=
  { s with
    fReaders := s.fReaders + 1
    fRecurseCounts := s.fRecurseCounts.SetLocalReadersCount t (s.localReaders t + 1) }

/-- Auxiliary: the effect of lines 156-166 of `WriteLock`: `++fWriterReservation` and
`fReaders -= readerCount`. -/
def enterLock (s : TReentrantRWLock) (t : Thread) : TReentrantRWLock :=
  { s with
    fWriterReservation := s.fWriterReservation + 1
    fReaders := s.fReaders - s.localReaders t }

/-- Auxiliary: the effect of lines 179-180 of `WriteLock`: `fWriter = true` and
`SetIsWriter(local)`. -/
def claimLock (s : TReentrantRWLock) (t : Thread) : TReentrantRWLock :=
  { s with fWriter := true, fRecurseCounts := s.fRecurseCounts.SetIsWriter t }

/-- Auxiliary: the effect of lines 190-192 of `WriteLock`: `fReaders += readerCount` and
`--fWriterReservation`. -/
def leaveLock (s : TReentrantRWLock) (t : Thread) : TReentrantRWLock :=
  { s with
    fReaders := s.fReaders + s.localReaders t
    fWriterReservation := s.fWriterReservation - 1 }

/-- Auxiliary: the fix-up `Restore` applies after its `WriteLock`, if the call came from
`Restore`. -/
def fixWriterOpt (k : Option TReentrantRWLockState) (s : TReentrantRWLock) :
    TReentrantRWLock :=
  match k with
  | none => s
  | some p => Restore_fixWriter p s

/-- Auxiliary: the fix-up `Restore` applies after its `ReadLock`, if the call came from
`Restore`. -/
def fixReaderOpt (k : Option TReentrantRWLockState) (s : TReentrantRWLock) :
    TReentrantRWLock :=
  match k with
  | none => s
  | some p => Restore_fixReader p s

/-! ### Suspended calls and reachable states -/

/-- A suspended call: the place it waits at and, when the suspended `ReadLock` or
`WriteLock` was called from `Restore`, the token being restored. -/
structure Pending where
  point : WaitPoint
  restoring : Option TReentrantRWLockState
  deriving DecidableEq, Repr

/-- The lock together with the saved-state tokens handed out by `Reset` and not yet passed
to `Restore`, and, for every thread, the call it is suspended in (if any). -/
structure System where
  lock : TReentrantRWLock
  tokens : List TReentrantRWLockState
  pending : Thread → Option Pending

/-- The system around a fresh lock: no token, no suspended call. -/
def System.fresh : System where
  lock := TReentrantRWLock.fresh
  tokens := []
  pending := fun _ => none

/-- Replace the lock state. -/
def System.setLock (σ : System) (s : TReentrantRWLock) : System :=
  { σ with lock := s }

/-- Replace the lock state and the suspension record of thread `t` together. -/
def System.put (σ : System) (s : TReentrantRWLock) (t : Thread) (o : Option Pending) :
    System :=
  { σ with lock := s, pending := Function.update σ.pending t o }

/-- Record the outcome of a call made (or continued) by thread `t`: a completed call leaves
its state and `t` is no longer suspended; a suspended call leaves its state and `t` is
suspended at the wait point; after a failed assertion nothing is recorded. -/
def System.settle {α : Type} (σ : System) (t : Thread)
    (k : Option TReentrantRWLockState) (o : Outcome α) : System :=
  match o with
  | .done s _ => σ.put s t none
  | .waits s w => σ.put s t (some ⟨w, k⟩)
  | .assertFailed => σ

/-- Continue the suspended call `pd` of thread `t`: a plain `ReadLock` or `WriteLock`, or
the `Restore` that called it. -/
def resumeCall (pd : Pending) (s : TReentrantRWLock) (t : Thread) :
    Outcome (Option Diagnostic) :=
  match pd.restoring with
  | none => (resume pd.point s t).andThen fun s _ => .done s none
  | some p => Restore_resume p pd.point s t

/-- No call is in flight. -/
def System.Quiescent (σ : System) : Prop := ∀ t, σ.pending t = none

/-- States reached from a fresh lock. Every step is a call by a thread that is not
suspended, or the continuation of a suspended call. A call of `ReadLock`, `WriteLock` or
`Restore` either completes or leaves its thread suspended; a suspended call may be
continued at any time, and is suspended again if its wait predicate is still false.
`ReadUnLock` is called by a thread that holds a read lock, with a null hint or its own;
`WriteUnLock` by the thread that holds the write lock; `Reset` by a thread whose read count
fits in the `int` of the token; `Restore` by the thread whose `Reset` produced the token,
and only where its assertion holds. -/
inductive Reach : System → Prop
  | fresh : Reach System.fresh
  | readLock {σ : System} {t : Thread} :
      Reach σ → σ.pending t = none → Reach (σ.settle t none (ReadLock σ.lock t))
  | readUnLock {σ : System} {t : Thread} {hint : Hint} :
      Reach σ → σ.pending t = none → 0 < σ.lock.localReaders t →
      (hint = none ∨ hint = some t) → Reach (σ.setLock (ReadUnLock σ.lock t hint))
  | writeLock {σ : System} {t : Thread} :
      Reach σ → σ.pending t = none → Reach (σ.settle t none (WriteLock σ.lock t))
  | writeUnLock {σ : System} {t : Thread} :
      Reach σ → σ.pending t = none → σ.lock.fWriter = true → σ.lock.isWriter t = true →
      Reach (σ.setLock (WriteUnLock σ.lock t).1)
  | save {σ : System} {t : Thread} :
      Reach σ → σ.pending t = none → σ.lock.localReaders t < 2147483648 →
      Reach { σ with lock := (Reset σ.lock t).1, tokens := (Reset σ.lock t).2 :: σ.tokens }
  | restore {σ : System} {t : Thread} {p : TReentrantRWLockState} :
      Reach σ → σ.pending t = none → p ∈ σ.tokens → p.fReadersCountLoc = t →
      Restore σ.lock t (.rwState p) ≠ .assertFailed →
      Reach (System.settle { σ with tokens := σ.tokens.erase p } t (some p)
        (Restore σ.lock t (.rwState p)))
  | resume {σ : System} {t : Thread} {pd : Pending} :
      Reach σ → σ.pending t = some pd →
      Reach (σ.settle t pd.restoring (resumeCall pd σ.lock t))

/-- Whether a thread is suspended inside `WriteLock` (at any of its three waits). -/
def inWriteLock (o : Option Pending) : Bool :=
  match o with
  | some pd => pd.point != WaitPoint.readLockWriter
  | none => false

/-- The part of `fReaders` that thread `u` accounts for: its read count, or zero while it is
suspended inside `WriteLock` (which has subtracted the count, line 166). -/
def System.contrib (σ : System) (u : Thread) : Int :=
  if inWriteLock (σ.pending u) then 0 else σ.lock.fRecurseCounts.fReadersCount u

/-- The part of `fWriterReservation` that thread `u` accounts for: one while it is suspended
inside `WriteLock`. -/
def System.queued (σ : System) (u : Thread) : Int :=
  if inWriteLock (σ.pending u) then 1 else 0

/-- The number `R` is the sum of `f` over all threads, `f` being zero outside a finite set. -/
def SumOver (f : Thread → Int) (R : Int) : Prop :=
  ∃ S : Finset Thread, (∀ u, u ∉ S → f u = 0) ∧ R = ∑ u in S, f u

/-- What the invariant records about a token: the read depth is not negative and, if the
token records the write lock, the write depth is at least one. -/
def TokenOK (p : TReentrantRWLockState) : Prop :=
  0 ≤ p.fReadersCount ∧ (p.fIsWriter = true → 1 ≤ p.fWriteRecurse)

/-- The invariant of the reachable states. -/
structure Inv (σ : System) : Prop where
  /-- `fReaders` is the sum of the read counts of the threads not suspended in `WriteLock`. -/
  sum : SumOver σ.contrib σ.lock.fReaders
  /-- `fWriterReservation` is the number of threads suspended in `WriteLock`. -/
  queue : SumOver σ.queued σ.lock.fWriterReservation
  /-- No read count is negative. -/
  nonneg : ∀ u, 0 ≤ σ.lock.fRecurseCounts.fReadersCount u
  /-- No reader is between its reservation and its decision. -/
  readerRes : σ.lock.fReaderReservation = 0
  /-- While `fWriter` is set, the write depth is at least one, exactly one thread is marked,
  and once its `WriteLock` has returned no other thread accounts for a read. -/
  writer : σ.lock.fWriter = true → 1 ≤ σ.lock.fRecurseCounts.fWriteRecurse ∧
    ∃ w, σ.lock.fRecurseCounts.fIsWriter w = true ∧
      (∀ u, u ≠ w → σ.lock.fRecurseCounts.fIsWriter u = false) ∧
      (σ.pending w = none → ∀ u, u ≠ w → σ.contrib u = 0)
  /-- While `fWriter` is clear, the write depth is zero and no thread is marked. -/
  noWriter : σ.lock.fWriter = false → σ.lock.fRecurseCounts.fWriteRecurse = 0 ∧
    ∀ u, σ.lock.fRecurseCounts.fIsWriter u = false
  /-- A suspended call never spins on the reservations; one that waits for the readers has
  claimed the lock; one that waits in `ReadLock` is not the writer's; one made from
  `Restore` carries a token of its own thread, which holds no read lock. -/
  pend : ∀ u pd, σ.pending u = some pd →
    pd.point ≠ WaitPoint.writeLockReservation ∧
    (pd.point = WaitPoint.writeLockReaders →
      σ.lock.fWriter = true ∧ σ.lock.fRecurseCounts.fIsWriter u = true) ∧
    (pd.point = WaitPoint.readLockWriter → σ.lock.fRecurseCounts.fIsWriter u = false) ∧
    (∀ p, pd.restoring = some p →
      TokenOK p ∧ p.fReadersCountLoc = u ∧ σ.lock.fRecurseCounts.fReadersCount u = 0 ∧
      (pd.point ≠ WaitPoint.readLockWriter → p.fIsWriter = true))
  /-- Every outstanding token is well formed. -/
  tokens : ∀ p, p ∈ σ.tokens → TokenOK p

/-- The hand-off of scenario 2, with a read lock kept by the writer: thread 1 takes a read
lock, thread 0 takes a read lock, thread 1 calls `WriteLock` (and is suspended), thread 0
calls `ReadUnLock`, and the `WriteLock` of thread 1 is continued. -/
def handoff : System :=
  let σ0 := System.fresh.settle 1 none (ReadLock System.fresh.lock 1)
  let σ1 := σ0.settle 0 none (ReadLock σ0.lock 0)
  let σ2 := σ1.settle 1 none (WriteLock σ1.lock 1)
  let σ3 := σ2.setLock (ReadUnLock σ2.lock 0 (some 0))
  σ3.settle 1 none (resumeCall ⟨.writeLockReaders, none⟩ σ3.lock 1)

end TReentrantRWLock

/-! ### The singleton recursion accounting (lines 42-49) -/

namespace Internal

/-- What a construction of `UniqueLockRecurseCount` ends in. -/
inductive Construction
  /-- The constructor returned; `singleton` is the value it left in its static flag. -/
  | constructed (singleton : Bool)
  /-- The constructor called `::Fatal`: the process ended with the diagnostic. -/
  | fatal
  deriving DecidableEq, Repr

/-- Modelled from the spec: `::Fatal` (declared in `TError.h`, not among the sources)
reports the diagnostic and terminates the process, so the constructor does not return. -/
def Fatal : Construction := Construction.fatal

/-- The constructor `UniqueLockRecurseCount::UniqueLockRecurseCount()` (lines 42-49), as a
function of the value of its function-local static flag `singleton`. -/
def UniqueLockRecurseCount (singleton : Bool) : Construction :=
  if singleton then Fatal else Construction.constructed true

/-- The outcome of construction number `n + 1` in a process whose static flag starts as
`singleton`: every construction runs on the flag the previous one left; after a fatal one
the process has ended, which is recorded as fatal for the later ones too. -/
def UniqueLockRecurseCount.construction : Nat → Bool → Construction
  | 0, singleton => UniqueLockRecurseCount singleton
  | n + 1, singleton =>
    match UniqueLockRecurseCount singleton with
    | Construction.constructed b => UniqueLockRecurseCount.construction n b
    | Construction.fatal => Construction.fatal

end Internal

namespace TReentrantRWLock

/-! ### Readers arriving and leaving while a writer waits -/

/-- What a reader thread does while a writer waits. -/
inductive ReaderEvent
  /-- Thread `u` calls `ReadLock`. -/
  | arrive (u : Thread)
  /-- Thread `u` calls `ReadUnLock` with its own hint. -/
  | release (u : Thread)
  deriving DecidableEq, Repr

/-- The lock state after one event. An arriving reader either completes its `ReadLock` or
is suspended in it; in both cases the state is the one the call left. -/
def readerStep (s : TReentrantRWLock) : ReaderEvent → TReentrantRWLock
  | .arrive u =>
    match ReadLock s u with
    | .done s1 _ => s1
    | .waits s1 _ => s1
    | .assertFailed => s
  | .release u => ReadUnLock s u (some u)

/-- The lock state after a list of events, in list order. -/
def runReaders : List ReaderEvent → TReentrantRWLock → TReentrantRWLock
  | [], s => s
  | e :: es, s => runReaders es (readerStep s e)

/-- The number of reader-release events of a list. -/
def releases : List ReaderEvent → Nat
  | [] => 0
  | .arrive _ :: es => releases es
  | .release _ :: es => releases es + 1

/-- Every arrival of the list is by a new reader, a thread that at that moment holds no read
lock and is not marked as the writer, and every release is by a thread that holds a read
lock. -/
def newReadersOnly : List ReaderEvent → TReentrantRWLock → Prop
  | [], _ => True
  | .arrive u :: es, s =>
    s.localReaders u = 0 ∧ s.isWriter u = false ∧ newReadersOnly es (readerStep s (.arrive u))
  | .release u :: es, s =>
    0 < s.localReaders u ∧ newReadersOnly es (readerStep s (.release u))

/-- Thread `u` takes one more read lock and releases it again, `n` times over. -/
def reenter (u : Thread) : Nat → List ReaderEvent
  | 0 => []
  | n + 1 => .arrive u :: .release u :: reenter u n

end TReentrantRWLock

namespace TReentrantRWLock

/-! ### Reachable states under a weaker contract -/

/-- States reached from a fresh lock as in `Reach`, with the contract of the two unlock
operations as parameters. If `R` holds, `ReadUnLock` is called only by a thread that holds a
read lock, with a null hint or its own; otherwise by any thread that is not suspended, with
any hint. If `W` holds, `WriteUnLock` is called only by the thread that holds the write lock;
otherwise by any thread that is not suspended. -/
inductive ReachBy (R W : Prop) : System → Prop
  | fresh : ReachBy R W System.fresh
  | readLock {σ : System} {t : Thread} :
      ReachBy R W σ → σ.pending t = none → ReachBy R W (σ.settle t none (ReadLock σ.lock t))
  | readUnLock {σ : System} {t : Thread} {hint : Hint} :
      ReachBy R W σ → σ.pending t = none →
      (R → 0 < σ.lock.localReaders t ∧ (hint = none ∨ hint = some t)) →
      ReachBy R W (σ.setLock (ReadUnLock σ.lock t hint))
  | writeLock {σ : System} {t : Thread} :
      ReachBy R W σ → σ.pending t = none → ReachBy R W (σ.settle t none (WriteLock σ.lock t))
  | writeUnLock {σ : System} {t : Thread} :
      ReachBy R W σ → σ.pending t = none →
      (W → σ.lock.fWriter = true ∧ σ.lock.isWriter t = true) →
      ReachBy R W (σ.setLock (WriteUnLock σ.lock t).1)
  | save {σ : System} {t : Thread} :
      ReachBy R W σ → σ.pending t = none →
      ReachBy R W
        { σ with lock := (Reset σ.lock t).1, tokens := (Reset σ.lock t).2 :: σ.tokens }
  | restore {σ : System} {t : Thread} {p : TReentrantRWLockState} :
      ReachBy R W σ → σ.pending t = none → p ∈ σ.tokens → p.fReadersCountLoc = t →
      Restore σ.lock t (.rwState p) ≠ .assertFailed →
      ReachBy R W (System.settle { σ with tokens := σ.tokens.erase p } t (some p)
        (Restore σ.lock t (.rwState p)))
  | resume {σ : System} {t : Thread} {pd : Pending} :
      ReachBy R W σ → σ.pending t = some pd →
      ReachBy R W (σ.settle t pd.restoring (resumeCall pd σ.lock t))

/-- Auxiliary: the steps of `ReachBy` cut into the segments of `ReadLock` and `WriteLock`.
A call first records where it stands (`begin`, `enter`) and then moves on segment by
segment; every step of `ReachBy` is a sequence of these moves. -/
inductive Moves (R W : Prop) : System → Prop
  | fresh : Moves R W System.fresh
  | consume {σ : System} (p : TReentrantRWLockState) :
      Moves R W σ → Moves R W { σ with tokens := σ.tokens.erase p }
  | begin {σ : System} {t : Thread} (k : Option TReentrantRWLockState) :
      Moves R W σ → σ.pending t = none →
      (∀ p, k = some p → p ∈ σ.tokens ∧ p.fReadersCountLoc = t ∧
        σ.lock.fRecurseCounts.fReadersCount t = 0 ∧ p.fIsWriter = false) →
      Moves R W (σ.put σ.lock t (some ⟨.readLockWriter, k⟩))
  | read {σ : System} {t : Thread} {k : Option TReentrantRWLockState} :
      Moves R W σ → σ.pending t = some ⟨.readLockWriter, k⟩ →
      Moves R W (σ.put (fixReaderOpt k (bumpLock σ.lock t)) t none)
  | enter {σ : System} {t : Thread} (k : Option TReentrantRWLockState) :
      Moves R W σ → σ.pending t = none →
      (∀ p, k = some p → p ∈ σ.tokens ∧ p.fReadersCountLoc = t ∧
        σ.lock.fRecurseCounts.fReadersCount t = 0 ∧ p.fIsWriter = true) →
      Moves R W (σ.put (enterLock σ.lock t) t (some ⟨.writeLockWriter, k⟩))
  | claim {σ : System} {t : Thread} {k : Option TReentrantRWLockState} :
      Moves R W σ → σ.pending t = some ⟨.writeLockWriter, k⟩ →
      (σ.lock.fWriter = false ∨ σ.lock.fRecurseCounts.fIsWriter t = true) →
      Moves R W (σ.put (claimLock σ.lock t) t (some ⟨.writeLockReservation, k⟩))
  | pass {σ : System} {t : Thread} {k : Option TReentrantRWLockState} :
      Moves R W σ → σ.pending t = some ⟨.writeLockReservation, k⟩ →
      σ.lock.fReaderReservation = 0 →
      Moves R W (σ.put σ.lock t (some ⟨.writeLockReaders, k⟩))
  | leave {σ : System} {t : Thread} {k : Option TReentrantRWLockState} :
      Moves R W σ → σ.pending t = some ⟨.writeLockReaders, k⟩ → σ.lock.fReaders = 0 →
      Moves R W (σ.put (fixWriterOpt k (leaveLock σ.lock t)) t none)
  | readUnLock {σ : System} {t : Thread} {hint : Hint} :
      Moves R W σ → σ.pending t = none →
      (R → 0 < σ.lock.localReaders t ∧ (hint = none ∨ hint = some t)) →
      Moves R W (σ.setLock (ReadUnLock σ.lock t hint))
  | writeUnLock {σ : System} {t : Thread} :
      Moves R W σ → σ.pending t = none →
      (W → σ.lock.fWriter = true ∧ σ.lock.isWriter t = true) →
      Moves R W (σ.setLock (WriteUnLock σ.lock t).1)
  | save {σ : System} {t : Thread} :
      Moves R W σ → σ.pending t = none →
      Moves R W
        { σ with lock := (Reset σ.lock t).1, tokens := (Reset σ.lock t).2 :: σ.tokens }

/-- The reservations: no reader is between its reservation and its decision, and
`fWriterReservation` is the number of threads suspended in `WriteLock`. -/
structure ResInv (σ : System) : Prop where
  readerRes : σ.lock.fReaderReservation = 0
  queue : SumOver σ.queued σ.lock.fWriterReservation

/-- The writer state: with `fWriter` set the write depth is at least one and exactly one
thread is marked; with `fWriter` clear the depth is zero and no thread is marked; a thread
suspended past the claim of `WriteLock` is the marked one; tokens that record the write lock
record a depth of at least one. -/
structure WriterInv (σ : System) : Prop where
  writer : σ.lock.fWriter = true → 1 ≤ σ.lock.fRecurseCounts.fWriteRecurse ∧
    ∃ w, σ.lock.fRecurseCounts.fIsWriter w = true ∧
      ∀ u, u ≠ w → σ.lock.fRecurseCounts.fIsWriter u = false
  noWriter : σ.lock.fWriter = false → σ.lock.fRecurseCounts.fWriteRecurse = 0 ∧
    ∀ u, σ.lock.fRecurseCounts.fIsWriter u = false
  claimed : ∀ u pd, σ.pending u = some pd →
    (pd.point = WaitPoint.writeLockReservation ∨ pd.point = WaitPoint.writeLockReaders) →
    σ.lock.fWriter = true ∧ σ.lock.fRecurseCounts.fIsWriter u = true
  restoring : ∀ u pd, σ.pending u = some pd → pd.point ≠ WaitPoint.readLockWriter →
    ∀ p, pd.restoring = some p → 1 ≤ p.fWriteRecurse
  tokens : ∀ p, p ∈ σ.tokens → p.fIsWriter = true → 1 ≤ p.fWriteRecurse

end TReentrantRWLock

namespace TReentrantRWLock

/-- A run in which `WriteUnLock` is called by a thread that does not hold the write lock:
thread 0 takes the write lock, thread 1 calls `WriteUnLock`, thread 2 takes a read lock. -/
def strayWriteUnLock : System :=
  let σ0 := System.fresh.settle 0 none (WriteLock System.fresh.lock 0)
  let σ1 := σ0.setLock (WriteUnLock σ0.lock 1).1
  σ1.settle 2 none (ReadLock σ1.lock 2)

/-- A run in which `ReadUnLock` is called by a thread that holds no read lock: thread 0
calls `ReadUnLock` on the fresh lock, then thread 1 calls `WriteLock`. -/
def strayReadUnLock : System :=
  let σ0 := System.fresh.setLock (ReadUnLock System.fresh.lock 0 none)
  σ0.settle 1 none (WriteLock σ0.lock 1)

end TReentrantRWLock

namespace TReentrantRWLock

/-- The lock after thread 0 has taken 2147483648 (2^31) read locks on a fresh lock and
released none: `fReaders` and the read count of thread 0 are 2147483648. -/
def deepReader : TReentrantRWLock :=
  { TReentrantRWLock.fresh with
    fReaders := 2147483648
    fRecurseCounts :=
      TReentrantRWLock.fresh.fRecurseCounts.SetLocalReadersCount 0 2147483648 }

end TReentrantRWLock

namespace TReentrantRWLock

/-! ### The operations step by step

The five operations and `Restore` once more, this time cut at every access to an atomic
member (`fReaders`, `fReaderReservation`, `fWriterReservation`, `fWriter`) and at every
operation on `fMutex`, so that the calls of different threads interleave between any two
such accesses. Accesses to the recursion counts, which are guarded by `fMutex` or belong to
the calling thread, are done together with a neighbouring access; a critical section that
touches nothing but the recursion counts (lines 72, 81, 127-129, 137-144, 243-246) is one
step, which needs `fMutex` to be free. Two accesses stay in one step in `WriteUnLock`, the
test of line 207 and the assignment of line 215: the thread holds `fMutex` from one to the
other, and `fWriter` is written under `fMutex` only (lines 179, 215). The read of `fReaders`
in line 170 only decides about a notification and is left out. -/

/-- Where a thread stands: outside any call (`idle`), or inside one, before the line the
constructor names. `k` is the token being restored when the `ReadLock` or `WriteLock` was
called from `Restore`, `c` is the thread whose read counter the hint of `ReadUnLock`
designates. -/
inductive Pc
  /-- Outside any call. -/
  | idle
  /-- `ReadLock`, before line 57: `++fReaderReservation`. -/
  | rlReserve (k : Option TReentrantRWLockState)
  /-- `ReadLock`, before line 67: `if (!fWriter)`, else line 74. -/
  | rlTest (k : Option TReentrantRWLockState)
  /-- `ReadLock`, before line 69: `++fReaders`. -/
  | rlFastReaders (k : Option TReentrantRWLockState)
  /-- `ReadLock`, before line 70: `--fReaderReservation`. -/
  | rlFastUnreserve (k : Option TReentrantRWLockState)
  /-- `ReadLock`, before line 72: `IncrementReadCount(local, fMutex)`. -/
  | rlFastCount (k : Option TReentrantRWLockState)
  /-- `ReadLock`, before line 76: `--fReaderReservation`. -/
  | rlSelfUnreserve (k : Option TReentrantRWLockState)
  /-- `ReadLock`, before line 81: `IncrementReadCount(local, fMutex)`. -/
  | rlSelfCount (k : Option TReentrantRWLockState)
  /-- `ReadLock`, before line 82: `++fReaders`. -/
  | rlSelfReaders (k : Option TReentrantRWLockState)
  /-- `ReadLock`, before line 87: `--fReaderReservation`. -/
  | rlSlowUnreserve (k : Option TReentrantRWLockState)
  /-- `ReadLock`, before line 89: `lock(fMutex)`. -/
  | rlSlowLock (k : Option TReentrantRWLockState)
  /-- `ReadLock`, before line 92, holding `fMutex`: `if (fWriter && IsNotCurrentWriter)`. -/
  | rlSlowTest (k : Option TReentrantRWLockState)
  /-- `ReadLock`, inside `fCond.wait` of line 95 holding `fMutex`: the predicate `!fWriter`
  is about to be tested. -/
  | rlSlowRetest (k : Option TReentrantRWLockState)
  /-- `ReadLock`, inside `fCond.wait` of line 95, blocked, `fMutex` released. -/
  | rlSlowBlocked (k : Option TReentrantRWLockState)
  /-- `ReadLock`, before lines 108-111, holding `fMutex`: `IncrementReadCount(local)` and
  `++fReaders`. -/
  | rlSlowCommit (k : Option TReentrantRWLockState)
  /-- `ReadLock`, before line 113: `lock.unlock()`. -/
  | rlSlowUnlock (k : Option TReentrantRWLockState)
  /-- `Restore`, before lines 310-311, after its `ReadLock` has returned. -/
  | rsFixReader (p : TReentrantRWLockState)
  /-- `ReadUnLock` with a null hint, before lines 127-129: look the counter up under
  `fMutex`. -/
  | ruLookup
  /-- `ReadUnLock`, before line 134: `--fReaders`. -/
  | ruReaders (c : Thread)
  /-- `ReadUnLock`, before line 135, first operand: `fWriterReservation`. -/
  | ruTestW (c : Thread)
  /-- `ReadUnLock`, before line 135, second operand: `fReaders == 0`. -/
  | ruTestR (c : Thread)
  /-- `ReadUnLock`, before lines 137-144: decrement the counter under `fMutex`, notify. -/
  | ruSlow (c : Thread)
  /-- `ReadUnLock`, before line 147: decrement the counter. -/
  | ruFast (c : Thread)
  /-- `WriteLock`, before line 156: `++fWriterReservation`. -/
  | wlReserve (k : Option TReentrantRWLockState)
  /-- `WriteLock`, before line 158: `lock(fMutex)`. -/
  | wlLock (k : Option TReentrantRWLockState)
  /-- `WriteLock`, before line 166, holding `fMutex`: `fReaders -= readerCount`. -/
  | wlRelease (k : Option TReentrantRWLockState)
  /-- `WriteLock`, before line 169: `if (fWriter && IsNotCurrentWriter)`. -/
  | wlTest (k : Option TReentrantRWLockState)
  /-- `WriteLock`, inside `fCond.wait` of line 175 holding `fMutex`: the predicate
  `!fWriter` is about to be tested. -/
  | wlRetest (k : Option TReentrantRWLockState)
  /-- `WriteLock`, inside `fCond.wait` of line 175, blocked, `fMutex` released. -/
  | wlBlocked (k : Option TReentrantRWLockState)
  /-- `WriteLock`, before lines 179-180: `fWriter = true; SetIsWriter(local)`. -/
  | wlClaim (k : Option TReentrantRWLockState)
  /-- `WriteLock`, in the loop of line 183: `while (fReaderReservation)`. -/
  | wlSpin (k : Option TReentrantRWLockState)
  /-- `WriteLock`, inside `fCond.wait` of line 187 holding `fMutex`: the predicate
  `fReaders == 0` is about to be tested. -/
  | wlWait (k : Option TReentrantRWLockState)
  /-- `WriteLock`, inside `fCond.wait` of line 187, blocked, `fMutex` released. -/
  | wlWaitBlocked (k : Option TReentrantRWLockState)
  /-- `WriteLock`, before line 190: `fReaders += readerCount`. -/
  | wlRestore (k : Option TReentrantRWLockState)
  /-- `WriteLock`, before line 192: `--fWriterReservation`. -/
  | wlUnreserve (k : Option TReentrantRWLockState)
  /-- `WriteLock`, before line 194: `lock.unlock()`. -/
  | wlUnlock (k : Option TReentrantRWLockState)
  /-- `Restore`, before line 302, after its `WriteLock` has returned: `lock(fMutex)`. -/
  | rsFixLock (p : TReentrantRWLockState)
  /-- `Restore`, before lines 303-305, holding `fMutex`. -/
  | rsFixWriter (p : TReentrantRWLockState)
  /-- `Restore`, at the end of the block of lines 299-306: `fMutex` is released. -/
  | rsFixUnlock
  /-- `WriteUnLock`, before line 205: `lock(fMutex)`. -/
  | wuLock
  /-- `WriteUnLock`, before lines 207-222, holding `fMutex`. -/
  | wuBody
  /-- `WriteUnLock`, at its return: `fMutex` is released. -/
  | wuUnlock
  /-- `Reset`, before lines 243-246: look the counter up under `fMutex`. -/
  | rtLookup
  /-- `Reset`, before lines 249-251: fill the token, `if (fWriter && !IsNotCurrentWriter)`. -/
  | rtRead
  /-- `Reset`, before lines 258-261: `fReaders -= readerCount`, `fWriteRecurse = 1`, the
  counter set to 0; `WriteUnLock` follows. -/
  | rtWriter
  /-- `Reset`, before lines 267-268: `fReaders -= (readerCount-1)`, the counter set to 1;
  `ReadUnLock` follows. -/
  | rtReader
  deriving DecidableEq, Repr

/-- What a thread can call. -/
inductive Call
  | readLock
  | readUnLock (hint : Hint)
  | writeLock
  | writeUnLock
  | reset
  | restore (state : StateHandle)
  deriving DecidableEq, Repr

/-- The lock with the threads that use it: the members of the lock, the owner of `fMutex`
(if any), where every thread stands, and the saved-state tokens handed out by `Reset` and
not yet passed to `Restore`. -/
structure Threads where
  lock : TReentrantRWLock
  fMutex : Option Thread
  pc : Thread → Pc
  tokens : List TReentrantRWLockState

/-- A fresh lock: `fMutex` free, every thread idle, no token. -/
def Threads.fresh : Threads where
  lock := TReentrantRWLock.fresh
  fMutex := none
  pc := fun _ => Pc.idle
  tokens := []

/-- Thread `t` moves to `q`, leaving the lock members `s` and the mutex owner `m`. -/
def Threads.move (σ : Threads) (t : Thread) (s : TReentrantRWLock) (m : Option Thread)
    (q : Pc) : Threads :=
  { σ with lock := s, fMutex := m, pc := Function.update σ.pc t q }

/-- Where a thread goes when its `ReadLock` returns: back to the caller, which is `Restore`
if a token is being restored. -/
def Pc.afterReadLock : Option TReentrantRWLockState → Pc
  | none => Pc.idle
  | some p => Pc.rsFixReader p

/-- Where a thread goes when its `WriteLock` returns. -/
def Pc.afterWriteLock : Option TReentrantRWLockState → Pc
  | none => Pc.idle
  | some p => Pc.rsFixLock p

/-- Thread `t`, which is idle, calls `c`: it now stands before the first line of the call.
`Restore` tests its handle and its assertion on the way (lines 282-294) and consumes the
token; with a null or foreign handle, with a failing assertion (the call then ends in the
assertion) or with nothing to restore the thread stays idle. -/
def Threads.call (σ : Threads) (t : Thread) : Call → Threads
  | .readLock => σ.move t σ.lock σ.fMutex (.rlReserve none)
  | .readUnLock none => σ.move t σ.lock σ.fMutex .ruLookup
  | .readUnLock (some c) => σ.move t σ.lock σ.fMutex (.ruReaders c)
  | .writeLock => σ.move t σ.lock σ.fMutex (.wlReserve none)
  | .writeUnLock => σ.move t σ.lock σ.fMutex .wuLock
  | .reset => σ.move t σ.lock σ.fMutex .rtLookup
  | .restore .null => σ
  | .restore .foreign => σ
  | .restore (.rwState p) =>
    if σ.lock.fRecurseCounts.GetLocalReadersCount p.fReadersCountLoc ≠ 0 then σ
    else if p.fIsWriter then
      { σ.move t σ.lock σ.fMutex (.wlReserve (some p)) with tokens := σ.tokens.erase p }
    else if p.fReadersCount ≠ 0 then
      { σ.move t σ.lock σ.fMutex (.rlReserve (some p)) with tokens := σ.tokens.erase p }
    else { σ with tokens := σ.tokens.erase p }

/-- One step of thread `t`: the access it stands before. The result is `none` if `t` is idle
or if the step needs `fMutex` and another thread holds it. A thread inside `fCond.wait` may
take `fMutex` again at any time and tests its predicate then (a wake-up without a
notification is allowed); `fCond.notify_all` therefore changes nothing. -/
def step (σ : Threads) (t : Thread) : Option Threads :=
  let s := σ.lock
  match σ.pc t with
  | .idle => none
  -- ReadLock
  | .rlReserve k =>
    some (σ.move t { s with fReaderReservation := s.fReaderReservation + 1 } σ.fMutex
      (.rlTest k))
  | .rlTest k =>
    if !s.fWriter then some (σ.move t s σ.fMutex (.rlFastReaders k))
    else if !s.fRecurseCounts.IsNotCurrentWriter t then
      some (σ.move t s σ.fMutex (.rlSelfUnreserve k))
    else some (σ.move t s σ.fMutex (.rlSlowUnreserve k))
  | .rlFastReaders k =>
    some (σ.move t { s with fReaders := s.fReaders + 1 } σ.fMutex (.rlFastUnreserve k))
  | .rlFastUnreserve k =>
    some (σ.move t { s with fReaderReservation := s.fReaderReservation - 1 } σ.fMutex
      (.rlFastCount k))
  | .rlFastCount k =>
    match σ.fMutex with
    | none =>
      some (σ.move t { s with fRecurseCounts := (s.fRecurseCounts.IncrementReadCount t).1 }
        none (Pc.afterReadLock k))
    | some _ => none
  | .rlSelfUnreserve k =>
    some (σ.move t { s with fReaderReservation := s.fReaderReservation - 1 } σ.fMutex
      (.rlSelfCount k))
  | .rlSelfCount k =>
    match σ.fMutex with
    | none =>
      some (σ.move t { s with fRecurseCounts := (s.fRecurseCounts.IncrementReadCount t).1 }
        none (.rlSelfReaders k))
    | some _ => none
  | .rlSelfReaders k =>
    some (σ.move t { s with fReaders := s.fReaders + 1 } σ.fMutex (Pc.afterReadLock k))
  | .rlSlowUnreserve k =>
    some (σ.move t { s with fReaderReservation := s.fReaderReservation - 1 } σ.fMutex
      (.rlSlowLock k))
  | .rlSlowLock k =>
    match σ.fMutex with
    | none => some (σ.move t s (some t) (.rlSlowTest k))
    | some _ => none
  | .rlSlowTest k =>
    if s.fWriter && s.fRecurseCounts.IsNotCurrentWriter t then
      if s.fRecurseCounts.GetLocalReadersCount t = 0 then
        some (σ.move t s σ.fMutex (.rlSlowRetest k))
      else some (σ.move t s σ.fMutex (.rlSlowCommit k))
    else some (σ.move t s σ.fMutex (.rlSlowCommit k))
  | .rlSlowRetest k =>
    if !s.fWriter then some (σ.move t s σ.fMutex (.rlSlowCommit k))
    else some (σ.move t s none (.rlSlowBlocked k))
  | .rlSlowBlocked k =>
    match σ.fMutex with
    | none => some (σ.move t s (some t) (.rlSlowRetest k))
    | some _ => none
  | .rlSlowCommit k =>
    let s1 := { s with fRecurseCounts := (s.fRecurseCounts.IncrementReadCount t).1 }
    some (σ.move t { s1 with fReaders := s1.fReaders + 1 } σ.fMutex (.rlSlowUnlock k))
  | .rlSlowUnlock k => some (σ.move t s none (Pc.afterReadLock k))
  | .rsFixReader p => some (σ.move t (Restore_fixReader p s) σ.fMutex .idle)
  -- ReadUnLock
  | .ruLookup =>
    match σ.fMutex with
    | none => some (σ.move t s none (.ruReaders t))
    | some _ => none
  | .ruReaders c => some (σ.move t { s with fReaders := s.fReaders - 1 } σ.fMutex (.ruTestW c))
  | .ruTestW c =>
    if s.fWriterReservation ≠ 0 then some (σ.move t s σ.fMutex (.ruTestR c))
    else some (σ.move t s σ.fMutex (.ruFast c))
  | .ruTestR c =>
    if s.fReaders = 0 then some (σ.move t s σ.fMutex (.ruSlow c))
    else some (σ.move t s σ.fMutex (.ruFast c))
  | .ruSlow c =>
    match σ.fMutex with
    | none =>
      some (σ.move t
        { s with fRecurseCounts :=
            s.fRecurseCounts.SetLocalReadersCount c (s.fRecurseCounts.GetLocalReadersCount c - 1) }
        none .idle)
    | some _ => none
  | .ruFast c =>
    some (σ.move t
      { s with fRecurseCounts :=
          s.fRecurseCounts.SetLocalReadersCount c (s.fRecurseCounts.GetLocalReadersCount c - 1) }
      σ.fMutex .idle)
  -- WriteLock
  | .wlReserve k =>
    some (σ.move t { s with fWriterReservation := s.fWriterReservation + 1 } σ.fMutex
      (.wlLock k))
  | .wlLock k =>
    match σ.fMutex with
    | none => some (σ.move t s (some t) (.wlRelease k))
    | some _ => none
  | .wlRelease k =>
    some (σ.move t { s with fReaders := s.fReaders - s.fRecurseCounts.GetLocalReadersCount t }
      σ.fMutex (.wlTest k))
  | .wlTest k =>
    if s.fWriter && s.fRecurseCounts.IsNotCurrentWriter t then
      some (σ.move t s σ.fMutex (.wlRetest k))
    else some (σ.move t s σ.fMutex (.wlClaim k))
  | .wlRetest k =>
    if !s.fWriter then some (σ.move t s σ.fMutex (.wlClaim k))
    else some (σ.move t s none (.wlBlocked k))
  | .wlBlocked k =>
    match σ.fMutex with
    | none => some (σ.move t s (some t) (.wlRetest k))
    | some _ => none
  | .wlClaim k =>
    let s1 := { s with fWriter := true }
    some (σ.move t { s1 with fRecurseCounts := s1.fRecurseCounts.SetIsWriter t } σ.fMutex
      (.wlSpin k))
  | .wlSpin k =>
    if s.fReaderReservation ≠ 0 then some σ
    else some (σ.move t s σ.fMutex (.wlWait k))
  | .wlWait k =>
    if s.fReaders = 0 then some (σ.move t s σ.fMutex (.wlRestore k))
    else some (σ.move t s none (.wlWaitBlocked k))
  | .wlWaitBlocked k =>
    match σ.fMutex with
    | none => some (σ.move t s (some t) (.wlWait k))
    | some _ => none
  | .wlRestore k =>
    some (σ.move t { s with fReaders := s.fReaders + s.fRecurseCounts.GetLocalReadersCount t }
      σ.fMutex (.wlUnreserve k))
  | .wlUnreserve k =>
    some (σ.move t { s with fWriterReservation := s.fWriterReservation - 1 } σ.fMutex
      (.wlUnlock k))
  | .wlUnlock k => some (σ.move t s none (Pc.afterWriteLock k))
  | .rsFixLock p =>
    match σ.fMutex with
    | none => some (σ.move t s (some t) (.rsFixWriter p))
    | some _ => none
  | .rsFixWriter p => some (σ.move t (Restore_fixWriter p s) σ.fMutex .rsFixUnlock)
  | .rsFixUnlock => some (σ.move t s none .idle)
  -- WriteUnLock
  | .wuLock =>
    match σ.fMutex with
    | none => some (σ.move t s (some t) .wuBody)
    | some _ => none
  | .wuBody => some (σ.move t (WriteUnLock s t).1 σ.fMutex .wuUnlock)
  | .wuUnlock => some (σ.move t s none .idle)
  -- Reset
  | .rtLookup =>
    match σ.fMutex with
    | none => some (σ.move t s none .rtRead)
    | some _ => none
  | .rtRead =>
    let readerCount := s.fRecurseCounts.GetLocalReadersCount t
    if s.fWriter && !s.fRecurseCounts.IsNotCurrentWriter t then
      some { σ.move t s σ.fMutex .rtWriter with
        tokens :=
          { fReadersCount := intOfSizeT readerCount, fReadersCountLoc := t,
            fWriteRecurse := s.fRecurseCounts.fWriteRecurse, fIsWriter := true } :: σ.tokens }
    else if readerCount ≠ 0 then
      some { σ.move t s σ.fMutex .rtReader with
        tokens :=
          { fReadersCount := intOfSizeT readerCount, fReadersCountLoc := t,
            fWriteRecurse := 0, fIsWriter := false } :: σ.tokens }
    else
      some { σ.move t s σ.fMutex .idle with
        tokens :=
          { fReadersCount := intOfSizeT readerCount, fReadersCountLoc := t,
            fWriteRecurse := 0, fIsWriter := false } :: σ.tokens }
  | .rtWriter =>
    let readerCount := s.fRecurseCounts.GetLocalReadersCount t
    let s1 := { s with fReaders := s.fReaders - readerCount }
    let s2 := { s1 with fRecurseCounts := { s1.fRecurseCounts with fWriteRecurse := 1 } }
    some (σ.move t { s2 with fRecurseCounts := s2.fRecurseCounts.SetLocalReadersCount t 0 }
      σ.fMutex .wuLock)
  | .rtReader =>
    let readerCount := s.fRecurseCounts.GetLocalReadersCount t
    let s1 := { s with fReaders := s.fReaders - (readerCount - 1) }
    some (σ.move t { s1 with fRecurseCounts := s1.fRecurseCounts.SetLocalReadersCount t 1 }
      σ.fMutex (.ruReaders t))

/-- The contract under which a thread calls: `ReadUnLock` by a thread that holds a read
lock, with a null hint or its own; `WriteUnLock` by the thread that holds the write lock;
`Reset` by a thread whose read count fits in the `int` of the token; `Restore` with a token
of the calling thread's own `Reset` that has not been consumed, where the assertion of line
294 holds. -/
def Threads.Allows (σ : Threads) (t : Thread) : Call → Prop
  | .readLock => True
  | .readUnLock hint => 0 < σ.lock.localReaders t ∧ (hint = none ∨ hint = some t)
  | .writeLock => True
  | .writeUnLock => σ.lock.fWriter = true ∧ σ.lock.isWriter t = true
  | .reset => σ.lock.localReaders t < 2147483648
  | .restore .null => True
  | .restore .foreign => True
  | .restore (.rwState p) =>
    p ∈ σ.tokens ∧ p.fReadersCountLoc = t ∧ σ.lock.localReaders t = 0

/-- The states reached from a fresh lock: an idle thread calls an operation within the
contract, or a thread inside a call takes its next step. The threads take their steps in any
order. -/
inductive Runs : Threads → Prop
  | fresh : Runs Threads.fresh
  | call {σ : Threads} {t : Thread} (c : Call) :
      Runs σ → σ.pc t = Pc.idle → σ.Allows t c → Runs (σ.call t c)
  | step {σ σ1 : Threads} {t : Thread} : Runs σ → step σ t = some σ1 → Runs σ1

/-- Every call has returned. -/
def Threads.Quiet (σ : Threads) : Prop := ∀ t, σ.pc t = Pc.idle

/-- Whether a thread at this position holds `fMutex`. -/
def Pc.holds : Pc → Bool
  | .rlSlowTest _ | .rlSlowRetest _ | .rlSlowCommit _ | .rlSlowUnlock _ => true
  | .wlRelease _ | .wlTest _ | .wlRetest _ | .wlClaim _ | .wlSpin _ | .wlWait _ => true
  | .wlRestore _ | .wlUnreserve _ | .wlUnlock _ => true
  | .rsFixWriter _ | .rsFixUnlock | .wuBody | .wuUnlock => true
  | _ => false

/-- What a thread at this position, with read count `n`, accounts for in `fReaders`: its
read count, one more or one less between the two halves of an acquisition or release, and
nothing while `WriteLock` has its read count subtracted. -/
def Pc.share (q : Pc) (n : Int) : Int :=
  match q with
  | .rlFastUnreserve _ | .rlFastCount _ => n + 1
  | .rlSelfReaders _ => n - 1
  | .ruTestW _ | .ruTestR _ | .ruSlow _ | .ruFast _ => n - 1
  | .wlTest _ | .wlRetest _ | .wlBlocked _ | .wlClaim _ | .wlSpin _ | .wlWait _
  | .wlWaitBlocked _ | .wlRestore _ => 0
  | _ => n

/-- What a thread at this position accounts for in `fReaderReservation`. -/
def Pc.reserved : Pc → Int
  | .rlTest _ | .rlFastReaders _ | .rlFastUnreserve _ | .rlSelfUnreserve _
  | .rlSlowUnreserve _ => 1
  | _ => 0

/-- Positions only the thread that has claimed the write lock can be at. -/
def Pc.asWriter : Pc → Bool
  | .rlSelfUnreserve _ | .rlSelfCount _ | .rlSelfReaders _ => true
  | .wlSpin _ | .wlWait _ | .wlWaitBlocked _ | .wlRestore _ | .wlUnreserve _ | .wlUnlock _ => true
  | .rsFixLock _ | .rsFixWriter _ | .rsFixUnlock | .wuLock | .wuBody | .rtWriter => true
  | _ => false

/-- The token a call carries, if it comes from `Restore`. -/
def Pc.token : Pc → Option TReentrantRWLockState
  | .rlReserve k | .rlTest k | .rlFastReaders k | .rlFastUnreserve k | .rlFastCount k => k
  | .rlSelfUnreserve k | .rlSelfCount k | .rlSelfReaders k => k
  | .rlSlowUnreserve k | .rlSlowLock k | .rlSlowTest k | .rlSlowRetest k | .rlSlowBlocked k => k
  | .rlSlowCommit k | .rlSlowUnlock k => k
  | .wlReserve k | .wlLock k | .wlRelease k | .wlTest k | .wlRetest k | .wlBlocked k => k
  | .wlClaim k | .wlSpin k | .wlWait k | .wlWaitBlocked k | .wlRestore k | .wlUnreserve k => k
  | .wlUnlock k => k
  | .rsFixReader p | .rsFixLock p | .rsFixWriter p => some p
  | _ => none

/-- The read count of a thread whose `Restore` is at this position: one once the inner
`ReadLock` has incremented it, zero before. -/
def Pc.counted : Pc → Int
  | .rlSelfReaders _ | .rlSlowUnlock _ | .rsFixReader _ => 1
  | _ => 0

/-- Positions inside `WriteLock` or the fix-up after it. -/
def Pc.writing : Pc → Bool
  | .wlReserve _ | .wlLock _ | .wlRelease _ | .wlTest _ | .wlRetest _ | .wlBlocked _ => true
  | .wlClaim _ | .wlSpin _ | .wlWait _ | .wlWaitBlocked _ | .wlRestore _ | .wlUnreserve _ => true
  | .wlUnlock _ | .rsFixLock _ | .rsFixWriter _ => true
  | _ => false

/-- The thread whose counter the hint of a `ReadUnLock` in progress designates. -/
def Pc.target : Pc → Option Thread
  | .ruReaders c | .ruTestW c | .ruTestR c | .ruSlow c | .ruFast c => some c
  | _ => none

/-- Positions inside `ReadUnLock`. -/
def Pc.unlocking : Pc → Bool
  | .ruLookup | .ruReaders _ | .ruTestW _ | .ruTestR _ | .ruSlow _ | .ruFast _ => true
  | _ => false

/-- Positions at the beginning of `Reset`, before the token is filled. -/
def Pc.saving : Pc → Bool
  | .rtLookup | .rtRead => true
  | _ => false

/-- In the loop that drains the reader reservations (line 183). -/
def Pc.spinning : Pc → Bool
  | .wlSpin _ => true
  | _ => false

/-- Between the claim of the write lock and the end of the wait for the readers (lines
183-187). -/
def Pc.acquiring : Pc → Bool
  | .wlSpin _ | .wlWait _ | .wlWaitBlocked _ => true
  | _ => false

/-- Past the test of line 67 with `fWriter` seen clear, before `++fReaders`. -/
def Pc.entering : Pc → Bool
  | .rlFastReaders _ => true
  | _ => false

/-- What thread `u` accounts for in `fReaders`. -/
def Threads.share (σ : Threads) (u : Thread) : Int :=
  (σ.pc u).share (σ.lock.fRecurseCounts.fReadersCount u)

/-- The invariant of the runs. -/
structure Threads.Inv (σ : Threads) : Prop where
  /-- `fMutex` is held by the thread that is at a position inside a locked region. -/
  mutex : ∀ u, (σ.pc u).holds = true ↔ σ.fMutex = some u
  /-- No read count and no share is negative. -/
  nonneg : ∀ u, 0 ≤ σ.lock.fRecurseCounts.fReadersCount u ∧ 0 ≤ σ.share u
  /-- `fReaders` is the sum of the shares. -/
  sum : SumOver σ.share σ.lock.fReaders
  /-- `fReaderReservation` is the number of threads between reservation and decision. -/
  res : SumOver (fun u => (σ.pc u).reserved) σ.lock.fReaderReservation
  /-- A hint in use is the caller's own. -/
  target : ∀ u c, (σ.pc u).target = some c → c = u
  /-- A thread that `Reset` found holding read locks holds one. -/
  reader : ∀ u, σ.pc u = Pc.rtReader → σ.lock.fRecurseCounts.fReadersCount u ≠ 0
  /-- A thread inside `ReadUnLock` holds a read lock. -/
  unlocking : ∀ u, (σ.pc u).unlocking = true → 1 ≤ σ.lock.fRecurseCounts.fReadersCount u
  /-- A thread at the beginning of `Reset` has a read count that fits in an `int`. -/
  saving : ∀ u, (σ.pc u).saving = true → σ.lock.fRecurseCounts.fReadersCount u < 2147483648
  /-- Every outstanding token is well formed. -/
  tokens : ∀ p, p ∈ σ.tokens → TokenOK p
  /-- A token being restored is the caller's own and well formed, and the caller's read
  count is what the inner call has made it. -/
  restoring : ∀ u p, (σ.pc u).token = some p →
    p.fReadersCountLoc = u ∧ 0 ≤ p.fReadersCount ∧
    σ.lock.fRecurseCounts.fReadersCount u = (σ.pc u).counted ∧
    ((σ.pc u).writing = true → 1 ≤ p.fWriteRecurse)
  /-- With `fWriter` set the write depth is at least one and exactly one thread is marked. -/
  writer : σ.lock.fWriter = true → 1 ≤ σ.lock.fRecurseCounts.fWriteRecurse ∧
    ∃ w, σ.lock.fRecurseCounts.fIsWriter w = true ∧
      ∀ u, u ≠ w → σ.lock.fRecurseCounts.fIsWriter u = false
  /-- With `fWriter` clear the write depth is zero and no thread is marked. -/
  noWriter : σ.lock.fWriter = false → σ.lock.fRecurseCounts.fWriteRecurse = 0 ∧
    ∀ u, σ.lock.fRecurseCounts.fIsWriter u = false
  /-- The positions of the writer are taken by the marked thread only. -/
  asWriter : ∀ u, (σ.pc u).asWriter = true →
    σ.lock.fWriter = true ∧ σ.lock.fRecurseCounts.fIsWriter u = true
  /-- A thread about to claim has seen `fWriter` clear or is the marked thread. -/
  claim : ∀ u k, σ.pc u = Pc.wlClaim k →
    σ.lock.fWriter = false ∨ σ.lock.fRecurseCounts.fIsWriter u = true
  /-- A thread about to commit a read on the slow path has seen `fWriter` clear, or is the
  marked thread, or holds a read lock already. -/
  commit : ∀ u k, σ.pc u = Pc.rlSlowCommit k →
    σ.lock.fWriter = false ∨ σ.lock.fRecurseCounts.fIsWriter u = true ∨
      σ.lock.fRecurseCounts.fReadersCount u ≠ 0
  /-- Once the writer is past the drain of the reservations (line 183), no reader is
  between the test of line 67 and `++fReaders`. -/
  drained : σ.lock.fWriter = true → ∀ w, σ.lock.fRecurseCounts.fIsWriter w = true →
    ¬((σ.pc w).spinning = true ∧ σ.lock.fRecurseCounts.fWriteRecurse = 1) →
    ∀ u, (σ.pc u).entering = false
  /-- Once the writer is past the wait for the readers (line 187), no other thread has a
  share in `fReaders`. -/
  exclusive : σ.lock.fWriter = true → ∀ w, σ.lock.fRecurseCounts.fIsWriter w = true →
    ¬((σ.pc w).acquiring = true ∧ σ.lock.fRecurseCounts.fWriteRecurse = 1) →
    ∀ u, u ≠ w → σ.share u = 0

/-! ### Runs given as sequences of events -/

/-- What happens next in a run: a thread calls an operation, or a thread that is inside a
call takes its next step. -/
inductive Event
  | call (t : Thread) (c : Call)
  | step (t : Thread)
  deriving DecidableEq, Repr

/-- The thread of an event. -/
def Event.thread : Event → Thread
  | .call t _ => t
  | .step t => t

/-- The state after an event. A step that cannot be taken leaves the state as it is. -/
def Threads.after (σ : Threads) : Event → Threads
  | .call t c => σ.call t c
  | .step t => (step σ t).getD σ

/-- The state after a sequence of events. -/
def Threads.play (σ : Threads) : List Event → Threads
  | [] => σ
  | e :: l => (σ.after e).play l

/-- The sequence of events is a run from `σ`: every call is by an idle thread within the
contract, every step can be taken. -/
def Threads.Plays (σ : Threads) : List Event → Prop
  | [] => True
  | .call t c :: l => σ.pc t = Pc.idle ∧ σ.Allows t c ∧ (σ.call t c).Plays l
  | .step t :: l => (step σ t).isSome = true ∧ (σ.after (.step t)).Plays l

/-- Thread 0 calls `ReadLock`, reserves and sees `fWriter` clear (lines 57-67); thread 1
calls `WriteLock` and runs up to the loop of line 183, where it takes one turn. -/
def drainBegin : List Event :=
  [.call 0 .readLock, .step 0, .step 0,
   .call 1 .writeLock, .step 1, .step 1, .step 1, .step 1, .step 1, .step 1]

/-- Thread 0 finishes its `ReadLock` (lines 69-72) while thread 1 leaves the loop and blocks
in the wait of line 187; thread 0 calls `ReadUnLock` with its hint and finishes it on the
slow path (lines 134-144); thread 1 wakes up and finishes its `WriteLock` (lines 187-194). -/
def drainEnd : List Event :=
  [.step 0, .step 0, .step 1, .step 1, .step 0,
   .call 0 (.readUnLock (some 0)), .step 0, .step 0, .step 0, .step 0,
   .step 1, .step 1, .step 1, .step 1, .step 1]

/-- The state in which thread 1 turns in the loop of line 183. -/
def drainSpin : Threads := Threads.fresh.play drainBegin

/-- The state at the end of the run. -/
def drainRun : Threads := drainSpin.play drainEnd

/-! ### A call that runs alone -/

/-- The state after `n` steps of thread `t` alone. -/
def Threads.alone (σ : Threads) (t : Thread) (n : Nat) : Threads :=
  σ.play (List.replicate n (.step t))

/-- The position of a call, started with token `k`, that is stopped at the wait `w`. -/
def Pc.waitingAt (w : WaitPoint) (k : Option TReentrantRWLockState) : Pc :=
  match w with
  | .readLockWriter => Pc.rlSlowBlocked k
  | .writeLockWriter => Pc.wlBlocked k
  | .writeLockReservation => Pc.wlSpin k
  | .writeLockReaders => Pc.wlWaitBlocked k

/-- The state `σ1` of the step-level run of a call by `t` is what the call gives as a whole:
it has returned with the same lock members and `fMutex` free, or it is stopped at the same
wait with the same lock members (in the loop of line 183 it holds `fMutex`, elsewhere it has
released it). -/
def Threads.Agrees {α : Type} (σ1 : Threads) (t : Thread)
    (k : Option TReentrantRWLockState) : Outcome α → Prop
  | .done s1 _ => σ1.lock = s1 ∧ σ1.pc t = Pc.idle ∧ σ1.fMutex = none
  | .waits s1 w =>
    σ1.lock = s1 ∧ σ1.pc t = Pc.waitingAt w k ∧
      σ1.fMutex = if w = .writeLockReservation then some t else none
  | .assertFailed => False

/-! ### A run with the token of another thread -/

/-- The token `Reset` gives to thread 0 when it holds two read locks and is not the
writer. -/
def foreignToken : TReentrantRWLockState :=
  { fReadersCount := 2, fReadersCountLoc := 0, fWriteRecurse := 0, fIsWriter := false }

/-- Thread 0 takes two read locks and calls `Reset`, then thread 1 takes the write lock; each
call runs to its end before the next one starts. -/
def foreignBegin : List Event :=
  .call 0 .readLock :: List.replicate 5 (.step 0) ++
    .call 0 .readLock :: List.replicate 5 (.step 0) ++
    .call 0 .reset :: List.replicate 6 (.step 0) ++
    .call 1 .writeLock :: List.replicate 10 (.step 1)

/-- The state in which thread 1, the writer, calls `Restore` with the token of thread 0. -/
def foreignCall : Threads := Threads.fresh.play foreignBegin

/-- The state after thread 1 has called `Restore` with the token of thread 0 and the call
has run to its end. -/
def foreignRun : Threads :=
  (foreignCall.call 1 (.restore (.rwState foreignToken))).alone 1 6

end TReentrantRWLock

/-! ## Closed forms of the operations -/

namespace TReentrantRWLock
open Internal

/-- Two lock states with the same components are equal. -/
theorem ext_state {a b : TReentrantRWLock} (h1 : a.fReaders = b.fReaders)
    (h2 : a.fReaderReservation = b.fReaderReservation)
    (h3 : a.fWriterReservation = b.fWriterReservation) (h4 : a.fWriter = b.fWriter)
    (h5 : a.fRecurseCounts.fWriteRecurse = b.fRecurseCounts.fWriteRecurse)
    (h6 : a.fRecurseCounts.fReadersCount = b.fRecurseCounts.fReadersCount)
    (h7 : a.fRecurseCounts.fIsWriter = b.fRecurseCounts.fIsWriter) : a = b := by
  cases a with
  | mk r1 r2 r3 r4 rc =>
    cases b with
    | mk q1 q2 q3 q4 qc =>
      cases rc; cases qc
      simp_all

/-- `ReadLock` in closed form: it waits exactly when a foreign writer is present and the
caller holds no read lock; otherwise it completes, with `fReaders` and the caller's read
count raised by one and nothing else changed, whichever of the three paths is taken. -/
theorem ReadLock_eq (s : TReentrantRWLock) (t : Thread) :
    ReadLock s t =
      if s.fWriter = true ∧ s.isWriter t = false ∧ s.localReaders t = 0 then
        .waits s .readLockWriter
      else
        .done { s with
                fReaders := s.fReaders + 1
                fRecurseCounts := s.fRecurseCounts.SetLocalReadersCount t (s.localReaders t + 1) }
          (some t) := by
  unfold ReadLock ReadLock_wait ReadLock_commit
  by_cases hw : s.fWriter = true <;> by_cases hi : s.fRecurseCounts.fIsWriter t = true <;>
    by_cases hr : s.fRecurseCounts.fReadersCount t = 0 <;>
    simp [hw, hi, hr, isWriter, localReaders, RecurseCounts.IsNotCurrentWriter,
      RecurseCounts.IncrementReadCount, RecurseCounts.GetLocalReadersCount,
      RecurseCounts.SetLocalReadersCount]
  cases s
  simp_all

/-- `ReadUnLock` in closed form: both branches lower `fReaders` and the designated read count
by one. -/
theorem ReadUnLock_eq (s : TReentrantRWLock) (t : Thread) (hint : Hint) :
    ReadUnLock s t hint =
      { s with
        fReaders := s.fReaders - 1
        fRecurseCounts :=
          s.fRecurseCounts.SetLocalReadersCount (hint.getD t) (s.localReaders (hint.getD t) - 1) } := by
  unfold ReadUnLock
  cases hint <;> simp [localReaders]

/-- `WriteLock` in closed form: the three places it can be suspended at, with the state it
leaves there, and the state it returns with. -/
theorem WriteLock_eq (s : TReentrantRWLock) (t : Thread) :
    WriteLock s t =
      if s.fWriter = true ∧ s.isWriter t = false then
        .waits { s with fWriterReservation := s.fWriterReservation + 1
                        fReaders := s.fReaders - s.localReaders t } .writeLockWriter
      else if s.fReaderReservation ≠ 0 then
        .waits { s with fWriterReservation := s.fWriterReservation + 1
                        fReaders := s.fReaders - s.localReaders t
                        fWriter := true
                        fRecurseCounts := s.fRecurseCounts.SetIsWriter t } .writeLockReservation
      else if s.fReaders - s.localReaders t ≠ 0 then
        .waits { s with fWriterReservation := s.fWriterReservation + 1
                        fReaders := s.fReaders - s.localReaders t
                        fWriter := true
                        fRecurseCounts := s.fRecurseCounts.SetIsWriter t } .writeLockReaders
      else
        .done { s with fWriter := true
                       fRecurseCounts := s.fRecurseCounts.SetIsWriter t } (some t) := by
  unfold WriteLock WriteLock_waitWriter WriteLock_claim WriteLock_spin WriteLock_waitReaders
    WriteLock_finish
  by_cases hw : s.fWriter = true <;> by_cases hi : s.fRecurseCounts.fIsWriter t = true <;>
    by_cases hr : s.fReaderReservation = 0 <;>
    by_cases hd : s.fReaders - s.fRecurseCounts.fReadersCount t = 0 <;>
    simp [hw, hi, hr, hd, isWriter, localReaders, RecurseCounts.IsNotCurrentWriter,
      RecurseCounts.GetLocalReadersCount, RecurseCounts.SetIsWriter] <;>
    omega


/-- Writing the value a slot already holds changes nothing. -/
theorem update_self_of_eq {β : Type} (f : Thread → β) (t : Thread) (v : β) (h : f t = v) :
    Function.update f t v = f := by
  have := Function.update_eq_self t f
  rwa [h] at this

/-- Inside the range of `int` the conversion keeps the value. -/
theorem intOfSizeT_fits {v : Int} (h0 : -2147483648 ≤ v) (h1 : v < 2147483648) :
    intOfSizeT v = v := by
  unfold intOfSizeT
  omega

/-- `Reset` in closed form: the state it leaves and the token it returns, for a caller that
holds the write lock and for one that does not. -/
theorem Reset_eq (s : TReentrantRWLock) (t : Thread) :
    Reset s t =
      if s.fWriter = true ∧ s.isWriter t = true then
        ({ s with fReaders := s.fReaders - s.localReaders t
                  fWriter := false
                  fRecurseCounts :=
                    { fWriteRecurse := 0
                      fReadersCount := Function.update s.fRecurseCounts.fReadersCount t 0
                      fIsWriter := Function.update s.fRecurseCounts.fIsWriter t false } },
         { fReadersCount := intOfSizeT (s.localReaders t), fReadersCountLoc := t,
           fWriteRecurse := s.fRecurseCounts.fWriteRecurse, fIsWriter := true })
      else
        ({ s with fReaders := s.fReaders - s.localReaders t
                  fRecurseCounts := s.fRecurseCounts.SetLocalReadersCount t 0 },
         { fReadersCount := intOfSizeT (s.localReaders t), fReadersCountLoc := t,
           fWriteRecurse := 0, fIsWriter := false }) := by
  unfold Reset
  by_cases hw : s.fWriter = true <;> by_cases hi : s.fRecurseCounts.fIsWriter t = true <;>
    by_cases hr : s.fRecurseCounts.fReadersCount t = 0 <;>
    simp [hw, hi, hr, isWriter, localReaders, RecurseCounts.IsNotCurrentWriter,
      RecurseCounts.GetLocalReadersCount, RecurseCounts.SetLocalReadersCount, WriteUnLock,
      ReadUnLock, RecurseCounts.DecrementWriteCount, RecurseCounts.ResetIsWriter] <;>
    first
    | done
    | omega
    | (apply ext_state <;> simp [hw, update_self_of_eq _ _ _ hr])

/-- `Reset` in closed form when the read count of the caller fits in an `int`: the token
records the read count itself. -/
theorem Reset_eq_fits (s : TReentrantRWLock) (t : Thread)
    (hfit : intOfSizeT (s.localReaders t) = s.localReaders t) :
    Reset s t =
      if s.fWriter = true ∧ s.isWriter t = true then
        ({ s with fReaders := s.fReaders - s.localReaders t
                  fWriter := false
                  fRecurseCounts :=
                    { fWriteRecurse := 0
                      fReadersCount := Function.update s.fRecurseCounts.fReadersCount t 0
                      fIsWriter := Function.update s.fRecurseCounts.fIsWriter t false } },
         { fReadersCount := s.localReaders t, fReadersCountLoc := t,
           fWriteRecurse := s.fRecurseCounts.fWriteRecurse, fIsWriter := true })
      else
        ({ s with fReaders := s.fReaders - s.localReaders t
                  fRecurseCounts := s.fRecurseCounts.SetLocalReadersCount t 0 },
         { fReadersCount := s.localReaders t, fReadersCountLoc := t,
           fWriteRecurse := 0, fIsWriter := false }) := by
  rw [Reset_eq, hfit]

/-- The sum of a function over a finite set that carries its support, after one value is
replaced. -/
theorem sum_update_insert (S : Finset Thread) (f : Thread → Int) (t : Thread) (v : Int)
    (h : ∀ u, u ∉ S → f u = 0) :
    ∑ u in insert t S, Function.update f t v u = (∑ u in S, f u) - f t + v := by
  by_cases ht : t ∈ S
  · rw [Finset.insert_eq_of_mem ht, Finset.sum_update_of_mem ht,
      Finset.sdiff_singleton_eq_erase]
    have := Finset.add_sum_erase S f ht
    omega
  · rw [Finset.sum_insert ht, Function.update_same]
    have h1 : ∑ u in S, Function.update f t v u = ∑ u in S, f u := by
      apply Finset.sum_congr rfl
      intro u hu
      have : u ≠ t := fun e => ht (e ▸ hu)
      simp [Function.update_noteq this]
    have h2 := h t ht
    omega


/-- Replacing one value of `f` moves the sum by the difference. -/
theorem sumInv_update {f : Thread → Int} {R : Int}
    (h : ∃ S : Finset Thread, (∀ u, u ∉ S → f u = 0) ∧ R = ∑ u in S, f u) (t : Thread)
    (v : Int) :
    ∃ S : Finset Thread, (∀ u, u ∉ S → Function.update f t v u = 0) ∧
      R - f t + v = ∑ u in S, Function.update f t v u := by
  obtain ⟨S, h0, hR⟩ := h
  refine ⟨insert t S, ?_, ?_⟩
  · intro u hu
    rw [Finset.mem_insert, not_or] at hu
    rw [Function.update_noteq hu.1]
    exact h0 u hu.2
  · rw [sum_update_insert S f t v h0, hR]

/-- If `f` is zero away from `w`, its sum is `f w`. -/
theorem sum_eq_of_others_zero {f : Thread → Int} {R : Int}
    (h : ∃ S : Finset Thread, (∀ u, u ∉ S → f u = 0) ∧ R = ∑ u in S, f u) (w : Thread)
    (h0 : ∀ u, u ≠ w → f u = 0) : R = f w := by
  obtain ⟨S, hS, hR⟩ := h
  rw [hR]
  exact Finset.sum_eq_single w (fun u _ hu => h0 u hu) (fun hw => hS w hw)

/-- A completed `ReadLock`: the state it returns with, its hint, and that it was not blocked. -/
theorem ReadLock_done {s s1 : TReentrantRWLock} {t : Thread} {h : Hint}
    (hd : ReadLock s t = .done s1 h) :
    s1 = { s with
           fReaders := s.fReaders + 1
           fRecurseCounts :=
             s.fRecurseCounts.SetLocalReadersCount t (s.localReaders t + 1) } ∧
      h = some t ∧
      ¬(s.fWriter = true ∧ s.isWriter t = false ∧ s.localReaders t = 0) := by
  rw [ReadLock_eq] at hd
  split at hd
  · cases hd
  · rename_i hnb
    injection hd with hs hh
    exact ⟨hs.symm, hh.symm, hnb⟩

/-! ## The invariant of the reachable states -/

/-- `ReadLock` in terms of `bumpLock`. -/
theorem ReadLock_cases (s : TReentrantRWLock) (t : Thread) :
    ReadLock s t =
      if s.fWriter = true ∧ s.isWriter t = false ∧ s.localReaders t = 0 then
        .waits s .readLockWriter
      else .done (bumpLock s t) (some t) :=
  ReadLock_eq s t

/-- `WriteLock` in terms of `enterLock`, `claimLock` and `leaveLock`. -/
theorem WriteLock_cases (s : TReentrantRWLock) (t : Thread) :
    WriteLock s t =
      if s.fWriter = true ∧ s.isWriter t = false then
        .waits (enterLock s t) .writeLockWriter
      else if s.fReaderReservation ≠ 0 then
        .waits (claimLock (enterLock s t) t) .writeLockReservation
      else if s.fReaders - s.localReaders t ≠ 0 then
        .waits (claimLock (enterLock s t) t) .writeLockReaders
      else .done (leaveLock (claimLock (enterLock s t) t) t) (some t) := by
  unfold WriteLock WriteLock_waitWriter WriteLock_claim WriteLock_spin WriteLock_waitReaders
    WriteLock_finish
  by_cases hw : s.fWriter = true <;> by_cases hi : s.fRecurseCounts.fIsWriter t = true <;>
    by_cases hr : s.fReaderReservation = 0 <;>
    by_cases hd : s.fReaders - s.fRecurseCounts.fReadersCount t = 0 <;>
    simp [hw, hi, hr, hd, isWriter, localReaders, RecurseCounts.IsNotCurrentWriter,
      RecurseCounts.GetLocalReadersCount, RecurseCounts.SetIsWriter, enterLock, claimLock,
      leaveLock]

/-- Continuing `ReadLock` from line 95. -/
theorem resume_readLockWriter (s : TReentrantRWLock) (t : Thread) :
    resume .readLockWriter s t =
      if s.fWriter = true then .waits s .readLockWriter else .done (bumpLock s t) (some t) := by
  simp only [resume, ReadLock_wait, ReadLock_commit, bumpLock, RecurseCounts.IncrementReadCount,
    localReaders]

/-- Continuing `WriteLock` from line 175. -/
theorem resume_writeLockWriter (s : TReentrantRWLock) (t : Thread) :
    resume .writeLockWriter s t =
      if s.fWriter = true then .waits s .writeLockWriter
      else if s.fReaderReservation ≠ 0 then .waits (claimLock s t) .writeLockReservation
      else if s.fReaders ≠ 0 then .waits (claimLock s t) .writeLockReaders
      else .done (leaveLock (claimLock s t) t) (some t) := by
  simp only [resume, WriteLock_waitWriter, WriteLock_claim, WriteLock_spin,
    WriteLock_waitReaders, WriteLock_finish, claimLock, leaveLock, localReaders]
  by_cases hw : s.fWriter = true <;> by_cases hr : s.fReaderReservation = 0 <;>
    by_cases hd : s.fReaders = 0 <;> simp [hw, hr, hd]

/-- Continuing `WriteLock` from line 183. -/
theorem resume_writeLockReservation (s : TReentrantRWLock) (t : Thread) :
    resume .writeLockReservation s t =
      if s.fReaderReservation ≠ 0 then .waits s .writeLockReservation
      else if s.fReaders ≠ 0 then .waits s .writeLockReaders
      else .done (leaveLock s t) (some t) := by
  simp only [resume, WriteLock_spin, WriteLock_waitReaders, WriteLock_finish, leaveLock,
    localReaders]
  by_cases hr : s.fReaderReservation = 0 <;> by_cases hd : s.fReaders = 0 <;> simp [hr, hd]

/-- Continuing `WriteLock` from line 187. -/
theorem resume_writeLockReaders (s : TReentrantRWLock) (t : Thread) :
    resume .writeLockReaders s t =
      if s.fReaders = 0 then .done (leaveLock s t) (some t) else .waits s .writeLockReaders := by
  simp only [resume, WriteLock_waitReaders, WriteLock_finish, leaveLock, localReaders]

/-- If `g` differs from `f` at `t` only, the sum moves by `g t - f t`. -/
theorem SumOver_step {f g : Thread → Int} {R : Int} (h : SumOver f R) (t : Thread)
    (hfg : ∀ u, u ≠ t → g u = f u) : SumOver g (R - f t + g t) := by
  have hg : g = Function.update f t (g t) := by
    funext u
    by_cases hu : u = t
    · subst hu
      simp
    · rw [Function.update_noteq hu]
      exact hfg u hu
  rw [hg, Function.update_same]
  exact sumInv_update h t (g t)

/-- A sum of non-negative values that is zero has only zero values. -/
theorem SumOver_zero {f : Thread → Int} (h : SumOver f 0) (hnn : ∀ u, 0 ≤ f u) :
    ∀ u, f u = 0 := by
  obtain ⟨S, hS, hsum⟩ := h
  intro u
  by_cases hu : u ∈ S
  · exact (Finset.sum_eq_zero_iff_of_nonneg (fun x _ => hnn x)).1 hsum.symm u hu
  · exact hS u hu

/-- Two successive records for the same thread: the later one stands. -/
theorem put_put (σ : System) (s1 s2 : TReentrantRWLock) (t : Thread) (o1 o2 : Option Pending) :
    (σ.put s1 t o1).put s2 t o2 = σ.put s2 t o2 := by
  simp [System.put]

/-- For a thread that is not suspended, replacing the lock state is a `put`. -/
theorem setLock_eq_put (σ : System) (s : TReentrantRWLock) (t : Thread)
    (hp : σ.pending t = none) : σ.setLock s = σ.put s t none := by
  simp only [System.setLock, System.put]
  rw [update_self_of_eq _ _ _ hp]

/-- Recording what is already there changes nothing. -/
theorem put_self (σ : System) (t : Thread) (o : Option Pending) (hp : σ.pending t = o) :
    σ.put σ.lock t o = σ := by
  simp only [System.put]
  rw [update_self_of_eq _ _ _ hp]

/-- The record of `t` after a `put` for `t`. -/
theorem put_pending_same (σ : System) (s : TReentrantRWLock) (t : Thread) (o : Option Pending) :
    (σ.put s t o).pending t = o := by
  simp [System.put]

/-- The record of another thread after a `put` for `t`. -/
theorem put_pending_other (σ : System) (s : TReentrantRWLock) (t : Thread)
    (o : Option Pending) {u : Thread} (hu : u ≠ t) :
    (σ.put s t o).pending u = σ.pending u := by
  simp [System.put, Function.update_noteq hu]

/-- The contribution of another thread after a `put` for `t` that keeps its read count. -/
theorem put_contrib_other (σ : System) (s : TReentrantRWLock) (t : Thread)
    (o : Option Pending) {u : Thread} (hu : u ≠ t)
    (hc : s.fRecurseCounts.fReadersCount u = σ.lock.fRecurseCounts.fReadersCount u) :
    (σ.put s t o).contrib u = σ.contrib u := by
  simp [System.contrib, System.put, Function.update_noteq hu, hc]

/-- The contribution of `t` after a `put` for `t`. -/
theorem put_contrib_same (σ : System) (s : TReentrantRWLock) (t : Thread)
    (o : Option Pending) :
    (σ.put s t o).contrib t = if inWriteLock o then 0 else s.fRecurseCounts.fReadersCount t := by
  simp [System.contrib, System.put]

/-- The queue share of another thread after a `put` for `t`. -/
theorem put_queued_other (σ : System) (s : TReentrantRWLock) (t : Thread)
    (o : Option Pending) {u : Thread} (hu : u ≠ t) :
    (σ.put s t o).queued u = σ.queued u := by
  simp [System.queued, System.put, Function.update_noteq hu]

/-- The queue share of `t` after a `put` for `t`. -/
theorem put_queued_same (σ : System) (s : TReentrantRWLock) (t : Thread)
    (o : Option Pending) :
    (σ.put s t o).queued t = if inWriteLock o then 1 else 0 := by
  simp [System.queued, System.put]

/-- The reader sum after a step of thread `t`. -/
theorem inv_sum_put {σ : System} (hi : Inv σ) (s : TReentrantRWLock) (t : Thread)
    (o : Option Pending)
    (hc : ∀ u, u ≠ t → s.fRecurseCounts.fReadersCount u = σ.lock.fRecurseCounts.fReadersCount u)
    (hR : s.fReaders = σ.lock.fReaders - σ.contrib t + (σ.put s t o).contrib t) :
    SumOver (σ.put s t o).contrib (σ.put s t o).lock.fReaders := by
  have h := SumOver_step (g := (σ.put s t o).contrib) hi.sum t
    (fun u hu => put_contrib_other σ s t o hu (hc u hu))
  rw [← hR] at h
  exact h

/-- The writer queue after a step of thread `t`. -/
theorem inv_queue_put {σ : System} (hi : Inv σ) (s : TReentrantRWLock) (t : Thread)
    (o : Option Pending)
    (hQ : s.fWriterReservation =
      σ.lock.fWriterReservation - σ.queued t + (σ.put s t o).queued t) :
    SumOver (σ.put s t o).queued (σ.put s t o).lock.fWriterReservation := by
  have h := SumOver_step (g := (σ.put s t o).queued) hi.queue t
    (fun u hu => put_queued_other σ s t o hu)
  rw [← hQ] at h
  exact h

/-- A thread not suspended in `WriteLock` contributes its read count. -/
theorem contrib_of_idle {σ : System} {t : Thread} (hp : inWriteLock (σ.pending t) = false) :
    σ.contrib t = σ.lock.fRecurseCounts.fReadersCount t := by
  simp [System.contrib, hp]

/-- A thread suspended in `WriteLock` contributes nothing. -/
theorem contrib_of_writing {σ : System} {t : Thread} (hp : inWriteLock (σ.pending t) = true) :
    σ.contrib t = 0 := by
  simp [System.contrib, hp]

/-- A thread not suspended in `WriteLock` is not queued. -/
theorem queued_of_idle {σ : System} {t : Thread} (hp : inWriteLock (σ.pending t) = false) :
    σ.queued t = 0 := by
  simp [System.queued, hp]

/-- A thread suspended in `WriteLock` is queued. -/
theorem queued_of_writing {σ : System} {t : Thread} (hp : inWriteLock (σ.pending t) = true) :
    σ.queued t = 1 := by
  simp [System.queued, hp]

/-- No contribution is negative. -/
theorem contrib_nonneg {σ : System} (hi : Inv σ) (u : Thread) : 0 ≤ σ.contrib u := by
  unfold System.contrib
  split
  · exact le_refl 0
  · exact hi.nonneg u

/-- Lines 156-175: thread `t` enters `WriteLock` and is suspended on a foreign writer. -/
theorem inv_enter {σ : System} (hi : Inv σ) (t : Thread) (k : Option TReentrantRWLockState)
    (hp : σ.pending t = none)
    (hk : ∀ p, k = some p → TokenOK p ∧ p.fReadersCountLoc = t ∧
      σ.lock.fRecurseCounts.fReadersCount t = 0 ∧ p.fIsWriter = true) :
    Inv (σ.put (enterLock σ.lock t) t (some ⟨.writeLockWriter, k⟩)) := by
  have hidle : inWriteLock (σ.pending t) = false := by rw [hp]; rfl
  refine ⟨?_, ?_, hi.nonneg, hi.readerRes, ?_, hi.noWriter, ?_, hi.tokens⟩
  · apply inv_sum_put hi (enterLock σ.lock t) t _ (fun _ _ => rfl)
    rw [put_contrib_same, contrib_of_idle hidle]
    simp [enterLock, inWriteLock, localReaders, RecurseCounts.GetLocalReadersCount]
  · apply inv_queue_put hi
    rw [put_queued_same, queued_of_idle hidle]
    simp [enterLock, inWriteLock]
  · intro hw
    obtain ⟨h1, w, hw1, hw2, hw3⟩ := hi.writer hw
    refine ⟨h1, w, hw1, hw2, ?_⟩
    intro hpw u hu
    by_cases hwt : w = t
    · subst hwt
      rw [put_pending_same] at hpw
      cases hpw
    · rw [put_pending_other _ _ _ _ hwt] at hpw
      by_cases hut : u = t
      · subst hut
        rw [put_contrib_same]
        simp [inWriteLock]
      · rw [put_contrib_other σ (enterLock σ.lock t) t _ hut rfl]
        exact hw3 hpw u hu
  · intro u pd hpd
    by_cases hut : u = t
    · subst hut
      rw [put_pending_same] at hpd
      injection hpd with hpd
      subst hpd
      refine ⟨by simp, by simp, by simp, ?_⟩
      intro p hp1
      simp only at hp1
      obtain ⟨a, b, c, d⟩ := hk p hp1
      exact ⟨a, b, c, fun _ => d⟩
    · rw [put_pending_other _ _ _ _ hut] at hpd
      exact hi.pend u pd hpd

/-- Lines 178-187: thread `t`, inside `WriteLock`, claims the lock and waits for the
readers. -/
theorem inv_claim {σ : System} (hi : Inv σ) (t : Thread) (k : Option TReentrantRWLockState)
    (hp : σ.pending t = some ⟨.writeLockWriter, k⟩)
    (hc : σ.lock.fWriter = false ∨ σ.lock.fRecurseCounts.fIsWriter t = true) :
    Inv (σ.put (claimLock σ.lock t) t (some ⟨.writeLockReaders, k⟩)) := by
  have hin : inWriteLock (σ.pending t) = true := by rw [hp]; rfl
  obtain ⟨_, _, _, hrest⟩ := hi.pend t _ hp
  refine ⟨?_, ?_, hi.nonneg, hi.readerRes, ?_, ?_, ?_, hi.tokens⟩
  · apply inv_sum_put hi (claimLock σ.lock t) t _ (fun _ _ => rfl)
    rw [put_contrib_same, contrib_of_writing hin]
    simp [claimLock, inWriteLock]
  · apply inv_queue_put hi
    rw [put_queued_same, queued_of_writing hin]
    simp [claimLock, inWriteLock]
  · intro _
    have hwr : 1 ≤ σ.lock.fRecurseCounts.fWriteRecurse + 1 := by
      by_cases hw : σ.lock.fWriter = true
      · have := (hi.writer hw).1
        omega
      · simp only [Bool.not_eq_true] at hw
        have := (hi.noWriter hw).1
        omega
    refine ⟨hwr, t, by simp [System.put, claimLock, RecurseCounts.SetIsWriter], ?_, ?_⟩
    · intro u hu
      simp only [System.put, claimLock, RecurseCounts.SetIsWriter, Function.update_noteq hu]
      by_cases hw : σ.lock.fWriter = true
      · obtain ⟨_, w, hw1, hw2, _⟩ := hi.writer hw
        rcases hc with hc | hc
        · rw [hw] at hc
          cases hc
        · have htw : t = w := by
            by_contra hne
            rw [hw2 t hne] at hc
            cases hc
          subst htw
          exact hw2 u hu
      · simp only [Bool.not_eq_true] at hw
        exact (hi.noWriter hw).2 u
    · intro hpt
      rw [put_pending_same] at hpt
      cases hpt
  · intro hw
    simp [System.put, claimLock] at hw
  · intro u pd hpd
    by_cases hut : u = t
    · subst hut
      rw [put_pending_same] at hpd
      injection hpd with hpd
      subst hpd
      refine ⟨by simp, fun _ => ⟨rfl, by simp [System.put, claimLock,
        RecurseCounts.SetIsWriter]⟩, by simp, ?_⟩
      intro p hp1
      obtain ⟨a, b, c, d⟩ := hrest p hp1
      exact ⟨a, b, c, fun _ => d (by simp)⟩
    · rw [put_pending_other _ _ _ _ hut] at hpd
      obtain ⟨a, b, c, d⟩ := hi.pend u pd hpd
      refine ⟨a, ?_, ?_, d⟩
      · intro hpt
        refine ⟨rfl, ?_⟩
        simp only [System.put, claimLock, RecurseCounts.SetIsWriter,
          Function.update_noteq hut]
        exact (b hpt).2
      · intro hpt
        simp only [System.put, claimLock, RecurseCounts.SetIsWriter,
          Function.update_noteq hut]
        exact c hpt

/-- Lines 187-196: thread `t` finds `fReaders == 0` and returns from `WriteLock`. -/
theorem inv_leave {σ : System} (hi : Inv σ) (t : Thread) (k : Option TReentrantRWLockState)
    (hp : σ.pending t = some ⟨.writeLockReaders, k⟩) (hz : σ.lock.fReaders = 0) :
    Inv (σ.put (leaveLock σ.lock t) t none) := by
  have hin : inWriteLock (σ.pending t) = true := by rw [hp]; rfl
  obtain ⟨_, hcl, _, _⟩ := hi.pend t _ hp
  obtain ⟨hw, hm⟩ := hcl rfl
  have hall : ∀ u, σ.contrib u = 0 := by
    have h := hi.sum
    rw [hz] at h
    exact SumOver_zero h (contrib_nonneg hi)
  refine ⟨?_, ?_, hi.nonneg, hi.readerRes, ?_, hi.noWriter, ?_, hi.tokens⟩
  · apply inv_sum_put hi (leaveLock σ.lock t) t _ (fun _ _ => rfl)
    rw [put_contrib_same, contrib_of_writing hin]
    simp [leaveLock, inWriteLock, localReaders, RecurseCounts.GetLocalReadersCount]
  · apply inv_queue_put hi
    rw [put_queued_same, queued_of_writing hin]
    simp [leaveLock, inWriteLock]
  · intro _
    obtain ⟨h1, w, hw1, hw2, _⟩ := hi.writer hw
    refine ⟨h1, w, hw1, hw2, ?_⟩
    intro _ u hu
    have htw : t = w := by
      by_contra hne
      rw [hw2 t hne] at hm
      cases hm
    subst htw
    rw [put_contrib_other σ (leaveLock σ.lock t) t _ hu rfl]
    exact hall u
  · intro u pd hpd
    by_cases hut : u = t
    · subst hut
      rw [put_pending_same] at hpd
      cases hpd
    · rw [put_pending_other _ _ _ _ hut] at hpd
      exact hi.pend u pd hpd

/-- A completed `ReadLock` by thread `t`, called afresh or continued from its wait. -/
theorem inv_bump {σ : System} (hi : Inv σ) (t : Thread)
    (hp : inWriteLock (σ.pending t) = false)
    (hnb : ¬(σ.lock.fWriter = true ∧ σ.lock.fRecurseCounts.fIsWriter t = false ∧
      σ.lock.fRecurseCounts.fReadersCount t = 0)) :
    Inv (σ.put (bumpLock σ.lock t) t none) := by
  have hcnt : ∀ u, u ≠ t → (bumpLock σ.lock t).fRecurseCounts.fReadersCount u =
      σ.lock.fRecurseCounts.fReadersCount u := by
    intro u hu
    simp [bumpLock, RecurseCounts.SetLocalReadersCount, Function.update_noteq hu]
  refine ⟨?_, ?_, ?_, hi.readerRes, ?_, hi.noWriter, ?_, hi.tokens⟩
  · apply inv_sum_put hi (bumpLock σ.lock t) t _ hcnt
    rw [put_contrib_same, contrib_of_idle hp]
    simp [bumpLock, inWriteLock, localReaders, RecurseCounts.GetLocalReadersCount,
      RecurseCounts.SetLocalReadersCount]
    ring
  · apply inv_queue_put hi
    rw [put_queued_same, queued_of_idle hp]
    simp [bumpLock, inWriteLock]
  · intro u
    by_cases hut : u = t
    · subst hut
      have := hi.nonneg u
      simp only [System.put, bumpLock, RecurseCounts.SetLocalReadersCount, localReaders,
        RecurseCounts.GetLocalReadersCount, Function.update_same]
      omega
    · simp only [System.put]
      rw [hcnt u hut]
      exact hi.nonneg u
  · intro hw
    have hw0 : σ.lock.fWriter = true := hw
    obtain ⟨h1, w, hw1, hw2, hw3⟩ := hi.writer hw0
    refine ⟨h1, w, hw1, hw2, ?_⟩
    intro hpw u hu
    by_cases hwt : w = t
    · subst hwt
      have hpw0 : σ.pending w = none := by
        cases hpd : σ.pending w with
        | none => rfl
        | some pd =>
          exfalso
          obtain ⟨_, _, c, _⟩ := hi.pend w pd hpd
          have hpt : pd.point = WaitPoint.readLockWriter := by
            rw [hpd] at hp
            simpa [inWriteLock] using hp
          rw [c hpt] at hw1
          cases hw1
      rw [put_contrib_other σ (bumpLock σ.lock w) w _ hu (hcnt u hu)]
      exact hw3 hpw0 u hu
    · rw [put_pending_other _ _ _ _ hwt] at hpw
      by_cases hut : u = t
      · subst hut
        exfalso
        apply hnb
        have h0 := hw3 hpw u hu
        rw [contrib_of_idle hp] at h0
        exact ⟨hw0, hw2 u hu, h0⟩
      · rw [put_contrib_other σ (bumpLock σ.lock t) t _ hut (hcnt u hut)]
        exact hw3 hpw u hu
  · intro u pd hpd
    by_cases hut : u = t
    · subst hut
      rw [put_pending_same] at hpd
      cases hpd
    · rw [put_pending_other _ _ _ _ hut] at hpd
      obtain ⟨a, b, c, d⟩ := hi.pend u pd hpd
      refine ⟨a, b, c, ?_⟩
      intro p hp1
      obtain ⟨d1, d2, d3, d4⟩ := d p hp1
      refine ⟨d1, d2, ?_, d4⟩
      simp only [System.put]
      rw [hcnt u hut]
      exact d3

/-- Line 95: thread `t` is suspended in `ReadLock` on a foreign writer. -/
theorem inv_waitRead {σ : System} (hi : Inv σ) (t : Thread)
    (k : Option TReentrantRWLockState) (hp : σ.pending t = none)
    (hb : σ.lock.fRecurseCounts.fIsWriter t = false ∧
      σ.lock.fRecurseCounts.fReadersCount t = 0)
    (hk : ∀ p, k = some p → TokenOK p ∧ p.fReadersCountLoc = t) :
    Inv (σ.put σ.lock t (some ⟨.readLockWriter, k⟩)) := by
  have hidle : inWriteLock (σ.pending t) = false := by rw [hp]; rfl
  refine ⟨?_, ?_, hi.nonneg, hi.readerRes, ?_, hi.noWriter, ?_, hi.tokens⟩
  · apply inv_sum_put hi σ.lock t _ (fun _ _ => rfl)
    rw [put_contrib_same, contrib_of_idle hidle]
    simp [inWriteLock]
  · apply inv_queue_put hi
    rw [put_queued_same, queued_of_idle hidle]
    simp [inWriteLock]
  · intro hw
    have hw0 : σ.lock.fWriter = true := hw
    obtain ⟨h1, w, hw1, hw2, hw3⟩ := hi.writer hw0
    refine ⟨h1, w, hw1, hw2, ?_⟩
    intro hpw u hu
    have hwt : w ≠ t := by
      intro e
      subst e
      rw [hb.1] at hw1
      cases hw1
    rw [put_pending_other _ _ _ _ hwt] at hpw
    by_cases hut : u = t
    · subst hut
      rw [put_contrib_same]
      simp [inWriteLock, hb.2]
    · rw [put_contrib_other σ σ.lock t _ hut rfl]
      exact hw3 hpw u hu
  · intro u pd hpd
    by_cases hut : u = t
    · subst hut
      rw [put_pending_same] at hpd
      injection hpd with hpd
      subst hpd
      refine ⟨by simp, by simp, fun _ => hb.1, ?_⟩
      intro p hp1
      simp only at hp1
      obtain ⟨a, b⟩ := hk p hp1
      exact ⟨a, b, hb.2, fun h => absurd rfl h⟩
    · rw [put_pending_other _ _ _ _ hut] at hpd
      exact hi.pend u pd hpd

/-- A step of a thread `t` that is not suspended and changes, among the read counts, only
its own: the two sums, the sign of the counts and the reader reservation are kept. -/
theorem inv_slot {σ : System} (hi : Inv σ) (t : Thread) (hp : σ.pending t = none)
    (s : TReentrantRWLock) (v : Int) (hv : 0 ≤ v)
    (hc : s.fRecurseCounts.fReadersCount =
      Function.update σ.lock.fRecurseCounts.fReadersCount t v)
    (hR : s.fReaders = σ.lock.fReaders - σ.lock.fRecurseCounts.fReadersCount t + v)
    (hQ : s.fWriterReservation = σ.lock.fWriterReservation)
    (hres : s.fReaderReservation = σ.lock.fReaderReservation) :
    SumOver (σ.put s t none).contrib (σ.put s t none).lock.fReaders ∧
    SumOver (σ.put s t none).queued (σ.put s t none).lock.fWriterReservation ∧
    (∀ u, 0 ≤ (σ.put s t none).lock.fRecurseCounts.fReadersCount u) ∧
    (σ.put s t none).lock.fReaderReservation = 0 := by
  have hidle : inWriteLock (σ.pending t) = false := by rw [hp]; rfl
  refine ⟨?_, ?_, ?_, ?_⟩
  · apply inv_sum_put hi s t none
    · intro u hu
      rw [hc, Function.update_noteq hu]
    · rw [put_contrib_same, contrib_of_idle hidle, hR, hc]
      simp [inWriteLock]
  · apply inv_queue_put hi
    rw [put_queued_same, queued_of_idle hidle, hQ]
    simp [inWriteLock]
  · intro u
    simp only [System.put]
    rw [hc]
    by_cases hu : u = t
    · subst hu
      rw [Function.update_same]
      exact hv
    · rw [Function.update_noteq hu]
      exact hi.nonneg u
  · simp only [System.put]
    rw [hres]
    exact hi.readerRes

/-- A step of a thread `t` that is not suspended and changes, among the read counts and the
writer marks, only its own: what the invariant records about the suspended calls is kept,
provided `fWriter` can only be cleared by the thread that is marked. -/
theorem inv_pend_put {σ : System} (hi : Inv σ) (t : Thread) (hp : σ.pending t = none)
    (s : TReentrantRWLock)
    (hc : ∀ u, u ≠ t →
      s.fRecurseCounts.fReadersCount u = σ.lock.fRecurseCounts.fReadersCount u)
    (hm : ∀ u, u ≠ t → s.fRecurseCounts.fIsWriter u = σ.lock.fRecurseCounts.fIsWriter u)
    (hW : σ.lock.fWriter = true →
      s.fWriter = true ∨ σ.lock.fRecurseCounts.fIsWriter t = true) :
    ∀ u pd, (σ.put s t none).pending u = some pd →
      pd.point ≠ WaitPoint.writeLockReservation ∧
      (pd.point = WaitPoint.writeLockReaders →
        (σ.put s t none).lock.fWriter = true ∧
        (σ.put s t none).lock.fRecurseCounts.fIsWriter u = true) ∧
      (pd.point = WaitPoint.readLockWriter →
        (σ.put s t none).lock.fRecurseCounts.fIsWriter u = false) ∧
      (∀ p, pd.restoring = some p →
        TokenOK p ∧ p.fReadersCountLoc = u ∧
        (σ.put s t none).lock.fRecurseCounts.fReadersCount u = 0 ∧
        (pd.point ≠ WaitPoint.readLockWriter → p.fIsWriter = true)) := by
  intro u pd hpd
  have hut : u ≠ t := by
    intro e
    subst e
    rw [put_pending_same] at hpd
    cases hpd
  rw [put_pending_other _ _ _ _ hut] at hpd
  obtain ⟨a, b, c, d⟩ := hi.pend u pd hpd
  simp only [System.put]
  refine ⟨a, ?_, ?_, ?_⟩
  · intro hpt
    obtain ⟨b1, b2⟩ := b hpt
    rw [hm u hut]
    refine ⟨?_, b2⟩
    rcases hW b1 with h | h
    · exact h
    · exfalso
      obtain ⟨_, w, _, hw2, _⟩ := hi.writer b1
      have h1 : t = w := by
        by_contra hne
        rw [hw2 t hne] at h
        cases h
      have h2 : u = w := by
        by_contra hne
        rw [hw2 u hne] at b2
        cases b2
      exact hut (h2.trans h1.symm)
  · intro hpt
    rw [hm u hut]
    exact c hpt
  · intro p hp1
    obtain ⟨d1, d2, d3, d4⟩ := d p hp1
    rw [hc u hut]
    exact ⟨d1, d2, d3, d4⟩

/-- The writer clause of the invariant after a step of a thread `t` that is not suspended,
keeps `fWriter`, the write depth (or another depth that is at least one) and the marks, and
changes only its own read count, to a value that is zero unless `t` is the writer or
already held a read lock. -/
theorem inv_writer_slot {σ : System} (hi : Inv σ) (t : Thread) (hp : σ.pending t = none)
    (s : TReentrantRWLock) (hw : s.fWriter = σ.lock.fWriter)
    (hwr : s.fWriter = true → 1 ≤ s.fRecurseCounts.fWriteRecurse)
    (hm : s.fRecurseCounts.fIsWriter = σ.lock.fRecurseCounts.fIsWriter)
    (hc : ∀ u, u ≠ t →
      s.fRecurseCounts.fReadersCount u = σ.lock.fRecurseCounts.fReadersCount u)
    (hz : σ.lock.fRecurseCounts.fIsWriter t = false →
      σ.lock.fRecurseCounts.fReadersCount t = 0 → s.fRecurseCounts.fReadersCount t = 0) :
    (σ.put s t none).lock.fWriter = true →
      1 ≤ (σ.put s t none).lock.fRecurseCounts.fWriteRecurse ∧
      ∃ w, (σ.put s t none).lock.fRecurseCounts.fIsWriter w = true ∧
        (∀ u, u ≠ w → (σ.put s t none).lock.fRecurseCounts.fIsWriter u = false) ∧
        ((σ.put s t none).pending w = none → ∀ u, u ≠ w → (σ.put s t none).contrib u = 0) := by
  intro hw1
  have hw0 : σ.lock.fWriter = true := by rw [← hw]; exact hw1
  obtain ⟨_, w, hw2, hw3, hw4⟩ := hi.writer hw0
  refine ⟨hwr hw1, w, ?_, ?_, ?_⟩
  · simp only [System.put]
    rw [hm]
    exact hw2
  · intro u hu
    simp only [System.put]
    rw [hm]
    exact hw3 u hu
  · intro hpw u hu
    have hpw0 : σ.pending w = none := by
      by_cases hwt : w = t
      · rw [hwt]
        exact hp
      · rwa [put_pending_other _ _ _ _ hwt] at hpw
    by_cases hut : u = t
    · subst hut
      rw [put_contrib_same]
      have h0 := hw4 hpw0 u hu
      rw [contrib_of_idle (by rw [hp]; rfl)] at h0
      simp [inWriteLock, hz (hw3 u hu) h0]
    · rw [put_contrib_other σ s t _ hut (hc u hut)]
      exact hw4 hpw0 u hu

/-- `ReadUnLock` by a thread that holds a read lock, with a null hint or its own. -/
theorem inv_readUnLock {σ : System} (hi : Inv σ) (t : Thread) (hint : Hint)
    (hp : σ.pending t = none) (hpos : 0 < σ.lock.localReaders t)
    (hh : hint = none ∨ hint = some t) : Inv (σ.setLock (ReadUnLock σ.lock t hint)) := by
  have hg : hint.getD t = t := by rcases hh with h | h <;> simp [h]
  simp only [localReaders, RecurseCounts.GetLocalReadersCount] at hpos
  rw [setLock_eq_put _ _ t hp, ReadUnLock_eq, hg]
  have hc : ∀ u, u ≠ t →
      ({ σ.lock with
          fReaders := σ.lock.fReaders - 1
          fRecurseCounts :=
            σ.lock.fRecurseCounts.SetLocalReadersCount t (σ.lock.localReaders t - 1) } :
        TReentrantRWLock).fRecurseCounts.fReadersCount u =
      σ.lock.fRecurseCounts.fReadersCount u := by
    intro u hu
    simp [RecurseCounts.SetLocalReadersCount, Function.update_noteq hu]
  obtain ⟨a, b, c, d⟩ := inv_slot hi t hp
    ({ σ.lock with
        fReaders := σ.lock.fReaders - 1
        fRecurseCounts :=
          σ.lock.fRecurseCounts.SetLocalReadersCount t (σ.lock.localReaders t - 1) })
    (σ.lock.fRecurseCounts.fReadersCount t - 1)
    (by omega) rfl (by simp only; ring) rfl rfl
  refine ⟨a, b, c, d, ?_, hi.noWriter, ?_, hi.tokens⟩
  · exact inv_writer_slot hi t hp _ rfl (fun h => (hi.writer h).1) rfl hc
      (fun _ h0 => by omega)
  · exact inv_pend_put hi t hp _ hc (fun _ _ => rfl) (fun h => Or.inl h)

/-- `WriteUnLock` when the write lock is held: no diagnostic, and the two cases of line 214. -/
theorem WriteUnLock_held {s : TReentrantRWLock} (t : Thread) (hw : s.fWriter = true)
    (hne : s.fRecurseCounts.fWriteRecurse ≠ 0) :
    WriteUnLock s t =
      if s.fRecurseCounts.fWriteRecurse - 1 = 0 then
        ({ s with
            fWriter := false
            fRecurseCounts :=
              { fWriteRecurse := 0
                fReadersCount := s.fRecurseCounts.fReadersCount
                fIsWriter := Function.update s.fRecurseCounts.fIsWriter t false } }, none)
      else
        ({ s with
            fRecurseCounts :=
              { fWriteRecurse := s.fRecurseCounts.fWriteRecurse - 1
                fReadersCount := s.fRecurseCounts.fReadersCount
                fIsWriter := s.fRecurseCounts.fIsWriter } }, none) := by
  unfold WriteUnLock
  by_cases hz : s.fRecurseCounts.fWriteRecurse - 1 = 0
  · simp [hw, hne, hz, RecurseCounts.DecrementWriteCount, RecurseCounts.ResetIsWriter]
  · simp only [hw, hne, hz, RecurseCounts.DecrementWriteCount, Bool.not_true, Bool.false_or,
      decide_False, if_false, Bool.false_eq_true, Prod.mk.injEq, and_true]

/-- `WriteUnLock` by the thread that holds the write lock. -/
theorem inv_writeUnLock {σ : System} (hi : Inv σ) (t : Thread) (hp : σ.pending t = none)
    (hw : σ.lock.fWriter = true) (ht : σ.lock.isWriter t = true) :
    Inv (σ.setLock (WriteUnLock σ.lock t).1) := by
  obtain ⟨h1, w, hw1, hw2, hw3⟩ := hi.writer hw
  simp only [isWriter, RecurseCounts.IsNotCurrentWriter, Bool.not_not] at ht
  have htw : t = w := by
    by_contra hne
    rw [hw2 t hne] at ht
    cases ht
  subst htw
  have hne : σ.lock.fRecurseCounts.fWriteRecurse ≠ 0 := by omega
  rw [setLock_eq_put _ _ t hp, WriteUnLock_held t hw hne]
  split
  · obtain ⟨a, b, c, d⟩ := inv_slot hi t hp
      ({ σ.lock with
          fWriter := false
          fRecurseCounts :=
            { fWriteRecurse := 0
              fReadersCount := σ.lock.fRecurseCounts.fReadersCount
              fIsWriter := Function.update σ.lock.fRecurseCounts.fIsWriter t false } })
      (σ.lock.fRecurseCounts.fReadersCount t) (hi.nonneg t)
      (by simp) (by simp) rfl rfl
    refine ⟨a, b, c, d, ?_, ?_, ?_, hi.tokens⟩
    · intro h
      cases h
    · intro _
      refine ⟨rfl, ?_⟩
      intro u
      by_cases hu : u = t
      · subst hu
        simp [System.put]
      · simp only [System.put, Function.update_noteq hu]
        exact hw2 u hu
    · exact inv_pend_put hi t hp _ (fun _ _ => rfl)
        (fun u hu => by simp [System.put, Function.update_noteq hu]) (fun _ => Or.inr ht)
  · rename_i hz
    obtain ⟨a, b, c, d⟩ := inv_slot hi t hp
      ({ σ.lock with
          fRecurseCounts :=
            { fWriteRecurse := σ.lock.fRecurseCounts.fWriteRecurse - 1
              fReadersCount := σ.lock.fRecurseCounts.fReadersCount
              fIsWriter := σ.lock.fRecurseCounts.fIsWriter } })
      (σ.lock.fRecurseCounts.fReadersCount t) (hi.nonneg t)
      (by simp) (by simp) rfl rfl
    refine ⟨a, b, c, d, ?_, ?_, ?_, hi.tokens⟩
    · refine inv_writer_slot hi t hp _ rfl (fun _ => ?_) rfl (fun _ _ => rfl)
        (fun _ h => h)
      show 1 ≤ σ.lock.fRecurseCounts.fWriteRecurse - 1
      omega
    · intro h
      have h0 : σ.lock.fWriter = false := h
      rw [hw] at h0
      cases h0
    · exact inv_pend_put hi t hp _ (fun _ _ => rfl) (fun _ _ => rfl) (fun h => Or.inl h)

/-- `Reset` by a thread that is not suspended. -/
theorem inv_save {σ : System} (hi : Inv σ) (t : Thread) (hp : σ.pending t = none)
    (hfit : σ.lock.localReaders t < 2147483648) :
    Inv { σ with lock := (Reset σ.lock t).1, tokens := (Reset σ.lock t).2 :: σ.tokens } := by
  have hfit1 : intOfSizeT (σ.lock.localReaders t) = σ.lock.localReaders t :=
    intOfSizeT_fits (le_trans (by decide) (hi.nonneg t)) hfit
  have hput : ∀ s tok, ({ σ with lock := s, tokens := tok :: σ.tokens } : System) =
      { σ.put s t none with tokens := tok :: σ.tokens } := by
    intro s tok
    simp only [System.put]
    rw [update_self_of_eq _ _ _ hp]
  rw [hput, Reset_eq_fits _ _ hfit1]
  split
  · rename_i hc
    obtain ⟨hw, ht⟩ := hc
    simp only [isWriter, RecurseCounts.IsNotCurrentWriter, Bool.not_not] at ht
    obtain ⟨h1, w, hw1, hw2, hw3⟩ := hi.writer hw
    have htw : t = w := by
      by_contra hne
      rw [hw2 t hne] at ht
      cases ht
    subst htw
    obtain ⟨a, b, c, d⟩ := inv_slot hi t hp
      ({ σ.lock with
          fReaders := σ.lock.fReaders - σ.lock.localReaders t
          fWriter := false
          fRecurseCounts :=
            { fWriteRecurse := 0
              fReadersCount := Function.update σ.lock.fRecurseCounts.fReadersCount t 0
              fIsWriter := Function.update σ.lock.fRecurseCounts.fIsWriter t false } })
      0 (le_refl 0) rfl
      (by simp [localReaders, RecurseCounts.GetLocalReadersCount]) rfl rfl
    refine ⟨a, b, c, d, ?_, ?_, ?_, ?_⟩
    · intro h
      cases h
    · intro _
      refine ⟨rfl, ?_⟩
      intro u
      by_cases hu : u = t
      · subst hu
        simp [System.put]
      · simp only [System.put, Function.update_noteq hu]
        exact hw2 u hu
    · exact inv_pend_put hi t hp _ (fun u hu => by simp [System.put, Function.update_noteq hu])
        (fun u hu => by simp [System.put, Function.update_noteq hu]) (fun _ => Or.inr ht)
    · intro p hp1
      rcases List.mem_cons.1 hp1 with rfl | hp1
      · exact ⟨hi.nonneg t, fun _ => h1⟩
      · exact hi.tokens p hp1
  · have hc : ∀ u, u ≠ t →
        ({ σ.lock with
            fReaders := σ.lock.fReaders - σ.lock.localReaders t
            fRecurseCounts := σ.lock.fRecurseCounts.SetLocalReadersCount t 0 } :
          TReentrantRWLock).fRecurseCounts.fReadersCount u =
        σ.lock.fRecurseCounts.fReadersCount u := by
      intro u hu
      simp [RecurseCounts.SetLocalReadersCount, Function.update_noteq hu]
    obtain ⟨a, b, c, d⟩ := inv_slot hi t hp
      ({ σ.lock with
          fReaders := σ.lock.fReaders - σ.lock.localReaders t
          fRecurseCounts := σ.lock.fRecurseCounts.SetLocalReadersCount t 0 })
      0 (le_refl 0) rfl
      (by simp [localReaders, RecurseCounts.GetLocalReadersCount]) rfl rfl
    refine ⟨a, b, c, d, ?_, hi.noWriter, ?_, ?_⟩
    · exact inv_writer_slot hi t hp _ rfl (fun h => (hi.writer h).1) rfl hc
        (fun _ _ => by simp [System.put, RecurseCounts.SetLocalReadersCount])
    · exact inv_pend_put hi t hp _ hc (fun _ _ => rfl) (fun h => Or.inl h)
    · intro p hp1
      rcases List.mem_cons.1 hp1 with rfl | hp1
      · exact ⟨hi.nonneg t, fun h => (by cases h)⟩
      · exact hi.tokens p hp1

/-- Dropping a token keeps the invariant. -/
theorem inv_erase {σ : System} (hi : Inv σ) (p : TReentrantRWLockState) :
    Inv { σ with tokens := σ.tokens.erase p } :=
  ⟨hi.sum, hi.queue, hi.nonneg, hi.readerRes, hi.writer, hi.noWriter, hi.pend,
    fun q hq => hi.tokens q (List.mem_of_mem_erase hq)⟩

/-- Lines 301-305: the fix-up of `Restore` after its `WriteLock` has returned. -/
theorem inv_fixWriter {σ : System} (hi : Inv σ) (t : Thread) (p : TReentrantRWLockState)
    (hp : σ.pending t = none) (hw : σ.lock.fWriter = true)
    (hm : σ.lock.fRecurseCounts.fIsWriter t = true)
    (hl : σ.lock.fRecurseCounts.fReadersCount t = 0) (hok : TokenOK p)
    (hisW : p.fIsWriter = true) (hloc : p.fReadersCountLoc = t) :
    Inv (σ.put (Restore_fixWriter p σ.lock) t none) := by
  subst hloc
  have hc : ∀ u, u ≠ p.fReadersCountLoc →
      (Restore_fixWriter p σ.lock).fRecurseCounts.fReadersCount u =
        σ.lock.fRecurseCounts.fReadersCount u := by
    intro u hu
    simp [Restore_fixWriter, RecurseCounts.SetLocalReadersCount, Function.update_noteq hu]
  obtain ⟨a, b, c, d⟩ := inv_slot hi p.fReadersCountLoc hp (Restore_fixWriter p σ.lock)
    p.fReadersCount hok.1 rfl (by simp only [Restore_fixWriter, hl]; ring) rfl rfl
  refine ⟨a, b, c, d, ?_, ?_, ?_, hi.tokens⟩
  · exact inv_writer_slot hi _ hp (Restore_fixWriter p σ.lock) rfl (fun _ => hok.2 hisW) rfl
      hc (fun h => by rw [hm] at h; cases h)
  · intro h
    have h0 : σ.lock.fWriter = false := h
    rw [hw] at h0
    cases h0
  · exact inv_pend_put hi _ hp (Restore_fixWriter p σ.lock) hc (fun _ _ => rfl)
      (fun h => Or.inl h)

/-- Lines 308-311: the fix-up of `Restore` after its `ReadLock` has returned. -/
theorem inv_fixReader {σ : System} (hi : Inv σ) (t : Thread) (p : TReentrantRWLockState)
    (hp : σ.pending t = none) (hl : σ.lock.fRecurseCounts.fReadersCount t = 1)
    (hok : TokenOK p) (hloc : p.fReadersCountLoc = t) :
    Inv (σ.put (Restore_fixReader p σ.lock) t none) := by
  subst hloc
  have hc : ∀ u, u ≠ p.fReadersCountLoc →
      (Restore_fixReader p σ.lock).fRecurseCounts.fReadersCount u =
        σ.lock.fRecurseCounts.fReadersCount u := by
    intro u hu
    simp [Restore_fixReader, RecurseCounts.SetLocalReadersCount, Function.update_noteq hu]
  obtain ⟨a, b, c, d⟩ := inv_slot hi p.fReadersCountLoc hp (Restore_fixReader p σ.lock)
    p.fReadersCount hok.1 rfl (by simp only [Restore_fixReader, hl]; ring) rfl rfl
  refine ⟨a, b, c, d, ?_, hi.noWriter, ?_, hi.tokens⟩
  · exact inv_writer_slot hi _ hp (Restore_fixReader p σ.lock) rfl
      (fun h => (hi.writer h).1) rfl hc (fun _ h => by rw [hl] at h; cases h)
  · exact inv_pend_put hi _ hp (Restore_fixReader p σ.lock) hc (fun _ _ => rfl)
      (fun h => Or.inl h)

/-- A `WriteLock` that returns, with the fix-up of `Restore` if it was called from there. -/
theorem inv_finishWrite {σ : System} (hi : Inv σ) (t : Thread)
    (k : Option TReentrantRWLockState)
    (hp : σ.pending t = some ⟨.writeLockReaders, k⟩) (hz : σ.lock.fReaders = 0) :
    Inv (σ.put (fixWriterOpt k (leaveLock σ.lock t)) t none) := by
  have h3 := inv_leave hi t k hp hz
  obtain ⟨_, hcl, _, hrest⟩ := hi.pend t _ hp
  obtain ⟨hw, hm⟩ := hcl rfl
  cases k with
  | none => exact h3
  | some p =>
    obtain ⟨r1, r2, r3, r4⟩ := hrest p rfl
    have h4 := inv_fixWriter h3 t p (put_pending_same _ _ _ _) hw hm r3 r1
      (r4 (by simp)) r2
    rw [put_put] at h4
    exact h4

/-- A `ReadLock` that returns, with the fix-up of `Restore` if it was called from there. -/
theorem inv_finishRead {σ : System} (hi : Inv σ) (t : Thread)
    (k : Option TReentrantRWLockState) (hp : inWriteLock (σ.pending t) = false)
    (hnb : ¬(σ.lock.fWriter = true ∧ σ.lock.fRecurseCounts.fIsWriter t = false ∧
      σ.lock.fRecurseCounts.fReadersCount t = 0))
    (hk : ∀ p, k = some p → TokenOK p ∧ p.fReadersCountLoc = t ∧
      σ.lock.fRecurseCounts.fReadersCount t = 0) :
    Inv (σ.put (fixReaderOpt k (bumpLock σ.lock t)) t none) := by
  have h3 := inv_bump hi t hp hnb
  cases k with
  | none => exact h3
  | some p =>
    obtain ⟨r1, r2, r3⟩ := hk p rfl
    have hl : (σ.put (bumpLock σ.lock t) t none).lock.fRecurseCounts.fReadersCount t = 1 := by
      simp [System.put, bumpLock, RecurseCounts.SetLocalReadersCount, localReaders,
        RecurseCounts.GetLocalReadersCount, r3]
    have h4 := inv_fixReader h3 t p (put_pending_same _ _ _ _) hl r1 r2
    rw [put_put] at h4
    exact h4

/-- A call of `WriteLock` by a thread that is not suspended, plain or from `Restore`. -/
theorem inv_call_write {σ : System} (hi : Inv σ) (t : Thread)
    (k : Option TReentrantRWLockState) (hp : σ.pending t = none)
    (hk : ∀ p, k = some p → TokenOK p ∧ p.fReadersCountLoc = t ∧
      σ.lock.fRecurseCounts.fReadersCount t = 0 ∧ p.fIsWriter = true) :
    (∀ s h, WriteLock σ.lock t = .done s h → Inv (σ.put (fixWriterOpt k s) t none)) ∧
    (∀ s w, WriteLock σ.lock t = .waits s w → Inv (σ.put s t (some ⟨w, k⟩))) := by
  have h1 := inv_enter hi t k hp hk
  rw [WriteLock_cases]
  by_cases hf : σ.lock.fWriter = true ∧ σ.lock.isWriter t = false
  · rw [if_pos hf]
    refine ⟨fun s h e => (by cases e), fun s w e => ?_⟩
    injection e with e1 e2
    subst e1 e2
    exact h1
  rw [if_neg hf, if_neg (by simp [hi.readerRes])]
  have hc : (σ.put (enterLock σ.lock t) t (some ⟨.writeLockWriter, k⟩)).lock.fWriter = false ∨
      (σ.put (enterLock σ.lock t) t
        (some ⟨.writeLockWriter, k⟩)).lock.fRecurseCounts.fIsWriter t = true := by
    simp only [System.put, enterLock]
    simp only [isWriter, RecurseCounts.IsNotCurrentWriter, Bool.not_not, not_and,
      Bool.not_eq_false] at hf
    by_cases hw : σ.lock.fWriter = true
    · exact Or.inr (hf hw)
    · simp only [Bool.not_eq_true] at hw
      exact Or.inl hw
  have h2 := inv_claim h1 t k (put_pending_same _ _ _ _) hc
  rw [put_put] at h2
  by_cases hr : σ.lock.fReaders - σ.lock.localReaders t ≠ 0
  · rw [if_pos hr]
    refine ⟨fun s h e => (by cases e), fun s w e => ?_⟩
    injection e with e1 e2
    subst e1 e2
    exact h2
  · rw [if_neg hr]
    refine ⟨fun s h e => ?_, fun s w e => by cases e⟩
    injection e with e1 _
    subst e1
    have h3 := inv_finishWrite h2 t k (put_pending_same _ _ _ _)
      (by simpa [System.put, claimLock, enterLock] using hr)
    rw [put_put] at h3
    exact h3

/-- A call of `ReadLock` by a thread that is not suspended, plain or from `Restore`. -/
theorem inv_call_read {σ : System} (hi : Inv σ) (t : Thread)
    (k : Option TReentrantRWLockState) (hp : σ.pending t = none)
    (hk : ∀ p, k = some p → TokenOK p ∧ p.fReadersCountLoc = t ∧
      σ.lock.fRecurseCounts.fReadersCount t = 0) :
    (∀ s h, ReadLock σ.lock t = .done s h → Inv (σ.put (fixReaderOpt k s) t none)) ∧
    (∀ s w, ReadLock σ.lock t = .waits s w → Inv (σ.put s t (some ⟨w, k⟩))) := by
  rw [ReadLock_cases]
  by_cases hb : σ.lock.fWriter = true ∧ σ.lock.isWriter t = false ∧ σ.lock.localReaders t = 0
  · rw [if_pos hb]
    refine ⟨fun s h e => (by cases e), fun s w e => ?_⟩
    injection e with e1 e2
    subst e1 e2
    simp only [isWriter, RecurseCounts.IsNotCurrentWriter, Bool.not_eq_false',
      Bool.not_eq_true, localReaders, RecurseCounts.GetLocalReadersCount] at hb
    exact inv_waitRead hi t k hp ⟨by simpa using hb.2.1, hb.2.2⟩
      (fun p hp1 => ⟨(hk p hp1).1, (hk p hp1).2.1⟩)
  · rw [if_neg hb]
    refine ⟨fun s h e => ?_, fun s w e => by cases e⟩
    injection e with e1 _
    subst e1
    refine inv_finishRead hi t k (by rw [hp]; rfl) ?_ hk
    intro h
    apply hb
    simpa [isWriter, RecurseCounts.IsNotCurrentWriter, localReaders,
      RecurseCounts.GetLocalReadersCount] using h

/-- `ReadLock` contains no assertion. -/
theorem ReadLock_ne_assertFailed (s : TReentrantRWLock) (t : Thread) :
    ReadLock s t ≠ .assertFailed := by
  rw [ReadLock_eq]
  split <;> exact fun h => Outcome.noConfusion h

/-- `WriteLock` contains no assertion. -/
theorem WriteLock_ne_assertFailed (s : TReentrantRWLock) (t : Thread) :
    WriteLock s t ≠ .assertFailed := by
  rw [WriteLock_eq]
  split
  · exact fun h => Outcome.noConfusion h
  · split
    · exact fun h => Outcome.noConfusion h
    · split <;> exact fun h => Outcome.noConfusion h

/-- A fix-up of the state adds no assertion failure. -/
theorem andThen_done_ne_assertFailed {α β : Type} (o : Outcome α)
    (k : TReentrantRWLock → α → TReentrantRWLock) (b : β) (h : o ≠ .assertFailed) :
    (o.andThen fun s a => .done (k s a) b) ≠ .assertFailed := by
  cases o with
  | done s a => exact fun h => Outcome.noConfusion h
  | waits s w => exact fun h => Outcome.noConfusion h
  | assertFailed => exact absurd rfl h

/-- `Restore` of a token ends in an assertion failure exactly when the read counter the token
refers to is non-zero (line 294). -/
theorem Restore_assertFailed_iff (s : TReentrantRWLock) (t : Thread)
    (p : TReentrantRWLockState) :
    Restore s t (.rwState p) = .assertFailed ↔ s.localReaders p.fReadersCountLoc ≠ 0 := by
  simp only [Restore, localReaders]
  split
  · rename_i h
    exact ⟨fun _ => h, fun _ => rfl⟩
  · rename_i h
    refine ⟨fun hd => ?_, fun h1 => absurd h1 h⟩
    exfalso
    revert hd
    split
    · exact andThen_done_ne_assertFailed _ _ _ (WriteLock_ne_assertFailed s t)
    · split
      · exact andThen_done_ne_assertFailed _ _ _ (ReadLock_ne_assertFailed s t)
      · exact fun h => Outcome.noConfusion h

/-- The continuation of a suspended call. -/
theorem inv_cont {σ : System} (hi : Inv σ) (t : Thread) (pd : Pending)
    (hp : σ.pending t = some pd) :
    (∀ s h, resume pd.point σ.lock t = .done s h →
      Inv (σ.put (if pd.point = WaitPoint.readLockWriter then fixReaderOpt pd.restoring s
        else fixWriterOpt pd.restoring s) t none)) ∧
    (∀ s w, resume pd.point σ.lock t = .waits s w →
      Inv (σ.put s t (some ⟨w, pd.restoring⟩))) := by
  obtain ⟨point, k⟩ := pd
  have hsame : Inv (σ.put σ.lock t (some ⟨point, k⟩)) := by
    rw [put_self σ t _ hp]
    exact hi
  obtain ⟨hno, _, _, hrest⟩ := hi.pend t _ hp
  cases point with
  | readLockWriter =>
    simp only [if_true]
    rw [resume_readLockWriter]
    by_cases hw : σ.lock.fWriter = true
    · rw [if_pos hw]
      refine ⟨fun s h e => (by cases e), fun s w e => ?_⟩
      injection e with e1 e2
      subst e1 e2
      exact hsame
    · rw [if_neg hw]
      refine ⟨fun s h e => ?_, fun s w e => (by cases e)⟩
      injection e with e1 _
      subst e1
      refine inv_finishRead hi t k (by rw [hp]; rfl) (fun h => hw h.1) ?_
      intro p hp1
      obtain ⟨r1, r2, r3, _⟩ := hrest p hp1
      exact ⟨r1, r2, r3⟩
  | writeLockWriter =>
    simp only [if_false, reduceCtorEq]
    rw [resume_writeLockWriter]
    by_cases hw : σ.lock.fWriter = true
    · rw [if_pos hw]
      refine ⟨fun s h e => (by cases e), fun s w e => ?_⟩
      injection e with e1 e2
      subst e1 e2
      exact hsame
    · rw [if_neg hw, if_neg (by simp [hi.readerRes])]
      simp only [Bool.not_eq_true] at hw
      have h2 := inv_claim hi t k hp (Or.inl hw)
      by_cases hr : σ.lock.fReaders ≠ 0
      · rw [if_pos hr]
        refine ⟨fun s h e => (by cases e), fun s w e => ?_⟩
        injection e with e1 e2
        subst e1 e2
        exact h2
      · rw [if_neg hr]
        refine ⟨fun s h e => ?_, fun s w e => (by cases e)⟩
        injection e with e1 _
        subst e1
        have h3 := inv_finishWrite h2 t k (put_pending_same _ _ _ _)
          (by simpa [System.put, claimLock] using hr)
        rw [put_put] at h3
        exact h3
  | writeLockReservation => exact absurd rfl hno
  | writeLockReaders =>
    simp only [if_false, reduceCtorEq]
    rw [resume_writeLockReaders]
    by_cases hr : σ.lock.fReaders = 0
    · rw [if_pos hr]
      refine ⟨fun s h e => ?_, fun s w e => (by cases e)⟩
      injection e with e1 _
      subst e1
      exact inv_finishWrite hi t k hp hr
    · rw [if_neg hr]
      refine ⟨fun s h e => (by cases e), fun s w e => ?_⟩
      injection e with e1 e2
      subst e1 e2
      exact hsame

/-- Recording the outcome of a call followed by a fix-up of the state. -/
theorem settle_andThen {α β : Type} (σ : System) (t : Thread)
    (k : Option TReentrantRWLockState) (o : Outcome α)
    (f : TReentrantRWLock → TReentrantRWLock) (d : β) :
    σ.settle t k (o.andThen fun s _ => .done (f s) d) =
      match o with
      | .done s _ => σ.put (f s) t none
      | .waits s w => σ.put s t (some ⟨w, k⟩)
      | .assertFailed => σ := by
  cases o <;> rfl

/-- `resumeCall` as the continuation of the inner call followed by the fix-up of `Restore`. -/
theorem resumeCall_eq (pd : Pending) (s : TReentrantRWLock) (t : Thread) :
    resumeCall pd s t =
      (resume pd.point s t).andThen fun s _ =>
        .done (if pd.point = WaitPoint.readLockWriter then fixReaderOpt pd.restoring s
          else fixWriterOpt pd.restoring s) none := by
  obtain ⟨point, k⟩ := pd
  cases k with
  | none =>
    simp only [resumeCall, fixReaderOpt, fixWriterOpt, ite_self]
  | some p =>
    cases point <;> simp [resumeCall, Restore_resume, fixReaderOpt, fixWriterOpt]

/-- Every reachable state satisfies the invariant. -/
theorem reach_inv {σ : System} (h : Reach σ) : Inv σ := by
  induction h with
  | fresh =>
    refine ⟨⟨∅, fun _ _ => rfl, rfl⟩, ⟨∅, fun _ _ => rfl, rfl⟩, fun _ => le_refl 0, rfl, ?_,
      ?_, ?_, ?_⟩
    · intro h
      cases h
    · intro _
      exact ⟨rfl, fun _ => rfl⟩
    · intro u pd h
      cases h
    · intro p hp
      cases hp
  | @readLock σ t _ hp ih =>
    obtain ⟨h1, h2⟩ := inv_call_read ih t none hp (fun p e => by cases e)
    cases ho : ReadLock σ.lock t with
    | done s h => exact h1 s h ho
    | waits s w => exact h2 s w ho
    | assertFailed => exact ih
  | @readUnLock σ t hint _ hp hpos hh ih => exact inv_readUnLock ih t hint hp hpos hh
  | @writeLock σ t _ hp ih =>
    obtain ⟨h1, h2⟩ := inv_call_write ih t none hp (fun p e => by cases e)
    cases ho : WriteLock σ.lock t with
    | done s h => exact h1 s h ho
    | waits s w => exact h2 s w ho
    | assertFailed => exact ih
  | @writeUnLock σ t _ hp hw ht ih => exact inv_writeUnLock ih t hp hw ht
  | @save σ t _ hp hfit ih => exact inv_save ih t hp hfit
  | @restore σ t p _ hp hmem hloc hna ih =>
    have hok := ih.tokens p hmem
    have ih1 := inv_erase ih p
    have hl : σ.lock.fRecurseCounts.fReadersCount t = 0 := by
      by_contra hne
      apply hna
      rw [Restore_assertFailed_iff, hloc]
      exact hne
    simp only [Restore, RecurseCounts.GetLocalReadersCount, hloc, hl, ne_eq,
      not_true_eq_false, if_false]
    by_cases hW : p.fIsWriter = true
    · rw [if_pos hW]
      obtain ⟨h1, h2⟩ := inv_call_write ih1 t (some p) hp
        (fun q e => by injection e with e; subst e; exact ⟨hok, hloc, hl, hW⟩)
      rw [settle_andThen _ t (some p) (WriteLock σ.lock t) (Restore_fixWriter p) none]
      cases ho : WriteLock σ.lock t with
      | done s h => exact h1 s h ho
      | waits s w => exact h2 s w ho
      | assertFailed => exact ih1
    · rw [if_neg hW]
      by_cases hc : p.fReadersCount = 0
      · rw [if_neg (by simp [hc])]
        simp only [System.settle]
        have e := put_self { σ with tokens := σ.tokens.erase p } t none hp
        simp only at e
        rw [e]
        exact ih1
      · rw [if_pos hc]
        obtain ⟨h1, h2⟩ := inv_call_read ih1 t (some p) hp
          (fun q e => by injection e with e; subst e; exact ⟨hok, hloc, hl⟩)
        rw [settle_andThen _ t (some p) (ReadLock σ.lock t) (Restore_fixReader p) none]
        cases ho : ReadLock σ.lock t with
        | done s h => exact h1 s h ho
        | waits s w => exact h2 s w ho
        | assertFailed => exact ih1
  | @resume σ t pd _ hp ih =>
    obtain ⟨h1, h2⟩ := inv_cont ih t pd hp
    rw [resumeCall_eq, settle_andThen]
    cases ho : resume pd.point σ.lock t with
    | done s h => exact h1 s h ho
    | waits s w => exact h2 s w ho
    | assertFailed => exact ih

/-! ## Properties of the lock -/

/-- Exclusion where calls are interleaved at their waits only (`Reach`; the interleaving at
every access is treated in the last part of the file). In every state reached from a fresh
lock by calls in which every ReadUnLock is by a thread that holds a read lock (with a null
hint or its own), every WriteUnLock by the thread that holds the write lock, every Reset by
a thread whose read count is below 2^31 and every Restore by the thread whose Reset produced
the token, and in which no thread is suspended in a call: if fWriter is set then there is a
thread w marked as the writer, every other thread is unmarked and has read count zero, and
fReaders equals the read count of w. -/
theorem reach_writer_excludes_readers (σ : System) (h : Reach σ) (hq : σ.Quiescent)
    (hw : σ.lock.fWriter = true) :
    ∃ w, σ.lock.isWriter w = true ∧
      (∀ u, u ≠ w → σ.lock.isWriter u = false ∧ σ.lock.localReaders u = 0) ∧
      σ.lock.fReaders = σ.lock.localReaders w := by
  have hi := reach_inv h
  obtain ⟨_, w, hw1, hw2, hw3⟩ := hi.writer hw
  have hz : ∀ u, u ≠ w → σ.lock.fRecurseCounts.fReadersCount u = 0 := by
    intro u hu
    have h0 := hw3 (hq w) u hu
    rwa [contrib_of_idle (by rw [hq u]; rfl)] at h0
  have hcontrib : σ.contrib = σ.lock.fRecurseCounts.fReadersCount := by
    funext u
    exact contrib_of_idle (by rw [hq u]; rfl)
  refine ⟨w, by simp [isWriter, RecurseCounts.IsNotCurrentWriter, hw1], ?_, ?_⟩
  · intro u hu
    simp [isWriter, RecurseCounts.IsNotCurrentWriter, localReaders,
      RecurseCounts.GetLocalReadersCount, hw2 u hu, hz u hu]
  · have hs := hi.sum
    rw [hcontrib] at hs
    exact sum_eq_of_others_zero hs w hz

/-- An instance of the exclusion over `Reach` (scenario 2 of the spec, with a read lock kept
by the writer): thread 1 takes a read lock, thread 0 takes a read lock, thread 1 calls
WriteLock and is suspended, thread 0 releases its read lock, and the WriteLock of thread 1
is continued and returns. In the state reached no call is in flight, thread 1 is the writer,
thread 0 holds no read lock and fReaders is the read count of thread 1. -/
theorem reach_writer_excludes_readers_witness :
    Reach handoff ∧ handoff.Quiescent ∧ handoff.lock.fWriter = true ∧
      handoff.lock.localReaders 1 = 1 ∧
      ∃ w, handoff.lock.isWriter w = true ∧
        (∀ u, u ≠ w → handoff.lock.isWriter u = false ∧ handoff.lock.localReaders u = 0) ∧
        handoff.lock.fReaders = handoff.lock.localReaders w := by
  have hr : Reach handoff :=
    @Reach.resume _ 1 ⟨.writeLockReaders, none⟩
      (@Reach.readUnLock _ 0 (some 0)
        (@Reach.writeLock _ 1
          (@Reach.readLock _ 0 (@Reach.readLock _ 1 Reach.fresh rfl) rfl) rfl)
        rfl (by decide) (Or.inr rfl))
      rfl
  have hq : handoff.Quiescent := by
    intro t
    by_cases h1 : t = 1
    · subst h1
      rfl
    · by_cases h0 : t = 0
      · subst h0
        rfl
      · simp [handoff, System.settle, System.put, System.setLock, System.fresh, ReadLock_cases,
          WriteLock_cases, resumeCall_eq, resume_writeLockReaders, Outcome.andThen,
          TReentrantRWLock.fresh, Function.update_noteq h1, Function.update_noteq h0,
          isWriter, localReaders, RecurseCounts.IsNotCurrentWriter,
          RecurseCounts.GetLocalReadersCount, bumpLock, enterLock, claimLock, leaveLock,
          ReadUnLock_eq, RecurseCounts.SetLocalReadersCount, RecurseCounts.SetIsWriter,
          fixReaderOpt, fixWriterOpt]
  exact ⟨hr, hq, rfl, rfl, reach_writer_excludes_readers handoff hr hq rfl⟩

/-- Claim C2: writer exclusion. (1) In every state, if another thread holds a read lock
(fReaders minus the caller's own read count is positive) or another thread is the writer,
WriteLock by t does not complete: it is suspended. (2) When no writer is present and exactly
one foreign read is outstanding, WriteLock by t is suspended on the readers and stays so
when resumed; once thread a releases that read with ReadUnLock, the resumed call completes
with fWriter set and t marked as the writer; if t itself held no read and the write depth
was zero, the following WriteUnLock by t reports nothing and leaves the lock idle. -/
theorem WriteLock_waits_for_readers (s : TReentrantRWLock) (t a : Thread) (hint : Hint) :
    ((0 < s.fReaders - s.localReaders t ∨ (s.fWriter = true ∧ s.isWriter t = false)) →
      ∃ s1 w, WriteLock s t = .waits s1 w) ∧
    (a ≠ t → (hint = none ∨ hint = some a) → s.fWriter = false →
      s.fReaderReservation = 0 → s.fReaders - s.localReaders t = 1 →
      ∃ s1, WriteLock s t = .waits s1 .writeLockReaders ∧
        resume .writeLockReaders s1 t = .waits s1 .writeLockReaders ∧
        ∃ s3, resume .writeLockReaders (ReadUnLock s1 a hint) t = .done s3 (some t) ∧
          s3.fWriter = true ∧ s3.isWriter t = true ∧
          (s.localReaders t = 0 → s.fRecurseCounts.fWriteRecurse = 0 →
            (WriteUnLock s3 t).2 = none ∧ Idle (WriteUnLock s3 t).1)) := by
  constructor
  · intro h
    rw [WriteLock_eq]
    split
    · exact ⟨_, _, rfl⟩
    · split
      · exact ⟨_, _, rfl⟩
      · split
        · exact ⟨_, _, rfl⟩
        · rename_i h1 _ h3
          rcases h with h | h
          · exfalso
            simp only [ne_eq, not_not] at h3
            omega
          · exact absurd h h1
  · intro hat hh hw hres hone
    have hg : hint.getD a = a := by rcases hh with h | h <;> simp [h]
    rw [WriteLock_eq]
    simp only [hw, hres, hone, false_and, if_false, ne_eq, not_true_eq_false, one_ne_zero,
      not_false_eq_true, if_true, Bool.false_eq_true]
    refine ⟨_, rfl, ?_, ?_⟩
    · simp [resume, WriteLock_waitReaders]
    · rw [ReadUnLock_eq, hg]
      simp only [resume, WriteLock_waitReaders, WriteLock_finish, sub_self, if_true,
        RecurseCounts.GetLocalReadersCount, RecurseCounts.SetLocalReadersCount,
        RecurseCounts.SetIsWriter, Function.update_noteq (Ne.symm hat)]
      refine ⟨_, rfl, rfl, ?_, ?_⟩
      · simp [isWriter, RecurseCounts.IsNotCurrentWriter]
      · intro hl hwr
        simp only [localReaders, RecurseCounts.GetLocalReadersCount] at hl
        simp [WriteUnLock, Idle, hwr, hl, RecurseCounts.DecrementWriteCount,
          RecurseCounts.ResetIsWriter]

/-- Witness for C2 (scenario 2 of the spec): thread 0 holds one read lock on an otherwise
fresh lock; WriteLock by thread 1 is suspended, completes after thread 0's ReadUnLock, and
thread 1's WriteUnLock leaves the lock idle. -/
theorem WriteLock_waits_for_readers_witness :
    ∃ s0 : TReentrantRWLock, ReadLock TReentrantRWLock.fresh 0 = .done s0 (some 0) ∧
      (∃ s1 w, WriteLock s0 1 = .waits s1 w) ∧
      ∃ s1, WriteLock s0 1 = .waits s1 .writeLockReaders ∧
        resume .writeLockReaders s1 1 = .waits s1 .writeLockReaders ∧
        ∃ s3, resume .writeLockReaders (ReadUnLock s1 0 (some 0)) 1 = .done s3 (some 1) ∧
          s3.fWriter = true ∧ s3.isWriter 1 = true ∧
          (WriteUnLock s3 1).2 = none ∧ Idle (WriteUnLock s3 1).1 :=
  ⟨_, rfl,
    (WriteLock_waits_for_readers _ 1 0 (some 0)).1 (Or.inl (by decide)),
    by
      obtain ⟨s1, h1, h2, s3, h3, h4, h5, h6⟩ :=
        (WriteLock_waits_for_readers
          { TReentrantRWLock.fresh with
            fReaders := 0 + 1
            fRecurseCounts :=
              TReentrantRWLock.fresh.fRecurseCounts.SetLocalReadersCount 0
                (TReentrantRWLock.fresh.localReaders 0 + 1) } 1 0 (some 0)).2
          (by decide) (Or.inr rfl) rfl rfl (by decide)
      exact ⟨s1, h1, h2, s3, h3, h4, h5, h6 (by decide) rfl⟩⟩

/-- `ReadUnLock` with the returned hint undoes a completed `ReadLock`. -/
theorem ReadLock_ReadUnLock {s s1 : TReentrantRWLock} {t : Thread} {h : Hint}
    (hd : ReadLock s t = .done s1 h) : ReadUnLock s1 t h = s := by
  obtain ⟨hs, hh, _⟩ := ReadLock_done hd
  subst hs hh
  rw [ReadUnLock_eq]
  apply ext_state <;>
    simp [localReaders, RecurseCounts.GetLocalReadersCount, RecurseCounts.SetLocalReadersCount]

/-- `n` completed `ReadLock` calls raise `fReaders` and the caller's read count by `n` and are
undone by the `ReadUnLock` calls with the returned hints. -/
theorem ReadLock_times_unlock (n : Nat) (s : TReentrantRWLock) (t : Thread) :
    ∀ s1 hints, ReadLock_times n s t = some (s1, hints) →
      hints.length = n ∧ s1.fReaders = s.fReaders + n ∧
      s1.localReaders t = s.localReaders t + n ∧ ReadUnLock_all hints s1 t = s := by
  induction n with
  | zero =>
    intro s1 hints h
    simp only [ReadLock_times, Option.some.injEq, Prod.mk.injEq] at h
    obtain ⟨rfl, rfl⟩ := h
    simp [ReadUnLock_all]
  | succ n ih =>
    intro s1 hints h
    simp only [ReadLock_times] at h
    cases hn : ReadLock_times n s t with
    | none => simp [hn] at h
    | some r =>
      obtain ⟨s2, hints2⟩ := r
      rw [hn] at h
      simp only at h
      cases hr : ReadLock s2 t with
      | done s3 h3 =>
        rw [hr] at h
        simp only [Option.some.injEq, Prod.mk.injEq] at h
        obtain ⟨rfl, rfl⟩ := h
        obtain ⟨hl, hre, hlo, hun⟩ := ih s2 hints2 hn
        obtain ⟨hs3, _, _⟩ := ReadLock_done hr
        refine ⟨by simp [hl], ?_, ?_, ?_⟩
        · rw [hs3]
          simp only [hre]
          push_cast
          ring
        · rw [hs3]
          simp only [localReaders, RecurseCounts.GetLocalReadersCount,
            RecurseCounts.SetLocalReadersCount, Function.update_same] at hlo ⊢
          rw [hlo]
          push_cast
          ring
        · simp only [ReadUnLock_all]
          rw [ReadLock_ReadUnLock hr]
          exact hun
      | waits s3 w =>
        rw [hr] at h
        cases h
      | assertFailed =>
        rw [hr] at h
        cases h

/-- With no foreign writer, `n` successive `ReadLock` calls all complete. -/
theorem ReadLock_times_completes (n : Nat) (s : TReentrantRWLock) (t : Thread)
    (h : s.fWriter = false ∨ s.isWriter t = true) :
    ∃ s1 hints, ReadLock_times n s t = some (s1, hints) ∧ s1.fWriter = s.fWriter ∧
      s1.isWriter t = s.isWriter t := by
  induction n with
  | zero => exact ⟨s, [], rfl, rfl, rfl⟩
  | succ n ih =>
    obtain ⟨s1, hints, h1, h2, h3⟩ := ih
    have hnb : ¬(s1.fWriter = true ∧ s1.isWriter t = false ∧ s1.localReaders t = 0) := by
      rw [h2, h3]
      rcases h with h | h <;> simp [h]
    refine ⟨{ s1 with
               fReaders := s1.fReaders + 1
               fRecurseCounts :=
                 s1.fRecurseCounts.SetLocalReadersCount t (s1.localReaders t + 1) },
      some t :: hints, ?_, ?_, ?_⟩
    · simp only [ReadLock_times, h1, ReadLock_eq, if_neg hnb]
    · simpa using h2
    · simpa [isWriter, RecurseCounts.IsNotCurrentWriter,
        RecurseCounts.SetLocalReadersCount] using h3

/-- Claim C3: read round trip. (1) Whenever ReadLock by t completes, it has raised fReaders
and the read count of t by exactly one, and ReadUnLock by t with the returned hint gives
back the state before the call (so fReaders and the read count of t are restored).
(2) For every n, whenever n successive ReadLock calls by t all complete, they have raised
fReaders and the read count of t by n, and the n ReadUnLock calls with the returned hints
give back the initial state. (3) The n calls do all complete when no other thread is the
writer. -/
theorem ReadLock_round_trip (n : Nat) (s : TReentrantRWLock) (t : Thread) :
    (∀ s1 h, ReadLock s t = .done s1 h →
      s1.fReaders = s.fReaders + 1 ∧ s1.localReaders t = s.localReaders t + 1 ∧
      ReadUnLock s1 t h = s ∧
      (ReadUnLock s1 t h).fReaders = s.fReaders ∧
      (ReadUnLock s1 t h).localReaders t = s.localReaders t) ∧
    (∀ s1 hints, ReadLock_times n s t = some (s1, hints) →
      hints.length = n ∧ s1.fReaders = s.fReaders + n ∧
      s1.localReaders t = s.localReaders t + n ∧ ReadUnLock_all hints s1 t = s) ∧
    ((s.fWriter = false ∨ s.isWriter t = true) →
      ∃ s1 hints, ReadLock_times n s t = some (s1, hints)) := by
  refine ⟨?_, ReadLock_times_unlock n s t, ?_⟩
  · intro s1 h hd
    have hrt := ReadLock_ReadUnLock hd
    obtain ⟨hs, _, _⟩ := ReadLock_done hd
    refine ⟨?_, ?_, hrt, by rw [hrt], by rw [hrt]⟩
    · rw [hs]
    · rw [hs]
      simp [localReaders, RecurseCounts.GetLocalReadersCount,
        RecurseCounts.SetLocalReadersCount]
  · intro h
    obtain ⟨s1, hints, h1, _⟩ := ReadLock_times_completes n s t h
    exact ⟨s1, hints, h1⟩

/-- Witness for C3: on a fresh lock, three ReadLock calls by thread 0 complete, bring
fReaders and the read count of thread 0 to three, and the three matching ReadUnLock calls
give back the fresh lock. -/
theorem ReadLock_round_trip_witness :
    ∃ s1 hints, ReadLock_times 3 TReentrantRWLock.fresh 0 = some (s1, hints) ∧
      hints.length = 3 ∧ s1.fReaders = 3 ∧ s1.localReaders 0 = 3 ∧
      ReadUnLock_all hints s1 0 = TReentrantRWLock.fresh := by
  obtain ⟨s1, hints, h⟩ := (ReadLock_round_trip 3 TReentrantRWLock.fresh 0).2.2 (Or.inl rfl)
  obtain ⟨h1, h2, h3, h4⟩ := (ReadLock_round_trip 3 TReentrantRWLock.fresh 0).2.1 s1 hints h
  exact ⟨s1, hints, h, h1, by simpa [TReentrantRWLock.fresh] using h2,
    by simpa [TReentrantRWLock.fresh, localReaders,
      RecurseCounts.GetLocalReadersCount] using h3, h4⟩

/-- The first `WriteLock` of a thread on a lock with no writer and no foreign reader. -/
theorem WriteLock_first {s : TReentrantRWLock} {t : Thread} (hw : s.fWriter = false)
    (h0 : s.fRecurseCounts.fWriteRecurse = 0) (hr : s.fReaders = s.localReaders t)
    (hres : s.fReaderReservation = 0) :
    WriteLock s t = .done (writeHeld s t 1) (some t) := by
  rw [WriteLock_eq]
  simp [hw, hres, hr, writeHeld, RecurseCounts.SetIsWriter, h0]

/-- `WriteUnLock` at depth one releases the write lock. -/
theorem WriteUnLock_held_last {s : TReentrantRWLock} {t : Thread} (hw : s.fWriter = false)
    (h0 : s.fRecurseCounts.fWriteRecurse = 0) (hm : s.isWriter t = false) :
    WriteUnLock (writeHeld s t 1) t = (s, none) := by
  simp only [isWriter, RecurseCounts.IsNotCurrentWriter, Bool.not_not] at hm
  simp only [WriteUnLock, writeHeld, RecurseCounts.DecrementWriteCount,
    RecurseCounts.ResetIsWriter, Bool.not_true, Bool.false_or, one_ne_zero, decide_False,
    sub_self, if_true, if_false, Function.update_idem, Prod.mk.injEq, and_true,
    Bool.false_eq_true]
  apply ext_state <;> simp [hw, h0, update_self_of_eq _ _ _ hm]

/-- Claim C6: writer-to-reader re-entry. (1) In every state in which thread t is the
current writer, ReadLock by t completes at once, raises fReaders and the read count of t
by one and leaves fWriter, fWriteRecurse, the writer marks and both reservation counters
unchanged. (2) On an idle lock (where t holds no read lock and is unmarked, and no reader
is joining) the sequence WriteLock, ReadLock, ReadUnLock, WriteUnLock by t completes,
reports nothing and ends in the state it started from, which is idle. That no reader is
joining (fReaderReservation is zero) holds in every reachable state (reach_inv). -/
theorem ReadLock_reentry (s : TReentrantRWLock) (t : Thread) :
    (s.fWriter = true → s.isWriter t = true →
      ∃ s1, ReadLock s t = .done s1 (some t) ∧
        s1.fReaders = s.fReaders + 1 ∧ s1.localReaders t = s.localReaders t + 1 ∧
        s1.fWriter = s.fWriter ∧
        s1.fRecurseCounts.fWriteRecurse = s.fRecurseCounts.fWriteRecurse ∧
        s1.fRecurseCounts.fIsWriter = s.fRecurseCounts.fIsWriter ∧
        s1.fReaderReservation = s.fReaderReservation ∧
        s1.fWriterReservation = s.fWriterReservation) ∧
    (Idle s → s.localReaders t = 0 → s.isWriter t = false → s.fReaderReservation = 0 →
      ∃ s1 s2 h, WriteLock s t = .done s1 (some t) ∧ ReadLock s1 t = .done s2 h ∧
        (WriteUnLock (ReadUnLock s2 t h) t).2 = none ∧
        (WriteUnLock (ReadUnLock s2 t h) t).1 = s ∧
        Idle (WriteUnLock (ReadUnLock s2 t h) t).1) := by
  constructor
  · intro hw hm
    rw [ReadLock_eq]
    simp only [hw, hm, Bool.true_eq_false, false_and, and_false, if_false]
    refine ⟨_, rfl, rfl, ?_, rfl, rfl, rfl, rfl, rfl⟩
    simp [localReaders, RecurseCounts.GetLocalReadersCount,
      RecurseCounts.SetLocalReadersCount]
  · intro hidle hl hm hres
    obtain ⟨hr0, hw, hwr⟩ := hidle
    have hlock := WriteLock_first (s := s) (t := t) hw hwr (by rw [hr0, hl]) hres
    have hnb : ¬((writeHeld s t 1).fWriter = true ∧ (writeHeld s t 1).isWriter t = false ∧
        (writeHeld s t 1).localReaders t = 0) := by
      simp [writeHeld, isWriter, RecurseCounts.IsNotCurrentWriter]
    have hread : ReadLock (writeHeld s t 1) t =
        .done { writeHeld s t 1 with
                fReaders := (writeHeld s t 1).fReaders + 1
                fRecurseCounts :=
                  (writeHeld s t 1).fRecurseCounts.SetLocalReadersCount t
                    ((writeHeld s t 1).localReaders t + 1) } (some t) := by
      rw [ReadLock_eq, if_neg hnb]
    refine ⟨_, _, some t, hlock, hread, ?_, ?_, ?_⟩
    · rw [ReadLock_ReadUnLock hread, WriteUnLock_held_last hw hwr hm]
    · rw [ReadLock_ReadUnLock hread, WriteUnLock_held_last hw hwr hm]
    · rw [ReadLock_ReadUnLock hread, WriteUnLock_held_last hw hwr hm]
      exact ⟨hr0, hw, hwr⟩

/-- Witness for C6 (scenario 4 of the spec): on a fresh lock, thread 0 takes the write
lock, a read lock, releases the read lock and the write lock; the inner ReadLock completes
at once and the lock is fresh again. The re-entry itself is applied to the state in which
thread 0 holds the write lock. -/
theorem ReadLock_reentry_witness :
    (∃ s1 s2 h, WriteLock TReentrantRWLock.fresh 0 = .done s1 (some 0) ∧
      ReadLock s1 0 = .done s2 h ∧
      (WriteUnLock (ReadUnLock s2 0 h) 0).2 = none ∧
      (WriteUnLock (ReadUnLock s2 0 h) 0).1 = TReentrantRWLock.fresh ∧
      Idle (WriteUnLock (ReadUnLock s2 0 h) 0).1) ∧
    (∃ s1, ReadLock (writeHeld TReentrantRWLock.fresh 0 1) 0 = .done s1 (some 0) ∧
      s1.fReaders = 1 ∧ s1.localReaders 0 = 1 ∧ s1.fWriter = true ∧
      s1.fRecurseCounts.fWriteRecurse = 1) := by
  refine ⟨(ReadLock_reentry TReentrantRWLock.fresh 0).2 ⟨rfl, rfl, rfl⟩ rfl rfl rfl, ?_⟩
  obtain ⟨s1, h1, h2, h3, h4, h5, _⟩ :=
    (ReadLock_reentry (writeHeld TReentrantRWLock.fresh 0 1) 0).1 rfl rfl
  exact ⟨s1, h1, h2, h3, h4, h5⟩

/-- `Restore` undoes `Reset` when no thread is the writer. -/
theorem Restore_Reset_noWriter {s : TReentrantRWLock} {t : Thread} (hw : s.fWriter = false)
    (hfit : intOfSizeT (s.localReaders t) = s.localReaders t) :
    Restore (Reset s t).1 t (.rwState (Reset s t).2) = .done s none := by
  rw [Reset_eq_fits _ _ hfit, if_neg (by simp [hw])]
  by_cases hr : s.fRecurseCounts.fReadersCount t = 0
  · have hs : ({ s with fReaders := s.fReaders - s.localReaders t
                        fRecurseCounts := s.fRecurseCounts.SetLocalReadersCount t 0 } :
        TReentrantRWLock) = s := by
      apply ext_state <;>
        simp [localReaders, RecurseCounts.GetLocalReadersCount,
          RecurseCounts.SetLocalReadersCount, hr, update_self_of_eq _ _ _ hr]
    rw [hs]
    simp [Restore, localReaders, RecurseCounts.GetLocalReadersCount, hr]
  · simp only [Restore, localReaders, RecurseCounts.GetLocalReadersCount,
      RecurseCounts.SetLocalReadersCount, Function.update_same, ne_eq, not_true_eq_false,
      if_false, Bool.false_eq_true, hr, not_false_eq_true, if_true, ReadLock_eq, hw,
      false_and, Outcome.andThen, Restore_fixReader, Function.update_idem]
    congr 1
    apply ext_state <;> simp [update_self_of_eq, hw]

/-- `Restore` undoes `Reset` for the thread that holds the write lock. -/
theorem Restore_Reset_writer {s : TReentrantRWLock} {t : Thread} (hw : s.fWriter = true)
    (hm : s.isWriter t = true) (hr : s.fReaders = s.localReaders t)
    (hres : s.fReaderReservation = 0)
    (hfit : intOfSizeT (s.localReaders t) = s.localReaders t) :
    Restore (Reset s t).1 t (.rwState (Reset s t).2) = .done s none := by
  have hm1 := hm
  simp only [isWriter, RecurseCounts.IsNotCurrentWriter, Bool.not_not] at hm1
  rw [Reset_eq_fits _ _ hfit]
  simp only [hw, hm, and_self, if_true]
  simp only [Restore, localReaders, RecurseCounts.GetLocalReadersCount,
    Function.update_same, ne_eq, not_true_eq_false, if_false, if_true, WriteLock_eq,
    Bool.false_eq_true, false_and, hres, hr, sub_self, sub_zero, Outcome.andThen,
    Restore_fixWriter, RecurseCounts.SetIsWriter, RecurseCounts.SetLocalReadersCount,
    Function.update_idem]
  congr 1
  simp only [localReaders, RecurseCounts.GetLocalReadersCount] at hr
  apply ext_state <;> simp [hw, update_self_of_eq, hm1, hres, hr]

/-- Save then Restore is the identity as long as the read count of t fits in the `int` of
the token. (1) If t holds the write lock (at any depth), no other thread holds a read lock
and no reader is joining, Restore by t of the token its Reset returned completes, reports
nothing and yields the state before the Reset. (2) The same holds whenever no thread is the
writer. (3) It also holds when, between the Reset and the Restore of a thread t that is the
only holder of read locks, another thread b runs WriteLock and WriteUnLock to completion.
That no reader is joining (fReaderReservation is zero) and that no thread is marked while
fWriter is clear hold in every reachable state (reach_inv). -/
theorem Reset_Restore_identity (s : TReentrantRWLock) (t b : Thread)
    (hfit : intOfSizeT (s.localReaders t) = s.localReaders t) :
    (s.fWriter = true → s.isWriter t = true → s.fReaders = s.localReaders t →
      s.fReaderReservation = 0 →
      Restore (Reset s t).1 t (.rwState (Reset s t).2) = .done s none) ∧
    (s.fWriter = false →
      Restore (Reset s t).1 t (.rwState (Reset s t).2) = .done s none) ∧
    (b ≠ t → s.fWriter = false → s.fRecurseCounts.fWriteRecurse = 0 →
      s.isWriter b = false → s.fReaderReservation = 0 →
      s.fReaders = s.localReaders t → s.localReaders b = 0 →
      ∃ s2, WriteLock (Reset s t).1 b = .done s2 (some b) ∧ s2.fWriter = true ∧
        (WriteUnLock s2 b).2 = none ∧ (WriteUnLock s2 b).1.fWriter = false ∧
        Restore (WriteUnLock s2 b).1 t (.rwState (Reset s t).2) = .done s none) := by
  refine ⟨fun hw hm hr hres => Restore_Reset_writer hw hm hr hres hfit,
    fun hw => Restore_Reset_noWriter hw hfit, ?_⟩
  intro hbt hw hwr hmb hres hr hlb
  have hid := @Restore_Reset_noWriter s t hw hfit
  have hst : (Reset s t).1 =
      { s with fReaders := s.fReaders - s.localReaders t
               fRecurseCounts := s.fRecurseCounts.SetLocalReadersCount t 0 } := by
    rw [Reset_eq]
    simp [hw]
  have h1 : (Reset s t).1.fWriter = false := by rw [hst]; exact hw
  have h2 : (Reset s t).1.fRecurseCounts.fWriteRecurse = 0 := by rw [hst]; exact hwr
  have h3 : (Reset s t).1.fReaders = (Reset s t).1.localReaders b := by
    rw [hst]
    simp only [localReaders, RecurseCounts.GetLocalReadersCount,
      RecurseCounts.SetLocalReadersCount, Function.update_noteq hbt] at hlb hr ⊢
    omega
  have h4 : (Reset s t).1.fReaderReservation = 0 := by rw [hst]; exact hres
  have h5 : (Reset s t).1.isWriter b = false := by rw [hst]; exact hmb
  refine ⟨_, WriteLock_first h1 h2 h3 h4, rfl, ?_, ?_, ?_⟩
  · rw [WriteUnLock_held_last h1 h2 h5]
  · rw [WriteUnLock_held_last h1 h2 h5]
    exact h1
  · rw [WriteUnLock_held_last h1 h2 h5]
    exact hid

/-- Scenario 6 of the spec, and the writer case, for `Reset_Restore_identity`: thread 0
holds two read locks; it calls Reset, thread 1 takes and releases the write lock, and the Restore of
thread 0 gives back the state with two read locks. Also: thread 0 holds the write lock at
depth 3 and two read locks; Reset followed by Restore gives back that state. -/
theorem Reset_Restore_identity_witness :
    (∃ s2,
      WriteLock (Reset
        { TReentrantRWLock.fresh with
          fReaders := 2
          fRecurseCounts :=
            TReentrantRWLock.fresh.fRecurseCounts.SetLocalReadersCount 0 2 } 0).1 1 =
        .done s2 (some 1) ∧ s2.fWriter = true ∧
      (WriteUnLock s2 1).2 = none ∧ (WriteUnLock s2 1).1.fWriter = false ∧
      Restore (WriteUnLock s2 1).1 0 (.rwState (Reset
        { TReentrantRWLock.fresh with
          fReaders := 2
          fRecurseCounts :=
            TReentrantRWLock.fresh.fRecurseCounts.SetLocalReadersCount 0 2 } 0).2) =
        .done
          { TReentrantRWLock.fresh with
            fReaders := 2
            fRecurseCounts :=
              TReentrantRWLock.fresh.fRecurseCounts.SetLocalReadersCount 0 2 } none) ∧
    Restore (Reset
        (writeHeld
          { TReentrantRWLock.fresh with
            fReaders := 2
            fRecurseCounts :=
              TReentrantRWLock.fresh.fRecurseCounts.SetLocalReadersCount 0 2 } 0 3) 0).1 0
      (.rwState (Reset
        (writeHeld
          { TReentrantRWLock.fresh with
            fReaders := 2
            fRecurseCounts :=
              TReentrantRWLock.fresh.fRecurseCounts.SetLocalReadersCount 0 2 } 0 3) 0).2) =
      .done
        (writeHeld
          { TReentrantRWLock.fresh with
            fReaders := 2
            fRecurseCounts :=
              TReentrantRWLock.fresh.fRecurseCounts.SetLocalReadersCount 0 2 } 0 3) none :=
  ⟨(Reset_Restore_identity _ 0 1 (by decide)).2.2 (by decide) rfl rfl rfl rfl rfl rfl,
   (Reset_Restore_identity _ 0 1 (by decide)).1 rfl rfl rfl rfl⟩

/-- Save releases everything the caller holds. In every state in which fReaders is at least
the read count of t, after Reset by t the read count of t is zero, fReaders has dropped by
exactly the former read count of t, the read count of every other thread and both
reservation counters are unchanged; if t was the writer then fWriter is clear,
fWriteRecurse is zero and t is unmarked, and otherwise fWriter, fWriteRecurse and the
writer marks are unchanged; the token records the slot of t, the former read count
converted to `int` (the former read count itself when it is below 2^31 and not negative),
whether t was the writer and, if so, the former fWriteRecurse. -/
theorem Reset_releases_all (s : TReentrantRWLock) (t : Thread)
    (_hge : s.localReaders t ≤ s.fReaders) :
    (Reset s t).1.localReaders t = 0 ∧
    (Reset s t).1.fReaders = s.fReaders - s.localReaders t ∧
    (∀ u, u ≠ t → (Reset s t).1.localReaders u = s.localReaders u) ∧
    (Reset s t).1.fReaderReservation = s.fReaderReservation ∧
    (Reset s t).1.fWriterReservation = s.fWriterReservation ∧
    ((s.fWriter = true ∧ s.isWriter t = true) →
      (Reset s t).1.fWriter = false ∧ (Reset s t).1.fRecurseCounts.fWriteRecurse = 0 ∧
      (Reset s t).1.isWriter t = false) ∧
    (¬(s.fWriter = true ∧ s.isWriter t = true) →
      (Reset s t).1.fWriter = s.fWriter ∧
      (Reset s t).1.fRecurseCounts.fWriteRecurse = s.fRecurseCounts.fWriteRecurse ∧
      (Reset s t).1.fRecurseCounts.fIsWriter = s.fRecurseCounts.fIsWriter) ∧
    (Reset s t).2.fReadersCountLoc = t ∧
    (Reset s t).2.fReadersCount = intOfSizeT (s.localReaders t) ∧
    (0 ≤ s.localReaders t → s.localReaders t < 2147483648 →
      (Reset s t).2.fReadersCount = s.localReaders t) ∧
    ((Reset s t).2.fIsWriter = true ↔ (s.fWriter = true ∧ s.isWriter t = true)) ∧
    ((Reset s t).2.fIsWriter = true →
      (Reset s t).2.fWriteRecurse = s.fRecurseCounts.fWriteRecurse) := by
  rw [Reset_eq]
  by_cases hc : s.fWriter = true ∧ s.isWriter t = true
  · rw [if_pos hc]
    refine ⟨?_, rfl, ?_, rfl, rfl, fun _ => ⟨rfl, rfl, ?_⟩, fun h => absurd hc h, rfl, rfl,
      fun h0 h1 => intOfSizeT_fits (le_trans (by decide) h0) h1,
      ⟨fun _ => hc, fun _ => rfl⟩, fun _ => rfl⟩
    · simp [localReaders, RecurseCounts.GetLocalReadersCount]
    · intro u hu
      simp [localReaders, RecurseCounts.GetLocalReadersCount, Function.update_noteq hu]
    · simp [isWriter, RecurseCounts.IsNotCurrentWriter]
  · rw [if_neg hc]
    refine ⟨?_, rfl, ?_, rfl, rfl, fun h => absurd h hc, fun _ => ⟨rfl, rfl, rfl⟩, rfl, rfl,
      fun h0 h1 => intOfSizeT_fits (le_trans (by decide) h0) h1,
      ⟨fun h => (by cases h), fun h => absurd h hc⟩, fun h => (by cases h)⟩
    · simp [localReaders, RecurseCounts.GetLocalReadersCount,
        RecurseCounts.SetLocalReadersCount]
    · intro u hu
      simp [localReaders, RecurseCounts.GetLocalReadersCount,
        RecurseCounts.SetLocalReadersCount, Function.update_noteq hu]

/-- An instance of `Reset_releases_all`: thread 0 holds the write lock at depth 3 and two
read locks, thread 1 holds no read lock; after Reset by thread 0 nothing is held and the token records two
reads, the write lock and depth 3. -/
theorem Reset_releases_all_witness :
    (Reset (writeHeld
        { TReentrantRWLock.fresh with
          fReaders := 2
          fRecurseCounts :=
            TReentrantRWLock.fresh.fRecurseCounts.SetLocalReadersCount 0 2 } 0 3) 0).1.fReaders
      = 0 ∧
    (Reset (writeHeld
        { TReentrantRWLock.fresh with
          fReaders := 2
          fRecurseCounts :=
            TReentrantRWLock.fresh.fRecurseCounts.SetLocalReadersCount 0 2 } 0 3) 0).1.fWriter
      = false ∧
    (Reset (writeHeld
        { TReentrantRWLock.fresh with
          fReaders := 2
          fRecurseCounts :=
            TReentrantRWLock.fresh.fRecurseCounts.SetLocalReadersCount 0 2 } 0 3) 0).2
      = { fReadersCount := 2, fReadersCountLoc := 0, fWriteRecurse := 3, fIsWriter := true } := by
  have h := Reset_releases_all (writeHeld
        { TReentrantRWLock.fresh with
          fReaders := 2
          fRecurseCounts :=
            TReentrantRWLock.fresh.fRecurseCounts.SetLocalReadersCount 0 2 } 0 3) 0
      (by decide)
  obtain ⟨_, h2, _, _, _, h6, _⟩ := h
  exact ⟨h2, (h6 ⟨rfl, rfl⟩).1, rfl⟩

/-- Claim C9: WriteUnLock reports an error exactly when fWriter is false or fWriteRecurse is
zero, and then leaves the whole state unchanged; otherwise it lowers fWriteRecurse by one
and, exactly when the new depth is zero, clears fWriter and the caller's writer mark (in the
other case fWriter and all writer marks stay as they were). Nothing else changes. -/
theorem WriteUnLock_spec (s : TReentrantRWLock) (t : Thread) :
    ((WriteUnLock s t).2 ≠ none ↔ (s.fWriter = false ∨ s.fRecurseCounts.fWriteRecurse = 0)) ∧
    ((WriteUnLock s t).2 ≠ none →
      (WriteUnLock s t).2 = some Diagnostic.ErrorWriteUnLock ∧ (WriteUnLock s t).1 = s) ∧
    ((WriteUnLock s t).2 = none →
      (WriteUnLock s t).1.fRecurseCounts.fWriteRecurse = s.fRecurseCounts.fWriteRecurse - 1 ∧
      (WriteUnLock s t).1.fReaders = s.fReaders ∧
      (WriteUnLock s t).1.fReaderReservation = s.fReaderReservation ∧
      (WriteUnLock s t).1.fWriterReservation = s.fWriterReservation ∧
      (WriteUnLock s t).1.fRecurseCounts.fReadersCount = s.fRecurseCounts.fReadersCount ∧
      (s.fRecurseCounts.fWriteRecurse - 1 = 0 →
        (WriteUnLock s t).1.fWriter = false ∧
        (WriteUnLock s t).1.fRecurseCounts.fIsWriter =
          Function.update s.fRecurseCounts.fIsWriter t false) ∧
      (s.fRecurseCounts.fWriteRecurse - 1 ≠ 0 →
        (WriteUnLock s t).1.fWriter = true ∧
        (WriteUnLock s t).1.fRecurseCounts.fIsWriter = s.fRecurseCounts.fIsWriter)) := by
  unfold WriteUnLock
  by_cases hw : s.fWriter = true <;> by_cases hr : s.fRecurseCounts.fWriteRecurse = 0 <;>
    by_cases h1 : s.fRecurseCounts.fWriteRecurse - 1 = 0 <;>
    simp [hw, hr, h1, Internal.RecurseCounts.DecrementWriteCount,
      Internal.RecurseCounts.ResetIsWriter]

/-- Counterexample to C10 as stated: thread 0 takes the write lock on a fresh lock, calls
Reset, and takes the write lock again; it now holds the write lock, yet Restore of its
token does not end in an assertion failure: it completes, reacquiring. -/
theorem Restore_writer_not_asserted :
    ∃ s1 s3 s4 : TReentrantRWLock,
      WriteLock TReentrantRWLock.fresh 0 = .done s1 (some 0) ∧
      WriteLock (Reset s1 0).1 0 = .done s3 (some 0) ∧
      (Reset s1 0).2.fReadersCountLoc = 0 ∧
      s3.fWriter = true ∧ s3.isWriter 0 = true ∧
      Restore s3 0 (.rwState (Reset s1 0).2) = .done s4 none :=
  ⟨_, _, _, rfl, rfl, rfl, rfl, rfl, rfl⟩

/-- Claim C10, amended: for every saved-state token that refers to the calling thread's own
read counter (as every token returned by that thread's Reset does) and every state in which
the calling thread holds at least one read lock, Restore ends in an assertion failure
instead of reacquiring. -/
theorem Restore_asserts_on_reads (s : TReentrantRWLock) (t : Thread)
    (p : TReentrantRWLockState) (hloc : p.fReadersCountLoc = t)
    (hpos : 0 < s.localReaders t) : Restore s t (.rwState p) = .assertFailed := by
  rw [Restore_assertFailed_iff, hloc]
  omega

/-- Witness for the amended C10: thread 0 holds one read lock; Restore of a token that
refers to its slot ends in an assertion failure. -/
theorem Restore_asserts_on_reads_witness :
    Restore
      { TReentrantRWLock.fresh with
        fReaders := 1
        fRecurseCounts := TReentrantRWLock.fresh.fRecurseCounts.SetLocalReadersCount 0 1 } 0
      (.rwState { fReadersCount := 2, fReadersCountLoc := 0, fWriteRecurse := 0,
                  fIsWriter := false }) = .assertFailed :=
  Restore_asserts_on_reads _ 0 _ rfl (by decide)

/-- Claim C11: Restore with a null handle completes with no diagnostic and the lock state
unchanged; Restore with a non-null handle that is not a saved state of this lock completes
with the logic-error diagnostic and the lock state unchanged. Both hold in every state and
for every calling thread, whatever the lock holds: the checks come before the assertion
and before any acquisition. -/
theorem Restore_invalid_handle (s : TReentrantRWLock) (t : Thread) :
    Restore s t StateHandle.null = .done s none ∧
    Restore s t StateHandle.foreign = .done s (some Diagnostic.SysErrorRestore) :=
  ⟨rfl, rfl⟩

/-- Claim C14: singleton accounting. In a process whose static flag is still clear, the
first construction of the singleton recursion-accounting object returns (and sets the
flag); every later construction ends in the fatal diagnostic. -/
theorem UniqueLockRecurseCount_singleton (n : Nat) :
    UniqueLockRecurseCount.construction 0 false = Construction.constructed true ∧
    UniqueLockRecurseCount.construction (n + 1) false = Construction.fatal ∧
    UniqueLockRecurseCount true = Construction.fatal := by
  refine ⟨rfl, ?_, rfl⟩
  cases n <;> rfl

/-- Claim C16: the waiting condition of ReadLock. (1) ReadLock by t is suspended exactly
when fWriter is set, t is not the current writer and t holds no read lock; otherwise it
completes. (2) In particular a thread that holds a read lock is never suspended, also when
another thread has claimed the write lock. (3) A call that is suspended has left the state
as it was, stays suspended whenever it is continued while fWriter is set, and completes
when it is continued after fWriter has been cleared. -/
theorem ReadLock_waits_iff (s : TReentrantRWLock) (t : Thread) :
    ((∃ s1 w, ReadLock s t = .waits s1 w) ↔
      (s.fWriter = true ∧ s.isWriter t = false ∧ s.localReaders t = 0)) ∧
    (¬(s.fWriter = true ∧ s.isWriter t = false ∧ s.localReaders t = 0) →
      ∃ s1, ReadLock s t = .done s1 (some t)) ∧
    (s.localReaders t ≠ 0 → ∃ s1, ReadLock s t = .done s1 (some t)) ∧
    ((s.fWriter = true ∧ s.isWriter t = false ∧ s.localReaders t = 0) →
      ReadLock s t = .waits s .readLockWriter ∧
      ∀ s2 : TReentrantRWLock,
        (s2.fWriter = true → resume .readLockWriter s2 t = .waits s2 .readLockWriter) ∧
        (s2.fWriter = false → ∃ s3, resume .readLockWriter s2 t = .done s3 (some t))) := by
  refine ⟨?_, ?_, ?_, ?_⟩
  · rw [ReadLock_eq]
    constructor
    · intro h
      by_contra hc
      rw [if_neg hc] at h
      obtain ⟨s1, w, h⟩ := h
      cases h
    · intro hc
      rw [if_pos hc]
      exact ⟨_, _, rfl⟩
  · intro hc
    rw [ReadLock_eq, if_neg hc]
    exact ⟨_, rfl⟩
  · intro hl
    rw [ReadLock_eq, if_neg (fun hc => hl hc.2.2)]
    exact ⟨_, rfl⟩
  · intro hc
    rw [ReadLock_eq, if_pos hc]
    refine ⟨rfl, fun s2 => ⟨fun hw => ?_, fun hw => ?_⟩⟩
    · rw [resume_readLockWriter, if_pos hw]
    · rw [resume_readLockWriter, if_neg (by simp [hw])]
      exact ⟨_, rfl⟩

/-- Witness for C16: thread 1 has claimed the write lock while thread 0 holds one read
lock. ReadLock by thread 0 completes; ReadLock by thread 2, which holds no read lock, is
suspended, stays so while fWriter is set and completes once it is clear. -/
theorem ReadLock_waits_iff_witness :
    (∃ s1, ReadLock (writeHeld (bumpLock TReentrantRWLock.fresh 0) 1 1) 0 =
      .done s1 (some 0)) ∧
    ReadLock (writeHeld (bumpLock TReentrantRWLock.fresh 0) 1 1) 2 =
      .waits (writeHeld (bumpLock TReentrantRWLock.fresh 0) 1 1) .readLockWriter ∧
    resume .readLockWriter (writeHeld (bumpLock TReentrantRWLock.fresh 0) 1 1) 2 =
      .waits (writeHeld (bumpLock TReentrantRWLock.fresh 0) 1 1) .readLockWriter ∧
    (∃ s3, resume .readLockWriter (bumpLock TReentrantRWLock.fresh 0) 2 =
      .done s3 (some 2)) :=
  ⟨(ReadLock_waits_iff (writeHeld (bumpLock TReentrantRWLock.fresh 0) 1 1) 0).2.2.1
      (by decide),
    ((ReadLock_waits_iff (writeHeld (bumpLock TReentrantRWLock.fresh 0) 1 1) 2).2.2.2
      ⟨rfl, rfl, rfl⟩).1,
    (((ReadLock_waits_iff (writeHeld (bumpLock TReentrantRWLock.fresh 0) 1 1) 2).2.2.2
      ⟨rfl, rfl, rfl⟩).2 (writeHeld (bumpLock TReentrantRWLock.fresh 0) 1 1)).1 rfl,
    (((ReadLock_waits_iff (writeHeld (bumpLock TReentrantRWLock.fresh 0) 1 1) 2).2.2.2
      ⟨rfl, rfl, rfl⟩).2 (bumpLock TReentrantRWLock.fresh 0)).2 rfl⟩

/-- Claim C17: own-read subtraction in WriteLock. (1) Wherever WriteLock by t is suspended,
the state it has left has fReaders lowered by the read count of t (the count itself is
untouched); a call that completes at once leaves fReaders and the count as they were.
(2) A suspended call that is continued and completes adds the read count of t back to
fReaders. (3) So when another thread has claimed the write lock and t is the only thread
that holds reads (r of them), t waits for the foreign writer in a state with fReaders zero;
and when it is continued after the writer is gone (fWriter clear, no reader joining,
fReaders still zero) it completes with fReaders and the read count of t equal to r. -/
theorem WriteLock_own_reads (s : TReentrantRWLock) (t : Thread) :
    (∀ s1 w, WriteLock s t = .waits s1 w →
      s1.fReaders = s.fReaders - s.localReaders t ∧ s1.localReaders t = s.localReaders t) ∧
    (∀ s1 h, WriteLock s t = .done s1 h →
      s1.fReaders = s.fReaders ∧ s1.localReaders t = s.localReaders t) ∧
    (∀ w s2 h, resume w s t = .done s2 h → w ≠ WaitPoint.readLockWriter →
      s2.fReaders = s.fReaders + s.localReaders t ∧ s2.localReaders t = s.localReaders t) ∧
    (s.fWriter = true → s.isWriter t = false → s.fReaders = s.localReaders t →
      ∃ s1, WriteLock s t = .waits s1 .writeLockWriter ∧ s1.fReaders = 0 ∧
        s1.localReaders t = s.localReaders t ∧
        ∀ s2 : TReentrantRWLock, s2.fWriter = false → s2.fReaderReservation = 0 →
          s2.fReaders = 0 → s2.localReaders t = s.localReaders t →
          ∃ s3, resume .writeLockWriter s2 t = .done s3 (some t) ∧
            s3.fReaders = s.localReaders t ∧ s3.localReaders t = s.localReaders t ∧
            s3.fWriter = true ∧ s3.isWriter t = true) := by
  refine ⟨?_, ?_, ?_, ?_⟩
  · intro s1 w h
    rw [WriteLock_cases] at h
    split at h
    · injection h with h1 _
      subst h1
      exact ⟨rfl, rfl⟩
    · split at h
      · injection h with h1 _
        subst h1
        exact ⟨rfl, rfl⟩
      · split at h
        · injection h with h1 _
          subst h1
          exact ⟨rfl, rfl⟩
        · cases h
  · intro s1 h hd
    rw [WriteLock_cases] at hd
    split at hd
    · cases hd
    · split at hd
      · cases hd
      · split at hd
        · cases hd
        · injection hd with h1 _
          subst h1
          refine ⟨?_, rfl⟩
          simp [leaveLock, claimLock, enterLock, localReaders,
            RecurseCounts.GetLocalReadersCount, RecurseCounts.SetIsWriter]
  · intro w s2 h hd hw
    cases w with
    | readLockWriter => exact absurd rfl hw
    | writeLockWriter =>
      rw [resume_writeLockWriter] at hd
      split at hd
      · cases hd
      · split at hd
        · cases hd
        · split at hd
          · cases hd
          · injection hd with h1 _
            subst h1
            exact ⟨rfl, rfl⟩
    | writeLockReservation =>
      rw [resume_writeLockReservation] at hd
      split at hd
      · cases hd
      · split at hd
        · cases hd
        · injection hd with h1 _
          subst h1
          exact ⟨rfl, rfl⟩
    | writeLockReaders =>
      rw [resume_writeLockReaders] at hd
      split at hd
      · injection hd with h1 _
        subst h1
        exact ⟨rfl, rfl⟩
      · cases hd
  · intro hw hm hr
    rw [WriteLock_cases, if_pos ⟨hw, hm⟩]
    refine ⟨_, rfl, ?_, rfl, ?_⟩
    · simp [enterLock, hr]
    · intro s2 hw2 hres hz hl
      rw [resume_writeLockWriter, if_neg (by simp [hw2]), if_neg (by simp [hres]),
        if_neg (by simp [claimLock, hz])]
      refine ⟨_, rfl, ?_, ?_, rfl, ?_⟩
      · simp only [leaveLock, claimLock, localReaders, RecurseCounts.GetLocalReadersCount,
          RecurseCounts.SetIsWriter, hz, zero_add] at hl ⊢
        exact hl
      · simpa [leaveLock, claimLock, localReaders, RecurseCounts.GetLocalReadersCount,
          RecurseCounts.SetIsWriter] using hl
      · simp [leaveLock, claimLock, isWriter, RecurseCounts.IsNotCurrentWriter,
          RecurseCounts.SetIsWriter]

/-- Witness for C17: thread 1 holds the write lock, thread 0 holds two read locks (in the
state left by a WriteLock of thread 1 suspended on them and then let through). WriteLock
by thread 0 is suspended on the foreign writer in a state with fReaders zero; continued
after thread 1 has released the write lock, it completes with fReaders and the read count
of thread 0 equal to two. -/
theorem WriteLock_own_reads_witness :
    ∃ s1, WriteLock (writeHeld (bumpLock (bumpLock TReentrantRWLock.fresh 0) 0) 1 1) 0 =
        .waits s1 .writeLockWriter ∧
      s1.fReaders = 0 ∧ s1.localReaders 0 = 2 ∧
      ∃ s3, resume .writeLockWriter (WriteUnLock s1 1).1 0 = .done s3 (some 0) ∧
        s3.fReaders = 2 ∧ s3.localReaders 0 = 2 ∧ s3.fWriter = true ∧
        s3.isWriter 0 = true := by
  obtain ⟨s1, h1, h2, h3, h4⟩ :=
    (WriteLock_own_reads (writeHeld (bumpLock (bumpLock TReentrantRWLock.fresh 0) 0) 1 1)
      0).2.2.2 rfl rfl (by decide)
  have e : s1 = enterLock (writeHeld (bumpLock (bumpLock TReentrantRWLock.fresh 0) 0) 1 1) 0 := by
    have h0 := h1
    rw [WriteLock_cases, if_pos ⟨rfl, rfl⟩] at h0
    injection h0 with h0 _
    exact h0.symm
  subst e
  obtain ⟨s3, g1, g2, g3, g4, g5⟩ := h4
    (WriteUnLock (enterLock
      (writeHeld (bumpLock (bumpLock TReentrantRWLock.fresh 0) 0) 1 1) 0) 1).1
    (by decide) (by decide) (by decide) (by decide)
  exact ⟨_, h1, h2, by decide, s3, g1, g2 ▸ (by decide), g3 ▸ (by decide), g4, g5⟩

/-- A completed `WriteLock` returns the address of the caller's read counter. -/
theorem WriteLock_hint {s s1 : TReentrantRWLock} {t : Thread} {h : Hint}
    (hd : WriteLock s t = .done s1 h) : h = some t := by
  rw [WriteLock_cases] at hd
  split at hd
  · cases hd
  · split at hd
    · cases hd
    · split at hd
      · cases hd
      · injection hd with _ h2
        exact h2.symm

/-- A continued call that completes returns the address of the caller's read counter. -/
theorem resume_hint {s s1 : TReentrantRWLock} {t : Thread} {h : Hint} {w : WaitPoint}
    (hd : resume w s t = .done s1 h) : h = some t := by
  cases w with
  | readLockWriter =>
    rw [resume_readLockWriter] at hd
    split at hd
    · cases hd
    · injection hd with _ h2
      exact h2.symm
  | writeLockWriter =>
    rw [resume_writeLockWriter] at hd
    split at hd
    · cases hd
    · split at hd
      · cases hd
      · split at hd
        · cases hd
        · injection hd with _ h2
          exact h2.symm
  | writeLockReservation =>
    rw [resume_writeLockReservation] at hd
    split at hd
    · cases hd
    · split at hd
      · cases hd
      · injection hd with _ h2
        exact h2.symm
  | writeLockReaders =>
    rw [resume_writeLockReaders] at hd
    split at hd
    · injection hd with _ h2
      exact h2.symm
    · cases hd

/-- Claim C18: hint equivalence. The hint returned to thread t by a completed ReadLock or
WriteLock (called afresh or continued after a wait) is the address of the read counter of
t; and in every state in which t holds a read lock, ReadUnLock by t with that hint and
ReadUnLock by t with a null hint give the same state. -/
theorem ReadUnLock_hint_or_null (s : TReentrantRWLock) (t : Thread)
    (_hpos : 0 < s.localReaders t) :
    ReadUnLock s t (some t) = ReadUnLock s t none ∧
    (∀ s0 s1 h, ReadLock s0 t = .done s1 h → ReadUnLock s t h = ReadUnLock s t none) ∧
    (∀ s0 s1 h, WriteLock s0 t = .done s1 h → ReadUnLock s t h = ReadUnLock s t none) ∧
    (∀ w s0 s1 h, resume w s0 t = .done s1 h → ReadUnLock s t h = ReadUnLock s t none) := by
  have h0 : ReadUnLock s t (some t) = ReadUnLock s t none := by
    rw [ReadUnLock_eq, ReadUnLock_eq]
    rfl
  refine ⟨h0, ?_, ?_, ?_⟩
  · intro s0 s1 h hd
    rw [(ReadLock_done hd).2.1]
    exact h0
  · intro s0 s1 h hd
    rw [WriteLock_hint hd]
    exact h0
  · intro w s0 s1 h hd
    rw [resume_hint hd]
    exact h0

/-- Witness for C18: thread 0 takes a read lock on a fresh lock; releasing it with the hint
ReadLock returned and releasing it with a null hint both give back the fresh lock. -/
theorem ReadUnLock_hint_or_null_witness :
    ∃ s1 h, ReadLock TReentrantRWLock.fresh 0 = .done s1 h ∧
      ReadUnLock s1 0 h = ReadUnLock s1 0 none ∧
      ReadUnLock s1 0 h = TReentrantRWLock.fresh :=
  ⟨bumpLock TReentrantRWLock.fresh 0, some 0, rfl,
    (ReadUnLock_hint_or_null (bumpLock TReentrantRWLock.fresh 0) 0 (by decide)).2.1
      TReentrantRWLock.fresh (bumpLock TReentrantRWLock.fresh 0) (some 0) rfl,
    ReadLock_ReadUnLock rfl⟩

/-- Claim C20: WriteUnLock does not check who calls it. In every state with fWriter set and
a write depth of at least one, WriteUnLock by any two threads t and u reports nothing and
leaves the same fWriter, fWriteRecurse and fReaders (and the same reservations and read
counts); at depth one it clears fWriter, whoever calls it, also a thread u that is not
marked as the writer. -/
theorem WriteUnLock_any_caller (s : TReentrantRWLock) (t u : Thread)
    (hw : s.fWriter = true) (hd : 1 ≤ s.fRecurseCounts.fWriteRecurse) :
    (WriteUnLock s t).2 = none ∧ (WriteUnLock s u).2 = none ∧
    (WriteUnLock s t).1.fWriter = (WriteUnLock s u).1.fWriter ∧
    (WriteUnLock s t).1.fRecurseCounts.fWriteRecurse =
      (WriteUnLock s u).1.fRecurseCounts.fWriteRecurse ∧
    (WriteUnLock s t).1.fReaders = (WriteUnLock s u).1.fReaders ∧
    (WriteUnLock s t).1.fReaderReservation = (WriteUnLock s u).1.fReaderReservation ∧
    (WriteUnLock s t).1.fWriterReservation = (WriteUnLock s u).1.fWriterReservation ∧
    (WriteUnLock s t).1.fRecurseCounts.fReadersCount =
      (WriteUnLock s u).1.fRecurseCounts.fReadersCount ∧
    (s.fRecurseCounts.fWriteRecurse = 1 →
      (WriteUnLock s u).1.fWriter = false ∧
      (WriteUnLock s u).1.fRecurseCounts.fWriteRecurse = 0) := by
  have hne : s.fRecurseCounts.fWriteRecurse ≠ 0 := by omega
  rw [WriteUnLock_held t hw hne, WriteUnLock_held u hw hne]
  by_cases hz : s.fRecurseCounts.fWriteRecurse - 1 = 0
  · rw [if_pos hz, if_pos hz]
    exact ⟨rfl, rfl, rfl, rfl, rfl, rfl, rfl, rfl, fun _ => ⟨rfl, rfl⟩⟩
  · rw [if_neg hz, if_neg hz]
    exact ⟨rfl, rfl, rfl, rfl, rfl, rfl, rfl, rfl, fun h => absurd (by omega) hz⟩

/-- Witness for C20: thread 0 holds the write lock at depth one; WriteUnLock by thread 1,
which never acquired it and is not marked, reports nothing and clears fWriter. -/
theorem WriteUnLock_any_caller_witness :
    (writeHeld TReentrantRWLock.fresh 0 1).isWriter 1 = false ∧
    (WriteUnLock (writeHeld TReentrantRWLock.fresh 0 1) 1).2 = none ∧
    (WriteUnLock (writeHeld TReentrantRWLock.fresh 0 1) 1).1.fWriter = false ∧
    (WriteUnLock (writeHeld TReentrantRWLock.fresh 0 1) 0).1.fWriter =
      (WriteUnLock (writeHeld TReentrantRWLock.fresh 0 1) 1).1.fWriter :=
  ⟨rfl,
    (WriteUnLock_any_caller (writeHeld TReentrantRWLock.fresh 0 1) 0 1 rfl (by decide)).2.1,
    ((WriteUnLock_any_caller (writeHeld TReentrantRWLock.fresh 0 1) 0 1 rfl
      (by decide)).2.2.2.2.2.2.2.2 rfl).1,
    (WriteUnLock_any_caller (writeHeld TReentrantRWLock.fresh 0 1) 0 1 rfl (by decide)).2.2.1⟩

/-- A thread that holds a read lock can take one more and release it, any number of times,
and leaves the lock as it was. -/
theorem runReaders_reenter (s : TReentrantRWLock) (u : Thread) (hl : s.localReaders u ≠ 0)
    (n : Nat) : runReaders (reenter u n) s = s ∧ releases (reenter u n) = n := by
  induction n with
  | zero => exact ⟨rfl, rfl⟩
  | succ n ih =>
    have hd : ReadLock s u = .done (bumpLock s u) (some u) := by
      rw [ReadLock_cases, if_neg (fun hc => hl hc.2.2)]
    have h1 : readerStep s (.arrive u) = bumpLock s u := by
      simp only [readerStep, hd]
    have h2 : readerStep (bumpLock s u) (.release u) = s := by
      simp only [readerStep]
      exact ReadLock_ReadUnLock hd
    simp only [reenter, runReaders, releases, h1, h2]
    exact ⟨ih.1, by rw [ih.2]⟩

/-- Counterexample to C15 as stated: thread 0 holds one read lock and thread 1 calls
WriteLock, which claims the lock and waits for the readers. Thread 0 then takes one more
read lock and releases it again, n times over: for every n, after n reader-release events
the WriteLock of thread 1 is still suspended when it is continued. -/
theorem writer_waits_without_bound :
    WriteLock (bumpLock TReentrantRWLock.fresh 0) 1 =
      .waits (claimLock (enterLock (bumpLock TReentrantRWLock.fresh 0) 1) 1)
        .writeLockReaders ∧
    ∀ n : Nat,
      releases (reenter 0 n) = n ∧
      resume .writeLockReaders
        (runReaders (reenter 0 n) (claimLock (enterLock (bumpLock TReentrantRWLock.fresh 0) 1) 1))
        1 =
      .waits (claimLock (enterLock (bumpLock TReentrantRWLock.fresh 0) 1) 1)
        .writeLockReaders := by
  refine ⟨rfl, fun n => ?_⟩
  obtain ⟨h1, h2⟩ := runReaders_reenter
    (claimLock (enterLock (bumpLock TReentrantRWLock.fresh 0) 1) 1) 0 (by decide) n
  rw [h1]
  exact ⟨h2, rfl⟩

/-- While `fWriter` is set, new readers are suspended and leave the state untouched, and
every release lowers `fReaders` by one. -/
theorem runReaders_newReadersOnly (es : List ReaderEvent) :
    ∀ s : TReentrantRWLock, s.fWriter = true → newReadersOnly es s →
      (runReaders es s).fReaders = s.fReaders - releases es ∧
      (runReaders es s).fWriter = true ∧
      (runReaders es s).fRecurseCounts.fIsWriter = s.fRecurseCounts.fIsWriter ∧
      (runReaders es s).fRecurseCounts.fWriteRecurse = s.fRecurseCounts.fWriteRecurse ∧
      (runReaders es s).fReaderReservation = s.fReaderReservation ∧
      (runReaders es s).fWriterReservation = s.fWriterReservation := by
  induction es with
  | nil =>
    intro s hw _
    simp [runReaders, releases, hw]
  | cons e es ih =>
    intro s hw hv
    cases e with
    | arrive u =>
      obtain ⟨hl, hm, hv1⟩ := hv
      have h1 : readerStep s (.arrive u) = s := by
        simp only [readerStep, ReadLock_cases, if_pos (And.intro hw (And.intro hm hl))]
      rw [h1] at hv1
      simp only [runReaders, releases, h1]
      exact ih s hw hv1
    | release u =>
      obtain ⟨_, hv1⟩ := hv
      have h1 : readerStep s (.release u) = ReadUnLock s u (some u) := rfl
      rw [h1] at hv1
      obtain ⟨a, b, c, d, e, f⟩ := ih (ReadUnLock s u (some u))
        (by rw [ReadUnLock_eq]; exact hw) hv1
      simp only [runReaders, releases, h1]
      refine ⟨?_, b, ?_, ?_, ?_, ?_⟩
      · rw [a, ReadUnLock_eq]
        push_cast
        ring
      · rw [c, ReadUnLock_eq]
        rfl
      · rw [d, ReadUnLock_eq]
        rfl
      · rw [e, ReadUnLock_eq]
      · rw [f, ReadUnLock_eq]

/-- Claim C15, amended: writer preference against new readers. Once a writer has claimed the
lock (fWriter is set), every ReadLock by a thread that holds no read lock and is not the
writer is suspended and leaves the lock as it is. So under any arrival of such new readers,
interleaved with releases by the threads that hold read locks, fReaders goes down by one
with every reader-release event and nothing else changes, and the WriteLock of the writer
that waits for the readers completes, when continued, exactly when the number of
reader-release events has reached the value fReaders had at the beginning. -/
theorem writer_waits_for_remaining_readers (s : TReentrantRWLock) (t : Thread)
    (es : List ReaderEvent) (hw : s.fWriter = true) (hv : newReadersOnly es s) :
    (∀ u, s.localReaders u = 0 → s.isWriter u = false →
      ReadLock s u = .waits s .readLockWriter) ∧
    (runReaders es s).fReaders = s.fReaders - releases es ∧
    (runReaders es s).fWriter = true ∧
    ((∃ s3, resume .writeLockReaders (runReaders es s) t = .done s3 (some t)) ↔
      (releases es : Int) = s.fReaders) ∧
    ((releases es : Int) ≠ s.fReaders →
      resume .writeLockReaders (runReaders es s) t =
        .waits (runReaders es s) .writeLockReaders) := by
  obtain ⟨a, b, _⟩ := runReaders_newReadersOnly es s hw hv
  refine ⟨?_, a, b, ?_, ?_⟩
  · intro u hl hm
    rw [ReadLock_cases, if_pos ⟨hw, hm, hl⟩]
  · rw [resume_writeLockReaders]
    constructor
    · intro h
      by_contra hne
      rw [if_neg (by rw [a]; omega)] at h
      obtain ⟨s3, h⟩ := h
      cases h
    · intro h
      rw [if_pos (by rw [a]; omega)]
      exact ⟨_, rfl⟩
  · intro hne
    rw [resume_writeLockReaders, if_neg (by rw [a]; omega)]

/-- Witness for the amended C15: thread 0 holds two read locks and thread 1 has claimed the
write lock and waits for the readers. Thread 2 arrives and is suspended, thread 0 releases
one read lock, thread 3 arrives and is suspended, thread 0 releases its other read lock:
after these two reader-release events the WriteLock of thread 1 completes. -/
theorem writer_waits_for_remaining_readers_witness :
    (claimLock (enterLock (bumpLock (bumpLock TReentrantRWLock.fresh 0) 0) 1) 1).fReaders = 2 ∧
    releases [.arrive 2, .release 0, .arrive 3, .release 0] = 2 ∧
    ∃ s3, resume .writeLockReaders
      (runReaders [.arrive 2, .release 0, .arrive 3, .release 0]
        (claimLock (enterLock (bumpLock (bumpLock TReentrantRWLock.fresh 0) 0) 1) 1)) 1 =
      .done s3 (some 1) :=
  ⟨rfl, rfl,
    (writer_waits_for_remaining_readers
      (claimLock (enterLock (bumpLock (bumpLock TReentrantRWLock.fresh 0) 0) 1) 1) 1
      [.arrive 2, .release 0, .arrive 3, .release 0] rfl
      ⟨rfl, rfl, by decide, rfl, rfl, by decide, trivial⟩).2.2.2.1.2 rfl⟩

/-! ## The invariants under a weaker contract -/

/-- Recording an outcome for a thread overrides an earlier record for it. -/
theorem settle_put {α : Type} (σ : System) (s1 : TReentrantRWLock) (t : Thread)
    (o1 : Option Pending) (k : Option TReentrantRWLockState) (o : Outcome α)
    (h : o ≠ .assertFailed) : (σ.put s1 t o1).settle t k o = σ.settle t k o := by
  cases o with
  | done s a => simp only [System.settle, put_put]
  | waits s w => simp only [System.settle, put_put]
  | assertFailed => exact absurd rfl h

/-- The strict contract is a special case of every weaker one. -/
theorem reach_reachBy {R W : Prop} {σ : System} (h : Reach σ) : ReachBy R W σ := by
  induction h with
  | fresh => exact ReachBy.fresh
  | readLock _ hp ih => exact ReachBy.readLock ih hp
  | readUnLock _ hp hpos hh ih => exact ReachBy.readUnLock ih hp (fun _ => ⟨hpos, hh⟩)
  | writeLock _ hp ih => exact ReachBy.writeLock ih hp
  | writeUnLock _ hp hw ht ih => exact ReachBy.writeUnLock ih hp (fun _ => ⟨hw, ht⟩)
  | save _ hp _ ih => exact ReachBy.save ih hp
  | restore _ hp hmem hloc hna ih => exact ReachBy.restore ih hp hmem hloc hna
  | resume _ hp ih => exact ReachBy.resume ih hp

/-- `WriteLock` is its entry segment followed by the wait for other writers or the claim. -/
theorem WriteLock_split (s : TReentrantRWLock) (t : Thread) :
    WriteLock s t =
      if s.fWriter = true ∧ s.isWriter t = false then .waits (enterLock s t) .writeLockWriter
      else resume .writeLockReservation (claimLock (enterLock s t) t) t := by
  rw [WriteLock_cases, resume_writeLockReservation]
  rfl

/-- The wait for other writers is followed by the claim. -/
theorem resume_writeLockWriter_split (s : TReentrantRWLock) (t : Thread) :
    resume .writeLockWriter s t =
      if s.fWriter = true then .waits s .writeLockWriter
      else resume .writeLockReservation (claimLock s t) t := by
  rw [resume_writeLockWriter, resume_writeLockReservation]
  rfl

/-- The continuation of a call suspended after the claim, in moves. -/
theorem moves_spin {R W : Prop} {σ : System} (hm : Moves R W σ) (t : Thread)
    (k : Option TReentrantRWLockState)
    (hp : σ.pending t = some ⟨.writeLockReservation, k⟩) :
    Moves R W (σ.settle t k
      ((resume .writeLockReservation σ.lock t).andThen fun s _ =>
        .done (fixWriterOpt k s) (none : Option Diagnostic))) := by
  rw [resume_writeLockReservation]
  by_cases hres : σ.lock.fReaderReservation ≠ 0
  · rw [if_pos hres]
    simp only [Outcome.andThen, System.settle]
    rw [put_self σ t _ hp]
    exact hm
  · rw [if_neg hres]
    have hres0 : σ.lock.fReaderReservation = 0 := by
      by_contra h
      exact hres h
    have h1 := Moves.pass hm hp hres0
    by_cases hr : σ.lock.fReaders ≠ 0
    · rw [if_pos hr]
      simp only [Outcome.andThen, System.settle]
      exact h1
    · rw [if_neg hr]
      have hr0 : σ.lock.fReaders = 0 := by
        by_contra h
        exact hr h
      simp only [Outcome.andThen, System.settle]
      have h2 := Moves.leave h1 (put_pending_same _ _ _ _) hr0
      rw [put_put] at h2
      exact h2

/-- The claim and what follows it, in moves. -/
theorem moves_claim {R W : Prop} {σ : System} (hm : Moves R W σ) (t : Thread)
    (k : Option TReentrantRWLockState)
    (hp : σ.pending t = some ⟨.writeLockWriter, k⟩)
    (hc : σ.lock.fWriter = false ∨ σ.lock.fRecurseCounts.fIsWriter t = true) :
    Moves R W (σ.settle t k
      ((resume .writeLockReservation (claimLock σ.lock t) t).andThen fun s _ =>
        .done (fixWriterOpt k s) (none : Option Diagnostic))) := by
  have h1 := Moves.claim hm hp hc
  have h2 := moves_spin h1 t k (put_pending_same _ _ _ _)
  rw [settle_put] at h2
  · exact h2
  · rw [resume_writeLockReservation]
    split
    · exact fun h => Outcome.noConfusion h
    · split <;> exact fun h => Outcome.noConfusion h

/-- A call of `WriteLock` whose entry segment has been recorded, in moves. -/
theorem moves_write {R W : Prop} {σ : System} (hm : Moves R W σ) (t : Thread)
    (k : Option TReentrantRWLockState) (s0 : TReentrantRWLock)
    (hp : σ.pending t = some ⟨.writeLockWriter, k⟩) (hl : σ.lock = enterLock s0 t) :
    Moves R W (σ.settle t k
      ((WriteLock s0 t).andThen fun s _ =>
        .done (fixWriterOpt k s) (none : Option Diagnostic))) := by
  rw [WriteLock_split]
  by_cases hf : s0.fWriter = true ∧ s0.isWriter t = false
  · rw [if_pos hf]
    simp only [Outcome.andThen, System.settle]
    rw [← hl, put_self σ t _ hp]
    exact hm
  · rw [if_neg hf, ← hl]
    refine moves_claim hm t k hp ?_
    rw [hl]
    simp only [enterLock]
    simp only [isWriter, RecurseCounts.IsNotCurrentWriter, Bool.not_not, not_and,
      Bool.not_eq_false] at hf
    by_cases hw : s0.fWriter = true
    · exact Or.inr (hf hw)
    · simp only [Bool.not_eq_true] at hw
      exact Or.inl hw

/-- A call of `ReadLock` whose start has been recorded, in moves. -/
theorem moves_read {R W : Prop} {σ : System} (hm : Moves R W σ) (t : Thread)
    (k : Option TReentrantRWLockState)
    (hp : σ.pending t = some ⟨.readLockWriter, k⟩) :
    Moves R W (σ.settle t k
      ((ReadLock σ.lock t).andThen fun s _ =>
        .done (fixReaderOpt k s) (none : Option Diagnostic))) := by
  rw [ReadLock_cases]
  split
  · simp only [Outcome.andThen, System.settle]
    rw [put_self σ t _ hp]
    exact hm
  · simp only [Outcome.andThen, System.settle]
    exact Moves.read hm hp

/-- The continuation of a suspended call, in moves. -/
theorem moves_cont {R W : Prop} {σ : System} (hm : Moves R W σ) (t : Thread) (pd : Pending)
    (hp : σ.pending t = some pd) :
    Moves R W (σ.settle t pd.restoring (resumeCall pd σ.lock t)) := by
  rw [resumeCall_eq]
  obtain ⟨point, k⟩ := pd
  cases point with
  | readLockWriter =>
    simp only [if_true]
    rw [resume_readLockWriter]
    split
    · simp only [Outcome.andThen, System.settle]
      rw [put_self σ t _ hp]
      exact hm
    · simp only [Outcome.andThen, System.settle]
      exact Moves.read hm hp
  | writeLockWriter =>
    simp only [if_false, reduceCtorEq]
    rw [resume_writeLockWriter_split]
    by_cases hw : σ.lock.fWriter = true
    · rw [if_pos hw]
      simp only [Outcome.andThen, System.settle]
      rw [put_self σ t _ hp]
      exact hm
    · rw [if_neg hw]
      simp only [Bool.not_eq_true] at hw
      exact moves_claim hm t k hp (Or.inl hw)
  | writeLockReservation =>
    simp only [if_false, reduceCtorEq]
    exact moves_spin hm t k hp
  | writeLockReaders =>
    simp only [if_false, reduceCtorEq]
    rw [resume_writeLockReaders]
    by_cases hr : σ.lock.fReaders = 0
    · rw [if_pos hr]
      simp only [Outcome.andThen, System.settle]
      exact Moves.leave hm hp hr
    · rw [if_neg hr]
      simp only [Outcome.andThen, System.settle]
      rw [put_self σ t _ hp]
      exact hm

/-- Every step of `ReachBy` is a sequence of moves. -/
theorem reachBy_moves {R W : Prop} {σ : System} (h : ReachBy R W σ) : Moves R W σ := by
  induction h with
  | fresh => exact Moves.fresh
  | @readLock σ t _ hp ih =>
    have h1 := Moves.begin none ih hp (fun p e => by cases e)
    have h2 := moves_read h1 t none (put_pending_same _ _ _ _)
    rw [settle_put _ _ _ _ _ _
      (andThen_done_ne_assertFailed _ _ _ (ReadLock_ne_assertFailed _ _))] at h2
    have e : ((ReadLock σ.lock t).andThen fun s _ =>
        Outcome.done (fixReaderOpt none s) (none : Option Diagnostic)) =
        (ReadLock σ.lock t).andThen fun s _ => Outcome.done s (none : Option Diagnostic) := rfl
    have e2 : σ.settle t none (ReadLock σ.lock t) =
        σ.settle t none ((ReadLock σ.lock t).andThen fun s _ =>
          Outcome.done s (none : Option Diagnostic)) := by
      cases ReadLock σ.lock t <;> rfl
    rw [e2]
    exact h2
  | @readUnLock σ t hint _ hp hh ih => exact Moves.readUnLock ih hp hh
  | @writeLock σ t _ hp ih =>
    have h1 := Moves.enter none ih hp (fun p e => by cases e)
    have h2 := moves_write h1 t none σ.lock (put_pending_same _ _ _ _) rfl
    rw [settle_put _ _ _ _ _ _
      (andThen_done_ne_assertFailed _ _ _ (WriteLock_ne_assertFailed _ _))] at h2
    have e2 : σ.settle t none (WriteLock σ.lock t) =
        σ.settle t none ((WriteLock σ.lock t).andThen fun s _ =>
          Outcome.done (fixWriterOpt none s) (none : Option Diagnostic)) := by
      cases WriteLock σ.lock t <;> rfl
    rw [e2]
    exact h2
  | @writeUnLock σ t _ hp hh ih => exact Moves.writeUnLock ih hp hh
  | @save σ t _ hp ih => exact Moves.save ih hp
  | @restore σ t p _ hp hmem hloc hna ih =>
    have hl : σ.lock.fRecurseCounts.fReadersCount t = 0 := by
      by_contra hne
      apply hna
      rw [Restore_assertFailed_iff, hloc]
      exact hne
    simp only [Restore, RecurseCounts.GetLocalReadersCount, hloc, hl, ne_eq,
      not_true_eq_false, if_false]
    by_cases hW : p.fIsWriter = true
    · rw [if_pos hW]
      have h1 := Moves.consume p (Moves.enter (some p) ih hp
        (fun q e => by injection e with e; subst e; exact ⟨hmem, hloc, hl, hW⟩))
      have h2 := moves_write h1 t (some p) σ.lock
        (put_pending_same σ (enterLock σ.lock t) t _) rfl
      have h3 := settle_put { σ with tokens := σ.tokens.erase p } (enterLock σ.lock t) t
        (some ⟨.writeLockWriter, some p⟩) (some p)
        ((WriteLock σ.lock t).andThen fun s _ =>
          Outcome.done (fixWriterOpt (some p) s) (none : Option Diagnostic))
        (andThen_done_ne_assertFailed _ _ _ (WriteLock_ne_assertFailed _ _))
      exact Eq.mp (congrArg (Moves R W) h3) h2
    · rw [if_neg hW]
      simp only [Bool.not_eq_true] at hW
      by_cases hc : p.fReadersCount = 0
      · rw [if_neg (by simp [hc])]
        simp only [System.settle]
        have e := put_self { σ with tokens := σ.tokens.erase p } t none hp
        simp only at e
        rw [e]
        exact Moves.consume p ih
      · rw [if_pos hc]
        have h1 := Moves.consume p (Moves.begin (some p) ih hp
          (fun q e => by injection e with e; subst e; exact ⟨hmem, hloc, hl, hW⟩))
        have h2 := moves_read h1 t (some p) (put_pending_same σ σ.lock t _)
        have h3 := settle_put { σ with tokens := σ.tokens.erase p } σ.lock t
          (some ⟨.readLockWriter, some p⟩) (some p)
          ((ReadLock σ.lock t).andThen fun s _ =>
            Outcome.done (fixReaderOpt (some p) s) (none : Option Diagnostic))
          (andThen_done_ne_assertFailed _ _ _ (ReadLock_ne_assertFailed _ _))
        exact Eq.mp (congrArg (Moves R W) h3) h2
  | @resume σ t pd _ hp ih => exact moves_cont ih t pd hp

/-- `WriteUnLock` touches neither the reader count nor the read counts nor the
reservations, whoever calls it and whatever it reports. -/
theorem WriteUnLock_frame (s : TReentrantRWLock) (t : Thread) :
    (WriteUnLock s t).1.fReaders = s.fReaders ∧
    (WriteUnLock s t).1.fRecurseCounts.fReadersCount = s.fRecurseCounts.fReadersCount ∧
    (WriteUnLock s t).1.fReaderReservation = s.fReaderReservation ∧
    (WriteUnLock s t).1.fWriterReservation = s.fWriterReservation := by
  unfold WriteUnLock
  split
  · exact ⟨rfl, rfl, rfl, rfl⟩
  · simp only [RecurseCounts.DecrementWriteCount, RecurseCounts.ResetIsWriter]
    split <;> exact ⟨rfl, rfl, rfl, rfl⟩

/-- `Reset` leaves the reservations alone. -/
theorem Reset_reservations (s : TReentrantRWLock) (t : Thread) :
    (Reset s t).1.fReaderReservation = s.fReaderReservation ∧
    (Reset s t).1.fWriterReservation = s.fWriterReservation := by
  rw [Reset_eq]
  split <;> exact ⟨rfl, rfl⟩

/-- The fix-ups of `Restore` leave the reservations alone. -/
theorem fixOpt_reservations (k : Option TReentrantRWLockState) (s : TReentrantRWLock) :
    (fixWriterOpt k s).fReaderReservation = s.fReaderReservation ∧
    (fixWriterOpt k s).fWriterReservation = s.fWriterReservation ∧
    (fixReaderOpt k s).fReaderReservation = s.fReaderReservation ∧
    (fixReaderOpt k s).fWriterReservation = s.fWriterReservation := by
  cases k <;> exact ⟨rfl, rfl, rfl, rfl⟩

/-- The reservation invariant after a step of thread `t`. -/
theorem resInv_put {σ : System} (hi : ResInv σ) (s : TReentrantRWLock) (t : Thread)
    (o : Option Pending) (hres : s.fReaderReservation = σ.lock.fReaderReservation)
    (hQ : s.fWriterReservation =
      σ.lock.fWriterReservation - σ.queued t + (σ.put s t o).queued t) :
    ResInv (σ.put s t o) := by
  refine ⟨?_, ?_⟩
  · show s.fReaderReservation = 0
    rw [hres]
    exact hi.readerRes
  · have h := @SumOver_step _ (σ.put s t o).queued _ hi.queue t
      (fun u hu => put_queued_other σ s t o hu)
    rw [← hQ] at h
    exact h

/-- The reservation invariant holds whatever the threads do. -/
theorem moves_resInv {R W : Prop} {σ : System} (h : Moves R W σ) : ResInv σ := by
  induction h with
  | fresh => exact ⟨rfl, ⟨∅, fun _ _ => rfl, rfl⟩⟩
  | consume p _ ih => exact ⟨ih.readerRes, ih.queue⟩
  | @begin σ t k _ hp _ ih =>
    refine resInv_put ih _ t _ rfl ?_
    rw [put_queued_same, queued_of_idle (by rw [hp]; rfl)]
    simp [inWriteLock]
  | @read σ t k _ hp ih =>
    refine resInv_put ih _ t _ ?_ ?_
    · rw [(fixOpt_reservations k _).2.2.1]
      rfl
    · rw [put_queued_same, queued_of_idle (by rw [hp]; rfl), (fixOpt_reservations k _).2.2.2]
      simp [inWriteLock, bumpLock]
  | @enter σ t k _ hp _ ih =>
    refine resInv_put ih _ t _ rfl ?_
    rw [put_queued_same, queued_of_idle (by rw [hp]; rfl)]
    simp [inWriteLock, enterLock]
  | @claim σ t k _ hp _ ih =>
    refine resInv_put ih _ t _ rfl ?_
    rw [put_queued_same, queued_of_writing (by rw [hp]; rfl)]
    simp [inWriteLock, claimLock]
  | @pass σ t k _ hp _ ih =>
    refine resInv_put ih _ t _ rfl ?_
    rw [put_queued_same, queued_of_writing (by rw [hp]; rfl)]
    simp [inWriteLock]
  | @leave σ t k _ hp _ ih =>
    refine resInv_put ih _ t _ ?_ ?_
    · rw [(fixOpt_reservations k _).1]
      rfl
    · rw [put_queued_same, queued_of_writing (by rw [hp]; rfl), (fixOpt_reservations k _).2.1]
      simp [inWriteLock, leaveLock]
  | @readUnLock σ t hint _ hp _ ih =>
    rw [setLock_eq_put σ _ t hp]
    refine resInv_put ih _ t _ ?_ ?_
    · rw [ReadUnLock_eq]
    · rw [put_queued_same, queued_of_idle (by rw [hp]; rfl), ReadUnLock_eq]
      simp [inWriteLock]
  | @writeUnLock σ t _ hp _ ih =>
    rw [setLock_eq_put σ _ t hp]
    refine resInv_put ih _ t _ (WriteUnLock_frame _ _).2.2.1 ?_
    rw [put_queued_same, queued_of_idle (by rw [hp]; rfl), (WriteUnLock_frame _ _).2.2.2]
    simp [inWriteLock]
  | @save σ t _ hp ih =>
    have h := resInv_put ih (Reset σ.lock t).1 t none (Reset_reservations _ _).1 (by
      rw [put_queued_same, queued_of_idle (by rw [hp]; rfl), (Reset_reservations _ _).2]
      simp [inWriteLock])
    rw [← setLock_eq_put σ _ t hp] at h
    exact ⟨h.readerRes, h.queue⟩

/-- A completed or suspended continuation of `ReadLock` or `WriteLock` and the
reservations: the reader reservation is as before, the writer reservation is given back
when a `WriteLock` completes. -/
theorem resume_reservations (w : WaitPoint) (s : TReentrantRWLock) (t : Thread) :
    (∀ s1 h, resume w s t = .done s1 h →
      s1.fReaderReservation = s.fReaderReservation ∧
      s1.fWriterReservation =
        (if w = WaitPoint.readLockWriter then s.fWriterReservation
         else s.fWriterReservation - 1)) ∧
    (∀ s1 w1, resume w s t = .waits s1 w1 →
      s1.fReaderReservation = s.fReaderReservation ∧
      s1.fWriterReservation = s.fWriterReservation) := by
  cases w with
  | readLockWriter =>
    rw [resume_readLockWriter]
    split
    · refine ⟨fun s1 h e => (by cases e), fun s1 w1 e => ?_⟩
      injection e with e1 _
      subst e1
      exact ⟨rfl, rfl⟩
    · refine ⟨fun s1 h e => ?_, fun s1 w1 e => (by cases e)⟩
      injection e with e1 _
      subst e1
      exact ⟨rfl, rfl⟩
  | writeLockWriter =>
    rw [resume_writeLockWriter]
    split
    · refine ⟨fun s1 h e => (by cases e), fun s1 w1 e => ?_⟩
      injection e with e1 _
      subst e1
      exact ⟨rfl, rfl⟩
    · split
      · refine ⟨fun s1 h e => (by cases e), fun s1 w1 e => ?_⟩
        injection e with e1 _
        subst e1
        exact ⟨rfl, rfl⟩
      · split
        · refine ⟨fun s1 h e => (by cases e), fun s1 w1 e => ?_⟩
          injection e with e1 _
          subst e1
          exact ⟨rfl, rfl⟩
        · refine ⟨fun s1 h e => ?_, fun s1 w1 e => (by cases e)⟩
          injection e with e1 _
          subst e1
          exact ⟨rfl, rfl⟩
  | writeLockReservation =>
    rw [resume_writeLockReservation]
    split
    · refine ⟨fun s1 h e => (by cases e), fun s1 w1 e => ?_⟩
      injection e with e1 _
      subst e1
      exact ⟨rfl, rfl⟩
    · split
      · refine ⟨fun s1 h e => (by cases e), fun s1 w1 e => ?_⟩
        injection e with e1 _
        subst e1
        exact ⟨rfl, rfl⟩
      · refine ⟨fun s1 h e => ?_, fun s1 w1 e => (by cases e)⟩
        injection e with e1 _
        subst e1
        exact ⟨rfl, rfl⟩
  | writeLockReaders =>
    rw [resume_writeLockReaders]
    split
    · refine ⟨fun s1 h e => ?_, fun s1 w1 e => (by cases e)⟩
      injection e with e1 _
      subst e1
      exact ⟨rfl, rfl⟩
    · refine ⟨fun s1 h e => (by cases e), fun s1 w1 e => ?_⟩
      injection e with e1 _
      subst e1
      exact ⟨rfl, rfl⟩

/-- A completed `ReadLock` or `WriteLock` leaves both reservations as they were; a suspended
`WriteLock` has left its reservation, a suspended `ReadLock` none. -/
theorem call_reservations (s : TReentrantRWLock) (t : Thread) :
    (∀ s1 h, ReadLock s t = .done s1 h →
      s1.fReaderReservation = s.fReaderReservation ∧
      s1.fWriterReservation = s.fWriterReservation) ∧
    (∀ s1 w, ReadLock s t = .waits s1 w →
      w = WaitPoint.readLockWriter ∧ s1.fReaderReservation = s.fReaderReservation ∧
      s1.fWriterReservation = s.fWriterReservation) ∧
    (∀ s1 h, WriteLock s t = .done s1 h →
      s1.fReaderReservation = s.fReaderReservation ∧
      s1.fWriterReservation = s.fWriterReservation) ∧
    (∀ s1 w, WriteLock s t = .waits s1 w →
      w ≠ WaitPoint.readLockWriter ∧ s1.fReaderReservation = s.fReaderReservation ∧
      s1.fWriterReservation = s.fWriterReservation + 1) := by
  refine ⟨?_, ?_, ?_, ?_⟩
  · intro s1 h e
    rw [ReadLock_cases] at e
    split at e
    · cases e
    · injection e with e1 _
      subst e1
      exact ⟨rfl, rfl⟩
  · intro s1 w e
    rw [ReadLock_cases] at e
    split at e
    · injection e with e1 e2
      subst e1 e2
      exact ⟨rfl, rfl, rfl⟩
    · cases e
  · intro s1 h e
    rw [WriteLock_cases] at e
    split at e
    · cases e
    · split at e
      · cases e
      · split at e
        · cases e
        · injection e with e1 _
          subst e1
          simp [leaveLock, claimLock, enterLock]
  · intro s1 w e
    rw [WriteLock_cases] at e
    split at e
    · injection e with e1 e2
      subst e1 e2
      exact ⟨by decide, rfl, rfl⟩
    · split at e
      · injection e with e1 e2
        subst e1 e2
        exact ⟨by decide, rfl, rfl⟩
      · split at e
        · injection e with e1 e2
          subst e1 e2
          exact ⟨by decide, rfl, rfl⟩
        · cases e

/-- Claim C19: the reservations are transient. Every completed ReadLock (whichever path it
took), ReadUnLock, WriteLock, WriteUnLock, Reset (Save) and Restore leaves
fReaderReservation and fWriterReservation equal to their values before the call, whoever
calls it and in whatever state. A call that is suspended has left fReaderReservation as it
was and, inside WriteLock, fWriterReservation one higher, which the continuation gives back
when it completes. So in every state reached from a fresh lock, under any interleaving and
without any contract on the unlock operations, fReaderReservation is zero, and
fWriterReservation is zero whenever no call is in flight. -/
theorem reservations_transient (s : TReentrantRWLock) (t : Thread) :
    (∀ s1 h, ReadLock s t = .done s1 h →
      s1.fReaderReservation = s.fReaderReservation ∧
      s1.fWriterReservation = s.fWriterReservation) ∧
    (∀ hint, (ReadUnLock s t hint).fReaderReservation = s.fReaderReservation ∧
      (ReadUnLock s t hint).fWriterReservation = s.fWriterReservation) ∧
    (∀ s1 h, WriteLock s t = .done s1 h →
      s1.fReaderReservation = s.fReaderReservation ∧
      s1.fWriterReservation = s.fWriterReservation) ∧
    ((WriteUnLock s t).1.fReaderReservation = s.fReaderReservation ∧
      (WriteUnLock s t).1.fWriterReservation = s.fWriterReservation) ∧
    ((Reset s t).1.fReaderReservation = s.fReaderReservation ∧
      (Reset s t).1.fWriterReservation = s.fWriterReservation) ∧
    (∀ handle s1 d, Restore s t handle = .done s1 d →
      s1.fReaderReservation = s.fReaderReservation ∧
      s1.fWriterReservation = s.fWriterReservation) ∧
    (∀ s1 w, (ReadLock s t = .waits s1 w ∨ WriteLock s t = .waits s1 w ∨
        ∃ handle, Restore s t handle = .waits s1 w) →
      s1.fReaderReservation = s.fReaderReservation ∧
      s1.fWriterReservation =
        (if w = WaitPoint.readLockWriter then s.fWriterReservation
         else s.fWriterReservation + 1)) ∧
    (∀ pd s1 d, resumeCall pd s t = .done s1 d →
      s1.fReaderReservation = s.fReaderReservation ∧
      s1.fWriterReservation =
        (if pd.point = WaitPoint.readLockWriter then s.fWriterReservation
         else s.fWriterReservation - 1)) ∧
    (∀ σ, ReachBy False False σ →
      σ.lock.fReaderReservation = 0 ∧ (σ.Quiescent → σ.lock.fWriterReservation = 0)) := by
  obtain ⟨c1, c2, c3, c4⟩ := call_reservations s t
  have hw : ∀ s1 w, ReadLock s t = .waits s1 w ∨ WriteLock s t = .waits s1 w →
      s1.fReaderReservation = s.fReaderReservation ∧
      s1.fWriterReservation =
        (if w = WaitPoint.readLockWriter then s.fWriterReservation
         else s.fWriterReservation + 1) := by
    intro s1 w e
    rcases e with e | e
    · obtain ⟨a, b, c⟩ := c2 s1 w e
      rw [if_pos a]
      exact ⟨b, c⟩
    · obtain ⟨a, b, c⟩ := c4 s1 w e
      rw [if_neg a]
      exact ⟨b, c⟩
  refine ⟨c1, ?_, c3, ⟨(WriteUnLock_frame s t).2.2.1, (WriteUnLock_frame s t).2.2.2⟩,
    Reset_reservations s t, ?_, ?_, ?_, ?_⟩
  · intro hint
    rw [ReadUnLock_eq]
    exact ⟨rfl, rfl⟩
  · intro handle s1 d e
    cases handle with
    | null =>
      injection e with e1 _
      subst e1
      exact ⟨rfl, rfl⟩
    | foreign =>
      injection e with e1 _
      subst e1
      exact ⟨rfl, rfl⟩
    | rwState p =>
      simp only [Restore] at e
      split at e
      · cases e
      · split at e
        · cases ho : WriteLock s t with
          | done s2 h =>
            rw [ho] at e
            injection e with e1 _
            subst e1
            exact c3 s2 h ho
          | waits s2 w =>
            rw [ho] at e
            cases e
          | assertFailed =>
            rw [ho] at e
            cases e
        · split at e
          · cases ho : ReadLock s t with
            | done s2 h =>
              rw [ho] at e
              injection e with e1 _
              subst e1
              exact c1 s2 h ho
            | waits s2 w =>
              rw [ho] at e
              cases e
            | assertFailed =>
              rw [ho] at e
              cases e
          · injection e with e1 _
            subst e1
            exact ⟨rfl, rfl⟩
  · intro s1 w e
    rcases e with e | e | ⟨handle, e⟩
    · exact hw s1 w (Or.inl e)
    · exact hw s1 w (Or.inr e)
    · cases handle with
      | null => cases e
      | foreign => cases e
      | rwState p =>
        simp only [Restore] at e
        split at e
        · cases e
        · split at e
          · cases ho : WriteLock s t with
            | done s2 h =>
              rw [ho] at e
              cases e
            | waits s2 w2 =>
              rw [ho] at e
              injection e with e1 e2
              subst e1 e2
              exact hw s2 w2 (Or.inr ho)
            | assertFailed =>
              rw [ho] at e
              cases e
          · split at e
            · cases ho : ReadLock s t with
              | done s2 h =>
                rw [ho] at e
                cases e
              | waits s2 w2 =>
                rw [ho] at e
                injection e with e1 e2
                subst e1 e2
                exact hw s2 w2 (Or.inl ho)
              | assertFailed =>
                rw [ho] at e
                cases e
            · cases e
  · intro pd s1 d e
    rw [resumeCall_eq] at e
    cases ho : resume pd.point s t with
    | done s2 h =>
      rw [ho] at e
      injection e with e1 _
      subst e1
      obtain ⟨a, b⟩ := (resume_reservations pd.point s t).1 s2 h ho
      split
      · rename_i hpt
        rw [if_pos hpt] at b
        exact ⟨by rw [(fixOpt_reservations _ _).2.2.1]; exact a,
          by rw [(fixOpt_reservations _ _).2.2.2]; exact b⟩
      · rename_i hpt
        rw [if_neg hpt] at b
        exact ⟨by rw [(fixOpt_reservations _ _).1]; exact a,
          by rw [(fixOpt_reservations _ _).2.1]; exact b⟩
    | waits s2 w =>
      rw [ho] at e
      cases e
    | assertFailed =>
      rw [ho] at e
      cases e
  · intro σ hr
    have hi := moves_resInv (reachBy_moves hr)
    refine ⟨hi.readerRes, fun hq => ?_⟩
    obtain ⟨S, _, hsum⟩ := hi.queue
    rw [hsum]
    apply Finset.sum_eq_zero
    intro u _
    exact queued_of_idle (by rw [hq u]; rfl)

/-- The run `strayWriteUnLock` is admitted as long as `WriteUnLock` has no contract. -/
theorem reachBy_strayWriteUnLock {R : Prop} : ReachBy R False strayWriteUnLock :=
  @ReachBy.readLock R False _ 2
    (@ReachBy.writeUnLock R False _ 1 (@ReachBy.writeLock R False _ 0 ReachBy.fresh rfl) rfl
      (fun h => h.elim))
    rfl

/-- At the end of the run `strayWriteUnLock` no call is in flight. -/
theorem strayWriteUnLock_quiescent : strayWriteUnLock.Quiescent := by
  intro t
  by_cases h2 : t = 2
  · subst h2
    rfl
  · by_cases h0 : t = 0
    · subst h0
      rfl
    · simp [strayWriteUnLock, System.settle, System.put, System.setLock, System.fresh,
        ReadLock_cases, WriteLock_cases, TReentrantRWLock.fresh, Function.update_noteq h2,
        Function.update_noteq h0, isWriter, localReaders, RecurseCounts.IsNotCurrentWriter,
        RecurseCounts.GetLocalReadersCount, bumpLock, enterLock, claimLock, leaveLock,
        WriteUnLock, RecurseCounts.DecrementWriteCount, RecurseCounts.ResetIsWriter,
        RecurseCounts.SetLocalReadersCount, RecurseCounts.SetIsWriter]

/-- The writer-state invariant after a step of thread `t`, from what the step leaves. -/
theorem writerInv_put {σ : System} (hi : WriterInv σ) (s : TReentrantRWLock) (t : Thread)
    (o : Option Pending)
    (hA : s.fWriter = true → 1 ≤ s.fRecurseCounts.fWriteRecurse ∧
      ∃ w, s.fRecurseCounts.fIsWriter w = true ∧
        ∀ u, u ≠ w → s.fRecurseCounts.fIsWriter u = false)
    (hB : s.fWriter = false → s.fRecurseCounts.fWriteRecurse = 0 ∧
      ∀ u, s.fRecurseCounts.fIsWriter u = false)
    (hkeep : ∀ u, u ≠ t → ∀ pd, σ.pending u = some pd →
      (pd.point = WaitPoint.writeLockReservation ∨ pd.point = WaitPoint.writeLockReaders) →
      s.fWriter = true ∧ s.fRecurseCounts.fIsWriter u = true)
    (hcl : ∀ pd, o = some pd →
      (pd.point = WaitPoint.writeLockReservation ∨ pd.point = WaitPoint.writeLockReaders) →
      s.fWriter = true ∧ s.fRecurseCounts.fIsWriter t = true)
    (hre : ∀ pd, o = some pd → pd.point ≠ WaitPoint.readLockWriter →
      ∀ p, pd.restoring = some p → 1 ≤ p.fWriteRecurse) :
    WriterInv (σ.put s t o) := by
  refine ⟨hA, hB, ?_, ?_, hi.tokens⟩
  · intro u pd hu hpt
    by_cases hut : u = t
    · subst hut
      rw [put_pending_same] at hu
      exact hcl pd hu hpt
    · rw [put_pending_other _ _ _ _ hut] at hu
      exact hkeep u hut pd hu hpt
  · intro u pd hu hpt p hp
    by_cases hut : u = t
    · subst hut
      rw [put_pending_same] at hu
      exact hre pd hu hpt p hp
    · rw [put_pending_other _ _ _ _ hut] at hu
      exact hi.restoring u pd hu hpt p hp

/-- The writer-state invariant after a step of thread `t` that keeps `fWriter` and the
writer marks and leaves a write depth of at least one if `fWriter` is set. -/
theorem writerInv_keep {σ : System} (hi : WriterInv σ) (s : TReentrantRWLock) (t : Thread)
    (o : Option Pending) (hw : s.fWriter = σ.lock.fWriter)
    (hwr : s.fRecurseCounts.fWriteRecurse = σ.lock.fRecurseCounts.fWriteRecurse ∨
      (σ.lock.fWriter = true ∧ 1 ≤ s.fRecurseCounts.fWriteRecurse))
    (hm : s.fRecurseCounts.fIsWriter = σ.lock.fRecurseCounts.fIsWriter)
    (hcl : ∀ pd, o = some pd →
      (pd.point = WaitPoint.writeLockReservation ∨ pd.point = WaitPoint.writeLockReaders) →
      σ.lock.fWriter = true ∧ σ.lock.fRecurseCounts.fIsWriter t = true)
    (hre : ∀ pd, o = some pd → pd.point ≠ WaitPoint.readLockWriter →
      ∀ p, pd.restoring = some p → 1 ≤ p.fWriteRecurse) :
    WriterInv (σ.put s t o) := by
  refine writerInv_put hi s t o ?_ ?_ ?_ ?_ hre
  · intro h
    rw [hw] at h
    rw [hm]
    refine ⟨?_, (hi.writer h).2⟩
    rcases hwr with e | e
    · rw [e]
      exact (hi.writer h).1
    · exact e.2
  · intro h
    rw [hw] at h
    rw [hm]
    refine ⟨?_, (hi.noWriter h).2⟩
    rcases hwr with e | e
    · rw [e]
      exact (hi.noWriter h).1
    · rw [h] at e
      cases e.1
  · intro u _ pd hu hpt
    rw [hw, hm]
    exact hi.claimed u pd hu hpt
  · intro pd e hpt
    rw [hw, hm]
    exact hcl pd e hpt

/-- The writer-state invariant after the marked thread has given up the write lock. -/
theorem writerInv_release {σ : System} (hi : WriterInv σ) (s : TReentrantRWLock) (t : Thread)
    (hp : σ.pending t = none) (hw : σ.lock.fWriter = true)
    (hm : σ.lock.fRecurseCounts.fIsWriter t = true) (hs1 : s.fWriter = false)
    (hs2 : s.fRecurseCounts.fWriteRecurse = 0)
    (hs3 : s.fRecurseCounts.fIsWriter = Function.update σ.lock.fRecurseCounts.fIsWriter t false) :
    WriterInv (σ.put s t none) := by
  obtain ⟨_, w, hw1, hw2⟩ := hi.writer hw
  have hwt : w = t := by
    by_contra hne
    have := hw2 t (fun e => hne e.symm)
    rw [hm] at this
    cases this
  subst hwt
  refine writerInv_put hi s w none ?_ ?_ ?_ (fun pd e => by cases e) (fun pd e => by cases e)
  · intro h
    rw [hs1] at h
    cases h
  · intro _
    refine ⟨hs2, fun u => ?_⟩
    rw [hs3]
    by_cases hu : u = w
    · subst hu
      simp
    · rw [Function.update_noteq hu]
      exact hw2 u hu
  · intro u hu pd hpu hpt
    have h1 := (hi.claimed u pd hpu hpt).2
    rw [hw2 u hu] at h1
    cases h1

/-- The writer-state invariant holds as long as every `WriteUnLock` is called by the thread
that holds the write lock. -/
theorem moves_writerInv {R : Prop} {σ : System} (h : Moves R True σ) : WriterInv σ := by
  induction h with
  | fresh =>
    refine ⟨fun h => (by cases h), fun _ => ⟨rfl, fun _ => rfl⟩, ?_, ?_, ?_⟩
    · intro u pd h
      cases h
    · intro u pd h
      cases h
    · intro p h
      cases h
  | consume p _ ih =>
    exact ⟨ih.writer, ih.noWriter, ih.claimed, ih.restoring,
      fun q hq => ih.tokens q (List.mem_of_mem_erase hq)⟩
  | @begin σ t k _ hp hk ih =>
    refine writerInv_keep ih _ t _ rfl (Or.inl rfl) rfl ?_ ?_
    · intro pd e hpt
      injection e with e
      subst e
      rcases hpt with h | h <;> cases h
    · intro pd e hpt
      injection e with e
      subst e
      exact absurd rfl hpt
  | @read σ t k _ hp ih =>
    refine writerInv_keep ih _ t _ ?_ (Or.inl ?_) ?_ (fun pd e => by cases e)
      (fun pd e => by cases e)
    · cases k <;> rfl
    · cases k <;> rfl
    · cases k <;> rfl
  | @enter σ t k _ hp hk ih =>
    refine writerInv_keep ih _ t _ rfl (Or.inl rfl) rfl ?_ ?_
    · intro pd e hpt
      injection e with e
      subst e
      rcases hpt with h | h <;> cases h
    · intro pd e _ p hp1
      injection e with e
      subst e
      exact ih.tokens p (hk p hp1).1 (hk p hp1).2.2.2
  | @claim σ t k _ hp hc ih =>
    have hre := ih.restoring t _ hp (by intro h; cases h)
    have hfacts : 0 ≤ σ.lock.fRecurseCounts.fWriteRecurse ∧
        ∀ u, u ≠ t → σ.lock.fRecurseCounts.fIsWriter u = false := by
      by_cases hw : σ.lock.fWriter = true
      · obtain ⟨h1, w, hw1, hw2⟩ := ih.writer hw
        have hm : σ.lock.fRecurseCounts.fIsWriter t = true := by
          rcases hc with h | h
          · rw [hw] at h
            cases h
          · exact h
        have hwt : w = t := by
          by_contra hne
          have := hw2 t (fun e => hne e.symm)
          rw [hm] at this
          cases this
        subst hwt
        exact ⟨by omega, hw2⟩
      · simp only [Bool.not_eq_true] at hw
        obtain ⟨h1, h2⟩ := ih.noWriter hw
        exact ⟨by omega, fun u _ => h2 u⟩
    refine writerInv_put ih _ t _ ?_ ?_ ?_ ?_ ?_
    · intro _
      refine ⟨?_, t, ?_, ?_⟩
      · simp only [claimLock, RecurseCounts.SetIsWriter]
        omega
      · simp [claimLock, RecurseCounts.SetIsWriter]
      · intro u hu
        simp only [claimLock, RecurseCounts.SetIsWriter, Function.update_noteq hu]
        exact hfacts.2 u hu
    · intro h
      cases h
    · intro u hu pd hpu hpt
      refine ⟨rfl, ?_⟩
      simp only [claimLock, RecurseCounts.SetIsWriter, Function.update_noteq hu]
      exact (ih.claimed u pd hpu hpt).2
    · intro pd _ _
      exact ⟨rfl, by simp [claimLock, RecurseCounts.SetIsWriter]⟩
    · intro pd e _ p hp1
      injection e with e
      subst e
      exact hre p hp1
  | @pass σ t k _ hp _ ih =>
    refine writerInv_keep ih _ t _ rfl (Or.inl rfl) rfl ?_ ?_
    · intro pd _ _
      exact ih.claimed t _ hp (Or.inl rfl)
    · intro pd e _ p hp1
      injection e with e
      subst e
      exact ih.restoring t _ hp (by intro h; cases h) p hp1
  | @leave σ t k _ hp _ ih =>
    obtain ⟨hw, _⟩ := ih.claimed t _ hp (Or.inr rfl)
    have hre := ih.restoring t _ hp (by intro h; cases h)
    refine writerInv_keep ih _ t _ ?_ (Or.inr ⟨hw, ?_⟩) ?_ (fun pd e => by cases e)
      (fun pd e => by cases e)
    · cases k <;> rfl
    · cases k with
      | none => exact (ih.writer hw).1
      | some p => exact hre p rfl
    · cases k <;> rfl
  | @readUnLock σ t hint _ hp _ ih =>
    rw [setLock_eq_put σ _ t hp, ReadUnLock_eq]
    exact writerInv_keep ih _ t _ rfl (Or.inl rfl) rfl (fun pd e => by cases e)
      (fun pd e => by cases e)
  | @writeUnLock σ t _ hp hh ih =>
    obtain ⟨hw, hm⟩ := hh trivial
    have hm1 : σ.lock.fRecurseCounts.fIsWriter t = true := by
      simpa [isWriter, RecurseCounts.IsNotCurrentWriter] using hm
    have h1 := (ih.writer hw).1
    rw [setLock_eq_put σ _ t hp, WriteUnLock_held t hw (by omega)]
    split
    · exact writerInv_release ih _ t hp hw hm1 rfl rfl rfl
    · rename_i hne
      exact writerInv_keep ih _ t _ rfl (Or.inr ⟨hw, by simp only; omega⟩) rfl
        (fun pd e => by cases e) (fun pd e => by cases e)
  | @save σ t _ hp ih =>
    have h : WriterInv (σ.put (Reset σ.lock t).1 t none) ∧
        ((Reset σ.lock t).2.fIsWriter = true → 1 ≤ (Reset σ.lock t).2.fWriteRecurse) := by
      rw [Reset_eq]
      split
      · rename_i hc
        have hm1 : σ.lock.fRecurseCounts.fIsWriter t = true := by
          simpa [isWriter, RecurseCounts.IsNotCurrentWriter] using hc.2
        exact ⟨writerInv_release ih _ t hp hc.1 hm1 rfl rfl rfl, fun _ => (ih.writer hc.1).1⟩
      · exact ⟨writerInv_keep ih _ t _ rfl (Or.inl rfl) rfl (fun pd e => by cases e)
          (fun pd e => by cases e), fun e => by cases e⟩
    obtain ⟨h1, h2⟩ := h
    rw [← setLock_eq_put σ _ t hp] at h1
    refine ⟨h1.writer, h1.noWriter, h1.claimed, h1.restoring, ?_⟩
    intro q hq
    rcases List.mem_cons.1 hq with e | e
    · subst e
      exact h2
    · exact ih.tokens q e

/-- The run `strayReadUnLock` is admitted as long as `ReadUnLock` has no contract. -/
theorem reachBy_strayReadUnLock {W : Prop} : ReachBy False W strayReadUnLock :=
  @ReachBy.writeLock False W _ 1
    (@ReachBy.readUnLock False W _ 0 none ReachBy.fresh rfl (fun h => h.elim)) rfl

/-- Claim C13: writer-state invariant. In every state reached from a fresh lock by calls of
any threads, in any interleaving (with calls suspended or not), each WriteUnLock being
called by the thread that holds the write lock (ReadUnLock by any thread with any hint):
if fWriter is set, the write depth is at least one and exactly one thread is marked as the
writer; if fWriter is clear, the write depth is zero and no thread is marked. Hence at most
one thread is the writer at any time. -/
theorem reach_writer_state (σ : System) (h : ReachBy False True σ) :
    (σ.lock.fWriter = true →
      1 ≤ σ.lock.fRecurseCounts.fWriteRecurse ∧
      ∃ w, σ.lock.isWriter w = true ∧ ∀ u, u ≠ w → σ.lock.isWriter u = false) ∧
    (σ.lock.fWriter = false →
      σ.lock.fRecurseCounts.fWriteRecurse = 0 ∧ ∀ u, σ.lock.isWriter u = false) ∧
    (∀ u v, σ.lock.isWriter u = true → σ.lock.isWriter v = true → u = v) := by
  have hi := moves_writerInv (reachBy_moves h)
  have hmark : ∀ u, σ.lock.isWriter u = σ.lock.fRecurseCounts.fIsWriter u := by
    intro u
    simp [isWriter, RecurseCounts.IsNotCurrentWriter]
  refine ⟨fun hw => ?_, fun hw => ?_, fun u v hu hv => ?_⟩
  · obtain ⟨h1, w, hw1, hw2⟩ := hi.writer hw
    exact ⟨h1, w, by rw [hmark]; exact hw1, fun u hu => by rw [hmark]; exact hw2 u hu⟩
  · obtain ⟨h1, h2⟩ := hi.noWriter hw
    exact ⟨h1, fun u => by rw [hmark]; exact h2 u⟩
  · rw [hmark] at hu hv
    by_cases hw : σ.lock.fWriter = true
    · obtain ⟨_, w, _, hw2⟩ := hi.writer hw
      have e1 : u = w := by
        by_contra hne
        rw [hw2 u hne] at hu
        cases hu
      have e2 : v = w := by
        by_contra hne
        rw [hw2 v hne] at hv
        cases hv
      rw [e1, e2]
    · simp only [Bool.not_eq_true] at hw
      rw [(hi.noWriter hw).2 u] at hu
      cases hu

/-- Witness for C13: thread 0 calls ReadUnLock on the fresh lock although it holds no read
lock (fReaders becomes -1), then thread 1 calls WriteLock, claims the lock and is
suspended. fWriter is set, the write depth is one and thread 1 is the one marked thread. -/
theorem reach_writer_state_witness :
    ReachBy False True strayReadUnLock ∧ strayReadUnLock.lock.fWriter = true ∧
      strayReadUnLock.lock.fReaders = -1 ∧ strayReadUnLock.lock.isWriter 1 = true ∧
      1 ≤ strayReadUnLock.lock.fRecurseCounts.fWriteRecurse ∧
      ∃ w, strayReadUnLock.lock.isWriter w = true ∧
        ∀ u, u ≠ w → strayReadUnLock.lock.isWriter u = false :=
  ⟨reachBy_strayReadUnLock, rfl, rfl, rfl,
    (reach_writer_state strayReadUnLock reachBy_strayReadUnLock).1 rfl⟩

/-- Witness for C19: thread 0 takes the write lock, thread 1 calls WriteUnLock although it
does not hold the lock, and thread 2 takes a read lock; the three calls have completed and
both reservations are zero. -/
theorem reservations_transient_witness :
    ReachBy False False strayWriteUnLock ∧ strayWriteUnLock.Quiescent ∧
      strayWriteUnLock.lock.fReaderReservation = 0 ∧
      strayWriteUnLock.lock.fWriterReservation = 0 :=
  ⟨reachBy_strayWriteUnLock, strayWriteUnLock_quiescent,
    ((reservations_transient TReentrantRWLock.fresh 0).2.2.2.2.2.2.2.2 strayWriteUnLock
      reachBy_strayWriteUnLock).1,
    ((reservations_transient TReentrantRWLock.fresh 0).2.2.2.2.2.2.2.2 strayWriteUnLock
      reachBy_strayWriteUnLock).2 strayWriteUnLock_quiescent⟩

/-! ## The width of the saved read count -/

/-- On a fresh lock, `n` calls of `ReadLock` by thread `t` complete and leave `fReaders` and
the read count of `t` at `n`. -/
theorem ReadLock_times_fresh (n : Nat) (t : Thread) :
    ∃ hints, ReadLock_times n TReentrantRWLock.fresh t =
      some ({ TReentrantRWLock.fresh with
              fReaders := n
              fRecurseCounts :=
                TReentrantRWLock.fresh.fRecurseCounts.SetLocalReadersCount t n }, hints) := by
  induction n with
  | zero =>
    refine ⟨[], ?_⟩
    simp only [ReadLock_times, Option.some.injEq, Prod.mk.injEq, and_true]
    apply ext_state <;>
      simp [TReentrantRWLock.fresh, RecurseCounts.SetLocalReadersCount]
  | succ n ih =>
    obtain ⟨hints, h⟩ := ih
    refine ⟨some t :: hints, ?_⟩
    simp only [ReadLock_times, h, ReadLock_eq]
    rw [if_neg (by simp [TReentrantRWLock.fresh])]
    simp only [Option.some.injEq, Prod.mk.injEq, and_true]
    apply ext_state <;>
      simp [TReentrantRWLock.fresh, RecurseCounts.SetLocalReadersCount, localReaders,
        RecurseCounts.GetLocalReadersCount]

/-- The state `deepReader` is reached from a fresh lock by completed calls. -/
theorem deepReader_reached :
    ∃ hints, ReadLock_times 2147483648 TReentrantRWLock.fresh 0 = some (deepReader, hints) := by
  obtain ⟨hints, h⟩ := ReadLock_times_fresh 2147483648 0
  exact ⟨hints, h⟩

/-- Claim C7, at the input where the code departs from it: thread 0 holds 2147483648 read
locks (reached from a fresh lock by that many ReadLock calls) and no thread is the writer.
Reset stores the read count in the int field of the token, which then holds -2147483648.
Restore of that token by thread 0 completes, but the read count it writes back is
-2147483648, in the size_t counter 18446744071562067968, not 2147483648: Save followed by
Restore is not the identity here. -/
theorem Reset_Restore_truncates :
    (∃ hints, ReadLock_times 2147483648 TReentrantRWLock.fresh 0 = some (deepReader, hints)) ∧
    deepReader.fWriter = false ∧ deepReader.localReaders 0 = 2147483648 ∧
    (Reset deepReader 0).2.fReadersCount = -2147483648 ∧
    ∃ s1, Restore (Reset deepReader 0).1 0 (.rwState (Reset deepReader 0).2) = .done s1 none ∧
      s1.localReaders 0 = -2147483648 ∧
      s1.localReaders 0 % 18446744073709551616 = 18446744071562067968 ∧
      s1 ≠ deepReader := by
  refine ⟨deepReader_reached, rfl, rfl, by decide, ?_⟩
  refine ⟨_, rfl, by decide, by decide, ?_⟩
  intro h
  have h1 := congrArg (fun s => s.localReaders 0) h
  revert h1
  decide

/-- Claim C8, at the input where the code departs from it: thread 0 holds 2147483648 read
locks (reached from a fresh lock by that many ReadLock calls), so fReaders is at least its
read count. Reset by thread 0 releases everything (read count and fReaders are zero
afterwards), but the token does not record the former read depth: its int field holds
-2147483648. -/
theorem Reset_token_truncates :
    (∃ hints, ReadLock_times 2147483648 TReentrantRWLock.fresh 0 = some (deepReader, hints)) ∧
    deepReader.localReaders 0 ≤ deepReader.fReaders ∧
    deepReader.localReaders 0 = 2147483648 ∧
    (Reset deepReader 0).1.localReaders 0 = 0 ∧ (Reset deepReader 0).1.fReaders = 0 ∧
    (Reset deepReader 0).2.fReadersCountLoc = 0 ∧
    (Reset deepReader 0).2.fReadersCount = -2147483648 ∧
    (Reset deepReader 0).2.fReadersCount ≠ deepReader.localReaders 0 := by
  refine ⟨deepReader_reached, by decide, rfl, by decide, by decide, rfl, by decide, by decide⟩

/-! ## Restore with the token of another thread -/

set_option linter.unusedTactic false
set_option linter.unreachableTactic false

/-- The position of `t` after its move. -/
theorem move_pc_same (σ : Threads) (t : Thread) (s : TReentrantRWLock) (m : Option Thread)
    (q : Pc) : (σ.move t s m q).pc t = q := by
  simp [Threads.move]

/-- The position of another thread after a move of `t`. -/
theorem move_pc_other (σ : Threads) (t : Thread) (s : TReentrantRWLock) (m : Option Thread)
    (q : Pc) {u : Thread} (hu : u ≠ t) : (σ.move t s m q).pc u = σ.pc u := by
  simp [Threads.move, Function.update_noteq hu]

/-- The share of `t` after its move. -/
theorem move_share_same (σ : Threads) (t : Thread) (s : TReentrantRWLock) (m : Option Thread)
    (q : Pc) : (σ.move t s m q).share t = q.share (s.fRecurseCounts.fReadersCount t) := by
  simp [Threads.share, Threads.move]

/-- The share of another thread after a move of `t` that keeps its read count. -/
theorem move_share_other (σ : Threads) (t : Thread) (s : TReentrantRWLock) (m : Option Thread)
    (q : Pc) {u : Thread} (hu : u ≠ t)
    (hc : s.fRecurseCounts.fReadersCount u = σ.lock.fRecurseCounts.fReadersCount u) :
    (σ.move t s m q).share u = σ.share u := by
  simp [Threads.share, Threads.move, Function.update_noteq hu, hc]

/-- The marked thread is the only one. -/
theorem Threads.Inv.marked_unique {σ : Threads} (hi : σ.Inv) {u w : Thread}
    (hu : σ.lock.fRecurseCounts.fIsWriter u = true)
    (hw : σ.lock.fRecurseCounts.fIsWriter w = true) : u = w := by
  by_cases hf : σ.lock.fWriter = true
  · obtain ⟨_, v, _, hv⟩ := hi.writer hf
    have h1 : u = v := by
      by_contra hne
      rw [hv u hne] at hu
      cases hu
    have h2 : w = v := by
      by_contra hne
      rw [hv w hne] at hw
      cases hw
    rw [h1, h2]
  · simp only [Bool.not_eq_true] at hf
    rw [(hi.noWriter hf).2 u] at hu
    cases hu

/-- A marked thread means `fWriter` is set. -/
theorem Threads.Inv.marked_writer {σ : Threads} (hi : σ.Inv) {u : Thread}
    (hu : σ.lock.fRecurseCounts.fIsWriter u = true) : σ.lock.fWriter = true := by
  by_contra hf
  simp only [Bool.not_eq_true] at hf
  rw [(hi.noWriter hf).2 u] at hu
  cases hu

/-- The owner of `fMutex` after a step that neither takes nor releases it. -/
theorem mutex_keep {σ : Threads} {t : Thread} {q : Pc}
    (hM : (σ.pc t).holds = true ↔ σ.fMutex = some t) (hq : q.holds = (σ.pc t).holds) :
    (q.holds = true ↔ σ.fMutex = some t) ∧
      ∀ u, u ≠ t → (σ.fMutex = some u ↔ σ.fMutex = some u) := by
  rw [hq]
  exact ⟨hM, fun _ _ => Iff.rfl⟩

/-- The owner of `fMutex` after `t` has taken it. -/
theorem mutex_acquire {σ : Threads} {t : Thread} {q : Pc} (hfree : σ.fMutex = none)
    (hq : q.holds = true) :
    (q.holds = true ↔ some t = some t) ∧
      ∀ u, u ≠ t → (some t = some u ↔ σ.fMutex = some u) := by
  refine ⟨⟨fun _ => rfl, fun _ => hq⟩, fun u hu => ?_⟩
  rw [hfree]
  constructor
  · intro h
    injection h with h
    exact absurd h.symm hu
  · intro h
    cases h

/-- The owner of `fMutex` after `t` has released it. -/
theorem mutex_release {σ : Threads} {t : Thread} {q : Pc} (hheld : σ.fMutex = some t)
    (hq : q.holds = false) :
    (q.holds = true ↔ (none : Option Thread) = some t) ∧
      ∀ u, u ≠ t → ((none : Option Thread) = some u ↔ σ.fMutex = some u) := by
  refine ⟨?_, fun u hu => ?_⟩
  · rw [hq]
    constructor <;> intro h <;> cases h
  · rw [hheld]
    constructor
    · intro h
      cases h
    · intro h
      injection h with h
      exact absurd h.symm hu

/-- The owner of `fMutex` after a step that takes and releases it at once. -/
theorem mutex_pass {σ : Threads} {t : Thread} {q : Pc} (hfree : σ.fMutex = none)
    (hq : q.holds = false) :
    (q.holds = true ↔ (none : Option Thread) = some t) ∧
      ∀ u, u ≠ t → ((none : Option Thread) = some u ↔ σ.fMutex = some u) := by
  refine ⟨?_, fun u _ => ?_⟩
  · rw [hq]
    constructor <;> intro h <;> cases h
  · rw [hfree]

/-- A thread in the drain loop is acquiring. -/
theorem Pc.acquiring_of_spinning {q : Pc} (h : q.spinning = true) : q.acquiring = true := by
  cases q <;> first | rfl | simp [Pc.spinning] at h

/-- A thread past the test of line 67 holds a reservation. -/
theorem Pc.reserved_of_entering {q : Pc} (h : q.entering = true) : q.reserved = 1 := by
  cases q <;> first | rfl | simp [Pc.entering] at h

/-- No reservation is negative. -/
theorem Pc.reserved_nonneg (q : Pc) : 0 ≤ q.reserved := by
  cases q <;> simp [Pc.reserved]

/-- With no reservation left, no thread is past the test of line 67. -/
theorem Threads.Inv.none_entering {σ : Threads} (hi : σ.Inv)
    (h0 : σ.lock.fReaderReservation = 0) : ∀ u, (σ.pc u).entering = false := by
  intro u
  have hres := hi.res
  rw [h0] at hres
  have hz := SumOver_zero hres (fun v => Pc.reserved_nonneg _) u
  by_contra hne
  simp only [Bool.not_eq_false] at hne
  have := Pc.reserved_of_entering hne
  simp only at hz
  omega

/-- With `fReaders` at zero, no thread has a share. -/
theorem Threads.Inv.no_share {σ : Threads} (hi : σ.Inv) (h0 : σ.lock.fReaders = 0) :
    ∀ u, σ.share u = 0 := by
  have hsum := hi.sum
  rw [h0] at hsum
  exact SumOver_zero hsum (fun v => (hi.nonneg v).2)

/-- The invariant after a move of thread `t` that leaves `fWriter` and the writer marks as
they are: what has to be shown concerns `t` alone. -/
theorem inv_move {σ : Threads} (hi : σ.Inv) (t : Thread) (s : TReentrantRWLock)
    (m : Option Thread) (q : Pc)
    (hc : ∀ u, u ≠ t → s.fRecurseCounts.fReadersCount u = σ.lock.fRecurseCounts.fReadersCount u)
    (hmk : s.fRecurseCounts.fIsWriter = σ.lock.fRecurseCounts.fIsWriter)
    (hw : s.fWriter = σ.lock.fWriter)
    (hmx : (q.holds = true ↔ m = some t) ∧ ∀ u, u ≠ t → (m = some u ↔ σ.fMutex = some u))
    (hn : 0 ≤ s.fRecurseCounts.fReadersCount t ∧ 0 ≤ q.share (s.fRecurseCounts.fReadersCount t))
    (hs : s.fReaders = σ.lock.fReaders - σ.share t + q.share (s.fRecurseCounts.fReadersCount t))
    (hr : s.fReaderReservation =
      σ.lock.fReaderReservation - (σ.pc t).reserved + q.reserved)
    (ht : ∀ c, q.target = some c → c = t)
    (hrd : q = Pc.rtReader → s.fRecurseCounts.fReadersCount t ≠ 0)
    (hul : q.unlocking = true → 1 ≤ s.fRecurseCounts.fReadersCount t)
    (hsv : q.saving = true → s.fRecurseCounts.fReadersCount t < 2147483648)
    (hrs : ∀ p, q.token = some p →
      p.fReadersCountLoc = t ∧ 0 ≤ p.fReadersCount ∧
      s.fRecurseCounts.fReadersCount t = q.counted ∧ (q.writing = true → 1 ≤ p.fWriteRecurse))
    (hwr : s.fRecurseCounts.fWriteRecurse = σ.lock.fRecurseCounts.fWriteRecurse ∨
      (σ.lock.fWriter = true ∧ σ.lock.fRecurseCounts.fIsWriter t = true ∧
        1 ≤ s.fRecurseCounts.fWriteRecurse ∧ (σ.pc t).acquiring = false ∧
        q.acquiring = false))
    (haw : q.asWriter = true →
      σ.lock.fWriter = true ∧ σ.lock.fRecurseCounts.fIsWriter t = true)
    (hcl : ∀ k, q = Pc.wlClaim k →
      σ.lock.fWriter = false ∨ σ.lock.fRecurseCounts.fIsWriter t = true)
    (hcm : ∀ k, q = Pc.rlSlowCommit k →
      σ.lock.fWriter = false ∨ σ.lock.fRecurseCounts.fIsWriter t = true ∨
        s.fRecurseCounts.fReadersCount t ≠ 0)
    (hd : q.entering = true → (σ.pc t).entering = true ∨ σ.lock.fWriter = false)
    (hdw : σ.lock.fWriter = true → σ.lock.fRecurseCounts.fIsWriter t = true →
      ¬(q.spinning = true ∧ s.fRecurseCounts.fWriteRecurse = 1) →
      ¬((σ.pc t).spinning = true ∧ σ.lock.fRecurseCounts.fWriteRecurse = 1) ∨
        ∀ u, (σ.pc u).entering = false)
    (he : σ.lock.fWriter = true → ∀ w, σ.lock.fRecurseCounts.fIsWriter w = true → w ≠ t →
      ¬((σ.pc w).acquiring = true ∧ σ.lock.fRecurseCounts.fWriteRecurse = 1) →
      σ.share t = 0 → q.share (s.fRecurseCounts.fReadersCount t) = 0)
    (hew : σ.lock.fWriter = true → σ.lock.fRecurseCounts.fIsWriter t = true →
      ¬(q.acquiring = true ∧ s.fRecurseCounts.fWriteRecurse = 1) →
      ¬((σ.pc t).acquiring = true ∧ σ.lock.fRecurseCounts.fWriteRecurse = 1) ∨
        ∀ u, u ≠ t → σ.share u = 0) :
    (σ.move t s m q).Inv := by
  have hpo : ∀ u, u ≠ t → (σ.move t s m q).pc u = σ.pc u :=
    fun u hu => move_pc_other σ t s m q hu
  have hps : (σ.move t s m q).pc t = q := move_pc_same σ t s m q
  have hso : ∀ u, u ≠ t → (σ.move t s m q).share u = σ.share u :=
    fun u hu => move_share_other σ t s m q hu (hc u hu)
  have hss := move_share_same σ t s m q
  have hlock : (σ.move t s m q).lock = s := rfl
  have hmut : (σ.move t s m q).fMutex = m := rfl
  -- the write depth changes only under the marked thread
  have hwr_other : ∀ w, σ.lock.fRecurseCounts.fIsWriter w = true → w ≠ t →
      s.fRecurseCounts.fWriteRecurse = σ.lock.fRecurseCounts.fWriteRecurse := by
    intro w hw1 hwt
    rcases hwr with e | e
    · exact e
    · exact absurd (hi.marked_unique hw1 e.2.1) hwt
  refine ⟨?_, ?_, ?_, ?_, ?_, ?_, ?_, ?_, ?_, ?_, ?_, ?_, ?_, ?_, ?_, ?_, ?_⟩
  · -- mutex
    intro u
    by_cases hu : u = t
    · subst hu
      rw [hps, hmut]
      exact hmx.1
    · rw [hpo u hu, hmut, hmx.2 u hu]
      exact hi.mutex u
  · -- nonneg
    intro u
    by_cases hu : u = t
    · subst hu
      rw [hss, hlock]
      exact hn
    · rw [hso u hu, hlock, hc u hu]
      exact hi.nonneg u
  · -- sum
    have h := @SumOver_step _ (σ.move t s m q).share _ hi.sum t (fun u hu => hso u hu)
    rw [hss, ← hs] at h
    exact h
  · -- res
    have h := @SumOver_step _ (fun u => ((σ.move t s m q).pc u).reserved) _ hi.res t
      (fun u hu => by simp only [hpo u hu])
    simp only [hps] at h
    rw [← hr] at h
    exact h
  · -- target
    intro u c hcu
    by_cases hu : u = t
    · subst hu
      rw [hps] at hcu
      exact ht c hcu
    · rw [hpo u hu] at hcu
      exact hi.target u c hcu
  · -- reader
    intro u hpu
    by_cases hu : u = t
    · subst hu
      rw [hps] at hpu
      exact hrd hpu
    · rw [hpo u hu] at hpu
      rw [hlock, hc u hu]
      exact hi.reader u hpu
  · -- unlocking
    intro u hpu
    by_cases hu : u = t
    · subst hu
      rw [hps] at hpu
      exact hul hpu
    · rw [hpo u hu] at hpu
      rw [hlock, hc u hu]
      exact hi.unlocking u hpu
  · -- saving
    intro u hpu
    by_cases hu : u = t
    · subst hu
      rw [hps] at hpu
      exact hsv hpu
    · rw [hpo u hu] at hpu
      rw [hlock, hc u hu]
      exact hi.saving u hpu
  · -- tokens
    exact hi.tokens
  · -- restoring
    intro u p hpu
    by_cases hu : u = t
    · subst hu
      rw [hps] at hpu ⊢
      exact hrs p hpu
    · rw [hpo u hu] at hpu ⊢
      rw [hlock, hc u hu]
      exact hi.restoring u p hpu
  · -- writer
    intro hf
    rw [hlock] at hf ⊢
    rw [hw] at hf
    rw [hmk]
    refine ⟨?_, (hi.writer hf).2⟩
    rcases hwr with e | e
    · rw [e]
      exact (hi.writer hf).1
    · exact e.2.2.1
  · -- noWriter
    intro hf
    rw [hlock] at hf ⊢
    rw [hw] at hf
    rw [hmk]
    refine ⟨?_, (hi.noWriter hf).2⟩
    rcases hwr with e | e
    · rw [e]
      exact (hi.noWriter hf).1
    · rw [hf] at e
      cases e.1
  · -- asWriter
    intro u hpu
    rw [hlock, hw, hmk]
    by_cases hu : u = t
    · subst hu
      rw [hps] at hpu
      exact haw hpu
    · rw [hpo u hu] at hpu
      exact hi.asWriter u hpu
  · -- claim
    intro u k hpu
    rw [hlock, hw, hmk]
    by_cases hu : u = t
    · subst hu
      rw [hps] at hpu
      exact hcl k hpu
    · rw [hpo u hu] at hpu
      exact hi.claim u k hpu
  · -- commit
    intro u k hpu
    rw [hlock, hw, hmk]
    by_cases hu : u = t
    · subst hu
      rw [hps] at hpu
      exact hcm k hpu
    · rw [hpo u hu] at hpu
      rw [hc u hu]
      exact hi.commit u k hpu
  · -- drained
    intro hf w hw1 hsp u
    rw [hlock] at hf hw1 hsp
    rw [hw] at hf
    rw [hmk] at hw1
    have hold : ∀ v, (σ.pc v).entering = false := by
      by_cases hwt : w = t
      · subst hwt
        rw [hps] at hsp
        rcases hdw hf hw1 hsp with h1 | h1
        · exact hi.drained hf w hw1 h1
        · exact h1
      · rw [hpo w hwt, hwr_other w hw1 hwt] at hsp
        exact hi.drained hf w hw1 hsp
    by_cases hu : u = t
    · subst hu
      rw [hps]
      by_contra hne
      simp only [Bool.not_eq_false] at hne
      rcases hd hne with h1 | h1
      · rw [hold u] at h1
        cases h1
      · rw [hf] at h1
        cases h1
    · rw [hpo u hu]
      exact hold u
  · -- exclusive
    intro hf w hw1 hac u huw
    rw [hlock] at hf hw1 hac
    rw [hw] at hf
    rw [hmk] at hw1
    by_cases hwt : w = t
    · subst hwt
      rw [hps] at hac
      rw [hso u huw]
      rcases hew hf hw1 hac with h1 | h1
      · exact hi.exclusive hf w hw1 h1 u huw
      · exact h1 u huw
    · rw [hpo w hwt, hwr_other w hw1 hwt] at hac
      by_cases hu : u = t
      · subst hu
        rw [hss]
        exact he hf w hw1 hwt hac (hi.exclusive hf w hw1 hac u huw)
      · rw [hso u hu]
        exact hi.exclusive hf w hw1 hac u huw

/-- The invariant after `++fReaderReservation` (line 57). -/
theorem inv_step_rlReserve {σ σ1 : Threads} (hi : σ.Inv) {t : Thread}
    {k : Option TReentrantRWLockState} (hpc : σ.pc t = Pc.rlReserve k)
    (h : step σ t = some σ1) : σ1.Inv := by
  have hN := hi.nonneg t
  have hM := hi.mutex t
  have hRs := hi.restoring t
  have hT := hi.target t
  have hU := hi.unlocking t
  have hS := hi.saving t
  have hA := hi.asWriter t
  rw [hpc] at hM hRs hT hU hS hA
  have hM0 := hM
  have hA0 := hA
  have hRs0 := hRs
  have hT0 := hT
  simp only [Threads.share, hpc, Pc.share] at hN
  simp only [Pc.holds, Pc.token, Pc.counted, Pc.writing, Pc.target, Pc.unlocking, Pc.saving,
    Pc.asWriter] at hRs hT hU hS hA
  simp only [step, hpc] at h
  simp only [Option.some.injEq] at h
  subst h
  refine inv_move hi t _ _ _ (fun _ _ => rfl) rfl rfl
    (mutex_keep (hi.mutex t) ?hq_1) ?hn_1 ?hs_1 ?hr_1 ?ht_1
    ?hrd_1 ?hul_1 ?hsv_1 ?hrs_1 (Or.inl rfl)
    ?haw_1 ?hcl_1 ?hcm_1 ?hd_1 ?hdw_1 ?he_1 ?hew_1
  all_goals try simp only [Threads.share, hpc, Pc.share, Pc.holds, Pc.token, Pc.counted, Pc.writing,
    Pc.reserved, Pc.target, Pc.unlocking, Pc.saving, Pc.asWriter, Pc.entering, Pc.spinning,
    Pc.acquiring, Pc.afterReadLock, Pc.afterWriteLock]
  all_goals try clear hM hM0 hA0 hRs0 hT0
  all_goals first
    | omega
    | (intros; simp_all; done)
    | (intros; simp_all; omega)
    | (intros; simp_all [RecurseCounts.IsNotCurrentWriter, RecurseCounts.GetLocalReadersCount,
        RecurseCounts.IncrementReadCount, RecurseCounts.SetLocalReadersCount, Restore_fixReader,
        Restore_fixWriter]; done)
    | (intros; simp_all [RecurseCounts.IsNotCurrentWriter, RecurseCounts.GetLocalReadersCount,
        RecurseCounts.IncrementReadCount, RecurseCounts.SetLocalReadersCount, Restore_fixReader,
        Restore_fixWriter]; omega)

/-- The invariant after the tests of lines 67 and 74. -/
theorem inv_step_rlTest {σ σ1 : Threads} (hi : σ.Inv) {t : Thread}
    {k : Option TReentrantRWLockState} (hpc : σ.pc t = Pc.rlTest k)
    (h : step σ t = some σ1) : σ1.Inv := by
  have hN := hi.nonneg t
  have hM := hi.mutex t
  have hRs := hi.restoring t
  have hT := hi.target t
  have hU := hi.unlocking t
  have hS := hi.saving t
  have hA := hi.asWriter t
  rw [hpc] at hM hRs hT hU hS hA
  have hM0 := hM
  have hA0 := hA
  have hRs0 := hRs
  have hT0 := hT
  simp only [Threads.share, hpc, Pc.share] at hN
  simp only [Pc.holds, Pc.token, Pc.counted, Pc.writing, Pc.target, Pc.unlocking, Pc.saving,
    Pc.asWriter] at hRs hT hU hS hA
  simp only [step, hpc] at h
  split at h
  · rename_i hcond
    simp only [Option.some.injEq] at h
    subst h
    refine inv_move hi t _ _ _ (fun _ _ => rfl) rfl rfl
      (mutex_keep (hi.mutex t) ?hq_2) ?hn_2 ?hs_2 ?hr_2 ?ht_2
      ?hrd_2 ?hul_2 ?hsv_2 ?hrs_2 (Or.inl rfl)
      ?haw_2 ?hcl_2 ?hcm_2 ?hd_2 ?hdw_2 ?he_2 ?hew_2
    all_goals try simp only [Threads.share, hpc, Pc.share, Pc.holds, Pc.token, Pc.counted,
      Pc.writing, Pc.reserved, Pc.target, Pc.unlocking, Pc.saving, Pc.asWriter, Pc.entering,
      Pc.spinning, Pc.acquiring, Pc.afterReadLock, Pc.afterWriteLock]
    all_goals try clear hM hM0 hA0 hRs0 hT0
    all_goals first
      | omega
      | (intros; simp_all; done)
      | (intros; simp_all; omega)
      | (intros; simp_all [RecurseCounts.IsNotCurrentWriter, RecurseCounts.GetLocalReadersCount,
          RecurseCounts.IncrementReadCount, RecurseCounts.SetLocalReadersCount, Restore_fixReader,
          Restore_fixWriter]; done)
      | (intros; simp_all [RecurseCounts.IsNotCurrentWriter, RecurseCounts.GetLocalReadersCount,
          RecurseCounts.IncrementReadCount, RecurseCounts.SetLocalReadersCount, Restore_fixReader,
          Restore_fixWriter]; omega)
  · rename_i hcond
    split at h
    · rename_i hcond
      simp only [Option.some.injEq] at h
      subst h
      refine inv_move hi t _ _ _ (fun _ _ => rfl) rfl rfl
        (mutex_keep (hi.mutex t) ?hq_3) ?hn_3 ?hs_3 ?hr_3 ?ht_3
        ?hrd_3 ?hul_3 ?hsv_3 ?hrs_3 (Or.inl rfl)
        ?haw_3 ?hcl_3 ?hcm_3 ?hd_3 ?hdw_3 ?he_3 ?hew_3
      all_goals try simp only [Threads.share, hpc, Pc.share, Pc.holds, Pc.token, Pc.counted,
        Pc.writing, Pc.reserved, Pc.target, Pc.unlocking, Pc.saving, Pc.asWriter, Pc.entering,
        Pc.spinning, Pc.acquiring, Pc.afterReadLock, Pc.afterWriteLock]
      all_goals try clear hM hM0 hA0 hRs0 hT0
      all_goals first
        | omega
        | (intros; simp_all; done)
        | (intros; simp_all; omega)
        | (intros; simp_all [RecurseCounts.IsNotCurrentWriter, RecurseCounts.GetLocalReadersCount,
            RecurseCounts.IncrementReadCount, RecurseCounts.SetLocalReadersCount, Restore_fixReader,
            Restore_fixWriter]; done)
        | (intros; simp_all [RecurseCounts.IsNotCurrentWriter, RecurseCounts.GetLocalReadersCount,
            RecurseCounts.IncrementReadCount, RecurseCounts.SetLocalReadersCount, Restore_fixReader,
            Restore_fixWriter]; omega)
    · rename_i hcond
      simp only [Option.some.injEq] at h
      subst h
      refine inv_move hi t _ _ _ (fun _ _ => rfl) rfl rfl
        (mutex_keep (hi.mutex t) ?hq_4) ?hn_4 ?hs_4 ?hr_4 ?ht_4
        ?hrd_4 ?hul_4 ?hsv_4 ?hrs_4 (Or.inl rfl)
        ?haw_4 ?hcl_4 ?hcm_4 ?hd_4 ?hdw_4 ?he_4 ?hew_4
      all_goals try simp only [Threads.share, hpc, Pc.share, Pc.holds, Pc.token, Pc.counted,
        Pc.writing, Pc.reserved, Pc.target, Pc.unlocking, Pc.saving, Pc.asWriter, Pc.entering,
        Pc.spinning, Pc.acquiring, Pc.afterReadLock, Pc.afterWriteLock]
      all_goals try clear hM hM0 hA0 hRs0 hT0
      all_goals first
        | omega
        | (intros; simp_all; done)
        | (intros; simp_all; omega)
        | (intros; simp_all [RecurseCounts.IsNotCurrentWriter, RecurseCounts.GetLocalReadersCount,
            RecurseCounts.IncrementReadCount, RecurseCounts.SetLocalReadersCount, Restore_fixReader,
            Restore_fixWriter]; done)
        | (intros; simp_all [RecurseCounts.IsNotCurrentWriter, RecurseCounts.GetLocalReadersCount,
            RecurseCounts.IncrementReadCount, RecurseCounts.SetLocalReadersCount, Restore_fixReader,
            Restore_fixWriter]; omega)

/-- The invariant after `++fReaders` on the fast path (line 69). -/
theorem inv_step_rlFastReaders {σ σ1 : Threads} (hi : σ.Inv) {t : Thread}
    {k : Option TReentrantRWLockState} (hpc : σ.pc t = Pc.rlFastReaders k)
    (h : step σ t = some σ1) : σ1.Inv := by
  have hN := hi.nonneg t
  have hM := hi.mutex t
  have hRs := hi.restoring t
  have hT := hi.target t
  have hU := hi.unlocking t
  have hS := hi.saving t
  have hA := hi.asWriter t
  rw [hpc] at hM hRs hT hU hS hA
  have hM0 := hM
  have hA0 := hA
  have hRs0 := hRs
  have hT0 := hT
  simp only [Threads.share, hpc, Pc.share] at hN
  simp only [Pc.holds, Pc.token, Pc.counted, Pc.writing, Pc.target, Pc.unlocking, Pc.saving,
    Pc.asWriter] at hRs hT hU hS hA
  simp only [step, hpc] at h
  simp only [Option.some.injEq] at h
  subst h
  refine inv_move hi t _ _ _ (fun _ _ => rfl) rfl rfl
    (mutex_keep (hi.mutex t) ?hq_5) ?hn_5 ?hs_5 ?hr_5 ?ht_5
    ?hrd_5 ?hul_5 ?hsv_5 ?hrs_5 (Or.inl rfl)
    ?haw_5 ?hcl_5 ?hcm_5 ?hd_5 ?hdw_5 ?he_5 ?hew_5
  case he_5 =>
    intro hf w hw1 _ hac _
    have hd := hi.drained hf w hw1
      (fun hsp => hac ⟨Pc.acquiring_of_spinning hsp.1, hsp.2⟩) t
    rw [hpc] at hd
    simp [Pc.entering] at hd
  all_goals try simp only [Threads.share, hpc, Pc.share, Pc.holds, Pc.token, Pc.counted, Pc.writing,
    Pc.reserved, Pc.target, Pc.unlocking, Pc.saving, Pc.asWriter, Pc.entering, Pc.spinning,
    Pc.acquiring, Pc.afterReadLock, Pc.afterWriteLock]
  all_goals try clear hM hM0 hA0 hRs0 hT0
  all_goals first
    | omega
    | (intros; simp_all; done)
    | (intros; simp_all; omega)
    | (intros; simp_all [RecurseCounts.IsNotCurrentWriter, RecurseCounts.GetLocalReadersCount,
        RecurseCounts.IncrementReadCount, RecurseCounts.SetLocalReadersCount, Restore_fixReader,
        Restore_fixWriter]; done)
    | (intros; simp_all [RecurseCounts.IsNotCurrentWriter, RecurseCounts.GetLocalReadersCount,
        RecurseCounts.IncrementReadCount, RecurseCounts.SetLocalReadersCount, Restore_fixReader,
        Restore_fixWriter]; omega)

/-- The invariant after `--fReaderReservation` (line 70). -/
theorem inv_step_rlFastUnreserve {σ σ1 : Threads} (hi : σ.Inv) {t : Thread}
    {k : Option TReentrantRWLockState} (hpc : σ.pc t = Pc.rlFastUnreserve k)
    (h : step σ t = some σ1) : σ1.Inv := by
  have hN := hi.nonneg t
  have hM := hi.mutex t
  have hRs := hi.restoring t
  have hT := hi.target t
  have hU := hi.unlocking t
  have hS := hi.saving t
  have hA := hi.asWriter t
  rw [hpc] at hM hRs hT hU hS hA
  have hM0 := hM
  have hA0 := hA
  have hRs0 := hRs
  have hT0 := hT
  simp only [Threads.share, hpc, Pc.share] at hN
  simp only [Pc.holds, Pc.token, Pc.counted, Pc.writing, Pc.target, Pc.unlocking, Pc.saving,
    Pc.asWriter] at hRs hT hU hS hA
  simp only [step, hpc] at h
  simp only [Option.some.injEq] at h
  subst h
  refine inv_move hi t _ _ _ (fun _ _ => rfl) rfl rfl
    (mutex_keep (hi.mutex t) ?hq_6) ?hn_6 ?hs_6 ?hr_6 ?ht_6
    ?hrd_6 ?hul_6 ?hsv_6 ?hrs_6 (Or.inl rfl)
    ?haw_6 ?hcl_6 ?hcm_6 ?hd_6 ?hdw_6 ?he_6 ?hew_6
  all_goals try simp only [Threads.share, hpc, Pc.share, Pc.holds, Pc.token, Pc.counted, Pc.writing,
    Pc.reserved, Pc.target, Pc.unlocking, Pc.saving, Pc.asWriter, Pc.entering, Pc.spinning,
    Pc.acquiring, Pc.afterReadLock, Pc.afterWriteLock]
  all_goals try clear hM hM0 hA0 hRs0 hT0
  all_goals first
    | omega
    | (intros; simp_all; done)
    | (intros; simp_all; omega)
    | (intros; simp_all [RecurseCounts.IsNotCurrentWriter, RecurseCounts.GetLocalReadersCount,
        RecurseCounts.IncrementReadCount, RecurseCounts.SetLocalReadersCount, Restore_fixReader,
        Restore_fixWriter]; done)
    | (intros; simp_all [RecurseCounts.IsNotCurrentWriter, RecurseCounts.GetLocalReadersCount,
        RecurseCounts.IncrementReadCount, RecurseCounts.SetLocalReadersCount, Restore_fixReader,
        Restore_fixWriter]; omega)

/-- The invariant after `IncrementReadCount` on the fast path (line 72). -/
theorem inv_step_rlFastCount {σ σ1 : Threads} (hi : σ.Inv) {t : Thread}
    {k : Option TReentrantRWLockState} (hpc : σ.pc t = Pc.rlFastCount k)
    (h : step σ t = some σ1) : σ1.Inv := by
  have hN := hi.nonneg t
  have hM := hi.mutex t
  have hRs := hi.restoring t
  have hT := hi.target t
  have hU := hi.unlocking t
  have hS := hi.saving t
  have hA := hi.asWriter t
  rw [hpc] at hM hRs hT hU hS hA
  have hM0 := hM
  have hA0 := hA
  have hRs0 := hRs
  have hT0 := hT
  simp only [Threads.share, hpc, Pc.share] at hN
  simp only [Pc.holds, Pc.token, Pc.counted, Pc.writing, Pc.target, Pc.unlocking, Pc.saving,
    Pc.asWriter] at hRs hT hU hS hA
  simp only [step, hpc] at h
  cases k
  · split at h
    · rename_i hfree
      simp only [Option.some.injEq] at h
      subst h
      refine inv_move hi t _ _ _
        (fun u hu => by
          simp [RecurseCounts.IncrementReadCount, RecurseCounts.SetLocalReadersCount,
            RecurseCounts.GetLocalReadersCount, Function.update_noteq hu])
        rfl rfl
        (mutex_pass hfree ?hq_7) ?hn_7 ?hs_7 ?hr_7 ?ht_7
        ?hrd_7 ?hul_7 ?hsv_7 ?hrs_7 (Or.inl rfl)
        ?haw_7 ?hcl_7 ?hcm_7 ?hd_7 ?hdw_7 ?he_7 ?hew_7
      all_goals try simp only [Threads.share, hpc, Pc.share, Pc.holds, Pc.token, Pc.counted,
        Pc.writing, Pc.reserved, Pc.target, Pc.unlocking, Pc.saving, Pc.asWriter, Pc.entering,
        Pc.spinning, Pc.acquiring, Pc.afterReadLock, Pc.afterWriteLock]
      all_goals try clear hM hM0 hA0 hRs0 hT0
      all_goals first
        | omega
        | (intros; simp_all; done)
        | (intros; simp_all; omega)
        | (intros; simp_all [RecurseCounts.IsNotCurrentWriter, RecurseCounts.GetLocalReadersCount,
            RecurseCounts.IncrementReadCount, RecurseCounts.SetLocalReadersCount, Restore_fixReader,
            Restore_fixWriter]; done)
        | (intros; simp_all [RecurseCounts.IsNotCurrentWriter, RecurseCounts.GetLocalReadersCount,
            RecurseCounts.IncrementReadCount, RecurseCounts.SetLocalReadersCount, Restore_fixReader,
            Restore_fixWriter]; omega)
    · cases h
  · split at h
    · rename_i hfree
      simp only [Option.some.injEq] at h
      subst h
      refine inv_move hi t _ _ _
        (fun u hu => by
          simp [RecurseCounts.IncrementReadCount, RecurseCounts.SetLocalReadersCount,
            RecurseCounts.GetLocalReadersCount, Function.update_noteq hu])
        rfl rfl
        (mutex_pass hfree ?hq_8) ?hn_8 ?hs_8 ?hr_8 ?ht_8
        ?hrd_8 ?hul_8 ?hsv_8 ?hrs_8 (Or.inl rfl)
        ?haw_8 ?hcl_8 ?hcm_8 ?hd_8 ?hdw_8 ?he_8 ?hew_8
      all_goals try simp only [Threads.share, hpc, Pc.share, Pc.holds, Pc.token, Pc.counted,
        Pc.writing, Pc.reserved, Pc.target, Pc.unlocking, Pc.saving, Pc.asWriter, Pc.entering,
        Pc.spinning, Pc.acquiring, Pc.afterReadLock, Pc.afterWriteLock]
      all_goals try clear hM hM0 hA0 hRs0 hT0
      all_goals first
        | omega
        | (intros; simp_all; done)
        | (intros; simp_all; omega)
        | (intros; simp_all [RecurseCounts.IsNotCurrentWriter, RecurseCounts.GetLocalReadersCount,
            RecurseCounts.IncrementReadCount, RecurseCounts.SetLocalReadersCount, Restore_fixReader,
            Restore_fixWriter]; done)
        | (intros; simp_all [RecurseCounts.IsNotCurrentWriter, RecurseCounts.GetLocalReadersCount,
            RecurseCounts.IncrementReadCount, RecurseCounts.SetLocalReadersCount, Restore_fixReader,
            Restore_fixWriter]; omega)
    · cases h

/-- The invariant after `--fReaderReservation` (line 76). -/
theorem inv_step_rlSelfUnreserve {σ σ1 : Threads} (hi : σ.Inv) {t : Thread}
    {k : Option TReentrantRWLockState} (hpc : σ.pc t = Pc.rlSelfUnreserve k)
    (h : step σ t = some σ1) : σ1.Inv := by
  have hN := hi.nonneg t
  have hM := hi.mutex t
  have hRs := hi.restoring t
  have hT := hi.target t
  have hU := hi.unlocking t
  have hS := hi.saving t
  have hA := hi.asWriter t
  rw [hpc] at hM hRs hT hU hS hA
  have hM0 := hM
  have hA0 := hA
  have hRs0 := hRs
  have hT0 := hT
  simp only [Threads.share, hpc, Pc.share] at hN
  simp only [Pc.holds, Pc.token, Pc.counted, Pc.writing, Pc.target, Pc.unlocking, Pc.saving,
    Pc.asWriter] at hRs hT hU hS hA
  simp only [step, hpc] at h
  simp only [Option.some.injEq] at h
  subst h
  refine inv_move hi t _ _ _ (fun _ _ => rfl) rfl rfl
    (mutex_keep (hi.mutex t) ?hq_9) ?hn_9 ?hs_9 ?hr_9 ?ht_9
    ?hrd_9 ?hul_9 ?hsv_9 ?hrs_9 (Or.inl rfl)
    ?haw_9 ?hcl_9 ?hcm_9 ?hd_9 ?hdw_9 ?he_9 ?hew_9
  all_goals try simp only [Threads.share, hpc, Pc.share, Pc.holds, Pc.token, Pc.counted, Pc.writing,
    Pc.reserved, Pc.target, Pc.unlocking, Pc.saving, Pc.asWriter, Pc.entering, Pc.spinning,
    Pc.acquiring, Pc.afterReadLock, Pc.afterWriteLock]
  all_goals try clear hM hM0 hA0 hRs0 hT0
  all_goals first
    | omega
    | (intros; simp_all; done)
    | (intros; simp_all; omega)
    | (intros; simp_all [RecurseCounts.IsNotCurrentWriter, RecurseCounts.GetLocalReadersCount,
        RecurseCounts.IncrementReadCount, RecurseCounts.SetLocalReadersCount, Restore_fixReader,
        Restore_fixWriter]; done)
    | (intros; simp_all [RecurseCounts.IsNotCurrentWriter, RecurseCounts.GetLocalReadersCount,
        RecurseCounts.IncrementReadCount, RecurseCounts.SetLocalReadersCount, Restore_fixReader,
        Restore_fixWriter]; omega)

/-- The invariant after `IncrementReadCount` of the writer (line 81). -/
theorem inv_step_rlSelfCount {σ σ1 : Threads} (hi : σ.Inv) {t : Thread}
    {k : Option TReentrantRWLockState} (hpc : σ.pc t = Pc.rlSelfCount k)
    (h : step σ t = some σ1) : σ1.Inv := by
  have hN := hi.nonneg t
  have hM := hi.mutex t
  have hRs := hi.restoring t
  have hT := hi.target t
  have hU := hi.unlocking t
  have hS := hi.saving t
  have hA := hi.asWriter t
  rw [hpc] at hM hRs hT hU hS hA
  have hM0 := hM
  have hA0 := hA
  have hRs0 := hRs
  have hT0 := hT
  simp only [Threads.share, hpc, Pc.share] at hN
  simp only [Pc.holds, Pc.token, Pc.counted, Pc.writing, Pc.target, Pc.unlocking, Pc.saving,
    Pc.asWriter] at hRs hT hU hS hA
  simp only [step, hpc] at h
  split at h
  · rename_i hfree
    simp only [Option.some.injEq] at h
    subst h
    refine inv_move hi t _ _ _
      (fun u hu => by
        simp [RecurseCounts.IncrementReadCount, RecurseCounts.SetLocalReadersCount,
          RecurseCounts.GetLocalReadersCount, Function.update_noteq hu])
      rfl rfl
      (mutex_pass hfree ?hq_10) ?hn_10 ?hs_10 ?hr_10 ?ht_10
      ?hrd_10 ?hul_10 ?hsv_10 ?hrs_10 (Or.inl rfl)
      ?haw_10 ?hcl_10 ?hcm_10 ?hd_10 ?hdw_10 ?he_10 ?hew_10
    all_goals try simp only [Threads.share, hpc, Pc.share, Pc.holds, Pc.token, Pc.counted,
      Pc.writing, Pc.reserved, Pc.target, Pc.unlocking, Pc.saving, Pc.asWriter, Pc.entering,
      Pc.spinning, Pc.acquiring, Pc.afterReadLock, Pc.afterWriteLock]
    all_goals try clear hM hM0 hA0 hRs0 hT0
    all_goals first
      | omega
      | (intros; simp_all; done)
      | (intros; simp_all; omega)
      | (intros; simp_all [RecurseCounts.IsNotCurrentWriter, RecurseCounts.GetLocalReadersCount,
          RecurseCounts.IncrementReadCount, RecurseCounts.SetLocalReadersCount, Restore_fixReader,
          Restore_fixWriter]; done)
      | (intros; simp_all [RecurseCounts.IsNotCurrentWriter, RecurseCounts.GetLocalReadersCount,
          RecurseCounts.IncrementReadCount, RecurseCounts.SetLocalReadersCount, Restore_fixReader,
          Restore_fixWriter]; omega)
  · cases h

/-- The invariant after `++fReaders` of the writer (line 82). -/
theorem inv_step_rlSelfReaders {σ σ1 : Threads} (hi : σ.Inv) {t : Thread}
    {k : Option TReentrantRWLockState} (hpc : σ.pc t = Pc.rlSelfReaders k)
    (h : step σ t = some σ1) : σ1.Inv := by
  have hN := hi.nonneg t
  have hM := hi.mutex t
  have hRs := hi.restoring t
  have hT := hi.target t
  have hU := hi.unlocking t
  have hS := hi.saving t
  have hA := hi.asWriter t
  rw [hpc] at hM hRs hT hU hS hA
  have hM0 := hM
  have hA0 := hA
  have hRs0 := hRs
  have hT0 := hT
  simp only [Threads.share, hpc, Pc.share] at hN
  simp only [Pc.holds, Pc.token, Pc.counted, Pc.writing, Pc.target, Pc.unlocking, Pc.saving,
    Pc.asWriter] at hRs hT hU hS hA
  simp only [step, hpc] at h
  cases k
  · simp only [Option.some.injEq] at h
    subst h
    refine inv_move hi t _ _ _ (fun _ _ => rfl) rfl rfl
      (mutex_keep (hi.mutex t) ?hq_11) ?hn_11 ?hs_11 ?hr_11 ?ht_11
      ?hrd_11 ?hul_11 ?hsv_11 ?hrs_11 (Or.inl rfl)
      ?haw_11 ?hcl_11 ?hcm_11 ?hd_11 ?hdw_11 ?he_11 ?hew_11
    case he_11 =>
      intro _ w hw1 hwt
      exact absurd (hi.marked_unique hw1 (hA0 rfl).2) hwt
    all_goals try simp only [Threads.share, hpc, Pc.share, Pc.holds, Pc.token, Pc.counted,
      Pc.writing, Pc.reserved, Pc.target, Pc.unlocking, Pc.saving, Pc.asWriter, Pc.entering,
      Pc.spinning, Pc.acquiring, Pc.afterReadLock, Pc.afterWriteLock]
    all_goals try clear hM hM0 hA0 hRs0 hT0
    all_goals first
      | omega
      | (intros; simp_all; done)
      | (intros; simp_all; omega)
      | (intros; simp_all [RecurseCounts.IsNotCurrentWriter, RecurseCounts.GetLocalReadersCount,
          RecurseCounts.IncrementReadCount, RecurseCounts.SetLocalReadersCount, Restore_fixReader,
          Restore_fixWriter]; done)
      | (intros; simp_all [RecurseCounts.IsNotCurrentWriter, RecurseCounts.GetLocalReadersCount,
          RecurseCounts.IncrementReadCount, RecurseCounts.SetLocalReadersCount, Restore_fixReader,
          Restore_fixWriter]; omega)
  · simp only [Option.some.injEq] at h
    subst h
    refine inv_move hi t _ _ _ (fun _ _ => rfl) rfl rfl
      (mutex_keep (hi.mutex t) ?hq_12) ?hn_12 ?hs_12 ?hr_12 ?ht_12
      ?hrd_12 ?hul_12 ?hsv_12 ?hrs_12 (Or.inl rfl)
      ?haw_12 ?hcl_12 ?hcm_12 ?hd_12 ?hdw_12 ?he_12 ?hew_12
    case he_12 =>
      intro _ w hw1 hwt
      exact absurd (hi.marked_unique hw1 (hA0 rfl).2) hwt
    all_goals try simp only [Threads.share, hpc, Pc.share, Pc.holds, Pc.token, Pc.counted,
      Pc.writing, Pc.reserved, Pc.target, Pc.unlocking, Pc.saving, Pc.asWriter, Pc.entering,
      Pc.spinning, Pc.acquiring, Pc.afterReadLock, Pc.afterWriteLock]
    all_goals try clear hM hM0 hA0 hRs0 hT0
    all_goals first
      | omega
      | (intros; simp_all; done)
      | (intros; simp_all; omega)
      | (intros; simp_all [RecurseCounts.IsNotCurrentWriter, RecurseCounts.GetLocalReadersCount,
          RecurseCounts.IncrementReadCount, RecurseCounts.SetLocalReadersCount, Restore_fixReader,
          Restore_fixWriter]; done)
      | (intros; simp_all [RecurseCounts.IsNotCurrentWriter, RecurseCounts.GetLocalReadersCount,
          RecurseCounts.IncrementReadCount, RecurseCounts.SetLocalReadersCount, Restore_fixReader,
          Restore_fixWriter]; omega)

/-- The invariant after `--fReaderReservation` (line 87). -/
theorem inv_step_rlSlowUnreserve {σ σ1 : Threads} (hi : σ.Inv) {t : Thread}
    {k : Option TReentrantRWLockState} (hpc : σ.pc t = Pc.rlSlowUnreserve k)
    (h : step σ t = some σ1) : σ1.Inv := by
  have hN := hi.nonneg t
  have hM := hi.mutex t
  have hRs := hi.restoring t
  have hT := hi.target t
  have hU := hi.unlocking t
  have hS := hi.saving t
  have hA := hi.asWriter t
  rw [hpc] at hM hRs hT hU hS hA
  have hM0 := hM
  have hA0 := hA
  have hRs0 := hRs
  have hT0 := hT
  simp only [Threads.share, hpc, Pc.share] at hN
  simp only [Pc.holds, Pc.token, Pc.counted, Pc.writing, Pc.target, Pc.unlocking, Pc.saving,
    Pc.asWriter] at hRs hT hU hS hA
  simp only [step, hpc] at h
  simp only [Option.some.injEq] at h
  subst h
  refine inv_move hi t _ _ _ (fun _ _ => rfl) rfl rfl
    (mutex_keep (hi.mutex t) ?hq_13) ?hn_13 ?hs_13 ?hr_13 ?ht_13
    ?hrd_13 ?hul_13 ?hsv_13 ?hrs_13 (Or.inl rfl)
    ?haw_13 ?hcl_13 ?hcm_13 ?hd_13 ?hdw_13 ?he_13 ?hew_13
  all_goals try simp only [Threads.share, hpc, Pc.share, Pc.holds, Pc.token, Pc.counted, Pc.writing,
    Pc.reserved, Pc.target, Pc.unlocking, Pc.saving, Pc.asWriter, Pc.entering, Pc.spinning,
    Pc.acquiring, Pc.afterReadLock, Pc.afterWriteLock]
  all_goals try clear hM hM0 hA0 hRs0 hT0
  all_goals first
    | omega
    | (intros; simp_all; done)
    | (intros; simp_all; omega)
    | (intros; simp_all [RecurseCounts.IsNotCurrentWriter, RecurseCounts.GetLocalReadersCount,
        RecurseCounts.IncrementReadCount, RecurseCounts.SetLocalReadersCount, Restore_fixReader,
        Restore_fixWriter]; done)
    | (intros; simp_all [RecurseCounts.IsNotCurrentWriter, RecurseCounts.GetLocalReadersCount,
        RecurseCounts.IncrementReadCount, RecurseCounts.SetLocalReadersCount, Restore_fixReader,
        Restore_fixWriter]; omega)

/-- The invariant after `lock(fMutex)` (line 89). -/
theorem inv_step_rlSlowLock {σ σ1 : Threads} (hi : σ.Inv) {t : Thread}
    {k : Option TReentrantRWLockState} (hpc : σ.pc t = Pc.rlSlowLock k)
    (h : step σ t = some σ1) : σ1.Inv := by
  have hN := hi.nonneg t
  have hM := hi.mutex t
  have hRs := hi.restoring t
  have hT := hi.target t
  have hU := hi.unlocking t
  have hS := hi.saving t
  have hA := hi.asWriter t
  rw [hpc] at hM hRs hT hU hS hA
  have hM0 := hM
  have hA0 := hA
  have hRs0 := hRs
  have hT0 := hT
  simp only [Threads.share, hpc, Pc.share] at hN
  simp only [Pc.holds, Pc.token, Pc.counted, Pc.writing, Pc.target, Pc.unlocking, Pc.saving,
    Pc.asWriter] at hRs hT hU hS hA
  simp only [step, hpc] at h
  split at h
  · rename_i hfree
    simp only [Option.some.injEq] at h
    subst h
    refine inv_move hi t _ _ _ (fun _ _ => rfl) rfl rfl
      (mutex_acquire hfree ?hq_14) ?hn_14 ?hs_14 ?hr_14 ?ht_14
      ?hrd_14 ?hul_14 ?hsv_14 ?hrs_14 (Or.inl rfl)
      ?haw_14 ?hcl_14 ?hcm_14 ?hd_14 ?hdw_14 ?he_14 ?hew_14
    all_goals try simp only [Threads.share, hpc, Pc.share, Pc.holds, Pc.token, Pc.counted,
      Pc.writing, Pc.reserved, Pc.target, Pc.unlocking, Pc.saving, Pc.asWriter, Pc.entering,
      Pc.spinning, Pc.acquiring, Pc.afterReadLock, Pc.afterWriteLock]
    all_goals try clear hM hM0 hA0 hRs0 hT0
    all_goals first
      | omega
      | (intros; simp_all; done)
      | (intros; simp_all; omega)
      | (intros; simp_all [RecurseCounts.IsNotCurrentWriter, RecurseCounts.GetLocalReadersCount,
          RecurseCounts.IncrementReadCount, RecurseCounts.SetLocalReadersCount, Restore_fixReader,
          Restore_fixWriter]; done)
      | (intros; simp_all [RecurseCounts.IsNotCurrentWriter, RecurseCounts.GetLocalReadersCount,
          RecurseCounts.IncrementReadCount, RecurseCounts.SetLocalReadersCount, Restore_fixReader,
          Restore_fixWriter]; omega)
  · cases h

/-- The invariant after the test of lines 92-94. -/
theorem inv_step_rlSlowTest {σ σ1 : Threads} (hi : σ.Inv) {t : Thread}
    {k : Option TReentrantRWLockState} (hpc : σ.pc t = Pc.rlSlowTest k)
    (h : step σ t = some σ1) : σ1.Inv := by
  have hN := hi.nonneg t
  have hM := hi.mutex t
  have hRs := hi.restoring t
  have hT := hi.target t
  have hU := hi.unlocking t
  have hS := hi.saving t
  have hA := hi.asWriter t
  rw [hpc] at hM hRs hT hU hS hA
  have hM0 := hM
  have hA0 := hA
  have hRs0 := hRs
  have hT0 := hT
  simp only [Threads.share, hpc, Pc.share] at hN
  simp only [Pc.holds, Pc.token, Pc.counted, Pc.writing, Pc.target, Pc.unlocking, Pc.saving,
    Pc.asWriter] at hRs hT hU hS hA
  simp only [step, hpc] at h
  split at h
  · rename_i hcond
    split at h
    · rename_i hcond
      simp only [Option.some.injEq] at h
      subst h
      refine inv_move hi t _ _ _ (fun _ _ => rfl) rfl rfl
        (mutex_keep (hi.mutex t) ?hq_15) ?hn_15 ?hs_15 ?hr_15 ?ht_15
        ?hrd_15 ?hul_15 ?hsv_15 ?hrs_15 (Or.inl rfl)
        ?haw_15 ?hcl_15 ?hcm_15 ?hd_15 ?hdw_15 ?he_15 ?hew_15
      all_goals try simp only [Threads.share, hpc, Pc.share, Pc.holds, Pc.token, Pc.counted,
        Pc.writing, Pc.reserved, Pc.target, Pc.unlocking, Pc.saving, Pc.asWriter, Pc.entering,
        Pc.spinning, Pc.acquiring, Pc.afterReadLock, Pc.afterWriteLock]
      all_goals try clear hM hM0 hA0 hRs0 hT0
      all_goals first
        | omega
        | (intros; simp_all; done)
        | (intros; simp_all; omega)
        | (intros; simp_all [RecurseCounts.IsNotCurrentWriter, RecurseCounts.GetLocalReadersCount,
            RecurseCounts.IncrementReadCount, RecurseCounts.SetLocalReadersCount, Restore_fixReader,
            Restore_fixWriter]; done)
        | (intros; simp_all [RecurseCounts.IsNotCurrentWriter, RecurseCounts.GetLocalReadersCount,
            RecurseCounts.IncrementReadCount, RecurseCounts.SetLocalReadersCount, Restore_fixReader,
            Restore_fixWriter]; omega)
    · rename_i hcond
      simp only [Option.some.injEq] at h
      subst h
      refine inv_move hi t _ _ _ (fun _ _ => rfl) rfl rfl
        (mutex_keep (hi.mutex t) ?hq_16) ?hn_16 ?hs_16 ?hr_16 ?ht_16
        ?hrd_16 ?hul_16 ?hsv_16 ?hrs_16 (Or.inl rfl)
        ?haw_16 ?hcl_16 ?hcm_16 ?hd_16 ?hdw_16 ?he_16 ?hew_16
      all_goals try simp only [Threads.share, hpc, Pc.share, Pc.holds, Pc.token, Pc.counted,
        Pc.writing, Pc.reserved, Pc.target, Pc.unlocking, Pc.saving, Pc.asWriter, Pc.entering,
        Pc.spinning, Pc.acquiring, Pc.afterReadLock, Pc.afterWriteLock]
      all_goals try clear hM hM0 hA0 hRs0 hT0
      all_goals first
        | omega
        | (intros; simp_all; done)
        | (intros; simp_all; omega)
        | (intros; simp_all [RecurseCounts.IsNotCurrentWriter, RecurseCounts.GetLocalReadersCount,
            RecurseCounts.IncrementReadCount, RecurseCounts.SetLocalReadersCount, Restore_fixReader,
            Restore_fixWriter]; done)
        | (intros; simp_all [RecurseCounts.IsNotCurrentWriter, RecurseCounts.GetLocalReadersCount,
            RecurseCounts.IncrementReadCount, RecurseCounts.SetLocalReadersCount, Restore_fixReader,
            Restore_fixWriter]; omega)
  · rename_i hcond
    simp only [Option.some.injEq] at h
    subst h
    refine inv_move hi t _ _ _ (fun _ _ => rfl) rfl rfl
      (mutex_keep (hi.mutex t) ?hq_17) ?hn_17 ?hs_17 ?hr_17 ?ht_17
      ?hrd_17 ?hul_17 ?hsv_17 ?hrs_17 (Or.inl rfl)
      ?haw_17 ?hcl_17 ?hcm_17 ?hd_17 ?hdw_17 ?he_17 ?hew_17
    case hcm_17 =>
      intro _ _
      cases hf : σ.lock.fWriter
      · exact Or.inl rfl
      · right
        left
        simpa [RecurseCounts.IsNotCurrentWriter, hf] using hcond
    all_goals try simp only [Threads.share, hpc, Pc.share, Pc.holds, Pc.token, Pc.counted,
      Pc.writing, Pc.reserved, Pc.target, Pc.unlocking, Pc.saving, Pc.asWriter, Pc.entering,
      Pc.spinning, Pc.acquiring, Pc.afterReadLock, Pc.afterWriteLock]
    all_goals try clear hM hM0 hA0 hRs0 hT0
    all_goals first
      | omega
      | (intros; simp_all; done)
      | (intros; simp_all; omega)
      | (intros; simp_all [RecurseCounts.IsNotCurrentWriter, RecurseCounts.GetLocalReadersCount,
          RecurseCounts.IncrementReadCount, RecurseCounts.SetLocalReadersCount, Restore_fixReader,
          Restore_fixWriter]; done)
      | (intros; simp_all [RecurseCounts.IsNotCurrentWriter, RecurseCounts.GetLocalReadersCount,
          RecurseCounts.IncrementReadCount, RecurseCounts.SetLocalReadersCount, Restore_fixReader,
          Restore_fixWriter]; omega)

/-- The invariant after a test of the predicate of line 95. -/
theorem inv_step_rlSlowRetest {σ σ1 : Threads} (hi : σ.Inv) {t : Thread}
    {k : Option TReentrantRWLockState} (hpc : σ.pc t = Pc.rlSlowRetest k)
    (h : step σ t = some σ1) : σ1.Inv := by
  have hN := hi.nonneg t
  have hM := hi.mutex t
  have hRs := hi.restoring t
  have hT := hi.target t
  have hU := hi.unlocking t
  have hS := hi.saving t
  have hA := hi.asWriter t
  rw [hpc] at hM hRs hT hU hS hA
  have hM0 := hM
  have hA0 := hA
  have hRs0 := hRs
  have hT0 := hT
  simp only [Threads.share, hpc, Pc.share] at hN
  simp only [Pc.holds, Pc.token, Pc.counted, Pc.writing, Pc.target, Pc.unlocking, Pc.saving,
    Pc.asWriter] at hRs hT hU hS hA
  simp only [step, hpc] at h
  split at h
  · rename_i hcond
    simp only [Option.some.injEq] at h
    subst h
    refine inv_move hi t _ _ _ (fun _ _ => rfl) rfl rfl
      (mutex_keep (hi.mutex t) ?hq_18) ?hn_18 ?hs_18 ?hr_18 ?ht_18
      ?hrd_18 ?hul_18 ?hsv_18 ?hrs_18 (Or.inl rfl)
      ?haw_18 ?hcl_18 ?hcm_18 ?hd_18 ?hdw_18 ?he_18 ?hew_18
    all_goals try simp only [Threads.share, hpc, Pc.share, Pc.holds, Pc.token, Pc.counted,
      Pc.writing, Pc.reserved, Pc.target, Pc.unlocking, Pc.saving, Pc.asWriter, Pc.entering,
      Pc.spinning, Pc.acquiring, Pc.afterReadLock, Pc.afterWriteLock]
    all_goals try clear hM hM0 hA0 hRs0 hT0
    all_goals first
      | omega
      | (intros; simp_all; done)
      | (intros; simp_all; omega)
      | (intros; simp_all [RecurseCounts.IsNotCurrentWriter, RecurseCounts.GetLocalReadersCount,
          RecurseCounts.IncrementReadCount, RecurseCounts.SetLocalReadersCount, Restore_fixReader,
          Restore_fixWriter]; done)
      | (intros; simp_all [RecurseCounts.IsNotCurrentWriter, RecurseCounts.GetLocalReadersCount,
          RecurseCounts.IncrementReadCount, RecurseCounts.SetLocalReadersCount, Restore_fixReader,
          Restore_fixWriter]; omega)
  · rename_i hcond
    simp only [Option.some.injEq] at h
    subst h
    refine inv_move hi t _ _ _ (fun _ _ => rfl) rfl rfl
      (mutex_release (hM0.mp rfl) ?hq_19) ?hn_19 ?hs_19 ?hr_19 ?ht_19
      ?hrd_19 ?hul_19 ?hsv_19 ?hrs_19 (Or.inl rfl)
      ?haw_19 ?hcl_19 ?hcm_19 ?hd_19 ?hdw_19 ?he_19 ?hew_19
    all_goals try simp only [Threads.share, hpc, Pc.share, Pc.holds, Pc.token, Pc.counted,
      Pc.writing, Pc.reserved, Pc.target, Pc.unlocking, Pc.saving, Pc.asWriter, Pc.entering,
      Pc.spinning, Pc.acquiring, Pc.afterReadLock, Pc.afterWriteLock]
    all_goals try clear hM hM0 hA0 hRs0 hT0
    all_goals first
      | omega
      | (intros; simp_all; done)
      | (intros; simp_all; omega)
      | (intros; simp_all [RecurseCounts.IsNotCurrentWriter, RecurseCounts.GetLocalReadersCount,
          RecurseCounts.IncrementReadCount, RecurseCounts.SetLocalReadersCount, Restore_fixReader,
          Restore_fixWriter]; done)
      | (intros; simp_all [RecurseCounts.IsNotCurrentWriter, RecurseCounts.GetLocalReadersCount,
          RecurseCounts.IncrementReadCount, RecurseCounts.SetLocalReadersCount, Restore_fixReader,
          Restore_fixWriter]; omega)

/-- The invariant after a wake-up inside the wait of line 95. -/
theorem inv_step_rlSlowBlocked {σ σ1 : Threads} (hi : σ.Inv) {t : Thread}
    {k : Option TReentrantRWLockState} (hpc : σ.pc t = Pc.rlSlowBlocked k)
    (h : step σ t = some σ1) : σ1.Inv := by
  have hN := hi.nonneg t
  have hM := hi.mutex t
  have hRs := hi.restoring t
  have hT := hi.target t
  have hU := hi.unlocking t
  have hS := hi.saving t
  have hA := hi.asWriter t
  rw [hpc] at hM hRs hT hU hS hA
  have hM0 := hM
  have hA0 := hA
  have hRs0 := hRs
  have hT0 := hT
  simp only [Threads.share, hpc, Pc.share] at hN
  simp only [Pc.holds, Pc.token, Pc.counted, Pc.writing, Pc.target, Pc.unlocking, Pc.saving,
    Pc.asWriter] at hRs hT hU hS hA
  simp only [step, hpc] at h
  split at h
  · rename_i hfree
    simp only [Option.some.injEq] at h
    subst h
    refine inv_move hi t _ _ _ (fun _ _ => rfl) rfl rfl
      (mutex_acquire hfree ?hq_20) ?hn_20 ?hs_20 ?hr_20 ?ht_20
      ?hrd_20 ?hul_20 ?hsv_20 ?hrs_20 (Or.inl rfl)
      ?haw_20 ?hcl_20 ?hcm_20 ?hd_20 ?hdw_20 ?he_20 ?hew_20
    all_goals try simp only [Threads.share, hpc, Pc.share, Pc.holds, Pc.token, Pc.counted,
      Pc.writing, Pc.reserved, Pc.target, Pc.unlocking, Pc.saving, Pc.asWriter, Pc.entering,
      Pc.spinning, Pc.acquiring, Pc.afterReadLock, Pc.afterWriteLock]
    all_goals try clear hM hM0 hA0 hRs0 hT0
    all_goals first
      | omega
      | (intros; simp_all; done)
      | (intros; simp_all; omega)
      | (intros; simp_all [RecurseCounts.IsNotCurrentWriter, RecurseCounts.GetLocalReadersCount,
          RecurseCounts.IncrementReadCount, RecurseCounts.SetLocalReadersCount, Restore_fixReader,
          Restore_fixWriter]; done)
      | (intros; simp_all [RecurseCounts.IsNotCurrentWriter, RecurseCounts.GetLocalReadersCount,
          RecurseCounts.IncrementReadCount, RecurseCounts.SetLocalReadersCount, Restore_fixReader,
          Restore_fixWriter]; omega)
  · cases h

/-- The invariant after lines 108-111. -/
theorem inv_step_rlSlowCommit {σ σ1 : Threads} (hi : σ.Inv) {t : Thread}
    {k : Option TReentrantRWLockState} (hpc : σ.pc t = Pc.rlSlowCommit k)
    (h : step σ t = some σ1) : σ1.Inv := by
  have hN := hi.nonneg t
  have hM := hi.mutex t
  have hRs := hi.restoring t
  have hT := hi.target t
  have hU := hi.unlocking t
  have hS := hi.saving t
  have hA := hi.asWriter t
  rw [hpc] at hM hRs hT hU hS hA
  have hM0 := hM
  have hA0 := hA
  have hRs0 := hRs
  have hT0 := hT
  simp only [Threads.share, hpc, Pc.share] at hN
  simp only [Pc.holds, Pc.token, Pc.counted, Pc.writing, Pc.target, Pc.unlocking, Pc.saving,
    Pc.asWriter] at hRs hT hU hS hA
  simp only [step, hpc] at h
  simp only [Option.some.injEq] at h
  subst h
  refine inv_move hi t _ _ _
    (fun u hu => by
      simp [RecurseCounts.IncrementReadCount, RecurseCounts.SetLocalReadersCount,
        RecurseCounts.GetLocalReadersCount, Function.update_noteq hu])
    rfl rfl
    (mutex_keep (hi.mutex t) ?hq_21) ?hn_21 ?hs_21 ?hr_21 ?ht_21
    ?hrd_21 ?hul_21 ?hsv_21 ?hrs_21 (Or.inl rfl)
    ?haw_21 ?hcl_21 ?hcm_21 ?hd_21 ?hdw_21 ?he_21 ?hew_21
  case he_21 =>
    intro hf w hw1 hwt _ h0
    rcases hi.commit t k hpc with h1 | h1 | h1
    · rw [hf] at h1
      cases h1
    · exact absurd (hi.marked_unique hw1 h1) hwt
    · simp only [Threads.share, hpc, Pc.share] at h0
      exact absurd h0 h1
  all_goals try simp only [Threads.share, hpc, Pc.share, Pc.holds, Pc.token, Pc.counted, Pc.writing,
    Pc.reserved, Pc.target, Pc.unlocking, Pc.saving, Pc.asWriter, Pc.entering, Pc.spinning,
    Pc.acquiring, Pc.afterReadLock, Pc.afterWriteLock]
  all_goals try clear hM hM0 hA0 hRs0 hT0
  all_goals first
    | omega
    | (intros; simp_all; done)
    | (intros; simp_all; omega)
    | (intros; simp_all [RecurseCounts.IsNotCurrentWriter, RecurseCounts.GetLocalReadersCount,
        RecurseCounts.IncrementReadCount, RecurseCounts.SetLocalReadersCount, Restore_fixReader,
        Restore_fixWriter]; done)
    | (intros; simp_all [RecurseCounts.IsNotCurrentWriter, RecurseCounts.GetLocalReadersCount,
        RecurseCounts.IncrementReadCount, RecurseCounts.SetLocalReadersCount, Restore_fixReader,
        Restore_fixWriter]; omega)

/-- The invariant after `lock.unlock()` (line 113). -/
theorem inv_step_rlSlowUnlock {σ σ1 : Threads} (hi : σ.Inv) {t : Thread}
    {k : Option TReentrantRWLockState} (hpc : σ.pc t = Pc.rlSlowUnlock k)
    (h : step σ t = some σ1) : σ1.Inv := by
  have hN := hi.nonneg t
  have hM := hi.mutex t
  have hRs := hi.restoring t
  have hT := hi.target t
  have hU := hi.unlocking t
  have hS := hi.saving t
  have hA := hi.asWriter t
  rw [hpc] at hM hRs hT hU hS hA
  have hM0 := hM
  have hA0 := hA
  have hRs0 := hRs
  have hT0 := hT
  simp only [Threads.share, hpc, Pc.share] at hN
  simp only [Pc.holds, Pc.token, Pc.counted, Pc.writing, Pc.target, Pc.unlocking, Pc.saving,
    Pc.asWriter] at hRs hT hU hS hA
  simp only [step, hpc] at h
  cases k
  · simp only [Option.some.injEq] at h
    subst h
    refine inv_move hi t _ _ _ (fun _ _ => rfl) rfl rfl
      (mutex_release (hM0.mp rfl) ?hq_22) ?hn_22 ?hs_22 ?hr_22 ?ht_22
      ?hrd_22 ?hul_22 ?hsv_22 ?hrs_22 (Or.inl rfl)
      ?haw_22 ?hcl_22 ?hcm_22 ?hd_22 ?hdw_22 ?he_22 ?hew_22
    all_goals try simp only [Threads.share, hpc, Pc.share, Pc.holds, Pc.token, Pc.counted,
      Pc.writing, Pc.reserved, Pc.target, Pc.unlocking, Pc.saving, Pc.asWriter, Pc.entering,
      Pc.spinning, Pc.acquiring, Pc.afterReadLock, Pc.afterWriteLock]
    all_goals try clear hM hM0 hA0 hRs0 hT0
    all_goals first
      | omega
      | (intros; simp_all; done)
      | (intros; simp_all; omega)
      | (intros; simp_all [RecurseCounts.IsNotCurrentWriter, RecurseCounts.GetLocalReadersCount,
          RecurseCounts.IncrementReadCount, RecurseCounts.SetLocalReadersCount, Restore_fixReader,
          Restore_fixWriter]; done)
      | (intros; simp_all [RecurseCounts.IsNotCurrentWriter, RecurseCounts.GetLocalReadersCount,
          RecurseCounts.IncrementReadCount, RecurseCounts.SetLocalReadersCount, Restore_fixReader,
          Restore_fixWriter]; omega)
  · simp only [Option.some.injEq] at h
    subst h
    refine inv_move hi t _ _ _ (fun _ _ => rfl) rfl rfl
      (mutex_release (hM0.mp rfl) ?hq_23) ?hn_23 ?hs_23 ?hr_23 ?ht_23
      ?hrd_23 ?hul_23 ?hsv_23 ?hrs_23 (Or.inl rfl)
      ?haw_23 ?hcl_23 ?hcm_23 ?hd_23 ?hdw_23 ?he_23 ?hew_23
    all_goals try simp only [Threads.share, hpc, Pc.share, Pc.holds, Pc.token, Pc.counted,
      Pc.writing, Pc.reserved, Pc.target, Pc.unlocking, Pc.saving, Pc.asWriter, Pc.entering,
      Pc.spinning, Pc.acquiring, Pc.afterReadLock, Pc.afterWriteLock]
    all_goals try clear hM hM0 hA0 hRs0 hT0
    all_goals first
      | omega
      | (intros; simp_all; done)
      | (intros; simp_all; omega)
      | (intros; simp_all [RecurseCounts.IsNotCurrentWriter, RecurseCounts.GetLocalReadersCount,
          RecurseCounts.IncrementReadCount, RecurseCounts.SetLocalReadersCount, Restore_fixReader,
          Restore_fixWriter]; done)
      | (intros; simp_all [RecurseCounts.IsNotCurrentWriter, RecurseCounts.GetLocalReadersCount,
          RecurseCounts.IncrementReadCount, RecurseCounts.SetLocalReadersCount, Restore_fixReader,
          Restore_fixWriter]; omega)

/-- The invariant after lines 310-311. -/
theorem inv_step_rsFixReader {σ σ1 : Threads} (hi : σ.Inv) {t : Thread}
    {p : TReentrantRWLockState} (hpc : σ.pc t = Pc.rsFixReader p)
    (h : step σ t = some σ1) : σ1.Inv := by
  have hN := hi.nonneg t
  have hM := hi.mutex t
  have hRs := hi.restoring t
  have hT := hi.target t
  have hU := hi.unlocking t
  have hS := hi.saving t
  have hA := hi.asWriter t
  rw [hpc] at hM hRs hT hU hS hA
  have hM0 := hM
  have hA0 := hA
  have hRs0 := hRs
  have hT0 := hT
  simp only [Threads.share, hpc, Pc.share] at hN
  simp only [Pc.holds, Pc.token, Pc.counted, Pc.writing, Pc.target, Pc.unlocking, Pc.saving,
    Pc.asWriter] at hRs hT hU hS hA
  simp only [step, hpc] at h
  have hRs := hRs0 p rfl
  simp only [Option.some.injEq] at h
  subst h
  refine inv_move hi t _ _ _
    (fun u hu => by
      simp [Restore_fixReader, RecurseCounts.SetLocalReadersCount, hRs.1,
        Function.update_noteq hu])
    rfl rfl
    (mutex_keep (hi.mutex t) ?hq_24) ?hn_24 ?hs_24 ?hr_24 ?ht_24
    ?hrd_24 ?hul_24 ?hsv_24 ?hrs_24 (Or.inl rfl)
    ?haw_24 ?hcl_24 ?hcm_24 ?hd_24 ?hdw_24 ?he_24 ?hew_24
  all_goals try simp only [Threads.share, hpc, Pc.share, Pc.holds, Pc.token, Pc.counted, Pc.writing,
    Pc.reserved, Pc.target, Pc.unlocking, Pc.saving, Pc.asWriter, Pc.entering, Pc.spinning,
    Pc.acquiring, Pc.afterReadLock, Pc.afterWriteLock]
  all_goals try clear hM hM0 hA0 hRs0 hT0
  all_goals first
    | omega
    | (intros; simp_all; done)
    | (intros; simp_all; omega)
    | (intros; simp_all [RecurseCounts.IsNotCurrentWriter, RecurseCounts.GetLocalReadersCount,
        RecurseCounts.IncrementReadCount, RecurseCounts.SetLocalReadersCount, Restore_fixReader,
        Restore_fixWriter]; done)
    | (intros; simp_all [RecurseCounts.IsNotCurrentWriter, RecurseCounts.GetLocalReadersCount,
        RecurseCounts.IncrementReadCount, RecurseCounts.SetLocalReadersCount, Restore_fixReader,
        Restore_fixWriter]; omega)

/-- The invariant after lines 127-129. -/
theorem inv_step_ruLookup {σ σ1 : Threads} (hi : σ.Inv) {t : Thread}
    (hpc : σ.pc t = Pc.ruLookup) (h : step σ t = some σ1) : σ1.Inv := by
  have hN := hi.nonneg t
  have hM := hi.mutex t
  have hRs := hi.restoring t
  have hT := hi.target t
  have hU := hi.unlocking t
  have hS := hi.saving t
  have hA := hi.asWriter t
  rw [hpc] at hM hRs hT hU hS hA
  have hM0 := hM
  have hA0 := hA
  have hRs0 := hRs
  have hT0 := hT
  simp only [Threads.share, hpc, Pc.share] at hN
  simp only [Pc.holds, Pc.token, Pc.counted, Pc.writing, Pc.target, Pc.unlocking, Pc.saving,
    Pc.asWriter] at hRs hT hU hS hA
  simp only [step, hpc] at h
  split at h
  · rename_i hfree
    simp only [Option.some.injEq] at h
    subst h
    refine inv_move hi t _ _ _ (fun _ _ => rfl) rfl rfl
      (mutex_pass hfree ?hq_25) ?hn_25 ?hs_25 ?hr_25 ?ht_25
      ?hrd_25 ?hul_25 ?hsv_25 ?hrs_25 (Or.inl rfl)
      ?haw_25 ?hcl_25 ?hcm_25 ?hd_25 ?hdw_25 ?he_25 ?hew_25
    all_goals try simp only [Threads.share, hpc, Pc.share, Pc.holds, Pc.token, Pc.counted,
      Pc.writing, Pc.reserved, Pc.target, Pc.unlocking, Pc.saving, Pc.asWriter, Pc.entering,
      Pc.spinning, Pc.acquiring, Pc.afterReadLock, Pc.afterWriteLock]
    all_goals try clear hM hM0 hA0 hRs0 hT0
    all_goals first
      | omega
      | (intros; simp_all; done)
      | (intros; simp_all; omega)
      | (intros; simp_all [RecurseCounts.IsNotCurrentWriter, RecurseCounts.GetLocalReadersCount,
          RecurseCounts.IncrementReadCount, RecurseCounts.SetLocalReadersCount, Restore_fixReader,
          Restore_fixWriter]; done)
      | (intros; simp_all [RecurseCounts.IsNotCurrentWriter, RecurseCounts.GetLocalReadersCount,
          RecurseCounts.IncrementReadCount, RecurseCounts.SetLocalReadersCount, Restore_fixReader,
          Restore_fixWriter]; omega)
  · cases h

/-- The invariant after `--fReaders` (line 134). -/
theorem inv_step_ruReaders {σ σ1 : Threads} (hi : σ.Inv) {t : Thread}
    {c : Thread} (hpc : σ.pc t = Pc.ruReaders c)
    (h : step σ t = some σ1) : σ1.Inv := by
  have hN := hi.nonneg t
  have hM := hi.mutex t
  have hRs := hi.restoring t
  have hT := hi.target t
  have hU := hi.unlocking t
  have hS := hi.saving t
  have hA := hi.asWriter t
  rw [hpc] at hM hRs hT hU hS hA
  have hM0 := hM
  have hA0 := hA
  have hRs0 := hRs
  have hT0 := hT
  simp only [Threads.share, hpc, Pc.share] at hN
  simp only [Pc.holds, Pc.token, Pc.counted, Pc.writing, Pc.target, Pc.unlocking, Pc.saving,
    Pc.asWriter] at hRs hT hU hS hA
  simp only [step, hpc] at h
  have hT := (hT0 c rfl).symm
  subst hT
  simp only [Option.some.injEq] at h
  subst h
  refine inv_move hi t _ _ _ (fun _ _ => rfl) rfl rfl
    (mutex_keep (hi.mutex t) ?hq_26) ?hn_26 ?hs_26 ?hr_26 ?ht_26
    ?hrd_26 ?hul_26 ?hsv_26 ?hrs_26 (Or.inl rfl)
    ?haw_26 ?hcl_26 ?hcm_26 ?hd_26 ?hdw_26 ?he_26 ?hew_26
  all_goals try simp only [Threads.share, hpc, Pc.share, Pc.holds, Pc.token, Pc.counted, Pc.writing,
    Pc.reserved, Pc.target, Pc.unlocking, Pc.saving, Pc.asWriter, Pc.entering, Pc.spinning,
    Pc.acquiring, Pc.afterReadLock, Pc.afterWriteLock]
  all_goals try clear hM hM0 hA0 hRs0 hT0
  all_goals first
    | omega
    | (intros; simp_all; done)
    | (intros; simp_all; omega)
    | (intros; simp_all [RecurseCounts.IsNotCurrentWriter, RecurseCounts.GetLocalReadersCount,
        RecurseCounts.IncrementReadCount, RecurseCounts.SetLocalReadersCount, Restore_fixReader,
        Restore_fixWriter]; done)
    | (intros; simp_all [RecurseCounts.IsNotCurrentWriter, RecurseCounts.GetLocalReadersCount,
        RecurseCounts.IncrementReadCount, RecurseCounts.SetLocalReadersCount, Restore_fixReader,
        Restore_fixWriter]; omega)

/-- The invariant after the first test of line 135. -/
theorem inv_step_ruTestW {σ σ1 : Threads} (hi : σ.Inv) {t : Thread}
    {c : Thread} (hpc : σ.pc t = Pc.ruTestW c)
    (h : step σ t = some σ1) : σ1.Inv := by
  have hN := hi.nonneg t
  have hM := hi.mutex t
  have hRs := hi.restoring t
  have hT := hi.target t
  have hU := hi.unlocking t
  have hS := hi.saving t
  have hA := hi.asWriter t
  rw [hpc] at hM hRs hT hU hS hA
  have hM0 := hM
  have hA0 := hA
  have hRs0 := hRs
  have hT0 := hT
  simp only [Threads.share, hpc, Pc.share] at hN
  simp only [Pc.holds, Pc.token, Pc.counted, Pc.writing, Pc.target, Pc.unlocking, Pc.saving,
    Pc.asWriter] at hRs hT hU hS hA
  simp only [step, hpc] at h
  have hT := (hT0 c rfl).symm
  subst hT
  split at h
  · rename_i hcond
    simp only [Option.some.injEq] at h
    subst h
    refine inv_move hi t _ _ _ (fun _ _ => rfl) rfl rfl
      (mutex_keep (hi.mutex t) ?hq_27) ?hn_27 ?hs_27 ?hr_27 ?ht_27
      ?hrd_27 ?hul_27 ?hsv_27 ?hrs_27 (Or.inl rfl)
      ?haw_27 ?hcl_27 ?hcm_27 ?hd_27 ?hdw_27 ?he_27 ?hew_27
    all_goals try simp only [Threads.share, hpc, Pc.share, Pc.holds, Pc.token, Pc.counted,
      Pc.writing, Pc.reserved, Pc.target, Pc.unlocking, Pc.saving, Pc.asWriter, Pc.entering,
      Pc.spinning, Pc.acquiring, Pc.afterReadLock, Pc.afterWriteLock]
    all_goals try clear hM hM0 hA0 hRs0 hT0
    all_goals first
      | omega
      | (intros; simp_all; done)
      | (intros; simp_all; omega)
      | (intros; simp_all [RecurseCounts.IsNotCurrentWriter, RecurseCounts.GetLocalReadersCount,
          RecurseCounts.IncrementReadCount, RecurseCounts.SetLocalReadersCount, Restore_fixReader,
          Restore_fixWriter]; done)
      | (intros; simp_all [RecurseCounts.IsNotCurrentWriter, RecurseCounts.GetLocalReadersCount,
          RecurseCounts.IncrementReadCount, RecurseCounts.SetLocalReadersCount, Restore_fixReader,
          Restore_fixWriter]; omega)
  · rename_i hcond
    simp only [Option.some.injEq] at h
    subst h
    refine inv_move hi t _ _ _ (fun _ _ => rfl) rfl rfl
      (mutex_keep (hi.mutex t) ?hq_28) ?hn_28 ?hs_28 ?hr_28 ?ht_28
      ?hrd_28 ?hul_28 ?hsv_28 ?hrs_28 (Or.inl rfl)
      ?haw_28 ?hcl_28 ?hcm_28 ?hd_28 ?hdw_28 ?he_28 ?hew_28
    all_goals try simp only [Threads.share, hpc, Pc.share, Pc.holds, Pc.token, Pc.counted,
      Pc.writing, Pc.reserved, Pc.target, Pc.unlocking, Pc.saving, Pc.asWriter, Pc.entering,
      Pc.spinning, Pc.acquiring, Pc.afterReadLock, Pc.afterWriteLock]
    all_goals try clear hM hM0 hA0 hRs0 hT0
    all_goals first
      | omega
      | (intros; simp_all; done)
      | (intros; simp_all; omega)
      | (intros; simp_all [RecurseCounts.IsNotCurrentWriter, RecurseCounts.GetLocalReadersCount,
          RecurseCounts.IncrementReadCount, RecurseCounts.SetLocalReadersCount, Restore_fixReader,
          Restore_fixWriter]; done)
      | (intros; simp_all [RecurseCounts.IsNotCurrentWriter, RecurseCounts.GetLocalReadersCount,
          RecurseCounts.IncrementReadCount, RecurseCounts.SetLocalReadersCount, Restore_fixReader,
          Restore_fixWriter]; omega)

/-- The invariant after the second test of line 135. -/
theorem inv_step_ruTestR {σ σ1 : Threads} (hi : σ.Inv) {t : Thread}
    {c : Thread} (hpc : σ.pc t = Pc.ruTestR c)
    (h : step σ t = some σ1) : σ1.Inv := by
  have hN := hi.nonneg t
  have hM := hi.mutex t
  have hRs := hi.restoring t
  have hT := hi.target t
  have hU := hi.unlocking t
  have hS := hi.saving t
  have hA := hi.asWriter t
  rw [hpc] at hM hRs hT hU hS hA
  have hM0 := hM
  have hA0 := hA
  have hRs0 := hRs
  have hT0 := hT
  simp only [Threads.share, hpc, Pc.share] at hN
  simp only [Pc.holds, Pc.token, Pc.counted, Pc.writing, Pc.target, Pc.unlocking, Pc.saving,
    Pc.asWriter] at hRs hT hU hS hA
  simp only [step, hpc] at h
  have hT := (hT0 c rfl).symm
  subst hT
  split at h
  · rename_i hcond
    simp only [Option.some.injEq] at h
    subst h
    refine inv_move hi t _ _ _ (fun _ _ => rfl) rfl rfl
      (mutex_keep (hi.mutex t) ?hq_29) ?hn_29 ?hs_29 ?hr_29 ?ht_29
      ?hrd_29 ?hul_29 ?hsv_29 ?hrs_29 (Or.inl rfl)
      ?haw_29 ?hcl_29 ?hcm_29 ?hd_29 ?hdw_29 ?he_29 ?hew_29
    all_goals try simp only [Threads.share, hpc, Pc.share, Pc.holds, Pc.token, Pc.counted,
      Pc.writing, Pc.reserved, Pc.target, Pc.unlocking, Pc.saving, Pc.asWriter, Pc.entering,
      Pc.spinning, Pc.acquiring, Pc.afterReadLock, Pc.afterWriteLock]
    all_goals try clear hM hM0 hA0 hRs0 hT0
    all_goals first
      | omega
      | (intros; simp_all; done)
      | (intros; simp_all; omega)
      | (intros; simp_all [RecurseCounts.IsNotCurrentWriter, RecurseCounts.GetLocalReadersCount,
          RecurseCounts.IncrementReadCount, RecurseCounts.SetLocalReadersCount, Restore_fixReader,
          Restore_fixWriter]; done)
      | (intros; simp_all [RecurseCounts.IsNotCurrentWriter, RecurseCounts.GetLocalReadersCount,
          RecurseCounts.IncrementReadCount, RecurseCounts.SetLocalReadersCount, Restore_fixReader,
          Restore_fixWriter]; omega)
  · rename_i hcond
    simp only [Option.some.injEq] at h
    subst h
    refine inv_move hi t _ _ _ (fun _ _ => rfl) rfl rfl
      (mutex_keep (hi.mutex t) ?hq_30) ?hn_30 ?hs_30 ?hr_30 ?ht_30
      ?hrd_30 ?hul_30 ?hsv_30 ?hrs_30 (Or.inl rfl)
      ?haw_30 ?hcl_30 ?hcm_30 ?hd_30 ?hdw_30 ?he_30 ?hew_30
    all_goals try simp only [Threads.share, hpc, Pc.share, Pc.holds, Pc.token, Pc.counted,
      Pc.writing, Pc.reserved, Pc.target, Pc.unlocking, Pc.saving, Pc.asWriter, Pc.entering,
      Pc.spinning, Pc.acquiring, Pc.afterReadLock, Pc.afterWriteLock]
    all_goals try clear hM hM0 hA0 hRs0 hT0
    all_goals first
      | omega
      | (intros; simp_all; done)
      | (intros; simp_all; omega)
      | (intros; simp_all [RecurseCounts.IsNotCurrentWriter, RecurseCounts.GetLocalReadersCount,
          RecurseCounts.IncrementReadCount, RecurseCounts.SetLocalReadersCount, Restore_fixReader,
          Restore_fixWriter]; done)
      | (intros; simp_all [RecurseCounts.IsNotCurrentWriter, RecurseCounts.GetLocalReadersCount,
          RecurseCounts.IncrementReadCount, RecurseCounts.SetLocalReadersCount, Restore_fixReader,
          Restore_fixWriter]; omega)

/-- The invariant after lines 137-144. -/
theorem inv_step_ruSlow {σ σ1 : Threads} (hi : σ.Inv) {t : Thread}
    {c : Thread} (hpc : σ.pc t = Pc.ruSlow c)
    (h : step σ t = some σ1) : σ1.Inv := by
  have hN := hi.nonneg t
  have hM := hi.mutex t
  have hRs := hi.restoring t
  have hT := hi.target t
  have hU := hi.unlocking t
  have hS := hi.saving t
  have hA := hi.asWriter t
  rw [hpc] at hM hRs hT hU hS hA
  have hM0 := hM
  have hA0 := hA
  have hRs0 := hRs
  have hT0 := hT
  simp only [Threads.share, hpc, Pc.share] at hN
  simp only [Pc.holds, Pc.token, Pc.counted, Pc.writing, Pc.target, Pc.unlocking, Pc.saving,
    Pc.asWriter] at hRs hT hU hS hA
  simp only [step, hpc] at h
  have hT := (hT0 c rfl).symm
  subst hT
  split at h
  · rename_i hfree
    simp only [Option.some.injEq] at h
    subst h
    refine inv_move hi t _ _ _
      (fun u hu => by
        simp [RecurseCounts.IncrementReadCount, RecurseCounts.SetLocalReadersCount,
          RecurseCounts.GetLocalReadersCount, Function.update_noteq hu])
      rfl rfl
      (mutex_pass hfree ?hq_31) ?hn_31 ?hs_31 ?hr_31 ?ht_31
      ?hrd_31 ?hul_31 ?hsv_31 ?hrs_31 (Or.inl rfl)
      ?haw_31 ?hcl_31 ?hcm_31 ?hd_31 ?hdw_31 ?he_31 ?hew_31
    all_goals try simp only [Threads.share, hpc, Pc.share, Pc.holds, Pc.token, Pc.counted,
      Pc.writing, Pc.reserved, Pc.target, Pc.unlocking, Pc.saving, Pc.asWriter, Pc.entering,
      Pc.spinning, Pc.acquiring, Pc.afterReadLock, Pc.afterWriteLock]
    all_goals try clear hM hM0 hA0 hRs0 hT0
    all_goals first
      | omega
      | (intros; simp_all; done)
      | (intros; simp_all; omega)
      | (intros; simp_all [RecurseCounts.IsNotCurrentWriter, RecurseCounts.GetLocalReadersCount,
          RecurseCounts.IncrementReadCount, RecurseCounts.SetLocalReadersCount, Restore_fixReader,
          Restore_fixWriter]; done)
      | (intros; simp_all [RecurseCounts.IsNotCurrentWriter, RecurseCounts.GetLocalReadersCount,
          RecurseCounts.IncrementReadCount, RecurseCounts.SetLocalReadersCount, Restore_fixReader,
          Restore_fixWriter]; omega)
  · cases h

/-- The invariant after line 147. -/
theorem inv_step_ruFast {σ σ1 : Threads} (hi : σ.Inv) {t : Thread}
    {c : Thread} (hpc : σ.pc t = Pc.ruFast c)
    (h : step σ t = some σ1) : σ1.Inv := by
  have hN := hi.nonneg t
  have hM := hi.mutex t
  have hRs := hi.restoring t
  have hT := hi.target t
  have hU := hi.unlocking t
  have hS := hi.saving t
  have hA := hi.asWriter t
  rw [hpc] at hM hRs hT hU hS hA
  have hM0 := hM
  have hA0 := hA
  have hRs0 := hRs
  have hT0 := hT
  simp only [Threads.share, hpc, Pc.share] at hN
  simp only [Pc.holds, Pc.token, Pc.counted, Pc.writing, Pc.target, Pc.unlocking, Pc.saving,
    Pc.asWriter] at hRs hT hU hS hA
  simp only [step, hpc] at h
  have hT := (hT0 c rfl).symm
  subst hT
  simp only [Option.some.injEq] at h
  subst h
  refine inv_move hi t _ _ _
    (fun u hu => by
      simp [RecurseCounts.IncrementReadCount, RecurseCounts.SetLocalReadersCount,
        RecurseCounts.GetLocalReadersCount, Function.update_noteq hu])
    rfl rfl
    (mutex_keep (hi.mutex t) ?hq_32) ?hn_32 ?hs_32 ?hr_32 ?ht_32
    ?hrd_32 ?hul_32 ?hsv_32 ?hrs_32 (Or.inl rfl)
    ?haw_32 ?hcl_32 ?hcm_32 ?hd_32 ?hdw_32 ?he_32 ?hew_32
  all_goals try simp only [Threads.share, hpc, Pc.share, Pc.holds, Pc.token, Pc.counted, Pc.writing,
    Pc.reserved, Pc.target, Pc.unlocking, Pc.saving, Pc.asWriter, Pc.entering, Pc.spinning,
    Pc.acquiring, Pc.afterReadLock, Pc.afterWriteLock]
  all_goals try clear hM hM0 hA0 hRs0 hT0
  all_goals first
    | omega
    | (intros; simp_all; done)
    | (intros; simp_all; omega)
    | (intros; simp_all [RecurseCounts.IsNotCurrentWriter, RecurseCounts.GetLocalReadersCount,
        RecurseCounts.IncrementReadCount, RecurseCounts.SetLocalReadersCount, Restore_fixReader,
        Restore_fixWriter]; done)
    | (intros; simp_all [RecurseCounts.IsNotCurrentWriter, RecurseCounts.GetLocalReadersCount,
        RecurseCounts.IncrementReadCount, RecurseCounts.SetLocalReadersCount, Restore_fixReader,
        Restore_fixWriter]; omega)

/-- The invariant after `++fWriterReservation` (line 156). -/
theorem inv_step_wlReserve {σ σ1 : Threads} (hi : σ.Inv) {t : Thread}
    {k : Option TReentrantRWLockState} (hpc : σ.pc t = Pc.wlReserve k)
    (h : step σ t = some σ1) : σ1.Inv := by
  have hN := hi.nonneg t
  have hM := hi.mutex t
  have hRs := hi.restoring t
  have hT := hi.target t
  have hU := hi.unlocking t
  have hS := hi.saving t
  have hA := hi.asWriter t
  rw [hpc] at hM hRs hT hU hS hA
  have hM0 := hM
  have hA0 := hA
  have hRs0 := hRs
  have hT0 := hT
  simp only [Threads.share, hpc, Pc.share] at hN
  simp only [Pc.holds, Pc.token, Pc.counted, Pc.writing, Pc.target, Pc.unlocking, Pc.saving,
    Pc.asWriter] at hRs hT hU hS hA
  simp only [step, hpc] at h
  simp only [Option.some.injEq] at h
  subst h
  refine inv_move hi t _ _ _ (fun _ _ => rfl) rfl rfl
    (mutex_keep (hi.mutex t) ?hq_33) ?hn_33 ?hs_33 ?hr_33 ?ht_33
    ?hrd_33 ?hul_33 ?hsv_33 ?hrs_33 (Or.inl rfl)
    ?haw_33 ?hcl_33 ?hcm_33 ?hd_33 ?hdw_33 ?he_33 ?hew_33
  all_goals try simp only [Threads.share, hpc, Pc.share, Pc.holds, Pc.token, Pc.counted, Pc.writing,
    Pc.reserved, Pc.target, Pc.unlocking, Pc.saving, Pc.asWriter, Pc.entering, Pc.spinning,
    Pc.acquiring, Pc.afterReadLock, Pc.afterWriteLock]
  all_goals try clear hM hM0 hA0 hRs0 hT0
  all_goals first
    | omega
    | (intros; simp_all; done)
    | (intros; simp_all; omega)
    | (intros; simp_all [RecurseCounts.IsNotCurrentWriter, RecurseCounts.GetLocalReadersCount,
        RecurseCounts.IncrementReadCount, RecurseCounts.SetLocalReadersCount, Restore_fixReader,
        Restore_fixWriter]; done)
    | (intros; simp_all [RecurseCounts.IsNotCurrentWriter, RecurseCounts.GetLocalReadersCount,
        RecurseCounts.IncrementReadCount, RecurseCounts.SetLocalReadersCount, Restore_fixReader,
        Restore_fixWriter]; omega)

/-- The invariant after `lock(fMutex)` (line 158). -/
theorem inv_step_wlLock {σ σ1 : Threads} (hi : σ.Inv) {t : Thread}
    {k : Option TReentrantRWLockState} (hpc : σ.pc t = Pc.wlLock k)
    (h : step σ t = some σ1) : σ1.Inv := by
  have hN := hi.nonneg t
  have hM := hi.mutex t
  have hRs := hi.restoring t
  have hT := hi.target t
  have hU := hi.unlocking t
  have hS := hi.saving t
  have hA := hi.asWriter t
  rw [hpc] at hM hRs hT hU hS hA
  have hM0 := hM
  have hA0 := hA
  have hRs0 := hRs
  have hT0 := hT
  simp only [Threads.share, hpc, Pc.share] at hN
  simp only [Pc.holds, Pc.token, Pc.counted, Pc.writing, Pc.target, Pc.unlocking, Pc.saving,
    Pc.asWriter] at hRs hT hU hS hA
  simp only [step, hpc] at h
  split at h
  · rename_i hfree
    simp only [Option.some.injEq] at h
    subst h
    refine inv_move hi t _ _ _ (fun _ _ => rfl) rfl rfl
      (mutex_acquire hfree ?hq_34) ?hn_34 ?hs_34 ?hr_34 ?ht_34
      ?hrd_34 ?hul_34 ?hsv_34 ?hrs_34 (Or.inl rfl)
      ?haw_34 ?hcl_34 ?hcm_34 ?hd_34 ?hdw_34 ?he_34 ?hew_34
    all_goals try simp only [Threads.share, hpc, Pc.share, Pc.holds, Pc.token, Pc.counted,
      Pc.writing, Pc.reserved, Pc.target, Pc.unlocking, Pc.saving, Pc.asWriter, Pc.entering,
      Pc.spinning, Pc.acquiring, Pc.afterReadLock, Pc.afterWriteLock]
    all_goals try clear hM hM0 hA0 hRs0 hT0
    all_goals first
      | omega
      | (intros; simp_all; done)
      | (intros; simp_all; omega)
      | (intros; simp_all [RecurseCounts.IsNotCurrentWriter, RecurseCounts.GetLocalReadersCount,
          RecurseCounts.IncrementReadCount, RecurseCounts.SetLocalReadersCount, Restore_fixReader,
          Restore_fixWriter]; done)
      | (intros; simp_all [RecurseCounts.IsNotCurrentWriter, RecurseCounts.GetLocalReadersCount,
          RecurseCounts.IncrementReadCount, RecurseCounts.SetLocalReadersCount, Restore_fixReader,
          Restore_fixWriter]; omega)
  · cases h

/-- The invariant after `fReaders -= readerCount` (line 166). -/
theorem inv_step_wlRelease {σ σ1 : Threads} (hi : σ.Inv) {t : Thread}
    {k : Option TReentrantRWLockState} (hpc : σ.pc t = Pc.wlRelease k)
    (h : step σ t = some σ1) : σ1.Inv := by
  have hN := hi.nonneg t
  have hM := hi.mutex t
  have hRs := hi.restoring t
  have hT := hi.target t
  have hU := hi.unlocking t
  have hS := hi.saving t
  have hA := hi.asWriter t
  rw [hpc] at hM hRs hT hU hS hA
  have hM0 := hM
  have hA0 := hA
  have hRs0 := hRs
  have hT0 := hT
  simp only [Threads.share, hpc, Pc.share] at hN
  simp only [Pc.holds, Pc.token, Pc.counted, Pc.writing, Pc.target, Pc.unlocking, Pc.saving,
    Pc.asWriter] at hRs hT hU hS hA
  simp only [step, hpc] at h
  simp only [Option.some.injEq] at h
  subst h
  refine inv_move hi t _ _ _ (fun _ _ => rfl) rfl rfl
    (mutex_keep (hi.mutex t) ?hq_35) ?hn_35 ?hs_35 ?hr_35 ?ht_35
    ?hrd_35 ?hul_35 ?hsv_35 ?hrs_35 (Or.inl rfl)
    ?haw_35 ?hcl_35 ?hcm_35 ?hd_35 ?hdw_35 ?he_35 ?hew_35
  all_goals try simp only [Threads.share, hpc, Pc.share, Pc.holds, Pc.token, Pc.counted, Pc.writing,
    Pc.reserved, Pc.target, Pc.unlocking, Pc.saving, Pc.asWriter, Pc.entering, Pc.spinning,
    Pc.acquiring, Pc.afterReadLock, Pc.afterWriteLock]
  all_goals try clear hM hM0 hA0 hRs0 hT0
  all_goals first
    | omega
    | (intros; simp_all; done)
    | (intros; simp_all; omega)
    | (intros; simp_all [RecurseCounts.IsNotCurrentWriter, RecurseCounts.GetLocalReadersCount,
        RecurseCounts.IncrementReadCount, RecurseCounts.SetLocalReadersCount, Restore_fixReader,
        Restore_fixWriter]; done)
    | (intros; simp_all [RecurseCounts.IsNotCurrentWriter, RecurseCounts.GetLocalReadersCount,
        RecurseCounts.IncrementReadCount, RecurseCounts.SetLocalReadersCount, Restore_fixReader,
        Restore_fixWriter]; omega)

/-- The invariant after the test of line 169. -/
theorem inv_step_wlTest {σ σ1 : Threads} (hi : σ.Inv) {t : Thread}
    {k : Option TReentrantRWLockState} (hpc : σ.pc t = Pc.wlTest k)
    (h : step σ t = some σ1) : σ1.Inv := by
  have hN := hi.nonneg t
  have hM := hi.mutex t
  have hRs := hi.restoring t
  have hT := hi.target t
  have hU := hi.unlocking t
  have hS := hi.saving t
  have hA := hi.asWriter t
  rw [hpc] at hM hRs hT hU hS hA
  have hM0 := hM
  have hA0 := hA
  have hRs0 := hRs
  have hT0 := hT
  simp only [Threads.share, hpc, Pc.share] at hN
  simp only [Pc.holds, Pc.token, Pc.counted, Pc.writing, Pc.target, Pc.unlocking, Pc.saving,
    Pc.asWriter] at hRs hT hU hS hA
  simp only [step, hpc] at h
  split at h
  · rename_i hcond
    simp only [Option.some.injEq] at h
    subst h
    refine inv_move hi t _ _ _ (fun _ _ => rfl) rfl rfl
      (mutex_keep (hi.mutex t) ?hq_36) ?hn_36 ?hs_36 ?hr_36 ?ht_36
      ?hrd_36 ?hul_36 ?hsv_36 ?hrs_36 (Or.inl rfl)
      ?haw_36 ?hcl_36 ?hcm_36 ?hd_36 ?hdw_36 ?he_36 ?hew_36
    all_goals try simp only [Threads.share, hpc, Pc.share, Pc.holds, Pc.token, Pc.counted,
      Pc.writing, Pc.reserved, Pc.target, Pc.unlocking, Pc.saving, Pc.asWriter, Pc.entering,
      Pc.spinning, Pc.acquiring, Pc.afterReadLock, Pc.afterWriteLock]
    all_goals try clear hM hM0 hA0 hRs0 hT0
    all_goals first
      | omega
      | (intros; simp_all; done)
      | (intros; simp_all; omega)
      | (intros; simp_all [RecurseCounts.IsNotCurrentWriter, RecurseCounts.GetLocalReadersCount,
          RecurseCounts.IncrementReadCount, RecurseCounts.SetLocalReadersCount, Restore_fixReader,
          Restore_fixWriter]; done)
      | (intros; simp_all [RecurseCounts.IsNotCurrentWriter, RecurseCounts.GetLocalReadersCount,
          RecurseCounts.IncrementReadCount, RecurseCounts.SetLocalReadersCount, Restore_fixReader,
          Restore_fixWriter]; omega)
  · rename_i hcond
    simp only [Option.some.injEq] at h
    subst h
    refine inv_move hi t _ _ _ (fun _ _ => rfl) rfl rfl
      (mutex_keep (hi.mutex t) ?hq_37) ?hn_37 ?hs_37 ?hr_37 ?ht_37
      ?hrd_37 ?hul_37 ?hsv_37 ?hrs_37 (Or.inl rfl)
      ?haw_37 ?hcl_37 ?hcm_37 ?hd_37 ?hdw_37 ?he_37 ?hew_37
    case hcl_37 =>
      intro _ _
      cases hf : σ.lock.fWriter
      · exact Or.inl rfl
      · right
        simpa [RecurseCounts.IsNotCurrentWriter, hf] using hcond
    all_goals try simp only [Threads.share, hpc, Pc.share, Pc.holds, Pc.token, Pc.counted,
      Pc.writing, Pc.reserved, Pc.target, Pc.unlocking, Pc.saving, Pc.asWriter, Pc.entering,
      Pc.spinning, Pc.acquiring, Pc.afterReadLock, Pc.afterWriteLock]
    all_goals try clear hM hM0 hA0 hRs0 hT0
    all_goals first
      | omega
      | (intros; simp_all; done)
      | (intros; simp_all; omega)
      | (intros; simp_all [RecurseCounts.IsNotCurrentWriter, RecurseCounts.GetLocalReadersCount,
          RecurseCounts.IncrementReadCount, RecurseCounts.SetLocalReadersCount, Restore_fixReader,
          Restore_fixWriter]; done)
      | (intros; simp_all [RecurseCounts.IsNotCurrentWriter, RecurseCounts.GetLocalReadersCount,
          RecurseCounts.IncrementReadCount, RecurseCounts.SetLocalReadersCount, Restore_fixReader,
          Restore_fixWriter]; omega)

/-- The invariant after a test of the predicate of line 175. -/
theorem inv_step_wlRetest {σ σ1 : Threads} (hi : σ.Inv) {t : Thread}
    {k : Option TReentrantRWLockState} (hpc : σ.pc t = Pc.wlRetest k)
    (h : step σ t = some σ1) : σ1.Inv := by
  have hN := hi.nonneg t
  have hM := hi.mutex t
  have hRs := hi.restoring t
  have hT := hi.target t
  have hU := hi.unlocking t
  have hS := hi.saving t
  have hA := hi.asWriter t
  rw [hpc] at hM hRs hT hU hS hA
  have hM0 := hM
  have hA0 := hA
  have hRs0 := hRs
  have hT0 := hT
  simp only [Threads.share, hpc, Pc.share] at hN
  simp only [Pc.holds, Pc.token, Pc.counted, Pc.writing, Pc.target, Pc.unlocking, Pc.saving,
    Pc.asWriter] at hRs hT hU hS hA
  simp only [step, hpc] at h
  split at h
  · rename_i hcond
    simp only [Option.some.injEq] at h
    subst h
    refine inv_move hi t _ _ _ (fun _ _ => rfl) rfl rfl
      (mutex_keep (hi.mutex t) ?hq_38) ?hn_38 ?hs_38 ?hr_38 ?ht_38
      ?hrd_38 ?hul_38 ?hsv_38 ?hrs_38 (Or.inl rfl)
      ?haw_38 ?hcl_38 ?hcm_38 ?hd_38 ?hdw_38 ?he_38 ?hew_38
    all_goals try simp only [Threads.share, hpc, Pc.share, Pc.holds, Pc.token, Pc.counted,
      Pc.writing, Pc.reserved, Pc.target, Pc.unlocking, Pc.saving, Pc.asWriter, Pc.entering,
      Pc.spinning, Pc.acquiring, Pc.afterReadLock, Pc.afterWriteLock]
    all_goals try clear hM hM0 hA0 hRs0 hT0
    all_goals first
      | omega
      | (intros; simp_all; done)
      | (intros; simp_all; omega)
      | (intros; simp_all [RecurseCounts.IsNotCurrentWriter, RecurseCounts.GetLocalReadersCount,
          RecurseCounts.IncrementReadCount, RecurseCounts.SetLocalReadersCount, Restore_fixReader,
          Restore_fixWriter]; done)
      | (intros; simp_all [RecurseCounts.IsNotCurrentWriter, RecurseCounts.GetLocalReadersCount,
          RecurseCounts.IncrementReadCount, RecurseCounts.SetLocalReadersCount, Restore_fixReader,
          Restore_fixWriter]; omega)
  · rename_i hcond
    simp only [Option.some.injEq] at h
    subst h
    refine inv_move hi t _ _ _ (fun _ _ => rfl) rfl rfl
      (mutex_release (hM0.mp rfl) ?hq_39) ?hn_39 ?hs_39 ?hr_39 ?ht_39
      ?hrd_39 ?hul_39 ?hsv_39 ?hrs_39 (Or.inl rfl)
      ?haw_39 ?hcl_39 ?hcm_39 ?hd_39 ?hdw_39 ?he_39 ?hew_39
    all_goals try simp only [Threads.share, hpc, Pc.share, Pc.holds, Pc.token, Pc.counted,
      Pc.writing, Pc.reserved, Pc.target, Pc.unlocking, Pc.saving, Pc.asWriter, Pc.entering,
      Pc.spinning, Pc.acquiring, Pc.afterReadLock, Pc.afterWriteLock]
    all_goals try clear hM hM0 hA0 hRs0 hT0
    all_goals first
      | omega
      | (intros; simp_all; done)
      | (intros; simp_all; omega)
      | (intros; simp_all [RecurseCounts.IsNotCurrentWriter, RecurseCounts.GetLocalReadersCount,
          RecurseCounts.IncrementReadCount, RecurseCounts.SetLocalReadersCount, Restore_fixReader,
          Restore_fixWriter]; done)
      | (intros; simp_all [RecurseCounts.IsNotCurrentWriter, RecurseCounts.GetLocalReadersCount,
          RecurseCounts.IncrementReadCount, RecurseCounts.SetLocalReadersCount, Restore_fixReader,
          Restore_fixWriter]; omega)

/-- The invariant after a wake-up inside the wait of line 175. -/
theorem inv_step_wlBlocked {σ σ1 : Threads} (hi : σ.Inv) {t : Thread}
    {k : Option TReentrantRWLockState} (hpc : σ.pc t = Pc.wlBlocked k)
    (h : step σ t = some σ1) : σ1.Inv := by
  have hN := hi.nonneg t
  have hM := hi.mutex t
  have hRs := hi.restoring t
  have hT := hi.target t
  have hU := hi.unlocking t
  have hS := hi.saving t
  have hA := hi.asWriter t
  rw [hpc] at hM hRs hT hU hS hA
  have hM0 := hM
  have hA0 := hA
  have hRs0 := hRs
  have hT0 := hT
  simp only [Threads.share, hpc, Pc.share] at hN
  simp only [Pc.holds, Pc.token, Pc.counted, Pc.writing, Pc.target, Pc.unlocking, Pc.saving,
    Pc.asWriter] at hRs hT hU hS hA
  simp only [step, hpc] at h
  split at h
  · rename_i hfree
    simp only [Option.some.injEq] at h
    subst h
    refine inv_move hi t _ _ _ (fun _ _ => rfl) rfl rfl
      (mutex_acquire hfree ?hq_40) ?hn_40 ?hs_40 ?hr_40 ?ht_40
      ?hrd_40 ?hul_40 ?hsv_40 ?hrs_40 (Or.inl rfl)
      ?haw_40 ?hcl_40 ?hcm_40 ?hd_40 ?hdw_40 ?he_40 ?hew_40
    all_goals try simp only [Threads.share, hpc, Pc.share, Pc.holds, Pc.token, Pc.counted,
      Pc.writing, Pc.reserved, Pc.target, Pc.unlocking, Pc.saving, Pc.asWriter, Pc.entering,
      Pc.spinning, Pc.acquiring, Pc.afterReadLock, Pc.afterWriteLock]
    all_goals try clear hM hM0 hA0 hRs0 hT0
    all_goals first
      | omega
      | (intros; simp_all; done)
      | (intros; simp_all; omega)
      | (intros; simp_all [RecurseCounts.IsNotCurrentWriter, RecurseCounts.GetLocalReadersCount,
          RecurseCounts.IncrementReadCount, RecurseCounts.SetLocalReadersCount, Restore_fixReader,
          Restore_fixWriter]; done)
      | (intros; simp_all [RecurseCounts.IsNotCurrentWriter, RecurseCounts.GetLocalReadersCount,
          RecurseCounts.IncrementReadCount, RecurseCounts.SetLocalReadersCount, Restore_fixReader,
          Restore_fixWriter]; omega)
  · cases h

/-- The invariant after a turn of the loop of line 183. -/
theorem inv_step_wlSpin {σ σ1 : Threads} (hi : σ.Inv) {t : Thread}
    {k : Option TReentrantRWLockState} (hpc : σ.pc t = Pc.wlSpin k)
    (h : step σ t = some σ1) : σ1.Inv := by
  have hN := hi.nonneg t
  have hM := hi.mutex t
  have hRs := hi.restoring t
  have hT := hi.target t
  have hU := hi.unlocking t
  have hS := hi.saving t
  have hA := hi.asWriter t
  rw [hpc] at hM hRs hT hU hS hA
  have hM0 := hM
  have hA0 := hA
  have hRs0 := hRs
  have hT0 := hT
  simp only [Threads.share, hpc, Pc.share] at hN
  simp only [Pc.holds, Pc.token, Pc.counted, Pc.writing, Pc.target, Pc.unlocking, Pc.saving,
    Pc.asWriter] at hRs hT hU hS hA
  simp only [step, hpc] at h
  split at h
  · rename_i hcond
    simp only [Option.some.injEq] at h
    subst h
    exact hi
  · rename_i hcond
    simp only [Option.some.injEq] at h
    subst h
    refine inv_move hi t _ _ _ (fun _ _ => rfl) rfl rfl
      (mutex_keep (hi.mutex t) ?hq_41) ?hn_41 ?hs_41 ?hr_41 ?ht_41
      ?hrd_41 ?hul_41 ?hsv_41 ?hrs_41 (Or.inl rfl)
      ?haw_41 ?hcl_41 ?hcm_41 ?hd_41 ?hdw_41 ?he_41 ?hew_41
    case hdw_41 =>
      intro _ _ _
      exact Or.inr (hi.none_entering (not_not.mp hcond))
    all_goals try simp only [Threads.share, hpc, Pc.share, Pc.holds, Pc.token, Pc.counted,
      Pc.writing, Pc.reserved, Pc.target, Pc.unlocking, Pc.saving, Pc.asWriter, Pc.entering,
      Pc.spinning, Pc.acquiring, Pc.afterReadLock, Pc.afterWriteLock]
    all_goals try clear hM hM0 hA0 hRs0 hT0
    all_goals first
      | omega
      | (intros; simp_all; done)
      | (intros; simp_all; omega)
      | (intros; simp_all [RecurseCounts.IsNotCurrentWriter, RecurseCounts.GetLocalReadersCount,
          RecurseCounts.IncrementReadCount, RecurseCounts.SetLocalReadersCount, Restore_fixReader,
          Restore_fixWriter]; done)
      | (intros; simp_all [RecurseCounts.IsNotCurrentWriter, RecurseCounts.GetLocalReadersCount,
          RecurseCounts.IncrementReadCount, RecurseCounts.SetLocalReadersCount, Restore_fixReader,
          Restore_fixWriter]; omega)

/-- The invariant after a test of the predicate of line 187. -/
theorem inv_step_wlWait {σ σ1 : Threads} (hi : σ.Inv) {t : Thread}
    {k : Option TReentrantRWLockState} (hpc : σ.pc t = Pc.wlWait k)
    (h : step σ t = some σ1) : σ1.Inv := by
  have hN := hi.nonneg t
  have hM := hi.mutex t
  have hRs := hi.restoring t
  have hT := hi.target t
  have hU := hi.unlocking t
  have hS := hi.saving t
  have hA := hi.asWriter t
  rw [hpc] at hM hRs hT hU hS hA
  have hM0 := hM
  have hA0 := hA
  have hRs0 := hRs
  have hT0 := hT
  simp only [Threads.share, hpc, Pc.share] at hN
  simp only [Pc.holds, Pc.token, Pc.counted, Pc.writing, Pc.target, Pc.unlocking, Pc.saving,
    Pc.asWriter] at hRs hT hU hS hA
  simp only [step, hpc] at h
  split at h
  · rename_i hcond
    simp only [Option.some.injEq] at h
    subst h
    refine inv_move hi t _ _ _ (fun _ _ => rfl) rfl rfl
      (mutex_keep (hi.mutex t) ?hq_42) ?hn_42 ?hs_42 ?hr_42 ?ht_42
      ?hrd_42 ?hul_42 ?hsv_42 ?hrs_42 (Or.inl rfl)
      ?haw_42 ?hcl_42 ?hcm_42 ?hd_42 ?hdw_42 ?he_42 ?hew_42
    case hew_42 =>
      intro _ _ _
      exact Or.inr (fun u _ => hi.no_share hcond u)
    all_goals try simp only [Threads.share, hpc, Pc.share, Pc.holds, Pc.token, Pc.counted,
      Pc.writing, Pc.reserved, Pc.target, Pc.unlocking, Pc.saving, Pc.asWriter, Pc.entering,
      Pc.spinning, Pc.acquiring, Pc.afterReadLock, Pc.afterWriteLock]
    all_goals try clear hM hM0 hA0 hRs0 hT0
    all_goals first
      | omega
      | (intros; simp_all; done)
      | (intros; simp_all; omega)
      | (intros; simp_all [RecurseCounts.IsNotCurrentWriter, RecurseCounts.GetLocalReadersCount,
          RecurseCounts.IncrementReadCount, RecurseCounts.SetLocalReadersCount, Restore_fixReader,
          Restore_fixWriter]; done)
      | (intros; simp_all [RecurseCounts.IsNotCurrentWriter, RecurseCounts.GetLocalReadersCount,
          RecurseCounts.IncrementReadCount, RecurseCounts.SetLocalReadersCount, Restore_fixReader,
          Restore_fixWriter]; omega)
  · rename_i hcond
    simp only [Option.some.injEq] at h
    subst h
    refine inv_move hi t _ _ _ (fun _ _ => rfl) rfl rfl
      (mutex_release (hM0.mp rfl) ?hq_43) ?hn_43 ?hs_43 ?hr_43 ?ht_43
      ?hrd_43 ?hul_43 ?hsv_43 ?hrs_43 (Or.inl rfl)
      ?haw_43 ?hcl_43 ?hcm_43 ?hd_43 ?hdw_43 ?he_43 ?hew_43
    all_goals try simp only [Threads.share, hpc, Pc.share, Pc.holds, Pc.token, Pc.counted,
      Pc.writing, Pc.reserved, Pc.target, Pc.unlocking, Pc.saving, Pc.asWriter, Pc.entering,
      Pc.spinning, Pc.acquiring, Pc.afterReadLock, Pc.afterWriteLock]
    all_goals try clear hM hM0 hA0 hRs0 hT0
    all_goals first
      | omega
      | (intros; simp_all; done)
      | (intros; simp_all; omega)
      | (intros; simp_all [RecurseCounts.IsNotCurrentWriter, RecurseCounts.GetLocalReadersCount,
          RecurseCounts.IncrementReadCount, RecurseCounts.SetLocalReadersCount, Restore_fixReader,
          Restore_fixWriter]; done)
      | (intros; simp_all [RecurseCounts.IsNotCurrentWriter, RecurseCounts.GetLocalReadersCount,
          RecurseCounts.IncrementReadCount, RecurseCounts.SetLocalReadersCount, Restore_fixReader,
          Restore_fixWriter]; omega)

/-- The invariant after a wake-up inside the wait of line 187. -/
theorem inv_step_wlWaitBlocked {σ σ1 : Threads} (hi : σ.Inv) {t : Thread}
    {k : Option TReentrantRWLockState} (hpc : σ.pc t = Pc.wlWaitBlocked k)
    (h : step σ t = some σ1) : σ1.Inv := by
  have hN := hi.nonneg t
  have hM := hi.mutex t
  have hRs := hi.restoring t
  have hT := hi.target t
  have hU := hi.unlocking t
  have hS := hi.saving t
  have hA := hi.asWriter t
  rw [hpc] at hM hRs hT hU hS hA
  have hM0 := hM
  have hA0 := hA
  have hRs0 := hRs
  have hT0 := hT
  simp only [Threads.share, hpc, Pc.share] at hN
  simp only [Pc.holds, Pc.token, Pc.counted, Pc.writing, Pc.target, Pc.unlocking, Pc.saving,
    Pc.asWriter] at hRs hT hU hS hA
  simp only [step, hpc] at h
  split at h
  · rename_i hfree
    simp only [Option.some.injEq] at h
    subst h
    refine inv_move hi t _ _ _ (fun _ _ => rfl) rfl rfl
      (mutex_acquire hfree ?hq_44) ?hn_44 ?hs_44 ?hr_44 ?ht_44
      ?hrd_44 ?hul_44 ?hsv_44 ?hrs_44 (Or.inl rfl)
      ?haw_44 ?hcl_44 ?hcm_44 ?hd_44 ?hdw_44 ?he_44 ?hew_44
    all_goals try simp only [Threads.share, hpc, Pc.share, Pc.holds, Pc.token, Pc.counted,
      Pc.writing, Pc.reserved, Pc.target, Pc.unlocking, Pc.saving, Pc.asWriter, Pc.entering,
      Pc.spinning, Pc.acquiring, Pc.afterReadLock, Pc.afterWriteLock]
    all_goals try clear hM hM0 hA0 hRs0 hT0
    all_goals first
      | omega
      | (intros; simp_all; done)
      | (intros; simp_all; omega)
      | (intros; simp_all [RecurseCounts.IsNotCurrentWriter, RecurseCounts.GetLocalReadersCount,
          RecurseCounts.IncrementReadCount, RecurseCounts.SetLocalReadersCount, Restore_fixReader,
          Restore_fixWriter]; done)
      | (intros; simp_all [RecurseCounts.IsNotCurrentWriter, RecurseCounts.GetLocalReadersCount,
          RecurseCounts.IncrementReadCount, RecurseCounts.SetLocalReadersCount, Restore_fixReader,
          Restore_fixWriter]; omega)
  · cases h

/-- The invariant after `fReaders += readerCount` (line 190). -/
theorem inv_step_wlRestore {σ σ1 : Threads} (hi : σ.Inv) {t : Thread}
    {k : Option TReentrantRWLockState} (hpc : σ.pc t = Pc.wlRestore k)
    (h : step σ t = some σ1) : σ1.Inv := by
  have hN := hi.nonneg t
  have hM := hi.mutex t
  have hRs := hi.restoring t
  have hT := hi.target t
  have hU := hi.unlocking t
  have hS := hi.saving t
  have hA := hi.asWriter t
  rw [hpc] at hM hRs hT hU hS hA
  have hM0 := hM
  have hA0 := hA
  have hRs0 := hRs
  have hT0 := hT
  simp only [Threads.share, hpc, Pc.share] at hN
  simp only [Pc.holds, Pc.token, Pc.counted, Pc.writing, Pc.target, Pc.unlocking, Pc.saving,
    Pc.asWriter] at hRs hT hU hS hA
  simp only [step, hpc] at h
  simp only [Option.some.injEq] at h
  subst h
  refine inv_move hi t _ _ _ (fun _ _ => rfl) rfl rfl
    (mutex_keep (hi.mutex t) ?hq_45) ?hn_45 ?hs_45 ?hr_45 ?ht_45
    ?hrd_45 ?hul_45 ?hsv_45 ?hrs_45 (Or.inl rfl)
    ?haw_45 ?hcl_45 ?hcm_45 ?hd_45 ?hdw_45 ?he_45 ?hew_45
  case he_45 =>
    intro _ w hw1 hwt
    exact absurd (hi.marked_unique hw1 (hA0 rfl).2) hwt
  all_goals try simp only [Threads.share, hpc, Pc.share, Pc.holds, Pc.token, Pc.counted, Pc.writing,
    Pc.reserved, Pc.target, Pc.unlocking, Pc.saving, Pc.asWriter, Pc.entering, Pc.spinning,
    Pc.acquiring, Pc.afterReadLock, Pc.afterWriteLock]
  all_goals try clear hM hM0 hA0 hRs0 hT0
  all_goals first
    | omega
    | (intros; simp_all; done)
    | (intros; simp_all; omega)
    | (intros; simp_all [RecurseCounts.IsNotCurrentWriter, RecurseCounts.GetLocalReadersCount,
        RecurseCounts.IncrementReadCount, RecurseCounts.SetLocalReadersCount, Restore_fixReader,
        Restore_fixWriter]; done)
    | (intros; simp_all [RecurseCounts.IsNotCurrentWriter, RecurseCounts.GetLocalReadersCount,
        RecurseCounts.IncrementReadCount, RecurseCounts.SetLocalReadersCount, Restore_fixReader,
        Restore_fixWriter]; omega)

/-- The invariant after `--fWriterReservation` (line 192). -/
theorem inv_step_wlUnreserve {σ σ1 : Threads} (hi : σ.Inv) {t : Thread}
    {k : Option TReentrantRWLockState} (hpc : σ.pc t = Pc.wlUnreserve k)
    (h : step σ t = some σ1) : σ1.Inv := by
  have hN := hi.nonneg t
  have hM := hi.mutex t
  have hRs := hi.restoring t
  have hT := hi.target t
  have hU := hi.unlocking t
  have hS := hi.saving t
  have hA := hi.asWriter t
  rw [hpc] at hM hRs hT hU hS hA
  have hM0 := hM
  have hA0 := hA
  have hRs0 := hRs
  have hT0 := hT
  simp only [Threads.share, hpc, Pc.share] at hN
  simp only [Pc.holds, Pc.token, Pc.counted, Pc.writing, Pc.target, Pc.unlocking, Pc.saving,
    Pc.asWriter] at hRs hT hU hS hA
  simp only [step, hpc] at h
  simp only [Option.some.injEq] at h
  subst h
  refine inv_move hi t _ _ _ (fun _ _ => rfl) rfl rfl
    (mutex_keep (hi.mutex t) ?hq_46) ?hn_46 ?hs_46 ?hr_46 ?ht_46
    ?hrd_46 ?hul_46 ?hsv_46 ?hrs_46 (Or.inl rfl)
    ?haw_46 ?hcl_46 ?hcm_46 ?hd_46 ?hdw_46 ?he_46 ?hew_46
  all_goals try simp only [Threads.share, hpc, Pc.share, Pc.holds, Pc.token, Pc.counted, Pc.writing,
    Pc.reserved, Pc.target, Pc.unlocking, Pc.saving, Pc.asWriter, Pc.entering, Pc.spinning,
    Pc.acquiring, Pc.afterReadLock, Pc.afterWriteLock]
  all_goals try clear hM hM0 hA0 hRs0 hT0
  all_goals first
    | omega
    | (intros; simp_all; done)
    | (intros; simp_all; omega)
    | (intros; simp_all [RecurseCounts.IsNotCurrentWriter, RecurseCounts.GetLocalReadersCount,
        RecurseCounts.IncrementReadCount, RecurseCounts.SetLocalReadersCount, Restore_fixReader,
        Restore_fixWriter]; done)
    | (intros; simp_all [RecurseCounts.IsNotCurrentWriter, RecurseCounts.GetLocalReadersCount,
        RecurseCounts.IncrementReadCount, RecurseCounts.SetLocalReadersCount, Restore_fixReader,
        Restore_fixWriter]; omega)

/-- The invariant after `lock.unlock()` (line 194). -/
theorem inv_step_wlUnlock {σ σ1 : Threads} (hi : σ.Inv) {t : Thread}
    {k : Option TReentrantRWLockState} (hpc : σ.pc t = Pc.wlUnlock k)
    (h : step σ t = some σ1) : σ1.Inv := by
  have hN := hi.nonneg t
  have hM := hi.mutex t
  have hRs := hi.restoring t
  have hT := hi.target t
  have hU := hi.unlocking t
  have hS := hi.saving t
  have hA := hi.asWriter t
  rw [hpc] at hM hRs hT hU hS hA
  have hM0 := hM
  have hA0 := hA
  have hRs0 := hRs
  have hT0 := hT
  simp only [Threads.share, hpc, Pc.share] at hN
  simp only [Pc.holds, Pc.token, Pc.counted, Pc.writing, Pc.target, Pc.unlocking, Pc.saving,
    Pc.asWriter] at hRs hT hU hS hA
  simp only [step, hpc] at h
  cases k
  · simp only [Option.some.injEq] at h
    subst h
    refine inv_move hi t _ _ _ (fun _ _ => rfl) rfl rfl
      (mutex_release (hM0.mp rfl) ?hq_47) ?hn_47 ?hs_47 ?hr_47 ?ht_47
      ?hrd_47 ?hul_47 ?hsv_47 ?hrs_47 (Or.inl rfl)
      ?haw_47 ?hcl_47 ?hcm_47 ?hd_47 ?hdw_47 ?he_47 ?hew_47
    all_goals try simp only [Threads.share, hpc, Pc.share, Pc.holds, Pc.token, Pc.counted,
      Pc.writing, Pc.reserved, Pc.target, Pc.unlocking, Pc.saving, Pc.asWriter, Pc.entering,
      Pc.spinning, Pc.acquiring, Pc.afterReadLock, Pc.afterWriteLock]
    all_goals try clear hM hM0 hA0 hRs0 hT0
    all_goals first
      | omega
      | (intros; simp_all; done)
      | (intros; simp_all; omega)
      | (intros; simp_all [RecurseCounts.IsNotCurrentWriter, RecurseCounts.GetLocalReadersCount,
          RecurseCounts.IncrementReadCount, RecurseCounts.SetLocalReadersCount, Restore_fixReader,
          Restore_fixWriter]; done)
      | (intros; simp_all [RecurseCounts.IsNotCurrentWriter, RecurseCounts.GetLocalReadersCount,
          RecurseCounts.IncrementReadCount, RecurseCounts.SetLocalReadersCount, Restore_fixReader,
          Restore_fixWriter]; omega)
  · simp only [Option.some.injEq] at h
    subst h
    refine inv_move hi t _ _ _ (fun _ _ => rfl) rfl rfl
      (mutex_release (hM0.mp rfl) ?hq_48) ?hn_48 ?hs_48 ?hr_48 ?ht_48
      ?hrd_48 ?hul_48 ?hsv_48 ?hrs_48 (Or.inl rfl)
      ?haw_48 ?hcl_48 ?hcm_48 ?hd_48 ?hdw_48 ?he_48 ?hew_48
    all_goals try simp only [Threads.share, hpc, Pc.share, Pc.holds, Pc.token, Pc.counted,
      Pc.writing, Pc.reserved, Pc.target, Pc.unlocking, Pc.saving, Pc.asWriter, Pc.entering,
      Pc.spinning, Pc.acquiring, Pc.afterReadLock, Pc.afterWriteLock]
    all_goals try clear hM hM0 hA0 hRs0 hT0
    all_goals first
      | omega
      | (intros; simp_all; done)
      | (intros; simp_all; omega)
      | (intros; simp_all [RecurseCounts.IsNotCurrentWriter, RecurseCounts.GetLocalReadersCount,
          RecurseCounts.IncrementReadCount, RecurseCounts.SetLocalReadersCount, Restore_fixReader,
          Restore_fixWriter]; done)
      | (intros; simp_all [RecurseCounts.IsNotCurrentWriter, RecurseCounts.GetLocalReadersCount,
          RecurseCounts.IncrementReadCount, RecurseCounts.SetLocalReadersCount, Restore_fixReader,
          Restore_fixWriter]; omega)

/-- The invariant after `lock(fMutex)` (line 302). -/
theorem inv_step_rsFixLock {σ σ1 : Threads} (hi : σ.Inv) {t : Thread}
    {p : TReentrantRWLockState} (hpc : σ.pc t = Pc.rsFixLock p)
    (h : step σ t = some σ1) : σ1.Inv := by
  have hN := hi.nonneg t
  have hM := hi.mutex t
  have hRs := hi.restoring t
  have hT := hi.target t
  have hU := hi.unlocking t
  have hS := hi.saving t
  have hA := hi.asWriter t
  rw [hpc] at hM hRs hT hU hS hA
  have hM0 := hM
  have hA0 := hA
  have hRs0 := hRs
  have hT0 := hT
  simp only [Threads.share, hpc, Pc.share] at hN
  simp only [Pc.holds, Pc.token, Pc.counted, Pc.writing, Pc.target, Pc.unlocking, Pc.saving,
    Pc.asWriter] at hRs hT hU hS hA
  simp only [step, hpc] at h
  split at h
  · rename_i hfree
    simp only [Option.some.injEq] at h
    subst h
    refine inv_move hi t _ _ _ (fun _ _ => rfl) rfl rfl
      (mutex_acquire hfree ?hq_49) ?hn_49 ?hs_49 ?hr_49 ?ht_49
      ?hrd_49 ?hul_49 ?hsv_49 ?hrs_49 (Or.inl rfl)
      ?haw_49 ?hcl_49 ?hcm_49 ?hd_49 ?hdw_49 ?he_49 ?hew_49
    all_goals try simp only [Threads.share, hpc, Pc.share, Pc.holds, Pc.token, Pc.counted,
      Pc.writing, Pc.reserved, Pc.target, Pc.unlocking, Pc.saving, Pc.asWriter, Pc.entering,
      Pc.spinning, Pc.acquiring, Pc.afterReadLock, Pc.afterWriteLock]
    all_goals try clear hM hM0 hA0 hRs0 hT0
    all_goals first
      | omega
      | (intros; simp_all; done)
      | (intros; simp_all; omega)
      | (intros; simp_all [RecurseCounts.IsNotCurrentWriter, RecurseCounts.GetLocalReadersCount,
          RecurseCounts.IncrementReadCount, RecurseCounts.SetLocalReadersCount, Restore_fixReader,
          Restore_fixWriter]; done)
      | (intros; simp_all [RecurseCounts.IsNotCurrentWriter, RecurseCounts.GetLocalReadersCount,
          RecurseCounts.IncrementReadCount, RecurseCounts.SetLocalReadersCount, Restore_fixReader,
          Restore_fixWriter]; omega)
  · cases h

/-- The invariant after lines 303-305. -/
theorem inv_step_rsFixWriter {σ σ1 : Threads} (hi : σ.Inv) {t : Thread}
    {p : TReentrantRWLockState} (hpc : σ.pc t = Pc.rsFixWriter p)
    (h : step σ t = some σ1) : σ1.Inv := by
  have hN := hi.nonneg t
  have hM := hi.mutex t
  have hRs := hi.restoring t
  have hT := hi.target t
  have hU := hi.unlocking t
  have hS := hi.saving t
  have hA := hi.asWriter t
  rw [hpc] at hM hRs hT hU hS hA
  have hM0 := hM
  have hA0 := hA
  have hRs0 := hRs
  have hT0 := hT
  simp only [Threads.share, hpc, Pc.share] at hN
  simp only [Pc.holds, Pc.token, Pc.counted, Pc.writing, Pc.target, Pc.unlocking, Pc.saving,
    Pc.asWriter] at hRs hT hU hS hA
  simp only [step, hpc] at h
  have hRs := hRs0 p rfl
  simp only [Option.some.injEq] at h
  subst h
  refine inv_move hi t _ _ _
    (fun u hu => by
      simp [Restore_fixWriter, RecurseCounts.SetLocalReadersCount, hRs.1,
        Function.update_noteq hu])
    rfl rfl
    (mutex_keep (hi.mutex t) ?hq_50) ?hn_50 ?hs_50 ?hr_50 ?ht_50
    ?hrd_50 ?hul_50 ?hsv_50 ?hrs_50
    (Or.inr ⟨(hA0 rfl).1, (hA0 rfl).2, ?hw2, (by rw [hpc]; rfl), rfl⟩)
    ?haw_50 ?hcl_50 ?hcm_50 ?hd_50 ?hdw_50 ?he_50 ?hew_50
  case he_50 =>
    intro _ w hw1 hwt
    exact absurd (hi.marked_unique hw1 (hA0 rfl).2) hwt
  all_goals try simp only [Threads.share, hpc, Pc.share, Pc.holds, Pc.token, Pc.counted, Pc.writing,
    Pc.reserved, Pc.target, Pc.unlocking, Pc.saving, Pc.asWriter, Pc.entering, Pc.spinning,
    Pc.acquiring, Pc.afterReadLock, Pc.afterWriteLock]
  all_goals try clear hM hM0 hA0 hRs0 hT0
  all_goals first
    | omega
    | (intros; simp_all; done)
    | (intros; simp_all; omega)
    | (intros; simp_all [RecurseCounts.IsNotCurrentWriter, RecurseCounts.GetLocalReadersCount,
        RecurseCounts.IncrementReadCount, RecurseCounts.SetLocalReadersCount, Restore_fixReader,
        Restore_fixWriter]; done)
    | (intros; simp_all [RecurseCounts.IsNotCurrentWriter, RecurseCounts.GetLocalReadersCount,
        RecurseCounts.IncrementReadCount, RecurseCounts.SetLocalReadersCount, Restore_fixReader,
        Restore_fixWriter]; omega)

/-- The invariant after the release of `fMutex` at the end of lines 299-306. -/
theorem inv_step_rsFixUnlock {σ σ1 : Threads} (hi : σ.Inv) {t : Thread}
    (hpc : σ.pc t = Pc.rsFixUnlock) (h : step σ t = some σ1) : σ1.Inv := by
  have hN := hi.nonneg t
  have hM := hi.mutex t
  have hRs := hi.restoring t
  have hT := hi.target t
  have hU := hi.unlocking t
  have hS := hi.saving t
  have hA := hi.asWriter t
  rw [hpc] at hM hRs hT hU hS hA
  have hM0 := hM
  have hA0 := hA
  have hRs0 := hRs
  have hT0 := hT
  simp only [Threads.share, hpc, Pc.share] at hN
  simp only [Pc.holds, Pc.token, Pc.counted, Pc.writing, Pc.target, Pc.unlocking, Pc.saving,
    Pc.asWriter] at hRs hT hU hS hA
  simp only [step, hpc] at h
  simp only [Option.some.injEq] at h
  subst h
  refine inv_move hi t _ _ _ (fun _ _ => rfl) rfl rfl
    (mutex_release (hM0.mp rfl) ?hq_51) ?hn_51 ?hs_51 ?hr_51 ?ht_51
    ?hrd_51 ?hul_51 ?hsv_51 ?hrs_51 (Or.inl rfl)
    ?haw_51 ?hcl_51 ?hcm_51 ?hd_51 ?hdw_51 ?he_51 ?hew_51
  all_goals try simp only [Threads.share, hpc, Pc.share, Pc.holds, Pc.token, Pc.counted, Pc.writing,
    Pc.reserved, Pc.target, Pc.unlocking, Pc.saving, Pc.asWriter, Pc.entering, Pc.spinning,
    Pc.acquiring, Pc.afterReadLock, Pc.afterWriteLock]
  all_goals try clear hM hM0 hA0 hRs0 hT0
  all_goals first
    | omega
    | (intros; simp_all; done)
    | (intros; simp_all; omega)
    | (intros; simp_all [RecurseCounts.IsNotCurrentWriter, RecurseCounts.GetLocalReadersCount,
        RecurseCounts.IncrementReadCount, RecurseCounts.SetLocalReadersCount, Restore_fixReader,
        Restore_fixWriter]; done)
    | (intros; simp_all [RecurseCounts.IsNotCurrentWriter, RecurseCounts.GetLocalReadersCount,
        RecurseCounts.IncrementReadCount, RecurseCounts.SetLocalReadersCount, Restore_fixReader,
        Restore_fixWriter]; omega)

/-- The invariant after `lock(fMutex)` (line 205). -/
theorem inv_step_wuLock {σ σ1 : Threads} (hi : σ.Inv) {t : Thread}
    (hpc : σ.pc t = Pc.wuLock) (h : step σ t = some σ1) : σ1.Inv := by
  have hN := hi.nonneg t
  have hM := hi.mutex t
  have hRs := hi.restoring t
  have hT := hi.target t
  have hU := hi.unlocking t
  have hS := hi.saving t
  have hA := hi.asWriter t
  rw [hpc] at hM hRs hT hU hS hA
  have hM0 := hM
  have hA0 := hA
  have hRs0 := hRs
  have hT0 := hT
  simp only [Threads.share, hpc, Pc.share] at hN
  simp only [Pc.holds, Pc.token, Pc.counted, Pc.writing, Pc.target, Pc.unlocking, Pc.saving,
    Pc.asWriter] at hRs hT hU hS hA
  simp only [step, hpc] at h
  split at h
  · rename_i hfree
    simp only [Option.some.injEq] at h
    subst h
    refine inv_move hi t _ _ _ (fun _ _ => rfl) rfl rfl
      (mutex_acquire hfree ?hq_52) ?hn_52 ?hs_52 ?hr_52 ?ht_52
      ?hrd_52 ?hul_52 ?hsv_52 ?hrs_52 (Or.inl rfl)
      ?haw_52 ?hcl_52 ?hcm_52 ?hd_52 ?hdw_52 ?he_52 ?hew_52
    all_goals try simp only [Threads.share, hpc, Pc.share, Pc.holds, Pc.token, Pc.counted,
      Pc.writing, Pc.reserved, Pc.target, Pc.unlocking, Pc.saving, Pc.asWriter, Pc.entering,
      Pc.spinning, Pc.acquiring, Pc.afterReadLock, Pc.afterWriteLock]
    all_goals try clear hM hM0 hA0 hRs0 hT0
    all_goals first
      | omega
      | (intros; simp_all; done)
      | (intros; simp_all; omega)
      | (intros; simp_all [RecurseCounts.IsNotCurrentWriter, RecurseCounts.GetLocalReadersCount,
          RecurseCounts.IncrementReadCount, RecurseCounts.SetLocalReadersCount, Restore_fixReader,
          Restore_fixWriter]; done)
      | (intros; simp_all [RecurseCounts.IsNotCurrentWriter, RecurseCounts.GetLocalReadersCount,
          RecurseCounts.IncrementReadCount, RecurseCounts.SetLocalReadersCount, Restore_fixReader,
          Restore_fixWriter]; omega)
  · cases h

/-- The invariant after the release of `fMutex` at the return of `WriteUnLock`. -/
theorem inv_step_wuUnlock {σ σ1 : Threads} (hi : σ.Inv) {t : Thread}
    (hpc : σ.pc t = Pc.wuUnlock) (h : step σ t = some σ1) : σ1.Inv := by
  have hN := hi.nonneg t
  have hM := hi.mutex t
  have hRs := hi.restoring t
  have hT := hi.target t
  have hU := hi.unlocking t
  have hS := hi.saving t
  have hA := hi.asWriter t
  rw [hpc] at hM hRs hT hU hS hA
  have hM0 := hM
  have hA0 := hA
  have hRs0 := hRs
  have hT0 := hT
  simp only [Threads.share, hpc, Pc.share] at hN
  simp only [Pc.holds, Pc.token, Pc.counted, Pc.writing, Pc.target, Pc.unlocking, Pc.saving,
    Pc.asWriter] at hRs hT hU hS hA
  simp only [step, hpc] at h
  simp only [Option.some.injEq] at h
  subst h
  refine inv_move hi t _ _ _ (fun _ _ => rfl) rfl rfl
    (mutex_release (hM0.mp rfl) ?hq_53) ?hn_53 ?hs_53 ?hr_53 ?ht_53
    ?hrd_53 ?hul_53 ?hsv_53 ?hrs_53 (Or.inl rfl)
    ?haw_53 ?hcl_53 ?hcm_53 ?hd_53 ?hdw_53 ?he_53 ?hew_53
  all_goals try simp only [Threads.share, hpc, Pc.share, Pc.holds, Pc.token, Pc.counted, Pc.writing,
    Pc.reserved, Pc.target, Pc.unlocking, Pc.saving, Pc.asWriter, Pc.entering, Pc.spinning,
    Pc.acquiring, Pc.afterReadLock, Pc.afterWriteLock]
  all_goals try clear hM hM0 hA0 hRs0 hT0
  all_goals first
    | omega
    | (intros; simp_all; done)
    | (intros; simp_all; omega)
    | (intros; simp_all [RecurseCounts.IsNotCurrentWriter, RecurseCounts.GetLocalReadersCount,
        RecurseCounts.IncrementReadCount, RecurseCounts.SetLocalReadersCount, Restore_fixReader,
        Restore_fixWriter]; done)
    | (intros; simp_all [RecurseCounts.IsNotCurrentWriter, RecurseCounts.GetLocalReadersCount,
        RecurseCounts.IncrementReadCount, RecurseCounts.SetLocalReadersCount, Restore_fixReader,
        Restore_fixWriter]; omega)

/-- The invariant after lines 243-246. -/
theorem inv_step_rtLookup {σ σ1 : Threads} (hi : σ.Inv) {t : Thread}
    (hpc : σ.pc t = Pc.rtLookup) (h : step σ t = some σ1) : σ1.Inv := by
  have hN := hi.nonneg t
  have hM := hi.mutex t
  have hRs := hi.restoring t
  have hT := hi.target t
  have hU := hi.unlocking t
  have hS := hi.saving t
  have hA := hi.asWriter t
  rw [hpc] at hM hRs hT hU hS hA
  have hM0 := hM
  have hA0 := hA
  have hRs0 := hRs
  have hT0 := hT
  simp only [Threads.share, hpc, Pc.share] at hN
  simp only [Pc.holds, Pc.token, Pc.counted, Pc.writing, Pc.target, Pc.unlocking, Pc.saving,
    Pc.asWriter] at hRs hT hU hS hA
  simp only [step, hpc] at h
  split at h
  · rename_i hfree
    simp only [Option.some.injEq] at h
    subst h
    refine inv_move hi t _ _ _ (fun _ _ => rfl) rfl rfl
      (mutex_pass hfree ?hq_54) ?hn_54 ?hs_54 ?hr_54 ?ht_54
      ?hrd_54 ?hul_54 ?hsv_54 ?hrs_54 (Or.inl rfl)
      ?haw_54 ?hcl_54 ?hcm_54 ?hd_54 ?hdw_54 ?he_54 ?hew_54
    all_goals try simp only [Threads.share, hpc, Pc.share, Pc.holds, Pc.token, Pc.counted,
      Pc.writing, Pc.reserved, Pc.target, Pc.unlocking, Pc.saving, Pc.asWriter, Pc.entering,
      Pc.spinning, Pc.acquiring, Pc.afterReadLock, Pc.afterWriteLock]
    all_goals try clear hM hM0 hA0 hRs0 hT0
    all_goals first
      | omega
      | (intros; simp_all; done)
      | (intros; simp_all; omega)
      | (intros; simp_all [RecurseCounts.IsNotCurrentWriter, RecurseCounts.GetLocalReadersCount,
          RecurseCounts.IncrementReadCount, RecurseCounts.SetLocalReadersCount, Restore_fixReader,
          Restore_fixWriter]; done)
      | (intros; simp_all [RecurseCounts.IsNotCurrentWriter, RecurseCounts.GetLocalReadersCount,
          RecurseCounts.IncrementReadCount, RecurseCounts.SetLocalReadersCount, Restore_fixReader,
          Restore_fixWriter]; omega)
  · cases h

/-- The invariant after lines 258-261. -/
theorem inv_step_rtWriter {σ σ1 : Threads} (hi : σ.Inv) {t : Thread}
    (hpc : σ.pc t = Pc.rtWriter) (h : step σ t = some σ1) : σ1.Inv := by
  have hN := hi.nonneg t
  have hM := hi.mutex t
  have hRs := hi.restoring t
  have hT := hi.target t
  have hU := hi.unlocking t
  have hS := hi.saving t
  have hA := hi.asWriter t
  rw [hpc] at hM hRs hT hU hS hA
  have hM0 := hM
  have hA0 := hA
  have hRs0 := hRs
  have hT0 := hT
  simp only [Threads.share, hpc, Pc.share] at hN
  simp only [Pc.holds, Pc.token, Pc.counted, Pc.writing, Pc.target, Pc.unlocking, Pc.saving,
    Pc.asWriter] at hRs hT hU hS hA
  simp only [step, hpc] at h
  simp only [Option.some.injEq] at h
  subst h
  refine inv_move hi t _ _ _
    (fun u hu => by
      simp [RecurseCounts.IncrementReadCount, RecurseCounts.SetLocalReadersCount,
        RecurseCounts.GetLocalReadersCount, Function.update_noteq hu])
    rfl rfl
    (mutex_keep (hi.mutex t) ?hq_55) ?hn_55 ?hs_55 ?hr_55 ?ht_55
    ?hrd_55 ?hul_55 ?hsv_55 ?hrs_55
    (Or.inr ⟨(hA0 rfl).1, (hA0 rfl).2, ?hw2, (by rw [hpc]; rfl), rfl⟩)
    ?haw_55 ?hcl_55 ?hcm_55 ?hd_55 ?hdw_55 ?he_55 ?hew_55
  case he_55 =>
    intro _ w hw1 hwt
    exact absurd (hi.marked_unique hw1 (hA0 rfl).2) hwt
  all_goals try simp only [Threads.share, hpc, Pc.share, Pc.holds, Pc.token, Pc.counted, Pc.writing,
    Pc.reserved, Pc.target, Pc.unlocking, Pc.saving, Pc.asWriter, Pc.entering, Pc.spinning,
    Pc.acquiring, Pc.afterReadLock, Pc.afterWriteLock]
  all_goals try clear hM hM0 hA0 hRs0 hT0
  all_goals first
    | omega
    | (intros; simp_all; done)
    | (intros; simp_all; omega)
    | (intros; simp_all [RecurseCounts.IsNotCurrentWriter, RecurseCounts.GetLocalReadersCount,
        RecurseCounts.IncrementReadCount, RecurseCounts.SetLocalReadersCount, Restore_fixReader,
        Restore_fixWriter]; done)
    | (intros; simp_all [RecurseCounts.IsNotCurrentWriter, RecurseCounts.GetLocalReadersCount,
        RecurseCounts.IncrementReadCount, RecurseCounts.SetLocalReadersCount, Restore_fixReader,
        Restore_fixWriter]; omega)

/-- The invariant after lines 267-268. -/
theorem inv_step_rtReader {σ σ1 : Threads} (hi : σ.Inv) {t : Thread}
    (hpc : σ.pc t = Pc.rtReader) (h : step σ t = some σ1) : σ1.Inv := by
  have hN := hi.nonneg t
  have hM := hi.mutex t
  have hRs := hi.restoring t
  have hT := hi.target t
  have hU := hi.unlocking t
  have hS := hi.saving t
  have hA := hi.asWriter t
  rw [hpc] at hM hRs hT hU hS hA
  have hM0 := hM
  have hA0 := hA
  have hRs0 := hRs
  have hT0 := hT
  simp only [Threads.share, hpc, Pc.share] at hN
  simp only [Pc.holds, Pc.token, Pc.counted, Pc.writing, Pc.target, Pc.unlocking, Pc.saving,
    Pc.asWriter] at hRs hT hU hS hA
  simp only [step, hpc] at h
  simp only [Option.some.injEq] at h
  subst h
  refine inv_move hi t _ _ _
    (fun u hu => by
      simp [RecurseCounts.IncrementReadCount, RecurseCounts.SetLocalReadersCount,
        RecurseCounts.GetLocalReadersCount, Function.update_noteq hu])
    rfl rfl
    (mutex_keep (hi.mutex t) ?hq_56) ?hn_56 ?hs_56 ?hr_56 ?ht_56
    ?hrd_56 ?hul_56 ?hsv_56 ?hrs_56 (Or.inl rfl)
    ?haw_56 ?hcl_56 ?hcm_56 ?hd_56 ?hdw_56 ?he_56 ?hew_56
  case he_56 =>
    intro _ _ _ _ _ h0
    simp only [Threads.share, hpc, Pc.share] at h0
    exact absurd h0 (hi.reader t hpc)
  all_goals try simp only [Threads.share, hpc, Pc.share, Pc.holds, Pc.token, Pc.counted, Pc.writing,
    Pc.reserved, Pc.target, Pc.unlocking, Pc.saving, Pc.asWriter, Pc.entering, Pc.spinning,
    Pc.acquiring, Pc.afterReadLock, Pc.afterWriteLock]
  all_goals try clear hM hM0 hA0 hRs0 hT0
  all_goals first
    | omega
    | (intros; simp_all; done)
    | (intros; simp_all; omega)
    | (intros; simp_all [RecurseCounts.IsNotCurrentWriter, RecurseCounts.GetLocalReadersCount,
        RecurseCounts.IncrementReadCount, RecurseCounts.SetLocalReadersCount, Restore_fixReader,
        Restore_fixWriter]; done)
    | (intros; simp_all [RecurseCounts.IsNotCurrentWriter, RecurseCounts.GetLocalReadersCount,
        RecurseCounts.IncrementReadCount, RecurseCounts.SetLocalReadersCount, Restore_fixReader,
        Restore_fixWriter]; omega)

/-- The invariant does not depend on which well-formed tokens are outstanding. -/
theorem inv_tokens {σ : Threads} (hi : σ.Inv) (l : List TReentrantRWLockState)
    (hl : ∀ p, p ∈ l → TokenOK p) : ({ σ with tokens := l } : Threads).Inv :=
  ⟨hi.mutex, hi.nonneg, hi.sum, hi.res, hi.target, hi.reader, hi.unlocking, hi.saving, hl,
    hi.restoring, hi.writer, hi.noWriter, hi.asWriter, hi.claim, hi.commit, hi.drained,
    hi.exclusive⟩

/-- Only the owner of `fMutex` is inside a locked region. -/
theorem Threads.Inv.solo {σ : Threads} (hi : σ.Inv) {t : Thread} (hheld : σ.fMutex = some t) :
    ∀ u, u ≠ t → (σ.pc u).holds = false := by
  intro u hu
  by_contra hne
  simp only [Bool.not_eq_false] at hne
  have h := (hi.mutex u).mp hne
  rw [hheld] at h
  injection h with h
  exact hu h.symm

/-- The invariant after the claim of the write lock (lines 179-180). -/
theorem inv_claim_move {σ : Threads} (hi : σ.Inv) (t : Thread)
    (k : Option TReentrantRWLockState) (hpc : σ.pc t = Pc.wlClaim k) (s : TReentrantRWLock)
    (h1 : s.fReaders = σ.lock.fReaders)
    (h2 : s.fReaderReservation = σ.lock.fReaderReservation)
    (h4 : s.fWriter = true)
    (h5 : s.fRecurseCounts.fWriteRecurse = σ.lock.fRecurseCounts.fWriteRecurse + 1)
    (h6 : s.fRecurseCounts.fReadersCount = σ.lock.fRecurseCounts.fReadersCount)
    (h7 : s.fRecurseCounts.fIsWriter = Function.update σ.lock.fRecurseCounts.fIsWriter t true) :
    (σ.move t s σ.fMutex (Pc.wlSpin k)).Inv := by
  have hheld : σ.fMutex = some t := (hi.mutex t).mp (by rw [hpc]; rfl)
  have hsolo := hi.solo hheld
  have hpo : ∀ u, u ≠ t → (σ.move t s σ.fMutex (Pc.wlSpin k)).pc u = σ.pc u :=
    fun u hu => move_pc_other σ t s _ _ hu
  have hps : (σ.move t s σ.fMutex (Pc.wlSpin k)).pc t = Pc.wlSpin k := move_pc_same σ t s _ _
  have hsh : ∀ u, (σ.move t s σ.fMutex (Pc.wlSpin k)).share u = σ.share u := by
    intro u
    by_cases hu : u = t
    · subst hu
      rw [move_share_same]
      simp only [Threads.share, hpc, Pc.share]
    · exact move_share_other σ t s _ _ hu (by rw [h6])
  have hlock : (σ.move t s σ.fMutex (Pc.wlSpin k)).lock = s := rfl
  have hmo : ∀ u, u ≠ t →
      s.fRecurseCounts.fIsWriter u = σ.lock.fRecurseCounts.fIsWriter u := by
    intro u hu
    rw [h7, Function.update_noteq hu]
  have hmt : s.fRecurseCounts.fIsWriter t = true := by
    rw [h7, Function.update_same]
  have hold : ∀ u, u ≠ t → σ.lock.fRecurseCounts.fIsWriter u = false := by
    intro u hu
    rcases hi.claim t k hpc with hf | hm
    · exact (hi.noWriter hf).2 u
    · by_contra hne
      simp only [Bool.not_eq_false] at hne
      exact hu (hi.marked_unique hne hm)
  have hdeep : s.fRecurseCounts.fWriteRecurse ≠ 1 →
      σ.lock.fWriter = true ∧ σ.lock.fRecurseCounts.fIsWriter t = true := by
    intro hne
    rcases hi.claim t k hpc with hf | hm
    · have h0 := (hi.noWriter hf).1
      rw [h5, h0] at hne
      exact absurd rfl hne
    · exact ⟨hi.marked_writer hm, hm⟩
  have honly : ∀ w, s.fRecurseCounts.fIsWriter w = true → w = t := by
    intro w hw1
    by_contra hne
    rw [hmo w hne, hold w hne] at hw1
    cases hw1
  refine ⟨?_, ?_, ?_, ?_, ?_, ?_, ?_, ?_, hi.tokens, ?_, ?_, ?_, ?_, ?_, ?_, ?_, ?_⟩
  · -- mutex
    intro u
    by_cases hu : u = t
    · subst hu
      rw [hps]
      exact ⟨fun _ => hheld, fun _ => rfl⟩
    · rw [hpo u hu]
      exact hi.mutex u
  · -- nonneg
    intro u
    rw [hsh u, hlock, h6]
    exact hi.nonneg u
  · -- sum
    rw [show (σ.move t s σ.fMutex (Pc.wlSpin k)).share = σ.share from funext hsh, hlock, h1]
    exact hi.sum
  · -- res
    have hfun : (fun u => ((σ.move t s σ.fMutex (Pc.wlSpin k)).pc u).reserved) =
        fun u => (σ.pc u).reserved := by
      funext u
      by_cases hu : u = t
      · subst hu
        rw [hps, hpc]
        rfl
      · rw [hpo u hu]
    rw [hfun, hlock, h2]
    exact hi.res
  · -- target
    intro u c hcu
    by_cases hu : u = t
    · subst hu
      rw [hps] at hcu
      cases hcu
    · rw [hpo u hu] at hcu
      exact hi.target u c hcu
  · -- reader
    intro u hpu
    by_cases hu : u = t
    · subst hu
      rw [hps] at hpu
      cases hpu
    · rw [hpo u hu] at hpu
      rw [hlock, h6]
      exact hi.reader u hpu
  · -- unlocking
    intro u hpu
    by_cases hu : u = t
    · subst hu
      rw [hps] at hpu
      cases hpu
    · rw [hpo u hu] at hpu
      rw [hlock, h6]
      exact hi.unlocking u hpu
  · -- saving
    intro u hpu
    by_cases hu : u = t
    · subst hu
      rw [hps] at hpu
      cases hpu
    · rw [hpo u hu] at hpu
      rw [hlock, h6]
      exact hi.saving u hpu
  · -- restoring
    intro u p hpu
    by_cases hu : u = t
    · subst hu
      rw [hps] at hpu ⊢
      rw [hlock, h6]
      have h := hi.restoring u p
      rw [hpc] at h
      exact h hpu
    · rw [hpo u hu] at hpu ⊢
      rw [hlock, h6]
      exact hi.restoring u p hpu
  · -- writer
    intro _
    rw [hlock]
    refine ⟨?_, t, hmt, fun u hu => by rw [hmo u hu]; exact hold u hu⟩
    rw [h5]
    rcases hi.claim t k hpc with hf | hm
    · rw [(hi.noWriter hf).1]
      decide
    · have := (hi.writer (hi.marked_writer hm)).1
      omega
  · -- noWriter
    intro hf
    rw [hlock, h4] at hf
    cases hf
  · -- asWriter
    intro u hpu
    rw [hlock, h4]
    refine ⟨rfl, ?_⟩
    by_cases hu : u = t
    · subst hu
      exact hmt
    · rw [hpo u hu] at hpu
      have h := (hi.asWriter u hpu).2
      rw [hold u hu] at h
      cases h
  · -- claim
    intro u k1 hpu
    by_cases hu : u = t
    · subst hu
      rw [hps] at hpu
      cases hpu
    · rw [hpo u hu] at hpu
      have h := hsolo u hu
      rw [hpu] at h
      cases h
  · -- commit
    intro u k1 hpu
    by_cases hu : u = t
    · subst hu
      rw [hps] at hpu
      cases hpu
    · rw [hpo u hu] at hpu
      have h := hsolo u hu
      rw [hpu] at h
      cases h
  · -- drained
    intro _ w hw1 hsp u
    rw [hlock] at hw1 hsp
    have hwt := honly w hw1
    rw [hwt, hps] at hsp
    obtain ⟨hf, hm⟩ := hdeep (fun e => hsp ⟨rfl, e⟩)
    have hd := hi.drained hf t hm (by rw [hpc]; simp [Pc.spinning])
    by_cases hu : u = t
    · rw [hu, hps]
      rfl
    · rw [hpo u hu]
      exact hd u
  · -- exclusive
    intro _ w hw1 hac u huw
    rw [hlock] at hw1 hac
    have hwt := honly w hw1
    rw [hwt, hps] at hac
    rw [hwt] at huw
    obtain ⟨hf, hm⟩ := hdeep (fun e => hac ⟨rfl, e⟩)
    rw [hsh u]
    exact hi.exclusive hf t hm (by rw [hpc]; simp [Pc.acquiring]) u huw

/-- The invariant after the claim of the write lock (lines 179-180). -/
theorem inv_step_wlClaim {σ σ1 : Threads} (hi : σ.Inv) {t : Thread}
    {k : Option TReentrantRWLockState} (hpc : σ.pc t = Pc.wlClaim k)
    (h : step σ t = some σ1) : σ1.Inv := by
  simp only [step, hpc, Option.some.injEq] at h
  subst h
  exact inv_claim_move hi t k hpc _ rfl rfl rfl rfl rfl rfl

/-- The invariant after the last `WriteUnLock` of the writer (lines 212-221). -/
theorem inv_release_move {σ : Threads} (hi : σ.Inv) (t : Thread) (hpc : σ.pc t = Pc.wuBody)
    (s : TReentrantRWLock)
    (h1 : s.fReaders = σ.lock.fReaders)
    (h2 : s.fReaderReservation = σ.lock.fReaderReservation)
    (h4 : s.fWriter = false)
    (h5 : s.fRecurseCounts.fWriteRecurse = 0)
    (h6 : s.fRecurseCounts.fReadersCount = σ.lock.fRecurseCounts.fReadersCount)
    (h7 : s.fRecurseCounts.fIsWriter =
      Function.update σ.lock.fRecurseCounts.fIsWriter t false) :
    (σ.move t s σ.fMutex Pc.wuUnlock).Inv := by
  have hheld : σ.fMutex = some t := (hi.mutex t).mp (by rw [hpc]; rfl)
  have hA := hi.asWriter t (by rw [hpc]; rfl)
  have hpo : ∀ u, u ≠ t → (σ.move t s σ.fMutex Pc.wuUnlock).pc u = σ.pc u :=
    fun u hu => move_pc_other σ t s _ _ hu
  have hps : (σ.move t s σ.fMutex Pc.wuUnlock).pc t = Pc.wuUnlock := move_pc_same σ t s _ _
  have hsh : ∀ u, (σ.move t s σ.fMutex Pc.wuUnlock).share u = σ.share u := by
    intro u
    by_cases hu : u = t
    · subst hu
      rw [move_share_same]
      simp only [Threads.share, hpc, Pc.share, h6]
    · exact move_share_other σ t s _ _ hu (by rw [h6])
  have hlock : (σ.move t s σ.fMutex Pc.wuUnlock).lock = s := rfl
  have hold : ∀ u, u ≠ t → σ.lock.fRecurseCounts.fIsWriter u = false := by
    intro u hu
    by_contra hne
    simp only [Bool.not_eq_false] at hne
    exact hu (hi.marked_unique hne hA.2)
  have hnone : ∀ u, s.fRecurseCounts.fIsWriter u = false := by
    intro u
    rw [h7]
    by_cases hu : u = t
    · rw [hu, Function.update_same]
    · rw [Function.update_noteq hu]
      exact hold u hu
  refine ⟨?_, ?_, ?_, ?_, ?_, ?_, ?_, ?_, hi.tokens, ?_, ?_, ?_, ?_, ?_, ?_, ?_, ?_⟩
  · -- mutex
    intro u
    by_cases hu : u = t
    · subst hu
      rw [hps]
      exact ⟨fun _ => hheld, fun _ => rfl⟩
    · rw [hpo u hu]
      exact hi.mutex u
  · -- nonneg
    intro u
    rw [hsh u, hlock, h6]
    exact hi.nonneg u
  · -- sum
    rw [show (σ.move t s σ.fMutex Pc.wuUnlock).share = σ.share from funext hsh, hlock, h1]
    exact hi.sum
  · -- res
    have hfun : (fun u => ((σ.move t s σ.fMutex Pc.wuUnlock).pc u).reserved) =
        fun u => (σ.pc u).reserved := by
      funext u
      by_cases hu : u = t
      · subst hu
        rw [hps, hpc]
        rfl
      · rw [hpo u hu]
    rw [hfun, hlock, h2]
    exact hi.res
  · -- target
    intro u c hcu
    by_cases hu : u = t
    · subst hu
      rw [hps] at hcu
      cases hcu
    · rw [hpo u hu] at hcu
      exact hi.target u c hcu
  · -- reader
    intro u hpu
    by_cases hu : u = t
    · subst hu
      rw [hps] at hpu
      cases hpu
    · rw [hpo u hu] at hpu
      rw [hlock, h6]
      exact hi.reader u hpu
  · -- unlocking
    intro u hpu
    by_cases hu : u = t
    · subst hu
      rw [hps] at hpu
      cases hpu
    · rw [hpo u hu] at hpu
      rw [hlock, h6]
      exact hi.unlocking u hpu
  · -- saving
    intro u hpu
    by_cases hu : u = t
    · subst hu
      rw [hps] at hpu
      cases hpu
    · rw [hpo u hu] at hpu
      rw [hlock, h6]
      exact hi.saving u hpu
  · -- restoring
    intro u p hpu
    by_cases hu : u = t
    · subst hu
      rw [hps] at hpu
      cases hpu
    · rw [hpo u hu] at hpu ⊢
      rw [hlock, h6]
      exact hi.restoring u p hpu
  · -- writer
    intro hf
    rw [hlock, h4] at hf
    cases hf
  · -- noWriter
    intro _
    rw [hlock]
    exact ⟨h5, hnone⟩
  · -- asWriter
    intro u hpu
    by_cases hu : u = t
    · subst hu
      rw [hps] at hpu
      cases hpu
    · rw [hpo u hu] at hpu
      have h := (hi.asWriter u hpu).2
      rw [hold u hu] at h
      cases h
  · -- claim
    intro u k1 _
    rw [hlock]
    exact Or.inl h4
  · -- commit
    intro u k1 _
    rw [hlock]
    exact Or.inl h4
  · -- drained
    intro hf
    rw [hlock, h4] at hf
    cases hf
  · -- exclusive
    intro hf
    rw [hlock, h4] at hf
    cases hf

/-- The invariant after the body of `WriteUnLock` (lines 207-222). -/
theorem inv_step_wuBody {σ σ1 : Threads} (hi : σ.Inv) {t : Thread} (hpc : σ.pc t = Pc.wuBody)
    (h : step σ t = some σ1) : σ1.Inv := by
  have hN := hi.nonneg t
  have hM := hi.mutex t
  have hRs := hi.restoring t
  have hT := hi.target t
  have hU := hi.unlocking t
  have hS := hi.saving t
  have hA := hi.asWriter t
  rw [hpc] at hM hRs hT hU hS hA
  have hM0 := hM
  have hA0 := hA
  have hRs0 := hRs
  have hT0 := hT
  simp only [Threads.share, hpc, Pc.share] at hN
  simp only [Pc.holds, Pc.token, Pc.counted, Pc.writing, Pc.target, Pc.unlocking, Pc.saving,
    Pc.asWriter] at hRs hT hU hS hA
  have hW := (hi.writer (hA0 rfl).1).1
  simp only [step, hpc, Option.some.injEq] at h
  subst h
  rw [WriteUnLock_held t (hA0 rfl).1 (by omega)]
  split
  · exact inv_release_move hi t hpc _ rfl rfl rfl rfl rfl rfl
  · rename_i hcond
    refine
      inv_move hi t _ _ _ (fun _ _ => rfl) rfl rfl
        (mutex_keep (hi.mutex t) ?hq_1) ?hn_1 ?hs_1 ?hr_1 ?ht_1
        ?hrd_1 ?hul_1 ?hsv_1 ?hrs_1
        (Or.inr ⟨(hA0 rfl).1, (hA0 rfl).2, ?hw2, (by rw [hpc]; rfl), rfl⟩)
        ?haw_1 ?hcl_1 ?hcm_1 ?hd_1 ?hdw_1 ?he_1 ?hew_1
    case hw2 => exact (by show 1 ≤ σ.lock.fRecurseCounts.fWriteRecurse - 1; omega)
    case he_1 =>
      intro _ w hw1 hwt
      exact absurd (hi.marked_unique hw1 (hA0 rfl).2) hwt
    all_goals try simp only [Threads.share, hpc, Pc.share, Pc.holds, Pc.token, Pc.counted,
      Pc.writing, Pc.reserved, Pc.target, Pc.unlocking, Pc.saving, Pc.asWriter, Pc.entering,
      Pc.spinning, Pc.acquiring, Pc.afterReadLock, Pc.afterWriteLock]
    all_goals try clear hM hM0 hA0 hRs0 hT0
    all_goals first
      | omega
      | (intros; simp_all; done)
      | (intros; simp_all; omega)
      | (intros; simp_all [RecurseCounts.IsNotCurrentWriter, RecurseCounts.GetLocalReadersCount,
          RecurseCounts.IncrementReadCount, RecurseCounts.SetLocalReadersCount, Restore_fixReader,
          Restore_fixWriter]; done)
      | (intros; simp_all [RecurseCounts.IsNotCurrentWriter, RecurseCounts.GetLocalReadersCount,
          RecurseCounts.IncrementReadCount, RecurseCounts.SetLocalReadersCount, Restore_fixReader,
          Restore_fixWriter]; omega)

/-- The invariant after `Reset` has filled its token (lines 249-251, 265). -/
theorem inv_step_rtRead {σ σ1 : Threads} (hi : σ.Inv) {t : Thread} (hpc : σ.pc t = Pc.rtRead)
    (h : step σ t = some σ1) : σ1.Inv := by
  have hN := hi.nonneg t
  have hM := hi.mutex t
  have hRs := hi.restoring t
  have hT := hi.target t
  have hU := hi.unlocking t
  have hS := hi.saving t
  have hA := hi.asWriter t
  rw [hpc] at hM hRs hT hU hS hA
  have hM0 := hM
  have hA0 := hA
  have hRs0 := hRs
  have hT0 := hT
  simp only [Threads.share, hpc, Pc.share] at hN
  simp only [Pc.holds, Pc.token, Pc.counted, Pc.writing, Pc.target, Pc.unlocking, Pc.saving,
    Pc.asWriter] at hRs hT hU hS hA
  have hS0 := hi.saving t
  rw [hpc] at hS0
  simp only [step, hpc] at h
  split at h
  · rename_i hcond
    simp only [Bool.and_eq_true] at hcond
    simp only [Option.some.injEq] at h
    subst h
    refine inv_tokens (
      inv_move hi t _ _ _ (fun _ _ => rfl) rfl rfl
        (mutex_keep (hi.mutex t) ?hq_2) ?hn_2 ?hs_2 ?hr_2 ?ht_2
        ?hrd_2 ?hul_2 ?hsv_2 ?hrs_2 (Or.inl rfl)
        ?haw_2 ?hcl_2 ?hcm_2 ?hd_2 ?hdw_2 ?he_2 ?hew_2) _ ?htok_2
    case htok_2 =>
      intro p hp
      rcases List.mem_cons.mp hp with e | e
      · rw [e]
        refine ⟨?_, ?_⟩
        · show 0 ≤ intOfSizeT (σ.lock.fRecurseCounts.fReadersCount t)
          rw [intOfSizeT_fits (by omega) (hS0 rfl)]
          exact hN.1
        · intro hw
          first
            | exact (hi.writer (by simpa using hcond.1)).1
            | cases hw
      · exact hi.tokens p e
    all_goals try simp only [Threads.share, hpc, Pc.share, Pc.holds, Pc.token, Pc.counted,
      Pc.writing, Pc.reserved, Pc.target, Pc.unlocking, Pc.saving, Pc.asWriter, Pc.entering,
      Pc.spinning, Pc.acquiring, Pc.afterReadLock, Pc.afterWriteLock]
    all_goals try clear hM hM0 hA0 hRs0 hT0
    all_goals first
      | omega
      | (intros; simp_all; done)
      | (intros; simp_all; omega)
      | (intros; simp_all [RecurseCounts.IsNotCurrentWriter, RecurseCounts.GetLocalReadersCount,
          RecurseCounts.IncrementReadCount, RecurseCounts.SetLocalReadersCount, Restore_fixReader,
          Restore_fixWriter]; done)
      | (intros; simp_all [RecurseCounts.IsNotCurrentWriter, RecurseCounts.GetLocalReadersCount,
          RecurseCounts.IncrementReadCount, RecurseCounts.SetLocalReadersCount, Restore_fixReader,
          Restore_fixWriter]; omega)
  · rename_i hcond
    split at h
    · rename_i hcond
      simp only [Option.some.injEq] at h
      subst h
      refine inv_tokens (
        inv_move hi t _ _ _ (fun _ _ => rfl) rfl rfl
          (mutex_keep (hi.mutex t) ?hq_3) ?hn_3 ?hs_3 ?hr_3 ?ht_3
          ?hrd_3 ?hul_3 ?hsv_3 ?hrs_3 (Or.inl rfl)
          ?haw_3 ?hcl_3 ?hcm_3 ?hd_3 ?hdw_3 ?he_3 ?hew_3) _ ?htok_3
      case htok_3 =>
        intro p hp
        rcases List.mem_cons.mp hp with e | e
        · rw [e]
          refine ⟨?_, ?_⟩
          · show 0 ≤ intOfSizeT (σ.lock.fRecurseCounts.fReadersCount t)
            rw [intOfSizeT_fits (by omega) (hS0 rfl)]
            exact hN.1
          · intro hw
            first
                | exact (hi.writer (by simpa using hcond.1)).1
                | cases hw
        · exact hi.tokens p e
      all_goals try simp only [Threads.share, hpc, Pc.share, Pc.holds, Pc.token, Pc.counted,
        Pc.writing, Pc.reserved, Pc.target, Pc.unlocking, Pc.saving, Pc.asWriter, Pc.entering,
        Pc.spinning, Pc.acquiring, Pc.afterReadLock, Pc.afterWriteLock]
      all_goals try clear hM hM0 hA0 hRs0 hT0
      all_goals first
        | omega
        | (intros; simp_all; done)
        | (intros; simp_all; omega)
        | (intros; simp_all [RecurseCounts.IsNotCurrentWriter, RecurseCounts.GetLocalReadersCount,
            RecurseCounts.IncrementReadCount, RecurseCounts.SetLocalReadersCount, Restore_fixReader,
            Restore_fixWriter]; done)
        | (intros; simp_all [RecurseCounts.IsNotCurrentWriter, RecurseCounts.GetLocalReadersCount,
            RecurseCounts.IncrementReadCount, RecurseCounts.SetLocalReadersCount, Restore_fixReader,
            Restore_fixWriter]; omega)
    · rename_i hcond
      simp only [Option.some.injEq] at h
      subst h
      refine inv_tokens (
        inv_move hi t _ _ _ (fun _ _ => rfl) rfl rfl
          (mutex_keep (hi.mutex t) ?hq_4) ?hn_4 ?hs_4 ?hr_4 ?ht_4
          ?hrd_4 ?hul_4 ?hsv_4 ?hrs_4 (Or.inl rfl)
          ?haw_4 ?hcl_4 ?hcm_4 ?hd_4 ?hdw_4 ?he_4 ?hew_4) _ ?htok_4
      case htok_4 =>
        intro p hp
        rcases List.mem_cons.mp hp with e | e
        · rw [e]
          refine ⟨?_, ?_⟩
          · show 0 ≤ intOfSizeT (σ.lock.fRecurseCounts.fReadersCount t)
            rw [intOfSizeT_fits (by omega) (hS0 rfl)]
            exact hN.1
          · intro hw
            first
                | exact (hi.writer (by simpa using hcond.1)).1
                | cases hw
        · exact hi.tokens p e
      all_goals try simp only [Threads.share, hpc, Pc.share, Pc.holds, Pc.token, Pc.counted,
        Pc.writing, Pc.reserved, Pc.target, Pc.unlocking, Pc.saving, Pc.asWriter, Pc.entering,
        Pc.spinning, Pc.acquiring, Pc.afterReadLock, Pc.afterWriteLock]
      all_goals try clear hM hM0 hA0 hRs0 hT0
      all_goals first
        | omega
        | (intros; simp_all; done)
        | (intros; simp_all; omega)
        | (intros; simp_all [RecurseCounts.IsNotCurrentWriter, RecurseCounts.GetLocalReadersCount,
            RecurseCounts.IncrementReadCount, RecurseCounts.SetLocalReadersCount, Restore_fixReader,
            Restore_fixWriter]; done)
        | (intros; simp_all [RecurseCounts.IsNotCurrentWriter, RecurseCounts.GetLocalReadersCount,
            RecurseCounts.IncrementReadCount, RecurseCounts.SetLocalReadersCount, Restore_fixReader,
            Restore_fixWriter]; omega)

/-- The invariant after an idle thread has called an operation within the contract. -/
theorem inv_call_idle {σ : Threads} (hi : σ.Inv) {t : Thread} (hpc : σ.pc t = Pc.idle)
    (c : Call) (ha : σ.Allows t c) : (σ.call t c).Inv := by
  have hN := hi.nonneg t
  have hM := hi.mutex t
  have hRs := hi.restoring t
  have hT := hi.target t
  have hU := hi.unlocking t
  have hS := hi.saving t
  have hA := hi.asWriter t
  rw [hpc] at hM hRs hT hU hS hA
  have hM0 := hM
  have hA0 := hA
  have hRs0 := hRs
  have hT0 := hT
  simp only [Threads.share, hpc, Pc.share] at hN
  simp only [Pc.holds, Pc.token, Pc.counted, Pc.writing, Pc.target, Pc.unlocking, Pc.saving,
    Pc.asWriter] at hRs hT hU hS hA
  cases c with
  | readLock =>
    simp only [Threads.call]
    refine
      inv_move hi t _ _ _ (fun _ _ => rfl) rfl rfl
        (mutex_keep (hi.mutex t) ?hq_1) ?hn_1 ?hs_1 ?hr_1 ?ht_1
        ?hrd_1 ?hul_1 ?hsv_1 ?hrs_1 (Or.inl rfl)
        ?haw_1 ?hcl_1 ?hcm_1 ?hd_1 ?hdw_1 ?he_1 ?hew_1
    all_goals try simp only [Threads.share, hpc, Pc.share, Pc.holds, Pc.token, Pc.counted,
      Pc.writing, Pc.reserved, Pc.target, Pc.unlocking, Pc.saving, Pc.asWriter, Pc.entering,
      Pc.spinning, Pc.acquiring, Pc.afterReadLock, Pc.afterWriteLock]
    all_goals try clear hM hM0 hA0 hRs0 hT0
    all_goals first
      | omega
      | (intros; simp_all; done)
      | (intros; simp_all; omega)
      | (intros; simp_all [RecurseCounts.IsNotCurrentWriter, RecurseCounts.GetLocalReadersCount,
          RecurseCounts.IncrementReadCount, RecurseCounts.SetLocalReadersCount, Restore_fixReader,
          Restore_fixWriter]; done)
      | (intros; simp_all [RecurseCounts.IsNotCurrentWriter, RecurseCounts.GetLocalReadersCount,
          RecurseCounts.IncrementReadCount, RecurseCounts.SetLocalReadersCount, Restore_fixReader,
          Restore_fixWriter]; omega)
  | readUnLock hint =>
    simp only [Threads.Allows, localReaders, RecurseCounts.GetLocalReadersCount] at ha
    obtain ⟨ha1, ha2⟩ := ha
    cases hint with
    | none =>
      simp only [Threads.call]
      refine
        inv_move hi t _ _ _ (fun _ _ => rfl) rfl rfl
          (mutex_keep (hi.mutex t) ?hq_2) ?hn_2 ?hs_2 ?hr_2 ?ht_2
          ?hrd_2 ?hul_2 ?hsv_2 ?hrs_2 (Or.inl rfl)
          ?haw_2 ?hcl_2 ?hcm_2 ?hd_2 ?hdw_2 ?he_2 ?hew_2
      all_goals try simp only [Threads.share, hpc, Pc.share, Pc.holds, Pc.token, Pc.counted,
        Pc.writing, Pc.reserved, Pc.target, Pc.unlocking, Pc.saving, Pc.asWriter, Pc.entering,
        Pc.spinning, Pc.acquiring, Pc.afterReadLock, Pc.afterWriteLock]
      all_goals try clear hM hM0 hA0 hRs0 hT0
      all_goals first
        | omega
        | (intros; simp_all; done)
        | (intros; simp_all; omega)
        | (intros; simp_all [RecurseCounts.IsNotCurrentWriter, RecurseCounts.GetLocalReadersCount,
            RecurseCounts.IncrementReadCount, RecurseCounts.SetLocalReadersCount, Restore_fixReader,
            Restore_fixWriter]; done)
        | (intros; simp_all [RecurseCounts.IsNotCurrentWriter, RecurseCounts.GetLocalReadersCount,
            RecurseCounts.IncrementReadCount, RecurseCounts.SetLocalReadersCount, Restore_fixReader,
            Restore_fixWriter]; omega)
    | some c =>
      have hc : t = c := by
        rcases ha2 with e | e
        · cases e
        · injection e with e
          exact e.symm
      subst hc
      simp only [Threads.call]
      refine
        inv_move hi t _ _ _ (fun _ _ => rfl) rfl rfl
          (mutex_keep (hi.mutex t) ?hq_3) ?hn_3 ?hs_3 ?hr_3 ?ht_3
          ?hrd_3 ?hul_3 ?hsv_3 ?hrs_3 (Or.inl rfl)
          ?haw_3 ?hcl_3 ?hcm_3 ?hd_3 ?hdw_3 ?he_3 ?hew_3
      all_goals try simp only [Threads.share, hpc, Pc.share, Pc.holds, Pc.token, Pc.counted,
        Pc.writing, Pc.reserved, Pc.target, Pc.unlocking, Pc.saving, Pc.asWriter, Pc.entering,
        Pc.spinning, Pc.acquiring, Pc.afterReadLock, Pc.afterWriteLock]
      all_goals try clear hM hM0 hA0 hRs0 hT0
      all_goals first
        | omega
        | (intros; simp_all; done)
        | (intros; simp_all; omega)
        | (intros; simp_all [RecurseCounts.IsNotCurrentWriter, RecurseCounts.GetLocalReadersCount,
            RecurseCounts.IncrementReadCount, RecurseCounts.SetLocalReadersCount, Restore_fixReader,
            Restore_fixWriter]; done)
        | (intros; simp_all [RecurseCounts.IsNotCurrentWriter, RecurseCounts.GetLocalReadersCount,
            RecurseCounts.IncrementReadCount, RecurseCounts.SetLocalReadersCount, Restore_fixReader,
            Restore_fixWriter]; omega)
  | writeLock =>
    simp only [Threads.call]
    refine
      inv_move hi t _ _ _ (fun _ _ => rfl) rfl rfl
        (mutex_keep (hi.mutex t) ?hq_4) ?hn_4 ?hs_4 ?hr_4 ?ht_4
        ?hrd_4 ?hul_4 ?hsv_4 ?hrs_4 (Or.inl rfl)
        ?haw_4 ?hcl_4 ?hcm_4 ?hd_4 ?hdw_4 ?he_4 ?hew_4
    all_goals try simp only [Threads.share, hpc, Pc.share, Pc.holds, Pc.token, Pc.counted,
      Pc.writing, Pc.reserved, Pc.target, Pc.unlocking, Pc.saving, Pc.asWriter, Pc.entering,
      Pc.spinning, Pc.acquiring, Pc.afterReadLock, Pc.afterWriteLock]
    all_goals try clear hM hM0 hA0 hRs0 hT0
    all_goals first
      | omega
      | (intros; simp_all; done)
      | (intros; simp_all; omega)
      | (intros; simp_all [RecurseCounts.IsNotCurrentWriter, RecurseCounts.GetLocalReadersCount,
          RecurseCounts.IncrementReadCount, RecurseCounts.SetLocalReadersCount, Restore_fixReader,
          Restore_fixWriter]; done)
      | (intros; simp_all [RecurseCounts.IsNotCurrentWriter, RecurseCounts.GetLocalReadersCount,
          RecurseCounts.IncrementReadCount, RecurseCounts.SetLocalReadersCount, Restore_fixReader,
          Restore_fixWriter]; omega)
  | writeUnLock =>
    simp only [Threads.Allows, isWriter, RecurseCounts.IsNotCurrentWriter, Bool.not_not] at ha
    obtain ⟨ha1, ha2⟩ := ha
    simp only [Threads.call]
    refine
      inv_move hi t _ _ _ (fun _ _ => rfl) rfl rfl
        (mutex_keep (hi.mutex t) ?hq_5) ?hn_5 ?hs_5 ?hr_5 ?ht_5
        ?hrd_5 ?hul_5 ?hsv_5 ?hrs_5 (Or.inl rfl)
        ?haw_5 ?hcl_5 ?hcm_5 ?hd_5 ?hdw_5 ?he_5 ?hew_5
    all_goals try simp only [Threads.share, hpc, Pc.share, Pc.holds, Pc.token, Pc.counted,
      Pc.writing, Pc.reserved, Pc.target, Pc.unlocking, Pc.saving, Pc.asWriter, Pc.entering,
      Pc.spinning, Pc.acquiring, Pc.afterReadLock, Pc.afterWriteLock]
    all_goals try clear hM hM0 hA0 hRs0 hT0
    all_goals first
      | omega
      | (intros; simp_all; done)
      | (intros; simp_all; omega)
      | (intros; simp_all [RecurseCounts.IsNotCurrentWriter, RecurseCounts.GetLocalReadersCount,
          RecurseCounts.IncrementReadCount, RecurseCounts.SetLocalReadersCount, Restore_fixReader,
          Restore_fixWriter]; done)
      | (intros; simp_all [RecurseCounts.IsNotCurrentWriter, RecurseCounts.GetLocalReadersCount,
          RecurseCounts.IncrementReadCount, RecurseCounts.SetLocalReadersCount, Restore_fixReader,
          Restore_fixWriter]; omega)
  | reset =>
    simp only [Threads.Allows, localReaders, RecurseCounts.GetLocalReadersCount] at ha
    simp only [Threads.call]
    refine
      inv_move hi t _ _ _ (fun _ _ => rfl) rfl rfl
        (mutex_keep (hi.mutex t) ?hq_6) ?hn_6 ?hs_6 ?hr_6 ?ht_6
        ?hrd_6 ?hul_6 ?hsv_6 ?hrs_6 (Or.inl rfl)
        ?haw_6 ?hcl_6 ?hcm_6 ?hd_6 ?hdw_6 ?he_6 ?hew_6
    all_goals try simp only [Threads.share, hpc, Pc.share, Pc.holds, Pc.token, Pc.counted,
      Pc.writing, Pc.reserved, Pc.target, Pc.unlocking, Pc.saving, Pc.asWriter, Pc.entering,
      Pc.spinning, Pc.acquiring, Pc.afterReadLock, Pc.afterWriteLock]
    all_goals try clear hM hM0 hA0 hRs0 hT0
    all_goals first
      | omega
      | (intros; simp_all; done)
      | (intros; simp_all; omega)
      | (intros; simp_all [RecurseCounts.IsNotCurrentWriter, RecurseCounts.GetLocalReadersCount,
          RecurseCounts.IncrementReadCount, RecurseCounts.SetLocalReadersCount, Restore_fixReader,
          Restore_fixWriter]; done)
      | (intros; simp_all [RecurseCounts.IsNotCurrentWriter, RecurseCounts.GetLocalReadersCount,
          RecurseCounts.IncrementReadCount, RecurseCounts.SetLocalReadersCount, Restore_fixReader,
          Restore_fixWriter]; omega)
  | restore state =>
    cases state with
    | null => exact hi
    | foreign => exact hi
    | rwState p =>
      simp only [Threads.Allows, localReaders, RecurseCounts.GetLocalReadersCount] at ha
      obtain ⟨ha1, ha2, ha3⟩ := ha
      have hp := hi.tokens p ha1
      simp only [TokenOK] at hp
      obtain ⟨hp1, hp2⟩ := hp
      simp only [Threads.call]
      split
      · exact hi
      · split
        · rename_i hcond
          refine inv_tokens (
            inv_move hi t _ _ _ (fun _ _ => rfl) rfl rfl
              (mutex_keep (hi.mutex t) ?hq_7) ?hn_7 ?hs_7 ?hr_7 ?ht_7
              ?hrd_7 ?hul_7 ?hsv_7 ?hrs_7 (Or.inl rfl)
              ?haw_7 ?hcl_7 ?hcm_7 ?hd_7 ?hdw_7 ?he_7 ?hew_7) _
            (fun q hq => hi.tokens q (List.mem_of_mem_erase hq))
          all_goals try simp only [Threads.share, hpc, Pc.share, Pc.holds, Pc.token, Pc.counted,
            Pc.writing, Pc.reserved, Pc.target, Pc.unlocking, Pc.saving, Pc.asWriter, Pc.entering,
            Pc.spinning, Pc.acquiring, Pc.afterReadLock, Pc.afterWriteLock]
          all_goals try clear hM hM0 hA0 hRs0 hT0
          all_goals first
            | omega
            | (intros; simp_all; done)
            | (intros; simp_all; omega)
            | (intros; simp_all [RecurseCounts.IsNotCurrentWriter,
                RecurseCounts.GetLocalReadersCount, RecurseCounts.IncrementReadCount,
                RecurseCounts.SetLocalReadersCount, Restore_fixReader, Restore_fixWriter]; done)
            | (intros; simp_all [RecurseCounts.IsNotCurrentWriter,
                RecurseCounts.GetLocalReadersCount, RecurseCounts.IncrementReadCount,
                RecurseCounts.SetLocalReadersCount, Restore_fixReader, Restore_fixWriter]; omega)
        · split
          · rename_i hcond
            refine inv_tokens (
              inv_move hi t _ _ _ (fun _ _ => rfl) rfl rfl
                (mutex_keep (hi.mutex t) ?hq_8) ?hn_8 ?hs_8 ?hr_8 ?ht_8
                ?hrd_8 ?hul_8 ?hsv_8 ?hrs_8 (Or.inl rfl)
                ?haw_8 ?hcl_8 ?hcm_8 ?hd_8 ?hdw_8 ?he_8 ?hew_8) _
              (fun q hq => hi.tokens q (List.mem_of_mem_erase hq))
            all_goals try simp only [Threads.share, hpc, Pc.share, Pc.holds, Pc.token, Pc.counted,
              Pc.writing, Pc.reserved, Pc.target, Pc.unlocking, Pc.saving, Pc.asWriter, Pc.entering,
              Pc.spinning, Pc.acquiring, Pc.afterReadLock, Pc.afterWriteLock]
            all_goals try clear hM hM0 hA0 hRs0 hT0
            all_goals first
              | omega
              | (intros; simp_all; done)
              | (intros; simp_all; omega)
              | (intros; simp_all [RecurseCounts.IsNotCurrentWriter,
                  RecurseCounts.GetLocalReadersCount, RecurseCounts.IncrementReadCount,
                  RecurseCounts.SetLocalReadersCount, Restore_fixReader, Restore_fixWriter]; done)
              | (intros; simp_all [RecurseCounts.IsNotCurrentWriter,
                  RecurseCounts.GetLocalReadersCount, RecurseCounts.IncrementReadCount,
                  RecurseCounts.SetLocalReadersCount, Restore_fixReader, Restore_fixWriter]; omega)
          · exact inv_tokens hi _ (fun q hq => hi.tokens q (List.mem_of_mem_erase hq))

/-- The invariant is kept by every step. -/
theorem inv_step {σ σ1 : Threads} (hi : σ.Inv) {t : Thread} (h : step σ t = some σ1) :
    σ1.Inv := by
  cases hpc : σ.pc t with
  | idle =>
    simp only [step, hpc] at h
    cases h
  | rlReserve k => exact inv_step_rlReserve hi hpc h
  | rlTest k => exact inv_step_rlTest hi hpc h
  | rlFastReaders k => exact inv_step_rlFastReaders hi hpc h
  | rlFastUnreserve k => exact inv_step_rlFastUnreserve hi hpc h
  | rlFastCount k => exact inv_step_rlFastCount hi hpc h
  | rlSelfUnreserve k => exact inv_step_rlSelfUnreserve hi hpc h
  | rlSelfCount k => exact inv_step_rlSelfCount hi hpc h
  | rlSelfReaders k => exact inv_step_rlSelfReaders hi hpc h
  | rlSlowUnreserve k => exact inv_step_rlSlowUnreserve hi hpc h
  | rlSlowLock k => exact inv_step_rlSlowLock hi hpc h
  | rlSlowTest k => exact inv_step_rlSlowTest hi hpc h
  | rlSlowRetest k => exact inv_step_rlSlowRetest hi hpc h
  | rlSlowBlocked k => exact inv_step_rlSlowBlocked hi hpc h
  | rlSlowCommit k => exact inv_step_rlSlowCommit hi hpc h
  | rlSlowUnlock k => exact inv_step_rlSlowUnlock hi hpc h
  | rsFixReader p => exact inv_step_rsFixReader hi hpc h
  | ruLookup => exact inv_step_ruLookup hi hpc h
  | ruReaders c => exact inv_step_ruReaders hi hpc h
  | ruTestW c => exact inv_step_ruTestW hi hpc h
  | ruTestR c => exact inv_step_ruTestR hi hpc h
  | ruSlow c => exact inv_step_ruSlow hi hpc h
  | ruFast c => exact inv_step_ruFast hi hpc h
  | wlReserve k => exact inv_step_wlReserve hi hpc h
  | wlLock k => exact inv_step_wlLock hi hpc h
  | wlRelease k => exact inv_step_wlRelease hi hpc h
  | wlTest k => exact inv_step_wlTest hi hpc h
  | wlRetest k => exact inv_step_wlRetest hi hpc h
  | wlBlocked k => exact inv_step_wlBlocked hi hpc h
  | wlClaim k => exact inv_step_wlClaim hi hpc h
  | wlSpin k => exact inv_step_wlSpin hi hpc h
  | wlWait k => exact inv_step_wlWait hi hpc h
  | wlWaitBlocked k => exact inv_step_wlWaitBlocked hi hpc h
  | wlRestore k => exact inv_step_wlRestore hi hpc h
  | wlUnreserve k => exact inv_step_wlUnreserve hi hpc h
  | wlUnlock k => exact inv_step_wlUnlock hi hpc h
  | rsFixLock p => exact inv_step_rsFixLock hi hpc h
  | rsFixWriter p => exact inv_step_rsFixWriter hi hpc h
  | rsFixUnlock => exact inv_step_rsFixUnlock hi hpc h
  | wuLock => exact inv_step_wuLock hi hpc h
  | wuBody => exact inv_step_wuBody hi hpc h
  | wuUnlock => exact inv_step_wuUnlock hi hpc h
  | rtLookup => exact inv_step_rtLookup hi hpc h
  | rtRead => exact inv_step_rtRead hi hpc h
  | rtWriter => exact inv_step_rtWriter hi hpc h
  | rtReader => exact inv_step_rtReader hi hpc h

/-- The invariant holds for a fresh lock. -/
theorem inv_fresh : Threads.fresh.Inv := by
  refine ⟨?_, ?_, ?_, ?_, ?_, ?_, ?_, ?_, ?_, ?_, ?_, ?_, ?_, ?_, ?_, ?_, ?_⟩
  · intro u
    constructor <;> intro h <;> cases h
  · intro u
    exact ⟨le_refl _, le_refl _⟩
  · exact ⟨∅, fun _ _ => rfl, rfl⟩
  · exact ⟨∅, fun _ _ => rfl, rfl⟩
  · intro u c h
    cases h
  · intro u h
    cases h
  · intro u h
    cases h
  · intro u h
    cases h
  · intro p h
    cases h
  · intro u p h
    cases h
  · intro h
    cases h
  · intro _
    exact ⟨rfl, fun _ => rfl⟩
  · intro u h
    cases h
  · intro u k h
    cases h
  · intro u k h
    cases h
  · intro h
    cases h
  · intro h
    cases h

/-- The invariant holds in every state of every run. -/
theorem runs_inv {σ : Threads} (h : Runs σ) : σ.Inv := by
  induction h with
  | fresh => exact inv_fresh
  | call c _ hpc ha ih => exact inv_call_idle ih hpc c ha
  | step _ hs ih => exact inv_step ih hs

/-- A sequence of events that is a run leads to a state of a run. -/
theorem runs_play {σ : Threads} (h : Runs σ) (l : List Event) (hl : σ.Plays l) :
    Runs (σ.play l) := by
  induction l generalizing σ with
  | nil => exact h
  | cons e l ih =>
    cases e with
    | call t c =>
      obtain ⟨h1, h2, h3⟩ := hl
      exact ih (Runs.call c h h1 h2) h3
    | step t =>
      obtain ⟨h1, h2⟩ := hl
      refine ih ?_ h2
      simp only [Threads.after]
      cases hs : step σ t with
      | none =>
        rw [hs] at h1
        cases h1
      | some σ1 => exact Runs.step h hs

/-- A step of `t` leaves the other threads where they are. -/
theorem step_pc_other {σ σ1 : Threads} {t u : Thread} (h : step σ t = some σ1) (hu : u ≠ t) :
    σ1.pc u = σ.pc u := by
  cases hpc : σ.pc t <;> simp only [step, hpc] at h <;> (repeat' split at h) <;>
    (try cases h) <;>
    first
      | rfl
      | exact move_pc_other σ t _ _ _ hu
      | exact move_pc_other σ t σ.lock σ.fMutex _ hu

/-- A call of `t` leaves the other threads where they are. -/
theorem call_pc_other (σ : Threads) {t u : Thread} (c : Call) (hu : u ≠ t) :
    (σ.call t c).pc u = σ.pc u := by
  cases c with
  | readUnLock hint => cases hint <;> exact move_pc_other σ t _ _ _ hu
  | restore state =>
    cases state with
    | null => rfl
    | foreign => rfl
    | rwState p =>
      simp only [Threads.call]
      repeat' split
      all_goals first
        | rfl
        | exact move_pc_other σ t _ _ _ hu
        | exact move_pc_other σ t σ.lock σ.fMutex _ hu
  | _ => exact move_pc_other σ t _ _ _ hu

/-- A thread that takes no part in a sequence of events stays where it is. -/
theorem play_pc_other (σ : Threads) (l : List Event) (u : Thread)
    (hl : ∀ e, e ∈ l → e.thread ≠ u) : (σ.play l).pc u = σ.pc u := by
  induction l generalizing σ with
  | nil => rfl
  | cons e l ih =>
    have hu : u ≠ e.thread := fun h => hl e (List.mem_cons_self _ _) h.symm
    rw [Threads.play, ih _ (fun e1 h1 => hl e1 (List.mem_cons_of_mem _ h1))]
    cases e with
    | call t c => exact call_pc_other σ c hu
    | step t =>
      simp only [Threads.after]
      cases hs : step σ t with
      | none => rfl
      | some σ1 => exact step_pc_other hs hu

/-- The first part of the run: it is a run, and it ends with thread 0 past the test of line
67 and thread 1 turning in the loop of line 183. -/
theorem drainSpin_runs : Runs drainSpin ∧ drainSpin.Plays drainEnd := by
  refine ⟨runs_play Runs.fresh drainBegin ?_, ?_⟩
  · exact ⟨rfl, trivial, rfl, rfl, rfl, trivial, rfl, rfl, rfl, rfl, rfl, rfl, trivial⟩
  · exact ⟨rfl, rfl, rfl, rfl, rfl, rfl, ⟨by decide, Or.inr rfl⟩, rfl, rfl, rfl, rfl, rfl, rfl,
      rfl, rfl, rfl, trivial⟩

/-- Claim C1, amended: reader/writer exclusion as an invariant of the reachable states, with
the calls of the threads interleaved step by step. In every state reached from a fresh lock
by ReadLock, ReadUnLock, WriteLock, WriteUnLock, Reset and Restore calls of any threads, the
threads taking their steps in any order, where every ReadUnLock is by a thread that holds a
read lock (with a null hint or its own), every WriteUnLock by the thread that holds the
write lock, every Reset by a thread whose read count is below 2^31 and every Restore by the
thread whose Reset produced the token, and in which every call has completed: if fWriter is
set then there is a thread w marked as the writer, every other thread is unmarked and has
read count zero, and fReaders equals the read count of w. -/
theorem runs_writer_excludes_readers (σ : Threads) (h : Runs σ) (hq : σ.Quiet)
    (hw : σ.lock.fWriter = true) :
    ∃ w, σ.lock.isWriter w = true ∧
      (∀ u, u ≠ w → σ.lock.isWriter u = false ∧ σ.lock.localReaders u = 0) ∧
      σ.lock.fReaders = σ.lock.localReaders w := by
  have hi := runs_inv h
  obtain ⟨_, w, hw1, hw2⟩ := hi.writer hw
  have hidle : ∀ u, σ.share u = σ.lock.fRecurseCounts.fReadersCount u := by
    intro u
    simp only [Threads.share, hq u, Pc.share]
  have hex := hi.exclusive hw w hw1 (by rw [hq w]; simp [Pc.acquiring])
  refine ⟨w, ?_, ?_, ?_⟩
  · simp only [isWriter, RecurseCounts.IsNotCurrentWriter, Bool.not_not]
    exact hw1
  · intro u hu
    refine ⟨?_, ?_⟩
    · simp only [isWriter, RecurseCounts.IsNotCurrentWriter, Bool.not_not]
      exact hw2 u hu
    · have := hex u hu
      rw [hidle u] at this
      exact this
  · have := sum_eq_of_others_zero hi.sum w hex
    rw [hidle w] at this
    exact this

/-- Witness for C1, a run in which the writer has to wait for a reservation to drain: thread
0 calls ReadLock, reserves and sees fWriter clear; thread 1 calls WriteLock, claims the lock
and turns in the loop of line 183 while the reservation of thread 0 stands; thread 0 takes
its read lock and thread 1 blocks on fReaders; thread 0 releases its read lock and thread 1
completes. In the state reached no call is in progress, thread 1 is the writer and thread 0
holds no read lock. -/
theorem runs_writer_excludes_readers_witness :
    (drainSpin.pc 0 = Pc.rlFastReaders none ∧ drainSpin.pc 1 = Pc.wlSpin none ∧
      drainSpin.lock.fReaderReservation = 1 ∧ step drainSpin 1 = some drainSpin) ∧
    Runs drainRun ∧ drainRun.Quiet ∧ drainRun.lock.fWriter = true ∧
      ∃ w, drainRun.lock.isWriter w = true ∧
        (∀ u, u ≠ w → drainRun.lock.isWriter u = false ∧ drainRun.lock.localReaders u = 0) ∧
        drainRun.lock.fReaders = drainRun.lock.localReaders w := by
  have hr : Runs drainRun := runs_play drainSpin_runs.1 drainEnd drainSpin_runs.2
  have hq : drainRun.Quiet := by
    intro u
    by_cases h0 : u = 0
    · rw [h0]
      rfl
    · by_cases h1 : u = 1
      · rw [h1]
        rfl
      · have hne : ∀ l : List Event, (∀ e, e ∈ l → e.thread = 0 ∨ e.thread = 1) →
            ∀ e, e ∈ l → e.thread ≠ u := by
          intro l hl e he hu
          rcases hl e he with h | h
          · exact h0 (hu.symm.trans h)
          · exact h1 (hu.symm.trans h)
        unfold drainRun
        rw [play_pc_other _ _ u (hne _ (by decide))]
        unfold drainSpin
        rw [play_pc_other _ _ u (hne _ (by decide))]
        rfl
  exact ⟨⟨rfl, rfl, rfl, rfl⟩, hr, hq, rfl, runs_writer_excludes_readers drainRun hr hq rfl⟩

/-- The reader count step by step: in every state of a run in which every call has
completed, `fReaders` is the sum of the read counts of the threads. -/
theorem runs_readers_sum (σ : Threads) (h : Runs σ) (hq : σ.Quiet) :
    SumOver σ.lock.fRecurseCounts.fReadersCount σ.lock.fReaders := by
  have hsum := (runs_inv h).sum
  have hfun : σ.share = σ.lock.fRecurseCounts.fReadersCount := by
    funext u
    simp only [Threads.share, hq u, Pc.share]
  rw [hfun] at hsum
  exact hsum

/-- Counterexample to C1 as stated: thread 0 takes two read locks and calls Reset; thread 1
takes the write lock and then calls Restore with the token of thread 0. All five calls
complete, no unlock is called, and in the state that results fWriter is set and thread 1 is
the writer, yet thread 0, which is not the writer, has read count 2, and fReaders is 2
while the read count of the writer is 1. First with every call as a whole, then step by
step: up to the call of Restore the run is within the contract, the token is outstanding,
thread 1 is idle and the assertion of line 294 holds. -/
theorem foreign_token_breaks_exclusion :
    (∃ s1 s2 s3 s4 h1 h2 h3,
      ReadLock TReentrantRWLock.fresh 0 = .done s1 h1 ∧ ReadLock s1 0 = .done s2 h2 ∧
      WriteLock (Reset s2 0).1 1 = .done s3 h3 ∧
      Restore s3 1 (.rwState (Reset s2 0).2) = .done s4 none ∧
      s4.fWriter = true ∧ s4.isWriter 1 = true ∧ s4.localReaders 0 = 2 ∧
      s4.localReaders 1 = 1 ∧ s4.fReaders = 2) ∧
    (Runs foreignCall ∧ foreignCall.tokens = [foreignToken] ∧ foreignCall.pc 1 = Pc.idle ∧
      foreignCall.lock.localReaders foreignToken.fReadersCountLoc = 0 ∧
      foreignRun.pc 0 = Pc.idle ∧ foreignRun.pc 1 = Pc.idle ∧ foreignRun.fMutex = none ∧
      foreignRun.lock.fWriter = true ∧ foreignRun.lock.isWriter 1 = true ∧
      foreignRun.lock.localReaders 0 = 2 ∧ foreignRun.lock.localReaders 1 = 1 ∧
      foreignRun.lock.fReaders = 2) := by
  refine ⟨⟨_, _, _, _, _, _, _, rfl, rfl, rfl, rfl, rfl, rfl, rfl, rfl, rfl⟩, ?_, rfl, rfl, rfl,
    rfl, rfl, rfl, rfl, rfl, rfl, rfl, rfl⟩
  refine runs_play Runs.fresh foreignBegin ?_
  exact ⟨rfl, trivial, rfl, rfl, rfl, rfl, rfl, rfl, trivial, rfl, rfl, rfl, rfl, rfl,
    rfl, (by show (2 : Int) < 2147483648; decide), rfl, rfl, rfl, rfl, rfl, rfl, rfl,
    trivial, rfl, rfl, rfl, rfl, rfl, rfl,
    rfl, rfl, rfl, rfl, trivial⟩

/-! ## The operations step by step and as a whole -/

/-- No step. -/
theorem alone_zero (σ : Threads) (t : Thread) : σ.alone t 0 = σ := rfl

/-- One step, then the others. -/
theorem alone_succ (σ : Threads) (t : Thread) (n : Nat) :
    σ.alone t (n + 1) = ((step σ t).getD σ).alone t n := rfl

/-- A call of `ReadLock` that runs alone, with `fMutex` free, comes to what `ReadLock` gives
as a whole. -/
theorem solo_ReadLock (σ : Threads) (t : Thread) (hm : σ.fMutex = none) :
    ∃ n, ((σ.call t .readLock).alone t n).Agrees t none (ReadLock σ.lock t) := by
  by_cases h1 : σ.lock.fWriter = true
  · by_cases h2 : σ.lock.fRecurseCounts.fIsWriter t = true
    · refine ⟨5, ?_⟩
      simp only [Threads.call]
      iterate 5
        rw [alone_succ]
        simp [step, Threads.move, Pc.afterReadLock, Pc.afterWriteLock, hm, h1, h2,
          RecurseCounts.IsNotCurrentWriter, RecurseCounts.GetLocalReadersCount,
          RecurseCounts.SetLocalReadersCount, RecurseCounts.IncrementReadCount,
          RecurseCounts.SetIsWriter]
      simp [alone_zero, Threads.move, Threads.Agrees, Pc.waitingAt, ReadLock, ReadLock_wait,
        ReadLock_commit, hm, h1, h2, RecurseCounts.IsNotCurrentWriter,
        RecurseCounts.GetLocalReadersCount, RecurseCounts.SetLocalReadersCount,
        RecurseCounts.IncrementReadCount, RecurseCounts.SetIsWriter]
    · simp only [Bool.not_eq_true] at h2
      by_cases h3 : σ.lock.fRecurseCounts.fReadersCount t = 0
      · refine ⟨6, ?_⟩
        simp only [Threads.call]
        iterate 6
          rw [alone_succ]
          simp [step, Threads.move, Pc.afterReadLock, Pc.afterWriteLock, hm, h1, h2, h3,
            RecurseCounts.IsNotCurrentWriter, RecurseCounts.GetLocalReadersCount,
            RecurseCounts.SetLocalReadersCount, RecurseCounts.IncrementReadCount,
            RecurseCounts.SetIsWriter]
        simp [alone_zero, Threads.move, Threads.Agrees, Pc.waitingAt, ReadLock, ReadLock_wait,
          ReadLock_commit, hm, h1, h2, h3, RecurseCounts.IsNotCurrentWriter,
          RecurseCounts.GetLocalReadersCount, RecurseCounts.SetLocalReadersCount,
          RecurseCounts.IncrementReadCount, RecurseCounts.SetIsWriter]
      · refine ⟨7, ?_⟩
        simp only [Threads.call]
        iterate 7
          rw [alone_succ]
          simp [step, Threads.move, Pc.afterReadLock, Pc.afterWriteLock, hm, h1, h2, h3,
            RecurseCounts.IsNotCurrentWriter, RecurseCounts.GetLocalReadersCount,
            RecurseCounts.SetLocalReadersCount, RecurseCounts.IncrementReadCount,
            RecurseCounts.SetIsWriter]
        simp [alone_zero, Threads.move, Threads.Agrees, Pc.waitingAt, ReadLock, ReadLock_wait,
          ReadLock_commit, hm, h1, h2, h3, RecurseCounts.IsNotCurrentWriter,
          RecurseCounts.GetLocalReadersCount, RecurseCounts.SetLocalReadersCount,
          RecurseCounts.IncrementReadCount, RecurseCounts.SetIsWriter]
  · simp only [Bool.not_eq_true] at h1
    refine ⟨5, ?_⟩
    simp only [Threads.call]
    iterate 5
      rw [alone_succ]
      simp [step, Threads.move, Pc.afterReadLock, Pc.afterWriteLock, hm, h1,
        RecurseCounts.IsNotCurrentWriter, RecurseCounts.GetLocalReadersCount,
        RecurseCounts.SetLocalReadersCount, RecurseCounts.IncrementReadCount,
        RecurseCounts.SetIsWriter]
    simp [alone_zero, Threads.move, Threads.Agrees, Pc.waitingAt, ReadLock, ReadLock_wait,
      ReadLock_commit, hm, h1, RecurseCounts.IsNotCurrentWriter, RecurseCounts.GetLocalReadersCount,
      RecurseCounts.SetLocalReadersCount, RecurseCounts.IncrementReadCount,
      RecurseCounts.SetIsWriter]

/-- A call of `WriteLock` that runs alone, with `fMutex` free, comes to what `WriteLock`
gives as a whole. -/
theorem solo_WriteLock (σ : Threads) (t : Thread) (hm : σ.fMutex = none) :
    ∃ n, ((σ.call t .writeLock).alone t n).Agrees t none (WriteLock σ.lock t) := by
  by_cases h1 : σ.lock.fWriter = true
  · by_cases h2 : σ.lock.fRecurseCounts.fIsWriter t = true
    · by_cases h4 : σ.lock.fReaderReservation = 0
      · by_cases h5 : σ.lock.fReaders - σ.lock.fRecurseCounts.fReadersCount t = 0
        · refine ⟨10, ?_⟩
          simp only [Threads.call]
          iterate 10
            rw [alone_succ]
            simp [step, Threads.move, Pc.afterReadLock, Pc.afterWriteLock, hm, h1, h2, h4, h5,
              RecurseCounts.IsNotCurrentWriter, RecurseCounts.GetLocalReadersCount,
              RecurseCounts.SetLocalReadersCount, RecurseCounts.IncrementReadCount,
              RecurseCounts.SetIsWriter]
          simp [alone_zero, Threads.move, Threads.Agrees, Pc.waitingAt, WriteLock,
            WriteLock_waitWriter, WriteLock_claim, WriteLock_spin, WriteLock_waitReaders,
            WriteLock_finish, hm, h1, h2, h4, h5, RecurseCounts.IsNotCurrentWriter,
            RecurseCounts.GetLocalReadersCount, RecurseCounts.SetLocalReadersCount,
            RecurseCounts.IncrementReadCount, RecurseCounts.SetIsWriter]
        · refine ⟨7, ?_⟩
          simp only [Threads.call]
          iterate 7
            rw [alone_succ]
            simp [step, Threads.move, Pc.afterReadLock, Pc.afterWriteLock, hm, h1, h2, h4, h5,
              RecurseCounts.IsNotCurrentWriter, RecurseCounts.GetLocalReadersCount,
              RecurseCounts.SetLocalReadersCount, RecurseCounts.IncrementReadCount,
              RecurseCounts.SetIsWriter]
          simp [alone_zero, Threads.move, Threads.Agrees, Pc.waitingAt, WriteLock,
            WriteLock_waitWriter, WriteLock_claim, WriteLock_spin, WriteLock_waitReaders,
            WriteLock_finish, hm, h1, h2, h4, h5, RecurseCounts.IsNotCurrentWriter,
            RecurseCounts.GetLocalReadersCount, RecurseCounts.SetLocalReadersCount,
            RecurseCounts.IncrementReadCount, RecurseCounts.SetIsWriter]
      · refine ⟨5, ?_⟩
        simp only [Threads.call]
        iterate 5
          rw [alone_succ]
          simp [step, Threads.move, Pc.afterReadLock, Pc.afterWriteLock, hm, h1, h2, h4,
            RecurseCounts.IsNotCurrentWriter, RecurseCounts.GetLocalReadersCount,
            RecurseCounts.SetLocalReadersCount, RecurseCounts.IncrementReadCount,
            RecurseCounts.SetIsWriter]
        simp [alone_zero, Threads.move, Threads.Agrees, Pc.waitingAt, WriteLock,
          WriteLock_waitWriter, WriteLock_claim, WriteLock_spin, WriteLock_waitReaders,
          WriteLock_finish, hm, h1, h2, h4, RecurseCounts.IsNotCurrentWriter,
          RecurseCounts.GetLocalReadersCount, RecurseCounts.SetLocalReadersCount,
          RecurseCounts.IncrementReadCount, RecurseCounts.SetIsWriter]
    · simp only [Bool.not_eq_true] at h2
      refine ⟨5, ?_⟩
      simp only [Threads.call]
      iterate 5
        rw [alone_succ]
        simp [step, Threads.move, Pc.afterReadLock, Pc.afterWriteLock, hm, h1, h2,
          RecurseCounts.IsNotCurrentWriter, RecurseCounts.GetLocalReadersCount,
          RecurseCounts.SetLocalReadersCount, RecurseCounts.IncrementReadCount,
          RecurseCounts.SetIsWriter]
      simp [alone_zero, Threads.move, Threads.Agrees, Pc.waitingAt, WriteLock, WriteLock_waitWriter,
        WriteLock_claim, WriteLock_spin, WriteLock_waitReaders, WriteLock_finish, hm, h1, h2,
        RecurseCounts.IsNotCurrentWriter, RecurseCounts.GetLocalReadersCount,
        RecurseCounts.SetLocalReadersCount, RecurseCounts.IncrementReadCount,
        RecurseCounts.SetIsWriter]
  · simp only [Bool.not_eq_true] at h1
    by_cases h4 : σ.lock.fReaderReservation = 0
    · by_cases h5 : σ.lock.fReaders - σ.lock.fRecurseCounts.fReadersCount t = 0
      · refine ⟨10, ?_⟩
        simp only [Threads.call]
        iterate 10
          rw [alone_succ]
          simp [step, Threads.move, Pc.afterReadLock, Pc.afterWriteLock, hm, h1, h4, h5,
            RecurseCounts.IsNotCurrentWriter, RecurseCounts.GetLocalReadersCount,
            RecurseCounts.SetLocalReadersCount, RecurseCounts.IncrementReadCount,
            RecurseCounts.SetIsWriter]
        simp [alone_zero, Threads.move, Threads.Agrees, Pc.waitingAt, WriteLock,
          WriteLock_waitWriter, WriteLock_claim, WriteLock_spin, WriteLock_waitReaders,
          WriteLock_finish, hm, h1, h4, h5, RecurseCounts.IsNotCurrentWriter,
          RecurseCounts.GetLocalReadersCount, RecurseCounts.SetLocalReadersCount,
          RecurseCounts.IncrementReadCount, RecurseCounts.SetIsWriter]
      · refine ⟨7, ?_⟩
        simp only [Threads.call]
        iterate 7
          rw [alone_succ]
          simp [step, Threads.move, Pc.afterReadLock, Pc.afterWriteLock, hm, h1, h4, h5,
            RecurseCounts.IsNotCurrentWriter, RecurseCounts.GetLocalReadersCount,
            RecurseCounts.SetLocalReadersCount, RecurseCounts.IncrementReadCount,
            RecurseCounts.SetIsWriter]
        simp [alone_zero, Threads.move, Threads.Agrees, Pc.waitingAt, WriteLock,
          WriteLock_waitWriter, WriteLock_claim, WriteLock_spin, WriteLock_waitReaders,
          WriteLock_finish, hm, h1, h4, h5, RecurseCounts.IsNotCurrentWriter,
          RecurseCounts.GetLocalReadersCount, RecurseCounts.SetLocalReadersCount,
          RecurseCounts.IncrementReadCount, RecurseCounts.SetIsWriter]
    · refine ⟨5, ?_⟩
      simp only [Threads.call]
      iterate 5
        rw [alone_succ]
        simp [step, Threads.move, Pc.afterReadLock, Pc.afterWriteLock, hm, h1, h4,
          RecurseCounts.IsNotCurrentWriter, RecurseCounts.GetLocalReadersCount,
          RecurseCounts.SetLocalReadersCount, RecurseCounts.IncrementReadCount,
          RecurseCounts.SetIsWriter]
      simp [alone_zero, Threads.move, Threads.Agrees, Pc.waitingAt, WriteLock, WriteLock_waitWriter,
        WriteLock_claim, WriteLock_spin, WriteLock_waitReaders, WriteLock_finish, hm, h1, h4,
        RecurseCounts.IsNotCurrentWriter, RecurseCounts.GetLocalReadersCount,
        RecurseCounts.SetLocalReadersCount, RecurseCounts.IncrementReadCount,
        RecurseCounts.SetIsWriter]

/-- A call of `ReadUnLock` that runs alone, with `fMutex` free, returns with the lock
members `ReadUnLock` gives as a whole. -/
theorem solo_ReadUnLock (σ : Threads) (t : Thread) (hint : Hint) (hm : σ.fMutex = none) :
    ∃ n, ((σ.call t (.readUnLock hint)).alone t n).lock = ReadUnLock σ.lock t hint ∧
      ((σ.call t (.readUnLock hint)).alone t n).pc t = Pc.idle ∧
      ((σ.call t (.readUnLock hint)).alone t n).fMutex = none := by
  cases hint with
  | none =>
    by_cases h6 : σ.lock.fWriterReservation = 0
    · refine ⟨4, ?_⟩
      simp only [Threads.call]
      iterate 4
        rw [alone_succ]
        simp [step, Threads.move, Pc.afterReadLock, Pc.afterWriteLock, hm, h6,
          RecurseCounts.IsNotCurrentWriter, RecurseCounts.GetLocalReadersCount,
          RecurseCounts.SetLocalReadersCount, RecurseCounts.IncrementReadCount,
          RecurseCounts.SetIsWriter]
      simp [alone_zero, Threads.move, ReadUnLock, hm, h6, RecurseCounts.IsNotCurrentWriter,
        RecurseCounts.GetLocalReadersCount, RecurseCounts.SetLocalReadersCount,
        RecurseCounts.IncrementReadCount, RecurseCounts.SetIsWriter]
    · by_cases h7 : σ.lock.fReaders - 1 = 0
      · refine ⟨5, ?_⟩
        simp only [Threads.call]
        iterate 5
          rw [alone_succ]
          simp [step, Threads.move, Pc.afterReadLock, Pc.afterWriteLock, hm, h6, h7,
            RecurseCounts.IsNotCurrentWriter, RecurseCounts.GetLocalReadersCount,
            RecurseCounts.SetLocalReadersCount, RecurseCounts.IncrementReadCount,
            RecurseCounts.SetIsWriter]
        simp [alone_zero, Threads.move, ReadUnLock, hm, h6, h7, RecurseCounts.IsNotCurrentWriter,
          RecurseCounts.GetLocalReadersCount, RecurseCounts.SetLocalReadersCount,
          RecurseCounts.IncrementReadCount, RecurseCounts.SetIsWriter]
      · refine ⟨5, ?_⟩
        simp only [Threads.call]
        iterate 5
          rw [alone_succ]
          simp [step, Threads.move, Pc.afterReadLock, Pc.afterWriteLock, hm, h6, h7,
            RecurseCounts.IsNotCurrentWriter, RecurseCounts.GetLocalReadersCount,
            RecurseCounts.SetLocalReadersCount, RecurseCounts.IncrementReadCount,
            RecurseCounts.SetIsWriter]
        simp [alone_zero, Threads.move, ReadUnLock, hm, h6, h7, RecurseCounts.IsNotCurrentWriter,
          RecurseCounts.GetLocalReadersCount, RecurseCounts.SetLocalReadersCount,
          RecurseCounts.IncrementReadCount, RecurseCounts.SetIsWriter]
  | some c =>
    by_cases h6 : σ.lock.fWriterReservation = 0
    · refine ⟨3, ?_⟩
      simp only [Threads.call]
      iterate 3
        rw [alone_succ]
        simp [step, Threads.move, Pc.afterReadLock, Pc.afterWriteLock, hm, h6,
          RecurseCounts.IsNotCurrentWriter, RecurseCounts.GetLocalReadersCount,
          RecurseCounts.SetLocalReadersCount, RecurseCounts.IncrementReadCount,
          RecurseCounts.SetIsWriter]
      simp [alone_zero, Threads.move, ReadUnLock, hm, h6, RecurseCounts.IsNotCurrentWriter,
        RecurseCounts.GetLocalReadersCount, RecurseCounts.SetLocalReadersCount,
        RecurseCounts.IncrementReadCount, RecurseCounts.SetIsWriter]
    · by_cases h7 : σ.lock.fReaders - 1 = 0
      · refine ⟨4, ?_⟩
        simp only [Threads.call]
        iterate 4
          rw [alone_succ]
          simp [step, Threads.move, Pc.afterReadLock, Pc.afterWriteLock, hm, h6, h7,
            RecurseCounts.IsNotCurrentWriter, RecurseCounts.GetLocalReadersCount,
            RecurseCounts.SetLocalReadersCount, RecurseCounts.IncrementReadCount,
            RecurseCounts.SetIsWriter]
        simp [alone_zero, Threads.move, ReadUnLock, hm, h6, h7, RecurseCounts.IsNotCurrentWriter,
          RecurseCounts.GetLocalReadersCount, RecurseCounts.SetLocalReadersCount,
          RecurseCounts.IncrementReadCount, RecurseCounts.SetIsWriter]
      · refine ⟨4, ?_⟩
        simp only [Threads.call]
        iterate 4
          rw [alone_succ]
          simp [step, Threads.move, Pc.afterReadLock, Pc.afterWriteLock, hm, h6, h7,
            RecurseCounts.IsNotCurrentWriter, RecurseCounts.GetLocalReadersCount,
            RecurseCounts.SetLocalReadersCount, RecurseCounts.IncrementReadCount,
            RecurseCounts.SetIsWriter]
        simp [alone_zero, Threads.move, ReadUnLock, hm, h6, h7, RecurseCounts.IsNotCurrentWriter,
          RecurseCounts.GetLocalReadersCount, RecurseCounts.SetLocalReadersCount,
          RecurseCounts.IncrementReadCount, RecurseCounts.SetIsWriter]

/-- A call of `WriteUnLock` that runs alone, with `fMutex` free, returns with the lock
members `WriteUnLock` gives as a whole. -/
theorem solo_WriteUnLock (σ : Threads) (t : Thread) (hm : σ.fMutex = none) :
    ∃ n, ((σ.call t .writeUnLock).alone t n).lock = (WriteUnLock σ.lock t).1 ∧
      ((σ.call t .writeUnLock).alone t n).pc t = Pc.idle ∧
      ((σ.call t .writeUnLock).alone t n).fMutex = none := by
  refine ⟨3, ?_⟩
  simp only [Threads.call]
  iterate 3
    rw [alone_succ]
    simp [step, Threads.move, Pc.afterReadLock, Pc.afterWriteLock, hm,
      RecurseCounts.IsNotCurrentWriter, RecurseCounts.GetLocalReadersCount,
      RecurseCounts.SetLocalReadersCount, RecurseCounts.IncrementReadCount,
      RecurseCounts.SetIsWriter]
  simp [alone_zero, Threads.move, WriteUnLock, hm, RecurseCounts.IsNotCurrentWriter,
    RecurseCounts.GetLocalReadersCount, RecurseCounts.SetLocalReadersCount,
    RecurseCounts.IncrementReadCount, RecurseCounts.SetIsWriter]

/-- A call of `Reset` that runs alone, with `fMutex` free, returns with the lock members
`Reset` gives as a whole and has added the token `Reset` returns. -/
theorem solo_Reset (σ : Threads) (t : Thread) (hm : σ.fMutex = none) :
    ∃ n, ((σ.call t .reset).alone t n).lock = (Reset σ.lock t).1 ∧
      ((σ.call t .reset).alone t n).tokens = (Reset σ.lock t).2 :: σ.tokens ∧
      ((σ.call t .reset).alone t n).pc t = Pc.idle ∧
      ((σ.call t .reset).alone t n).fMutex = none := by
  by_cases h1 : σ.lock.fWriter = true
  · by_cases h2 : σ.lock.fRecurseCounts.fIsWriter t = true
    · refine ⟨6, ?_⟩
      simp only [Threads.call]
      iterate 6
        rw [alone_succ]
        simp [step, Threads.move, Pc.afterReadLock, Pc.afterWriteLock, hm, h1, h2,
          RecurseCounts.IsNotCurrentWriter, RecurseCounts.GetLocalReadersCount,
          RecurseCounts.SetLocalReadersCount, RecurseCounts.IncrementReadCount,
          RecurseCounts.SetIsWriter, WriteUnLock, RecurseCounts.DecrementWriteCount,
          RecurseCounts.ResetIsWriter, ReadUnLock]
      simp [alone_zero, Threads.move, Reset, hm, h1, h2, RecurseCounts.IsNotCurrentWriter,
        RecurseCounts.GetLocalReadersCount, RecurseCounts.SetLocalReadersCount,
        RecurseCounts.IncrementReadCount, RecurseCounts.SetIsWriter, WriteUnLock,
        RecurseCounts.DecrementWriteCount, RecurseCounts.ResetIsWriter, ReadUnLock]
    · simp only [Bool.not_eq_true] at h2
      by_cases h3 : σ.lock.fRecurseCounts.fReadersCount t = 0
      · refine ⟨2, ?_⟩
        simp only [Threads.call]
        iterate 2
          rw [alone_succ]
          simp [step, Threads.move, Pc.afterReadLock, Pc.afterWriteLock, hm, h1, h2, h3,
            RecurseCounts.IsNotCurrentWriter, RecurseCounts.GetLocalReadersCount,
            RecurseCounts.SetLocalReadersCount, RecurseCounts.IncrementReadCount,
            RecurseCounts.SetIsWriter, WriteUnLock, RecurseCounts.DecrementWriteCount,
            RecurseCounts.ResetIsWriter, ReadUnLock]
        simp [alone_zero, Threads.move, Reset, hm, h1, h2, h3, RecurseCounts.IsNotCurrentWriter,
          RecurseCounts.GetLocalReadersCount, RecurseCounts.SetLocalReadersCount,
          RecurseCounts.IncrementReadCount, RecurseCounts.SetIsWriter, WriteUnLock,
          RecurseCounts.DecrementWriteCount, RecurseCounts.ResetIsWriter, ReadUnLock]
      · by_cases h6 : σ.lock.fWriterReservation = 0
        · refine ⟨6, ?_⟩
          simp only [Threads.call]
          iterate 6
            rw [alone_succ]
            simp [step, Threads.move, Pc.afterReadLock, Pc.afterWriteLock, hm, h1, h2, h3, h6,
              RecurseCounts.IsNotCurrentWriter, RecurseCounts.GetLocalReadersCount,
              RecurseCounts.SetLocalReadersCount, RecurseCounts.IncrementReadCount,
              RecurseCounts.SetIsWriter, WriteUnLock, RecurseCounts.DecrementWriteCount,
              RecurseCounts.ResetIsWriter, ReadUnLock]
          simp [alone_zero, Threads.move, Reset, hm, h1, h2, h3, h6,
            RecurseCounts.IsNotCurrentWriter, RecurseCounts.GetLocalReadersCount,
            RecurseCounts.SetLocalReadersCount, RecurseCounts.IncrementReadCount,
            RecurseCounts.SetIsWriter, WriteUnLock, RecurseCounts.DecrementWriteCount,
            RecurseCounts.ResetIsWriter, ReadUnLock]
        · by_cases h8 : σ.lock.fReaders - (σ.lock.fRecurseCounts.fReadersCount t - 1) - 1 = 0
          · refine ⟨7, ?_⟩
            simp only [Threads.call]
            iterate 7
              rw [alone_succ]
              simp [step, Threads.move, Pc.afterReadLock, Pc.afterWriteLock, hm, h1, h2, h3, h6, h8,
                RecurseCounts.IsNotCurrentWriter, RecurseCounts.GetLocalReadersCount,
                RecurseCounts.SetLocalReadersCount, RecurseCounts.IncrementReadCount,
                RecurseCounts.SetIsWriter, WriteUnLock, RecurseCounts.DecrementWriteCount,
                RecurseCounts.ResetIsWriter, ReadUnLock]
            simp [alone_zero, Threads.move, Reset, hm, h1, h2, h3, h6, h8,
              RecurseCounts.IsNotCurrentWriter, RecurseCounts.GetLocalReadersCount,
              RecurseCounts.SetLocalReadersCount, RecurseCounts.IncrementReadCount,
              RecurseCounts.SetIsWriter, WriteUnLock, RecurseCounts.DecrementWriteCount,
              RecurseCounts.ResetIsWriter, ReadUnLock]
          · refine ⟨7, ?_⟩
            simp only [Threads.call]
            iterate 7
              rw [alone_succ]
              simp [step, Threads.move, Pc.afterReadLock, Pc.afterWriteLock, hm, h1, h2, h3, h6, h8,
                RecurseCounts.IsNotCurrentWriter, RecurseCounts.GetLocalReadersCount,
                RecurseCounts.SetLocalReadersCount, RecurseCounts.IncrementReadCount,
                RecurseCounts.SetIsWriter, WriteUnLock, RecurseCounts.DecrementWriteCount,
                RecurseCounts.ResetIsWriter, ReadUnLock]
            simp [alone_zero, Threads.move, Reset, hm, h1, h2, h3, h6, h8,
              RecurseCounts.IsNotCurrentWriter, RecurseCounts.GetLocalReadersCount,
              RecurseCounts.SetLocalReadersCount, RecurseCounts.IncrementReadCount,
              RecurseCounts.SetIsWriter, WriteUnLock, RecurseCounts.DecrementWriteCount,
              RecurseCounts.ResetIsWriter, ReadUnLock]
  · simp only [Bool.not_eq_true] at h1
    by_cases h3 : σ.lock.fRecurseCounts.fReadersCount t = 0
    · refine ⟨2, ?_⟩
      simp only [Threads.call]
      iterate 2
        rw [alone_succ]
        simp [step, Threads.move, Pc.afterReadLock, Pc.afterWriteLock, hm, h1, h3,
          RecurseCounts.IsNotCurrentWriter, RecurseCounts.GetLocalReadersCount,
          RecurseCounts.SetLocalReadersCount, RecurseCounts.IncrementReadCount,
          RecurseCounts.SetIsWriter, WriteUnLock, RecurseCounts.DecrementWriteCount,
          RecurseCounts.ResetIsWriter, ReadUnLock]
      simp [alone_zero, Threads.move, Reset, hm, h1, h3, RecurseCounts.IsNotCurrentWriter,
        RecurseCounts.GetLocalReadersCount, RecurseCounts.SetLocalReadersCount,
        RecurseCounts.IncrementReadCount, RecurseCounts.SetIsWriter, WriteUnLock,
        RecurseCounts.DecrementWriteCount, RecurseCounts.ResetIsWriter, ReadUnLock]
    · by_cases h6 : σ.lock.fWriterReservation = 0
      · refine ⟨6, ?_⟩
        simp only [Threads.call]
        iterate 6
          rw [alone_succ]
          simp [step, Threads.move, Pc.afterReadLock, Pc.afterWriteLock, hm, h1, h3, h6,
            RecurseCounts.IsNotCurrentWriter, RecurseCounts.GetLocalReadersCount,
            RecurseCounts.SetLocalReadersCount, RecurseCounts.IncrementReadCount,
            RecurseCounts.SetIsWriter, WriteUnLock, RecurseCounts.DecrementWriteCount,
            RecurseCounts.ResetIsWriter, ReadUnLock]
        simp [alone_zero, Threads.move, Reset, hm, h1, h3, h6, RecurseCounts.IsNotCurrentWriter,
          RecurseCounts.GetLocalReadersCount, RecurseCounts.SetLocalReadersCount,
          RecurseCounts.IncrementReadCount, RecurseCounts.SetIsWriter, WriteUnLock,
          RecurseCounts.DecrementWriteCount, RecurseCounts.ResetIsWriter, ReadUnLock]
      · by_cases h8 : σ.lock.fReaders - (σ.lock.fRecurseCounts.fReadersCount t - 1) - 1 = 0
        · refine ⟨7, ?_⟩
          simp only [Threads.call]
          iterate 7
            rw [alone_succ]
            simp [step, Threads.move, Pc.afterReadLock, Pc.afterWriteLock, hm, h1, h3, h6, h8,
              RecurseCounts.IsNotCurrentWriter, RecurseCounts.GetLocalReadersCount,
              RecurseCounts.SetLocalReadersCount, RecurseCounts.IncrementReadCount,
              RecurseCounts.SetIsWriter, WriteUnLock, RecurseCounts.DecrementWriteCount,
              RecurseCounts.ResetIsWriter, ReadUnLock]
          simp [alone_zero, Threads.move, Reset, hm, h1, h3, h6, h8,
            RecurseCounts.IsNotCurrentWriter, RecurseCounts.GetLocalReadersCount,
            RecurseCounts.SetLocalReadersCount, RecurseCounts.IncrementReadCount,
            RecurseCounts.SetIsWriter, WriteUnLock, RecurseCounts.DecrementWriteCount,
            RecurseCounts.ResetIsWriter, ReadUnLock]
        · refine ⟨7, ?_⟩
          simp only [Threads.call]
          iterate 7
            rw [alone_succ]
            simp [step, Threads.move, Pc.afterReadLock, Pc.afterWriteLock, hm, h1, h3, h6, h8,
              RecurseCounts.IsNotCurrentWriter, RecurseCounts.GetLocalReadersCount,
              RecurseCounts.SetLocalReadersCount, RecurseCounts.IncrementReadCount,
              RecurseCounts.SetIsWriter, WriteUnLock, RecurseCounts.DecrementWriteCount,
              RecurseCounts.ResetIsWriter, ReadUnLock]
          simp [alone_zero, Threads.move, Reset, hm, h1, h3, h6, h8,
            RecurseCounts.IsNotCurrentWriter, RecurseCounts.GetLocalReadersCount,
            RecurseCounts.SetLocalReadersCount, RecurseCounts.IncrementReadCount,
            RecurseCounts.SetIsWriter, WriteUnLock, RecurseCounts.DecrementWriteCount,
            RecurseCounts.ResetIsWriter, ReadUnLock]

/-- A call of `Restore` by an idle thread that runs alone, with `fMutex` free and the
assertion of line 294 passing, comes to what `Restore` gives as a whole. -/
theorem solo_Restore (σ : Threads) (t : Thread) (p : TReentrantRWLockState)
    (hpc : σ.pc t = Pc.idle) (hm : σ.fMutex = none)
    (h0 : σ.lock.fRecurseCounts.GetLocalReadersCount p.fReadersCountLoc = 0) :
    ∃ n, ((σ.call t (.restore (.rwState p))).alone t n).Agrees t (some p)
      (Restore σ.lock t (.rwState p)) := by
  have h0r : σ.lock.fRecurseCounts.fReadersCount p.fReadersCountLoc = 0 := h0
  by_cases h9 : p.fIsWriter = true
  · by_cases h1 : σ.lock.fWriter = true
    · by_cases h2 : σ.lock.fRecurseCounts.fIsWriter t = true
      · by_cases h4 : σ.lock.fReaderReservation = 0
        · by_cases h5 : σ.lock.fReaders - σ.lock.fRecurseCounts.fReadersCount t = 0
          · refine ⟨13, ?_⟩
            simp only [Threads.call, h0, hm, h9, h1, h2, h4, h5, ne_eq, not_true_eq_false, if_true,
              if_false, not_false_eq_true, Bool.false_eq_true]
            iterate 13
              rw [alone_succ]
              simp [step, Threads.move, Pc.afterReadLock, Pc.afterWriteLock, hm, h9, h1, h2, h4, h5,
                RecurseCounts.IsNotCurrentWriter, RecurseCounts.GetLocalReadersCount,
                RecurseCounts.SetLocalReadersCount, RecurseCounts.IncrementReadCount,
                RecurseCounts.SetIsWriter, h0r]
            simp [alone_zero, Threads.move, Restore, Outcome.andThen, Restore_fixWriter,
              Restore_fixReader, ReadLock, ReadLock_wait, ReadLock_commit, Threads.Agrees,
              Pc.waitingAt, WriteLock, WriteLock_waitWriter, WriteLock_claim, WriteLock_spin,
              WriteLock_waitReaders, WriteLock_finish, hm, h9, h1, h2, h4, h5,
              RecurseCounts.IsNotCurrentWriter, RecurseCounts.GetLocalReadersCount,
              RecurseCounts.SetLocalReadersCount, RecurseCounts.IncrementReadCount,
              RecurseCounts.SetIsWriter, h0r]
          · refine ⟨7, ?_⟩
            simp only [Threads.call, h0, hm, h9, h1, h2, h4, h5, ne_eq, not_true_eq_false, if_true,
              if_false, not_false_eq_true, Bool.false_eq_true]
            iterate 7
              rw [alone_succ]
              simp [step, Threads.move, Pc.afterReadLock, Pc.afterWriteLock, hm, h9, h1, h2, h4, h5,
                RecurseCounts.IsNotCurrentWriter, RecurseCounts.GetLocalReadersCount,
                RecurseCounts.SetLocalReadersCount, RecurseCounts.IncrementReadCount,
                RecurseCounts.SetIsWriter, h0r]
            simp [alone_zero, Threads.move, Restore, Outcome.andThen, Restore_fixWriter,
              Restore_fixReader, ReadLock, ReadLock_wait, ReadLock_commit, Threads.Agrees,
              Pc.waitingAt, WriteLock, WriteLock_waitWriter, WriteLock_claim, WriteLock_spin,
              WriteLock_waitReaders, WriteLock_finish, hm, h9, h1, h2, h4, h5,
              RecurseCounts.IsNotCurrentWriter, RecurseCounts.GetLocalReadersCount,
              RecurseCounts.SetLocalReadersCount, RecurseCounts.IncrementReadCount,
              RecurseCounts.SetIsWriter, h0r]
        · refine ⟨5, ?_⟩
          simp only [Threads.call, h0, hm, h9, h1, h2, h4, ne_eq, not_true_eq_false, if_true,
            if_false, not_false_eq_true, Bool.false_eq_true]
          iterate 5
            rw [alone_succ]
            simp [step, Threads.move, Pc.afterReadLock, Pc.afterWriteLock, hm, h9, h1, h2, h4,
              RecurseCounts.IsNotCurrentWriter, RecurseCounts.GetLocalReadersCount,
              RecurseCounts.SetLocalReadersCount, RecurseCounts.IncrementReadCount,
              RecurseCounts.SetIsWriter, h0r]
          simp [alone_zero, Threads.move, Restore, Outcome.andThen, Restore_fixWriter,
            Restore_fixReader, ReadLock, ReadLock_wait, ReadLock_commit, Threads.Agrees,
            Pc.waitingAt, WriteLock, WriteLock_waitWriter, WriteLock_claim, WriteLock_spin,
            WriteLock_waitReaders, WriteLock_finish, hm, h9, h1, h2, h4,
            RecurseCounts.IsNotCurrentWriter, RecurseCounts.GetLocalReadersCount,
            RecurseCounts.SetLocalReadersCount, RecurseCounts.IncrementReadCount,
            RecurseCounts.SetIsWriter, h0r]
      · simp only [Bool.not_eq_true] at h2
        refine ⟨5, ?_⟩
        simp only [Threads.call, h0, hm, h9, h1, h2, ne_eq, not_true_eq_false, if_true, if_false,
          not_false_eq_true, Bool.false_eq_true]
        iterate 5
          rw [alone_succ]
          simp [step, Threads.move, Pc.afterReadLock, Pc.afterWriteLock, hm, h9, h1, h2,
            RecurseCounts.IsNotCurrentWriter, RecurseCounts.GetLocalReadersCount,
            RecurseCounts.SetLocalReadersCount, RecurseCounts.IncrementReadCount,
            RecurseCounts.SetIsWriter, h0r]
        simp [alone_zero, Threads.move, Restore, Outcome.andThen, Restore_fixWriter,
          Restore_fixReader, ReadLock, ReadLock_wait, ReadLock_commit, Threads.Agrees, Pc.waitingAt,
          WriteLock, WriteLock_waitWriter, WriteLock_claim, WriteLock_spin, WriteLock_waitReaders,
          WriteLock_finish, hm, h9, h1, h2, RecurseCounts.IsNotCurrentWriter,
          RecurseCounts.GetLocalReadersCount, RecurseCounts.SetLocalReadersCount,
          RecurseCounts.IncrementReadCount, RecurseCounts.SetIsWriter, h0r]
    · simp only [Bool.not_eq_true] at h1
      by_cases h4 : σ.lock.fReaderReservation = 0
      · by_cases h5 : σ.lock.fReaders - σ.lock.fRecurseCounts.fReadersCount t = 0
        · refine ⟨13, ?_⟩
          simp only [Threads.call, h0, hm, h9, h1, h4, h5, ne_eq, not_true_eq_false, if_true,
            if_false, not_false_eq_true, Bool.false_eq_true]
          iterate 13
            rw [alone_succ]
            simp [step, Threads.move, Pc.afterReadLock, Pc.afterWriteLock, hm, h9, h1, h4, h5,
              RecurseCounts.IsNotCurrentWriter, RecurseCounts.GetLocalReadersCount,
              RecurseCounts.SetLocalReadersCount, RecurseCounts.IncrementReadCount,
              RecurseCounts.SetIsWriter, h0r]
          simp [alone_zero, Threads.move, Restore, Outcome.andThen, Restore_fixWriter,
            Restore_fixReader, ReadLock, ReadLock_wait, ReadLock_commit, Threads.Agrees,
            Pc.waitingAt, WriteLock, WriteLock_waitWriter, WriteLock_claim, WriteLock_spin,
            WriteLock_waitReaders, WriteLock_finish, hm, h9, h1, h4, h5,
            RecurseCounts.IsNotCurrentWriter, RecurseCounts.GetLocalReadersCount,
            RecurseCounts.SetLocalReadersCount, RecurseCounts.IncrementReadCount,
            RecurseCounts.SetIsWriter, h0r]
        · refine ⟨7, ?_⟩
          simp only [Threads.call, h0, hm, h9, h1, h4, h5, ne_eq, not_true_eq_false, if_true,
            if_false, not_false_eq_true, Bool.false_eq_true]
          iterate 7
            rw [alone_succ]
            simp [step, Threads.move, Pc.afterReadLock, Pc.afterWriteLock, hm, h9, h1, h4, h5,
              RecurseCounts.IsNotCurrentWriter, RecurseCounts.GetLocalReadersCount,
              RecurseCounts.SetLocalReadersCount, RecurseCounts.IncrementReadCount,
              RecurseCounts.SetIsWriter, h0r]
          simp [alone_zero, Threads.move, Restore, Outcome.andThen, Restore_fixWriter,
            Restore_fixReader, ReadLock, ReadLock_wait, ReadLock_commit, Threads.Agrees,
            Pc.waitingAt, WriteLock, WriteLock_waitWriter, WriteLock_claim, WriteLock_spin,
            WriteLock_waitReaders, WriteLock_finish, hm, h9, h1, h4, h5,
            RecurseCounts.IsNotCurrentWriter, RecurseCounts.GetLocalReadersCount,
            RecurseCounts.SetLocalReadersCount, RecurseCounts.IncrementReadCount,
            RecurseCounts.SetIsWriter, h0r]
      · refine ⟨5, ?_⟩
        simp only [Threads.call, h0, hm, h9, h1, h4, ne_eq, not_true_eq_false, if_true, if_false,
          not_false_eq_true, Bool.false_eq_true]
        iterate 5
          rw [alone_succ]
          simp [step, Threads.move, Pc.afterReadLock, Pc.afterWriteLock, hm, h9, h1, h4,
            RecurseCounts.IsNotCurrentWriter, RecurseCounts.GetLocalReadersCount,
            RecurseCounts.SetLocalReadersCount, RecurseCounts.IncrementReadCount,
            RecurseCounts.SetIsWriter, h0r]
        simp [alone_zero, Threads.move, Restore, Outcome.andThen, Restore_fixWriter,
          Restore_fixReader, ReadLock, ReadLock_wait, ReadLock_commit, Threads.Agrees, Pc.waitingAt,
          WriteLock, WriteLock_waitWriter, WriteLock_claim, WriteLock_spin, WriteLock_waitReaders,
          WriteLock_finish, hm, h9, h1, h4, RecurseCounts.IsNotCurrentWriter,
          RecurseCounts.GetLocalReadersCount, RecurseCounts.SetLocalReadersCount,
          RecurseCounts.IncrementReadCount, RecurseCounts.SetIsWriter, h0r]
  · simp only [Bool.not_eq_true] at h9
    by_cases h10 : p.fReadersCount = 0
    · refine ⟨0, ?_⟩
      simp only [Threads.call, h0, hm, h9, h10, ne_eq, not_true_eq_false, if_true, if_false,
        not_false_eq_true, Bool.false_eq_true]
      simp [alone_zero, Threads.move, Restore, Outcome.andThen, Restore_fixWriter,
        Restore_fixReader, ReadLock, ReadLock_wait, ReadLock_commit, Threads.Agrees, Pc.waitingAt,
        WriteLock, WriteLock_waitWriter, WriteLock_claim, WriteLock_spin, WriteLock_waitReaders,
        WriteLock_finish, hm, h9, h10, RecurseCounts.IsNotCurrentWriter,
        RecurseCounts.GetLocalReadersCount, RecurseCounts.SetLocalReadersCount,
        RecurseCounts.IncrementReadCount, RecurseCounts.SetIsWriter, h0r, hpc]
    · by_cases h1 : σ.lock.fWriter = true
      · by_cases h2 : σ.lock.fRecurseCounts.fIsWriter t = true
        · refine ⟨6, ?_⟩
          simp only [Threads.call, h0, hm, h9, h10, h1, h2, ne_eq, not_true_eq_false, if_true,
            if_false, not_false_eq_true, Bool.false_eq_true]
          iterate 6
            rw [alone_succ]
            simp [step, Threads.move, Pc.afterReadLock, Pc.afterWriteLock, hm, h9, h10, h1, h2,
              RecurseCounts.IsNotCurrentWriter, RecurseCounts.GetLocalReadersCount,
              RecurseCounts.SetLocalReadersCount, RecurseCounts.IncrementReadCount,
              RecurseCounts.SetIsWriter, h0r]
          simp [alone_zero, Threads.move, Restore, Outcome.andThen, Restore_fixWriter,
            Restore_fixReader, ReadLock, ReadLock_wait, ReadLock_commit, Threads.Agrees,
            Pc.waitingAt, WriteLock, WriteLock_waitWriter, WriteLock_claim, WriteLock_spin,
            WriteLock_waitReaders, WriteLock_finish, hm, h9, h10, h1, h2,
            RecurseCounts.IsNotCurrentWriter, RecurseCounts.GetLocalReadersCount,
            RecurseCounts.SetLocalReadersCount, RecurseCounts.IncrementReadCount,
            RecurseCounts.SetIsWriter, h0r]
        · simp only [Bool.not_eq_true] at h2
          by_cases h3 : σ.lock.fRecurseCounts.fReadersCount t = 0
          · refine ⟨6, ?_⟩
            simp only [Threads.call, h0, hm, h9, h10, h1, h2, h3, ne_eq, not_true_eq_false, if_true,
              if_false, not_false_eq_true, Bool.false_eq_true]
            iterate 6
              rw [alone_succ]
              simp [step, Threads.move, Pc.afterReadLock, Pc.afterWriteLock, hm, h9, h10, h1, h2,
                h3, RecurseCounts.IsNotCurrentWriter, RecurseCounts.GetLocalReadersCount,
                RecurseCounts.SetLocalReadersCount, RecurseCounts.IncrementReadCount,
                RecurseCounts.SetIsWriter, h0r]
            simp [alone_zero, Threads.move, Restore, Outcome.andThen, Restore_fixWriter,
              Restore_fixReader, ReadLock, ReadLock_wait, ReadLock_commit, Threads.Agrees,
              Pc.waitingAt, WriteLock, WriteLock_waitWriter, WriteLock_claim, WriteLock_spin,
              WriteLock_waitReaders, WriteLock_finish, hm, h9, h10, h1, h2, h3,
              RecurseCounts.IsNotCurrentWriter, RecurseCounts.GetLocalReadersCount,
              RecurseCounts.SetLocalReadersCount, RecurseCounts.IncrementReadCount,
              RecurseCounts.SetIsWriter, h0r]
          · refine ⟨8, ?_⟩
            simp only [Threads.call, h0, hm, h9, h10, h1, h2, h3, ne_eq, not_true_eq_false, if_true,
              if_false, not_false_eq_true, Bool.false_eq_true]
            iterate 8
              rw [alone_succ]
              simp [step, Threads.move, Pc.afterReadLock, Pc.afterWriteLock, hm, h9, h10, h1, h2,
                h3, RecurseCounts.IsNotCurrentWriter, RecurseCounts.GetLocalReadersCount,
                RecurseCounts.SetLocalReadersCount, RecurseCounts.IncrementReadCount,
                RecurseCounts.SetIsWriter, h0r]
            simp [alone_zero, Threads.move, Restore, Outcome.andThen, Restore_fixWriter,
              Restore_fixReader, ReadLock, ReadLock_wait, ReadLock_commit, Threads.Agrees,
              Pc.waitingAt, WriteLock, WriteLock_waitWriter, WriteLock_claim, WriteLock_spin,
              WriteLock_waitReaders, WriteLock_finish, hm, h9, h10, h1, h2, h3,
              RecurseCounts.IsNotCurrentWriter, RecurseCounts.GetLocalReadersCount,
              RecurseCounts.SetLocalReadersCount, RecurseCounts.IncrementReadCount,
              RecurseCounts.SetIsWriter, h0r]
      · simp only [Bool.not_eq_true] at h1
        refine ⟨6, ?_⟩
        simp only [Threads.call, h0, hm, h9, h10, h1, ne_eq, not_true_eq_false, if_true, if_false,
          not_false_eq_true, Bool.false_eq_true]
        iterate 6
          rw [alone_succ]
          simp [step, Threads.move, Pc.afterReadLock, Pc.afterWriteLock, hm, h9, h10, h1,
            RecurseCounts.IsNotCurrentWriter, RecurseCounts.GetLocalReadersCount,
            RecurseCounts.SetLocalReadersCount, RecurseCounts.IncrementReadCount,
            RecurseCounts.SetIsWriter, h0r]
        simp [alone_zero, Threads.move, Restore, Outcome.andThen, Restore_fixWriter,
          Restore_fixReader, ReadLock, ReadLock_wait, ReadLock_commit, Threads.Agrees, Pc.waitingAt,
          WriteLock, WriteLock_waitWriter, WriteLock_claim, WriteLock_spin, WriteLock_waitReaders,
          WriteLock_finish, hm, h9, h10, h1, RecurseCounts.IsNotCurrentWriter,
          RecurseCounts.GetLocalReadersCount, RecurseCounts.SetLocalReadersCount,
          RecurseCounts.IncrementReadCount, RecurseCounts.SetIsWriter, h0r]

end TReentrantRWLock

end ROOT
